import Mathlib

/-! # HTTPUtils: header parsing, body reassembly and reset

A shallow embedding of `Library/support/HTTPUtils.c` and the properties of `findHeader`,
`HTTPHeaderParse`, `HTTPGetHeaderField`, `findChunkedDataLength`, `findCRLF`,
`SocketReadHTTPHeader`, `SocketReadHTTPBody` and `HTTPHeaderClear`.

* Bytes are natural numbers (`0 .. 255`); a buffer is a `List Nat` and a C pointer into a
  buffer is the offset from the buffer's first byte.  A read `p[ i ]` is `List.getD`, and
  every read the source performs is guarded by a bound check, exactly as in the C code.
* Every `while( ( src < end ) && cond( *src ) ) ++src;` loop of the source is an instance of
  `scanWhile`.  The outer `for( ;; )` loops are recursive functions on a fuel argument that is
  initialised with one more than the number of bytes left; it is never used up, because each
  iteration consumes at least one byte, and the specification lemmas of the loops hold for
  every fuel that is large enough.
* What the file uses but does not define is either a field of `Platform` (the header
  buffer's capacity, `kSizeCString`, `URLParseComponents`, the width of `size_t`, the OTA
  constants) or a definition whose comment starts with "Modelled from the spec".
* The socket and the allocator are a `World`: the values that `read`, `select`, `calloc`,
  `realloc` and the flash driver will return are lists that the calls consume, the heap is a
  list of blocks, and a pointer into the heap is a block and an offset.  An access outside a
  live block sets `fault`; every call of `read` is logged with its destination, its count and
  what it returned.  The loops of the socket functions take as fuel one more than the number
  of values left in `selects` (or one more than `readFuel`); the lemmas of the section "The
  loops never run out of fuel" show that more fuel does not change their result.
* Subtractions on `size_t` values that can go below zero wrap around (`sizeSub`), and so do
  the sums stored in the `size_t` locals of `SocketReadHTTPBody`.  The record's fields are
  declared outside the file; sums of fields are taken without a bound.
* The first part of the file holds the definitions: the embedding, then the reference
  definitions and sample inputs that the properties are stated with.  The second part holds
  the theorems.
-/

namespace HTTPUtils

/-! ## Character constants -/

/-- The byte `'\t'`. -/
def cTAB : Nat := 9
/-- The byte `'\n'`. -/
def cLF : Nat := 10
/-- The byte `'\r'`. -/
def cCR : Nat := 13
/-- The byte `' '`. -/
def cSP : Nat := 32
/-- The byte `'$'`. -/
def cDollar : Nat := 36
/-- The byte `'/'`. -/
def cSlash : Nat := 47
/-- The byte `'0'` (written `0x30` in `findChunkedDataLength`). -/
def cZero : Nat := 48
/-- The byte `'9'`. -/
def cNine : Nat := 57
/-- The byte `':'`. -/
def cColon : Nat := 58

/-! ## Status codes -/

/-- The `OSStatus` values used by the source.  `kNoErr` is zero, every other value is
non-zero, so the C test `if( err )` is `err ≠ kNoErr`. -/
inductive OSStatus
  | kNoErr
  | kParamErr
  | kMalformedErr
  | kNotFoundErr
  | kConnectionErr
  | kNoMemoryErr
  | kUnsupportedErr
  | kNotReadableErr
  deriving DecidableEq, Repr

open OSStatus

/-! ## Pointer scanning -/

/-- The loop `while( ( src < end ) && cond( *src ) ) ++src;` run for at most `fuel`
iterations; the value is the final `src`. -/
def scanWhileLoop (mem : List Nat) (lim : Nat) (cond : Nat → Bool) : Nat → Nat → Nat
  | 0, src => src
  | fuel + 1, src =>
    if src < lim ∧ cond (mem.getD src 0) = true then
      scanWhileLoop mem lim cond fuel (src + 1)
    else src

/-- The loop `while( ( src < end ) && cond( *src ) ) ++src;`.  The fuel `lim - src` is the
number of bytes left, so when it is used up `src < end` is false and the loop has ended. -/
def scanWhile (mem : List Nat) (lim : Nat) (cond : Nat → Bool) (src : Nat) : Nat :=
  scanWhileLoop mem lim cond (lim - src) src

/-! ## The header record -/

/-- A `const char *` field of the header record: null (after `calloc`), the string literal
`""`, or a pointer into the record's own `buf` at the given offset. -/
inductive CharPtr
  | null
  | emptyLit
  | inBuf (off : Nat)
  deriving DecidableEq, Repr

/-- The `URLComponents` record filled by the URL component parser: each component is a span
(pointer and length) inside the URL.  `memset( ..., 0, ... )` gives `URLComponents.zero`. -/
structure URLComponents where
  schemePtr : CharPtr
  schemeLen : Nat
  hostPtr : CharPtr
  hostLen : Nat
  pathPtr : CharPtr
  pathLen : Nat
  queryPtr : CharPtr
  queryLen : Nat
  deriving DecidableEq, Repr

/-- The all-zero `URLComponents`. -/
def URLComponents.zero : URLComponents :=
  { schemePtr := CharPtr.null, schemeLen := 0, hostPtr := CharPtr.null, hostLen := 0,
    pathPtr := CharPtr.null, pathLen := 0, queryPtr := CharPtr.null, queryLen := 0 }

/-- A pointer into heap memory: `NULL`, or the byte at offset `off` of the allocated block
`id`. -/
inductive HeapPtr
  | null
  | blk (id : Nat) (off : Nat)
  deriving DecidableEq, Repr

/-- The parts of the program that `HTTPUtils.c` uses but does not define. -/
structure Platform where
  /-- The value of `sizeof( inHeader->buf )`. -/
  bufSize : Nat
  /-- The value of `kSizeCString`, the length that asks `HTTPGetHeaderField` to call `strlen`. -/
  kSizeCString : Nat
  /-- The function `URLParseComponents( inSrc, inEnd, outComponents, NULL )`: given the buffer and the
  offsets of `inSrc` and `inEnd` in it, its status and the components it stores. -/
  URLParseComponents : List Nat → Nat → Nat → OSStatus × URLComponents
  /-- The width in bits of `size_t`. -/
  sizeBits : Nat
  /-- Whether the macro `MICO_FLASH_FOR_UPDATE` is defined. -/
  MICO_FLASH_FOR_UPDATE : Bool
  /-- The value of the macro `OTA_Data_Length_per_read`. -/
  OTA_Data_Length_per_read : Nat
  /-- The bytes of the string `kMIMEType_MXCHIP_OTA`. -/
  kMIMEType_MXCHIP_OTA : List Nat

/-- The fields of `HTTPHeader_t` that the source reads or writes.  The array `buf` is part of
the record; the three body pointers point into heap memory. -/
structure HTTPHeader where
  buf : List Nat
  len : Nat
  methodPtr : CharPtr
  methodLen : Nat
  urlPtr : CharPtr
  urlLen : Nat
  url : URLComponents
  protocolPtr : CharPtr
  protocolLen : Nat
  statusCode : Int
  reasonPhrasePtr : CharPtr
  reasonPhraseLen : Nat
  channelID : Nat
  contentLength : Nat
  persistent : Bool
  chunkedData : Bool
  extraDataLen : Nat
  extraDataPtr : HeapPtr
  otaDataPtr : HeapPtr
  chunkedDataBufferPtr : HeapPtr
  chunkedDataBufferLen : Nat
  dataEndedbyClose : Bool
  deriving DecidableEq, Repr

/-- The record made by `HTTPHeaderCreate`: `calloc( 1, sizeof( HTTPHeader_t ) )`, all zero. -/
def HTTPHeaderCreate (P : Platform) : HTTPHeader :=
  { buf := List.replicate P.bufSize 0, len := 0,
    methodPtr := CharPtr.null, methodLen := 0, urlPtr := CharPtr.null, urlLen := 0,
    url := URLComponents.zero, protocolPtr := CharPtr.null, protocolLen := 0,
    statusCode := 0, reasonPhrasePtr := CharPtr.null, reasonPhraseLen := 0,
    channelID := 0, contentLength := 0, persistent := false, chunkedData := false,
    extraDataLen := 0, extraDataPtr := HeapPtr.null, otaDataPtr := HeapPtr.null,
    chunkedDataBufferPtr := HeapPtr.null, chunkedDataBufferLen := 0,
    dataEndedbyClose := false }

/-! ## findHeader -/

/-- The `for( ;; )` loop of `findHeader`, with `dst = buf + len` and `*outHeaderEnd = dst` on
entry.  The value is the returned flag and the final `*outHeaderEnd`. -/
def findHeaderLoop (buf : List Nat) (dst : Nat) : Nat → Nat → Bool × Nat
  | 0, _ => (false, dst)
  | fuel + 1, src =>
    let src := scanWhile buf dst (fun c => c != cLF) src
    if src ≥ dst then (false, dst)
    else
      let len := dst - src
      if len ≥ 3 ∧ buf.getD (src + 1) 0 = cCR ∧ buf.getD (src + 2) 0 = cLF then
        (true, src + 3)
      else if len ≥ 2 ∧ buf.getD (src + 1) 0 = cLF then
        (true, src + 2)
      else if len ≤ 1 then (false, dst)
      else findHeaderLoop buf dst fuel (src + 1)

/-- The function `findHeader( inHeader, &outHeaderEnd )`: the returned flag and the offset
of `*outHeaderEnd` in `inHeader->buf`. -/
def findHeader (inHeader : HTTPHeader) : Bool × Nat :=
  let dst := inHeader.len
  let buf := inHeader.buf
  if dst ≥ 4 ∧ buf.getD 0 0 = cDollar then (true, 4)
  else findHeaderLoop buf dst (dst + 1) 0

/-! ## String helpers that live outside `HTTPUtils.c` -/

/-- Modelled from the spec: the C library `tolower` that the case-insensitive comparisons
(`strnicmp`, `strnicmpx`, both outside `HTTPUtils.c`) apply to each byte; "ignoring ASCII
case" maps `'A' .. 'Z'` to `'a' .. 'z'` and leaves every other byte alone. -/
def tolower (c : Nat) : Nat := if 65 ≤ c ∧ c ≤ 90 then c + 32 else c

/-- Modelled from the spec: `strnicmp( s1, s2, n )`, missing from the sources, "matches the
name case-insensitively": the value is `0` exactly when the first `n` bytes of `s1` and `s2`
agree ignoring ASCII case.  The sign of a non-zero value is not modelled (the source only
compares the value with `0`). -/
def strnicmp (s1 s2 : List Nat) (n : Nat) : Int :=
  if (s1.take n).map tolower = (s2.take n).map tolower then 0 else 1

/-- Modelled from the spec: `strnicmpx( s1, n, s2 )`, missing from the sources, is a
"case-insensitive exact match" of the `n` bytes at `s1` (given here as the list of those
bytes) with the whole C string `s2`: the value is `0` exactly when the two byte strings have
the same length and agree ignoring ASCII case.  The sign of a non-zero value is not
modelled (the source only compares the value with `0`). -/
def strnicmpx (s1 : List Nat) (s2 : List Nat) : Int :=
  if s1.map tolower = s2.map tolower then 0 else 1

/-- The two conversions that the source asks `VSNScanF` for: `"%llu"` and `"%x"`. -/
inductive ScanFormat
  | llu
  | x
  deriving DecidableEq, Repr

/-- The numeric base of a conversion. -/
def ScanFormat.base : ScanFormat → Nat
  | ScanFormat.llu => 10
  | ScanFormat.x => 16

/-- The value of the byte `c` as a digit, if it is a digit of the conversion: `'0' .. '9'`, and for
`"%x"` also `'a' .. 'f'` and `'A' .. 'F'`. -/
def ScanFormat.digit (fmt : ScanFormat) (c : Nat) : Option Nat :=
  if 48 ≤ c ∧ c ≤ 57 then some (c - 48)
  else if fmt = ScanFormat.x ∧ 97 ≤ c ∧ c ≤ 102 then some (c - 87)
  else if fmt = ScanFormat.x ∧ 65 ≤ c ∧ c ≤ 70 then some (c - 55)
  else none

/-- The digits at the front of `s`, up to the first byte that is not a digit. -/
def scanDigits (fmt : ScanFormat) : List Nat → List Nat
  | [] => []
  | c :: s =>
    match fmt.digit c with
    | some d => d :: scanDigits fmt s
    | none => []

/-- Modelled from the spec: `VSNScanF( inString, inSize, inFormat, args )`, missing from the
sources, with one numeric conversion: the bytes "are interpreted as a hexadecimal chunk size"
(`"%x"`) or "parsed ... as an unsigned integer" (`"%llu"`).  The value is what is stored
through the variadic pointer into the unsigned 64-bit `contentLength`: the number written by
the leading digits of `inString`, or `none` (nothing is stored) when `inString` does not
start with a digit. -/
def VSNScanF (inString : List Nat) (fmt : ScanFormat) : Option Nat :=
  match scanDigits fmt inString with
  | [] => none
  | ds => some ((ds.foldl (fun acc d => acc * fmt.base + d) 0) % 2 ^ 64)

/-- The C function `strlen`: the offset of the first zero byte. -/
def strlen (s : List Nat) : Nat := scanWhile s s.length (fun c => c != 0) 0

/-! ## HTTPGetHeaderField -/

/-- What `HTTPGetHeaderField` stores through its output pointers when it returns `kNoErr`;
pointers are offsets from `inHeaderPtr`. -/
structure HeaderField where
  namePtr : Nat
  nameLen : Nat
  valuePtr : Nat
  valueLen : Nat
  next : Nat
  deriving DecidableEq, Repr

/-- The loop condition `( ( c = *src ) != '\r' ) && ( c != '\n' )`. -/
def notEOL (c : Nat) : Bool := c != cCR && c != cLF

/-- The loop condition `( ( c = *src ) == ' ' ) || ( c == '\t' )`. -/
def isBlank (c : Nat) : Bool := c == cSP || c == cTAB

/-- The two statements `if( ( src < end ) && ( *src == '\r' ) ) ++src;` and
`if( ( src < end ) && ( *src == '\n' ) ) ++src;`. -/
def skipLineEnding (mem : List Nat) (lim : Nat) (src : Nat) : Nat :=
  let src := if src < lim ∧ mem.getD src 0 = cCR then src + 1 else src
  if src < lim ∧ mem.getD src 0 = cLF then src + 1 else src

/-- The continuation-line loop of `HTTPGetHeaderField`; the value is the final
`( valueEnd, src )`. -/
def continuationLoop (mem : List Nat) (lim : Nat) : Nat → Nat → Nat → Nat × Nat
  | 0, valueEnd, src => (valueEnd, src)
  | fuel + 1, valueEnd, src =>
    if src < lim ∧ isBlank (mem.getD src 0) = true then
      let src := src + 1
      let src := scanWhile mem lim notEOL src
      let valueEnd := src
      let src := skipLineEnding mem lim src
      continuationLoop mem lim fuel valueEnd src
    else (valueEnd, src)

/-- The part of the loop body of `HTTPGetHeaderField` after "Found the header field". -/
def fieldFound (mem : List Nat) (lim linePtr lineEnd src matchLen : Nat) : HeaderField :=
  let valuePtr := linePtr + matchLen + 1
  let valueEnd := lineEnd
  let valuePtr := scanWhile mem valueEnd isBlank valuePtr
  let r := continuationLoop mem lim (lim + 1) valueEnd src
  { namePtr := linePtr, nameLen := matchLen, valuePtr := valuePtr,
    valueLen := r.1 - valuePtr, next := r.2 }

/-- The `for( ;; )` loop of `HTTPGetHeaderField`; `inName = none` is the null name. -/
def getHeaderFieldLoop (mem : List Nat) (lim : Nat) (inName : Option (List Nat)) :
    Nat → Nat → Except OSStatus HeaderField
  | 0, _ => Except.error kNotFoundErr
  | fuel + 1, src =>
    let linePtr := src
    let src := scanWhile mem lim notEOL src
    if src ≥ lim then Except.error kNotFoundErr
    else
      let lineEnd := src
      let lineLen := src - linePtr
      let src := skipLineEnding mem lim src
      match inName with
      | none =>
        let nameEnd := scanWhile mem lineEnd (fun c => c != cColon) linePtr
        if nameEnd ≥ lineEnd then getHeaderFieldLoop mem lim inName fuel src
        else Except.ok (fieldFound mem lim linePtr lineEnd src (nameEnd - linePtr))
      | some name =>
        let matchLen := name.length
        if lineLen ≤ matchLen ∨ mem.getD (linePtr + matchLen) 0 ≠ cColon ∨
            strnicmp (mem.drop linePtr) name matchLen ≠ 0 then
          getHeaderFieldLoop mem lim inName fuel src
        else Except.ok (fieldFound mem lim linePtr lineEnd src matchLen)

/-- The function `HTTPGetHeaderField( inHeaderPtr, inHeaderLen, inName, ... )`.  The value
is `Except.ok` of the outputs when the function returns `kNoErr`, and `Except.error` of the
returned status (`kNotFoundErr`) otherwise, in which case nothing is stored.  A non-null
`inName` is given by its bytes before the terminating zero. -/
def HTTPGetHeaderField (P : Platform) (inHeaderPtr : List Nat) (inHeaderLen : Nat)
    (inName : Option (List Nat)) : Except OSStatus HeaderField :=
  let inHeaderLen := if inHeaderLen = P.kSizeCString then strlen inHeaderPtr else inHeaderLen
  getHeaderFieldLoop inHeaderPtr inHeaderLen inName (inHeaderLen + 1) 0

/-- The bytes `[ ptr, ptr + len )` of the buffer. -/
def bytesAt (mem : List Nat) (ptr len : Nat) : List Nat := (mem.drop ptr).take len

/-- The function `HTTPScanFHeaderValue`: `Except.error` of the lookup's status when the field
is missing, else `Except.ok` of what `VSNScanF` stores through the variadic pointer. -/
def HTTPScanFHeaderValue (P : Platform) (inHeaderPtr : List Nat) (inHeaderLen : Nat)
    (inName : Option (List Nat)) (inFormat : ScanFormat) : Except OSStatus (Option Nat) :=
  match HTTPGetHeaderField P inHeaderPtr inHeaderLen inName with
  | Except.error n => Except.error n
  | Except.ok f => Except.ok (VSNScanF (bytesAt inHeaderPtr f.valuePtr f.valueLen) inFormat)

/-! ## HTTPHeaderParse -/

/-- The C string `"Connection"`. -/
def strConnection : List Nat := [67, 111, 110, 110, 101, 99, 116, 105, 111, 110]
/-- The C string `"HTTP/1.0"`. -/
def strHTTP10 : List Nat := [72, 84, 84, 80, 47, 49, 46, 48]
/-- The C string `"close"`. -/
def strClose : List Nat := [99, 108, 111, 115, 101]
/-- The C string `"Transfer-Encoding"`. -/
def strTransferEncoding : List Nat :=
  [84, 114, 97, 110, 115, 102, 101, 114, 45, 69, 110, 99, 111, 100, 105, 110, 103]
/-- The C string `"Content-Length"`. -/
def strContentLength : List Nat :=
  [67, 111, 110, 116, 101, 110, 116, 45, 76, 101, 110, 103, 116, 104]
/-- Modelled from the spec: the constant `kTransferrEncodingType_CHUNKED`, defined outside
`HTTPUtils.c`; `isChunked` is "true iff `Transfer-Encoding` value case-insensitively equals
"chunked"". -/
def kTransferrEncodingType_CHUNKED : List Nat := [99, 104, 117, 110, 107, 101, 100]

/-- The bytes of a span of the header record; the literal `""` and null have none. -/
def spanBytes (buf : List Nat) (p : CharPtr) (len : Nat) : List Nat :=
  match p with
  | CharPtr.inBuf off => bytesAt buf off len
  | _ => []

/-- A `for` loop of the form `for( ...; ( ptr < end ) && cond( c = *ptr ); ++ptr ) {}`, which
leaves the last byte read in `c`; the value is the final `( ptr, c )`. -/
def scanWhileC (mem : List Nat) (lim : Nat) (cond : Nat → Bool) : Nat → Nat → Nat → Nat × Nat
  | 0, ptr, c => (ptr, c)
  | fuel + 1, ptr, c =>
    if ptr < lim then
      let c := mem.getD ptr 0
      if cond c = true then scanWhileC mem lim cond fuel (ptr + 1) c else (ptr, c)
    else (ptr, c)

/-- The value of the C `int` that the mathematical integer `v` wraps to.  (Signed overflow
is undefined in C; the model wraps, and the properties about the status code are stated
for numbers that fit an `int`.) -/
def wrapInt32 (v : Int) : Int := (v + 2 ^ 31) % 2 ^ 32 - 2 ^ 31

/-- The status-code loop `for( c = 0; ( ptr < end ) && ( ( c = *ptr ) >= '0' ) && ( c <= '9' );
++ptr ) x = ( x * 10 ) + ( c - '0' );`; the value is the final `( ptr, c, x )`. -/
def statusCodeLoop (mem : List Nat) (lim : Nat) : Nat → Nat → Nat → Int → Nat × Nat × Int
  | 0, ptr, c, x => (ptr, c, x)
  | fuel + 1, ptr, c, x =>
    if ptr < lim then
      let c := mem.getD ptr 0
      if c ≥ cZero ∧ c ≤ cNine then
        statusCodeLoop mem lim fuel (ptr + 1) c (wrapInt32 (x * 10 + ((c : Int) - (cZero : Int))))
      else (ptr, c, x)
    else (ptr, c, x)

/-- The statements of `HTTPHeaderParse` under "Determine persistence": the lookup of
`"Connection"` and the assignment to `persistent`. -/
def headerParsePersistent (P : Platform) (h : HTTPHeader) : HTTPHeader :=
  match HTTPGetHeaderField P h.buf h.len (some strConnection) with
  | Except.error _ =>
    { h with persistent :=
        decide (strnicmpx (spanBytes h.buf h.protocolPtr h.protocolLen) strHTTP10 ≠ 0) }
  | Except.ok f =>
    { h with persistent := decide (strnicmpx (bytesAt h.buf f.valuePtr f.valueLen) strClose ≠ 0) }

/-- The lookup of `"Transfer-Encoding"` in `HTTPHeaderParse` and the assignment to
`chunkedData`. -/
def headerParseChunked (P : Platform) (h : HTTPHeader) : HTTPHeader :=
  match HTTPGetHeaderField P h.buf h.len (some strTransferEncoding) with
  | Except.error _ => { h with chunkedData := false }
  | Except.ok f =>
    { h with chunkedData :=
        decide (strnicmpx (bytesAt h.buf f.valuePtr f.valueLen)
          kTransferrEncodingType_CHUNKED = 0) }

/-- The call `HTTPScanFHeaderValue( ..., "Content-Length", "%llu", &ioHeader->contentLength )` of
`HTTPHeaderParse`: `contentLength` changes only when a value is stored. -/
def headerParseContentLength (P : Platform) (h : HTTPHeader) : HTTPHeader :=
  match HTTPScanFHeaderValue P h.buf h.len (some strContentLength) ScanFormat.llu with
  | Except.ok (some v) => { h with contentLength := v }
  | _ => h

/-- The end of `HTTPHeaderParse`, from the check "make sure there's more data" on: `ptr` is just
past the start line's terminator. -/
def headerParseFields (P : Platform) (h : HTTPHeader) (ptr : Nat) : OSStatus × HTTPHeader :=
  if ¬ (ptr < h.len) then (kMalformedErr, h)
  else
    (kNoErr, headerParseContentLength P (headerParseChunked P (headerParsePersistent P h)))

/-- The request branch of `HTTPHeaderParse`: `ptr` is at the space after the method. -/
def headerParseRequest (P : Platform) (h : HTTPHeader) (ptr : Nat) : OSStatus × HTTPHeader :=
  let buf := h.buf
  let lim := h.len
  let h := { h with methodPtr := CharPtr.inBuf 0, methodLen := ptr }
  let ptr := ptr + 1
  let urlPtr := ptr
  let h := { h with urlPtr := CharPtr.inBuf urlPtr }
  let ptr := scanWhile buf lim (fun c => c != cSP) ptr
  let h := { h with urlLen := ptr - urlPtr }
  if ¬ (ptr < lim) then (kMalformedErr, h)
  else
    let ptr := ptr + 1
    let r := P.URLParseComponents buf urlPtr (urlPtr + h.urlLen)
    let h := { h with url := r.2 }
    if r.1 ≠ kNoErr then (r.1, h)
    else
      let protocolPtr := ptr
      let h := { h with protocolPtr := CharPtr.inBuf protocolPtr }
      let ptr := scanWhile buf lim notEOL ptr
      let h := { h with protocolLen := ptr - protocolPtr }
      if ¬ (ptr < lim) then (kMalformedErr, h)
      else headerParseFields P h (ptr + 1)

/-- The statements of the response branch of `HTTPHeaderParse` under "Parse the reason
phrase", followed by the end of the function: `ptr` is where the reason phrase starts. -/
def headerParseReason (P : Platform) (h : HTTPHeader) (ptr : Nat) : OSStatus × HTTPHeader :=
  let buf := h.buf
  let lim := h.len
  let reasonPhrasePtr := ptr
  let h := { h with reasonPhrasePtr := CharPtr.inBuf reasonPhrasePtr }
  let ptr := scanWhile buf lim notEOL ptr
  let h := { h with reasonPhraseLen := ptr - reasonPhrasePtr }
  if ¬ (ptr < lim) then (kMalformedErr, h)
  else headerParseFields P h (ptr + 1)

/-- The response branch of `HTTPHeaderParse`: `ptr` is at the slash inside the protocol. -/
def headerParseResponse (P : Platform) (h : HTTPHeader) (ptr : Nat) : OSStatus × HTTPHeader :=
  let buf := h.buf
  let lim := h.len
  let h := { h with protocolPtr := CharPtr.inBuf 0 }
  let ptr := scanWhile buf lim (fun c => c != cSP) (ptr + 1)
  let h := { h with protocolLen := ptr }
  if ¬ (ptr < lim) then (kMalformedErr, h)
  else
    let ptr := ptr + 1
    let r := statusCodeLoop buf lim (lim + 1) ptr 0 0
    let ptr := r.1
    let c := r.2.1
    let h := { h with statusCode := r.2.2 }
    let ptr := if c = cSP then ptr + 1 else ptr
    headerParseReason P h ptr

/-- The statements of `HTTPHeaderParse` under "Reset fields up-front to good defaults". -/
def headerParseReset (ioHeader : HTTPHeader) : HTTPHeader :=
  { ioHeader with
    methodPtr := CharPtr.emptyLit, methodLen := 0,
    urlPtr := CharPtr.emptyLit, urlLen := 0, url := URLComponents.zero,
    protocolPtr := CharPtr.emptyLit, protocolLen := 0,
    statusCode := -1,
    reasonPhrasePtr := CharPtr.emptyLit, reasonPhraseLen := 0,
    channelID := 0, contentLength := 0, persistent := false }

/-- The function `HTTPHeaderParse( ioHeader )`: the returned status and the record on
return. -/
def HTTPHeaderParse (P : Platform) (ioHeader : HTTPHeader) : OSStatus × HTTPHeader :=
  if ¬ (ioHeader.len < P.bufSize) then (kParamErr, ioHeader)
  else
    let h : HTTPHeader := headerParseReset ioHeader
    let src := h.buf
    if h.len = 4 ∧ src.getD 0 0 = cDollar then
      (kNoErr,
        { h with
          channelID := src.getD 1 0,
          contentLength := (src.getD 2 0 <<< 8) ||| src.getD 3 0,
          methodPtr := CharPtr.inBuf 0, methodLen := 1 })
    else
      let lim := h.len
      let r := scanWhileC src lim (fun c => c != cSP && c != cSlash) lim 0 0
      let ptr := r.1
      let c := r.2
      if ¬ (ptr < lim) then (kMalformedErr, h)
      else if c = cSP then headerParseRequest P h ptr
      else headerParseResponse P h ptr

/-! ## findChunkedDataLength -/

/-- The `for( ;; )` loop of `findChunkedDataLength`, with `dst = inChunkPtr + inChunkLen` and
`*chunkedDataPtr = dst` on entry.  The value is the returned flag, the final
`*chunkedDataPtr`, and what `VSNScanF` stores through the variadic pointer. -/
def findChunkedDataLengthLoop (inChunkPtr : List Nat) (dst : Nat) :
    Nat → Nat → Bool × Nat × Option Nat
  | 0, _ => (false, dst, none)
  | fuel + 1, src =>
    let src := scanWhile inChunkPtr dst (fun c => c != cCR) src
    if src ≥ dst then (false, dst, none)
    else
      let len := dst - src
      if len ≥ 2 ∧ inChunkPtr.getD (src + 1) 0 = cLF then
        if inChunkPtr.getD 0 0 = cZero then
          (true, src + 2, VSNScanF [cZero] ScanFormat.llu)
        else
          (true, src + 2, VSNScanF (inChunkPtr.take src) ScanFormat.x)
      else if len ≤ 1 then (false, dst, none)
      else findChunkedDataLengthLoop inChunkPtr dst fuel (src + 1)

/-- The function `findChunkedDataLength( inChunkPtr, inChunkLen, &chunkedDataPtr, inFormat,
... )`: the returned flag, the offset of `*chunkedDataPtr` from `inChunkPtr`, and the value
stored through the variadic pointer (`none` when nothing is stored).  The source never looks
at `inFormat`. -/
def findChunkedDataLength (inChunkPtr : List Nat) (inChunkLen : Nat) (_inFormat : ScanFormat) :
    Bool × Nat × Option Nat :=
  findChunkedDataLengthLoop inChunkPtr inChunkLen (inChunkLen + 1) 0

/-- A platform for concrete runs: a 512-byte header buffer, `kSizeCString` the largest 32-bit
size, a URL component parser that accepts every URL, a 32-bit `size_t`, no update flash, and
`application/ota-stream` for the OTA content type. -/
def samplePlatform : Platform :=
  { bufSize := 512, kSizeCString := 2 ^ 32 - 1,
    URLParseComponents := fun _ _ _ => (kNoErr, URLComponents.zero),
    sizeBits := 32, MICO_FLASH_FOR_UPDATE := false, OTA_Data_Length_per_read := 1024,
    kMIMEType_MXCHIP_OTA :=
      [97, 112, 112, 108, 105, 99, 97, 116, 105, 111, 110, 47,
        111, 116, 97, 45, 115, 116, 114, 101, 97, 109] }

/-- The record whose buffer holds exactly the bytes `b`. -/
def headerOf (P : Platform) (b : List Nat) : HTTPHeader :=
  { HTTPHeaderCreate P with buf := b, len := b.length }

/-! ## Reference definitions used to state the properties -/

/-- Reference definition of a blank-line terminator in the first `n` bytes of `buf`: the byte
at `i` is LF and is followed inside the buffer by LF, or by CR and then LF. -/
def IsTerminatorAt (buf : List Nat) (n i : Nat) : Prop :=
  i < n ∧ buf.getD i 0 = cLF ∧
    ((i + 1 < n ∧ buf.getD (i + 1) 0 = cLF) ∨
     (i + 2 < n ∧ buf.getD (i + 1) 0 = cCR ∧ buf.getD (i + 2) 0 = cLF))

instance (buf : List Nat) (n i : Nat) : Decidable (IsTerminatorAt buf n i) := by
  unfold IsTerminatorAt; infer_instance

/-- Two records have the same buffer, length and start-line fields. -/
def SameStartLine (a b : HTTPHeader) : Prop :=
  a.buf = b.buf ∧ a.len = b.len ∧ a.methodPtr = b.methodPtr ∧ a.methodLen = b.methodLen ∧
  a.urlPtr = b.urlPtr ∧ a.urlLen = b.urlLen ∧ a.url = b.url ∧
  a.protocolPtr = b.protocolPtr ∧ a.protocolLen = b.protocolLen ∧
  a.statusCode = b.statusCode ∧ a.reasonPhrasePtr = b.reasonPhrasePtr ∧
  a.reasonPhraseLen = b.reasonPhraseLen ∧ a.channelID = b.channelID

/-- The number written by a string of ASCII decimal digits. -/
def decimalValue (s : List Nat) : Nat := s.foldl (fun acc c => acc * 10 + (c - cZero)) 0

/-- The 18-byte request header `"GET / HTTP/1.1\r\n\r\n"`. -/
def sampleRequest : List Nat :=
  [71, 69, 84, 32, 47, 32, 72, 84, 84, 80, 47, 49, 46, 49, 13, 10, 13, 10]

/-- The 19-byte response header `"HTTP/1.1 200 OK\r\n\r\n"`. -/
def sampleResponse : List Nat :=
  [72, 84, 84, 80, 47, 49, 46, 49, 32, 50, 48, 48, 32, 79, 75, 13, 10, 13, 10]

/-- The 4-byte interleaved marker `"$\x01\x00\x10"`: channel 1, length 16. -/
def sampleMarker : List Nat := [36, 1, 0, 16]

/-- The header proper: the first `len` bytes of the buffer. -/
def headerBytes (h : HTTPHeader) : List Nat := h.buf.take h.len

/-- No byte of `s` is a space or a slash. -/
def NoSpaceSlash (s : List Nat) : Prop := ∀ c, c ∈ s → c ≠ cSP ∧ c ≠ cSlash

/-- No byte of `s` is a space. -/
def NoSpace (s : List Nat) : Prop := ∀ c, c ∈ s → c ≠ cSP

/-- No byte of `s` is CR or LF. -/
def NoEOL (s : List Nat) : Prop := ∀ c, c ∈ s → c ≠ cCR ∧ c ≠ cLF

/-- Reference definition of "a required delimiter of the start line is missing before the
header end", on the bytes of the header alone:
(a) no space and no slash at all;
(b) request form (a space comes first) and no second space after the URL;
(c) response form (a slash comes first) and no space after the protocol token;
(d) no CR or LF after the protocol (request) or after the reason phrase (response);
(e) the start line's CR or LF is the last byte of the header. -/
inductive MissingDelimiter (hdr : List Nat) : Prop
  | noSpaceOrSlash : NoSpaceSlash hdr → MissingDelimiter hdr
  | requestNoSecondSpace (M R : List Nat) :
      hdr = M ++ (cSP :: R) → NoSpaceSlash M → NoSpace R → MissingDelimiter hdr
  | responseNoSpace (A R : List Nat) :
      hdr = A ++ (cSlash :: R) → NoSpaceSlash A → NoSpace R → MissingDelimiter hdr
  | requestNoLineEnd (M U Pr : List Nat) :
      hdr = M ++ (cSP :: (U ++ (cSP :: Pr))) → NoSpaceSlash M → NoSpace U → NoEOL Pr →
      MissingDelimiter hdr
  | responseNoLineEnd (A B R : List Nat) :
      hdr = A ++ (cSlash :: (B ++ (cSP :: R))) → NoSpaceSlash A → NoSpace B → NoEOL R →
      MissingDelimiter hdr
  | requestNothingAfter (M U Pr : List Nat) (t : Nat) :
      hdr = M ++ (cSP :: (U ++ (cSP :: (Pr ++ [t])))) → NoSpaceSlash M → NoSpace U →
      NoEOL Pr → (t = cCR ∨ t = cLF) → MissingDelimiter hdr
  | responseNothingAfter (A B R : List Nat) (t : Nat) :
      hdr = A ++ (cSlash :: (B ++ (cSP :: (R ++ [t])))) → NoSpaceSlash A → NoSpace B →
      NoEOL R → (t = cCR ∨ t = cLF) → MissingDelimiter hdr

/-- The header is in request form with a second space: the URL component parser is run, on
the bytes `[s, e)`. -/
def RequestURLAt (hdr : List Nat) (s e : Nat) : Prop :=
  ∃ M U X, hdr = M ++ (cSP :: (U ++ (cSP :: X))) ∧ NoSpaceSlash M ∧ NoSpace U ∧
    s = M.length + 1 ∧ e = M.length + 1 + U.length

/-- A platform whose URL component parser rejects every URL with `kParamErr`. -/
def rejectingPlatform : Platform :=
  { samplePlatform with URLParseComponents := fun _ _ _ => (kParamErr, URLComponents.zero) }

/-- The loop condition `( ( c = *ptr ) >= '0' ) && ( c <= '9' )`. -/
def isDigit (c : Nat) : Bool := decide (c ≥ cZero ∧ c ≤ cNine)

/-- Reference definition of the places where a line of the header range starts: offset 0,
and the offset just past each line terminator (LF, CR LF, or a CR that is not followed by LF
inside the range). -/
def LineStart (mem : List Nat) (lim s : Nat) : Prop :=
  s = 0 ∨
  (0 < s ∧ s ≤ lim ∧
    (mem.getD (s - 1) 0 = cLF ∨
     (mem.getD (s - 1) 0 = cCR ∧ ¬ (s < lim ∧ mem.getD s 0 = cLF))))

instance (mem : List Nat) (lim s : Nat) : Decidable (LineStart mem lim s) := by
  unfold LineStart; infer_instance

/-- Reference definition: the bytes `[s, e)` are a line's text (no CR, no LF), terminated at
`e` inside the range by CR or LF, and the text starts with a name equal to `name` ignoring
ASCII case, immediately followed by `':'`. -/
def IsFieldLineEnd (mem : List Nat) (lim : Nat) (name : List Nat) (s e : Nat) : Prop :=
  e < lim ∧ s + name.length < e ∧ (mem.getD e 0 = cCR ∨ mem.getD e 0 = cLF) ∧
  (∀ k, k < e → s ≤ k → mem.getD k 0 ≠ cCR ∧ mem.getD k 0 ≠ cLF) ∧
  mem.getD (s + name.length) 0 = cColon ∧
  (bytesAt mem s name.length).map tolower = name.map tolower

instance (mem : List Nat) (lim : Nat) (name : List Nat) (s e : Nat) :
    Decidable (IsFieldLineEnd mem lim name s e) := by
  unfold IsFieldLineEnd; infer_instance

/-- Reference definition: a CR/LF-terminated line of the range starts at `s`, and it starts
with a name equal to `name` ignoring ASCII case, immediately followed by `':'`. -/
def IsFieldLine (mem : List Nat) (lim : Nat) (name : List Nat) (s : Nat) : Prop :=
  LineStart mem lim s ∧ ∃ e, e < lim ∧ IsFieldLineEnd mem lim name s e

instance (mem : List Nat) (lim : Nat) (name : List Nat) (s : Nat) :
    Decidable (IsFieldLine mem lim name s) := by
  unfold IsFieldLine; infer_instance

/-- The 22-byte header `"Content-Length: 42\r\n\r\n"`. -/
def sampleContentLength : List Nat :=
  [67, 111, 110, 116, 101, 110, 116, 45, 76, 101, 110, 103, 116, 104, 58, 32, 52, 50,
    13, 10, 13, 10]

/-- The 18-byte header `"X-Foo: a\r\n bcd\r\n\r\n"`. -/
def sampleFolded : List Nat :=
  [88, 45, 70, 111, 111, 58, 32, 97, 13, 10, 32, 98, 99, 100, 13, 10, 13, 10]

/-- The C string `"X-Foo"`. -/
def strXFoo : List Nat := [88, 45, 70, 111, 111]

/-- A continuation line, as its leading space or tab, the rest of its text, and its line
terminator. -/
abbrev ContLine := Nat × List Nat × List Nat

/-- The bytes of a sequence of continuation lines followed by the bytes `rest`. -/
def contBytes : List ContLine → List Nat → List Nat
  | [], rest => rest
  | l :: ls, rest => l.1 :: (l.2.1 ++ (l.2.2 ++ contBytes ls rest))

/-- Reference definition of a line terminator that is followed by the bytes `next`: CR LF,
LF, or a CR that is not followed by LF. -/
def IsLineTerminator (t next : List Nat) : Prop :=
  t = [cCR, cLF] ∨ t = [cLF] ∨ (t = [cCR] ∧ next.head? ≠ some cLF)

instance (t next : List Nat) : Decidable (IsLineTerminator t next) := by
  unfold IsLineTerminator; infer_instance

/-- Reference definition of "lines beginning with space or tab" followed by bytes that do
not begin such a line: each line starts with a space or tab, has no CR or LF in its text
and ends with a line terminator, and `rest` is empty or starts with another byte. -/
def ValidContinuations : List ContLine → List Nat → Prop
  | [], rest => ∀ d, rest.head? = some d → isBlank d = false
  | l :: ls, rest =>
    isBlank l.1 = true ∧ NoEOL l.2.1 ∧ IsLineTerminator l.2.2 (contBytes ls rest) ∧
    ValidContinuations ls rest

/-- Reference definition: reading continuation lines from offset `p`, with the value ending
at `valueEnd` so far, the pair of the offset where the text of the last line ends and the
offset just past its terminator. -/
def contSpan : Nat → Nat → List ContLine → Nat × Nat
  | p, valueEnd, [] => (valueEnd, p)
  | p, _, l :: ls => contSpan (p + 1 + l.2.1.length + l.2.2.length) (p + 1 + l.2.1.length) ls

/-- The 18-byte request header `"GET / http/1.0\r\n\r\n"`, with a lower-case protocol. -/
def sampleLowerProtocol : List Nat :=
  [71, 69, 84, 32, 47, 32, 104, 116, 116, 112, 47, 49, 46, 48, 13, 10, 13, 10]

/-- Two byte strings are equal ignoring ASCII case. -/
def EqIgnoreCase (a b : List Nat) : Prop := a.map tolower = b.map tolower

instance (a b : List Nat) : Decidable (EqIgnoreCase a b) := by
  unfold EqIgnoreCase; infer_instance

/-- Reference definition: the first `n` bytes of the buffer have a CR at `i` immediately
followed by LF. -/
def HasCRLFAt (mem : List Nat) (n i : Nat) : Prop :=
  i + 1 < n ∧ mem.getD i 0 = cCR ∧ mem.getD (i + 1) 0 = cLF

instance (mem : List Nat) (n i : Nat) : Decidable (HasCRLFAt mem n i) := by
  unfold HasCRLFAt; infer_instance

/-- The byte is an ASCII hexadecimal digit. -/
def IsHexDigit (c : Nat) : Prop :=
  (48 ≤ c ∧ c ≤ 57) ∨ (97 ≤ c ∧ c ≤ 102) ∨ (65 ≤ c ∧ c ≤ 70)

instance (c : Nat) : Decidable (IsHexDigit c) := by
  unfold IsHexDigit; infer_instance

/-- The value of an ASCII hexadecimal digit. -/
def hexDigitValue (c : Nat) : Nat :=
  if 48 ≤ c ∧ c ≤ 57 then c - 48 else if 97 ≤ c ∧ c ≤ 102 then c - 87 else c - 55

/-- Reference definition of the hexadecimal value of a string of hexadecimal digits. -/
def hexValue (s : List Nat) : Nat := s.foldl (fun acc c => acc * 16 + hexDigitValue c) 0

/-- The 9-byte chunk buffer `"4\r\nWiki\r\n"`. -/
def sampleChunk : List Nat := [52, 13, 10, 87, 105, 107, 105, 13, 10]

/-! ## The environment of the socket functions -/

/-- What the byte source holds for a coming `read`: bytes that have arrived, or a failure with
the value that `read` returns. -/
inductive ReadEvent
  | data (bytes : List Nat)
  | fail (ret : Int)
  deriving DecidableEq, Repr

/-- What the allocator does with a request: it fails and returns `NULL`, it serves the request
at the address of the old block (`realloc` growing in place), or it serves it in a new block.
`calloc` has no old block, so there `inPlace` and `moved` are the same. -/
inductive AllocEvent
  | fail
  | inPlace
  | moved
  deriving DecidableEq, Repr

/-- The destination of a `read`: an offset of the header buffer, or a heap pointer. -/
inductive ReadDest
  | headerBuf (off : Nat)
  | heap (p : HeapPtr)
  deriving DecidableEq, Repr

/-- One call of `read`: where it writes, the count asked for, and the value returned. -/
structure ReadCall where
  dest : ReadDest
  count : Nat
  ret : Int
  deriving DecidableEq, Repr

/-- The state outside the header record.  `reads`, `selects`, `allocs` and `flashRets` are what
the coming calls of `read`, `select`, `calloc` / `realloc` and `MicoFlashInitialize` /
`MicoFlashWrite` will meet, in order.  `heap` holds the allocated blocks (`none` once a block
is released), `fault` is set when memory outside a live block or outside the header buffer is
accessed, `readLog` lists the calls of `read` made so far and `flashLog` the byte ranges
written to the flash. -/
structure World where
  reads : List ReadEvent
  selects : List Int
  allocs : List AllocEvent
  flashRets : List OSStatus
  heap : List (Option (List Nat))
  fault : Bool
  readLog : List ReadCall
  flashLog : List (List Nat)
  deriving DecidableEq, Repr

/-- The difference `a - b` of two `size_t` values, which wraps around below zero. -/
def sizeSub (P : Platform) (a b : Nat) : Nat :=
  if b ≤ a then a - b else a + 2 ^ P.sizeBits - b

/-- The pointer `p + n`. -/
def HeapPtr.add (p : HeapPtr) (n : Nat) : HeapPtr :=
  match p with
  | HeapPtr.null => HeapPtr.null
  | HeapPtr.blk id off => HeapPtr.blk id (off + n)

/-- Whether two pointers point into the same block. -/
def HeapPtr.sameBlock (p q : HeapPtr) : Bool :=
  match p, q with
  | HeapPtr.blk i _, HeapPtr.blk j _ => i == j
  | _, _ => false

/-- The difference `p - q` converted to `size_t`.  For pointers into one block it is the
difference of the offsets; the program does not determine it otherwise, and the model takes
the offset of `p`. -/
def HeapPtr.diff (P : Platform) (p q : HeapPtr) : Nat :=
  match p, q with
  | HeapPtr.blk i a, HeapPtr.blk j b => if i = j then sizeSub P a b else a
  | HeapPtr.blk _ a, HeapPtr.null => a
  | HeapPtr.null, _ => 0

/-- The comparison `p <= q`, which the model takes to be false for pointers that do not point
into one block. -/
def HeapPtr.le (p q : HeapPtr) : Bool :=
  match p, q with
  | HeapPtr.blk i a, HeapPtr.blk j b => i == j && decide (a ≤ b)
  | _, _ => false

/-- The bytes `bs` written over `mem` from offset `off` on. -/
def writeAt (mem : List Nat) (off : Nat) (bs : List Nat) : List Nat :=
  mem.take off ++ bs ++ mem.drop (off + bs.length)

/-- The call `select( inSock + 1, &readSet, NULL, NULL, NULL )`: the next value of `selects`,
and `-1` when none is left. -/
def World.select (w : World) : Int × World :=
  match w.selects with
  | [] => (-1, w)
  | r :: rest => (r, { w with selects := rest })

/-- What `read( inSock, _, count )` takes from the byte source: the returned value and the bytes
delivered.  Arrived bytes beyond `count` stay in the source; a failure returns its value, or
0 if that is positive; a source with nothing left returns 0, and so does a count of 0. -/
def World.recv (w : World) (count : Nat) : Int × List Nat × World :=
  match w.reads with
  | [] => (0, [], w)
  | ReadEvent.fail r :: rest => (min r 0, [], { w with reads := rest })
  | ReadEvent.data bytes :: rest =>
    if count = 0 then (0, [], w)
    else if bytes.length ≤ count then (bytes.length, bytes, { w with reads := rest })
    else (count, bytes.take count, { w with reads := ReadEvent.data (bytes.drop count) :: rest })

/-- The content of block `id`, if it is allocated. -/
def World.block (w : World) (id : Nat) : Option (List Nat) := w.heap.getD id none

/-- Whether the `n` bytes at `p` lie in a live block.  An access of no byte is taken to be
valid. -/
def World.valid (w : World) (p : HeapPtr) (n : Nat) : Bool :=
  n == 0 ||
  match p with
  | HeapPtr.null => false
  | HeapPtr.blk id off =>
    match w.block id with
    | none => false
    | some b => decide (off + n ≤ b.length)

/-- An access to the `n` bytes at `p`: it sets `fault` unless they lie in a live block. -/
def World.touch (w : World) (p : HeapPtr) (n : Nat) : World :=
  if w.valid p n then w else { w with fault := true }

/-- The bytes of memory from `p` to the end of its block (none for a pointer that is not into
a live block). -/
def World.bytes (w : World) (p : HeapPtr) : List Nat :=
  match p with
  | HeapPtr.null => []
  | HeapPtr.blk id off =>
    match w.block id with
    | none => []
    | some b => b.drop off

/-- The bytes `bs` written at `p`; outside a live block nothing is written and `fault` is
set.  Writing no byte does nothing. -/
def World.store (w : World) (p : HeapPtr) (bs : List Nat) : World :=
  if bs = [] then w
  else
    match p with
    | HeapPtr.null => { w with fault := true }
    | HeapPtr.blk id off =>
      match w.block id with
      | none => { w with fault := true }
      | some b =>
        if off + bs.length ≤ b.length then
          { w with heap := w.heap.set id (some (writeAt b off bs)) }
        else { w with fault := true }

/-- The call `memmove( dst, src, n )`. -/
def World.memmove (w : World) (dst src : HeapPtr) (n : Nat) : World :=
  (w.touch src n).store dst ((w.bytes src).take n)

/-- The allocator's answer to the next request; when `allocs` is used up the request is served
in place. -/
def World.nextAlloc (w : World) : AllocEvent × World :=
  match w.allocs with
  | [] => (AllocEvent.inPlace, w)
  | a :: rest => (a, { w with allocs := rest })

/-- The call `calloc( n, sizeof( uint8_t ) )`: `NULL`, or a new block of `n` zero bytes. -/
def World.calloc (w : World) (n : Nat) : HeapPtr × World :=
  let (a, w) := w.nextAlloc
  match a with
  | AllocEvent.fail => (HeapPtr.null, w)
  | _ => (HeapPtr.blk w.heap.length 0, { w with heap := w.heap ++ [some (List.replicate n 0)] })

/-- The call `free( p )`: nothing for `NULL`; the block is released when `p` is its first byte;
anything else sets `fault`. -/
def World.free (w : World) (p : HeapPtr) : World :=
  match p with
  | HeapPtr.null => w
  | HeapPtr.blk id off =>
    if off = 0 ∧ (w.block id).isSome then { w with heap := w.heap.set id none }
    else { w with fault := true }

/-- A block's content cut or extended to `n` bytes; the model takes the new bytes to be 0. -/
def resizeBlock (b : List Nat) (n : Nat) : List Nat :=
  b.take n ++ List.replicate (n - b.length) 0

/-- The call `realloc( p, n )`.  On failure it returns `NULL` and the old block stays; in place
the block changes its size; moved, the content goes into a new block and the old one is
released. -/
def World.realloc (w : World) (p : HeapPtr) (n : Nat) : HeapPtr × World :=
  match p with
  | HeapPtr.null => w.calloc n
  | HeapPtr.blk id off =>
    match (if off = 0 then w.block id else none) with
    | none => (HeapPtr.null, { w with fault := true })
    | some b =>
      let (a, w) := w.nextAlloc
      match a with
      | AllocEvent.fail => (HeapPtr.null, w)
      | AllocEvent.inPlace =>
        (HeapPtr.blk id 0, { w with heap := w.heap.set id (some (resizeBlock b n)) })
      | AllocEvent.moved =>
        (HeapPtr.blk w.heap.length 0,
          { w with heap := w.heap.set id none ++ [some (resizeBlock b n)] })

/-- The status of the next call of `MicoFlashInitialize` or `MicoFlashWrite`; `kNoErr` when
`flashRets` is used up. -/
def World.flashCall (w : World) : OSStatus × World :=
  match w.flashRets with
  | [] => (kNoErr, w)
  | r :: rest => (r, { w with flashRets := rest })

/-- The call `MicoFlashWrite( MICO_FLASH_FOR_UPDATE, &flashStorageAddress, data, len )`: the
bytes are logged when the call succeeds. -/
def World.flashWrite (w : World) (bs : List Nat) : OSStatus × World :=
  let (r, w) := w.flashCall
  (r, if r = kNoErr then { w with flashLog := w.flashLog ++ [bs] } else w)

/-- The call `read( inSock, p, count )` with a heap destination: the returned value; the bytes
delivered are stored at `p` and the call is logged. -/
def World.readHeap (w : World) (p : HeapPtr) (count : Nat) : Int × World :=
  let (n, bs, w) := w.recv count
  let w := w.store p bs
  (n, { w with readLog := w.readLog ++ [{ dest := ReadDest.heap p, count := count, ret := n }] })

/-- A bound on the number of calls of `read` that can return a positive value: the bytes and
the events that the byte source still holds. -/
def World.readFuel (w : World) : Nat :=
  (w.reads.map (fun e =>
    match e with
    | ReadEvent.data b => b.length + 1
    | ReadEvent.fail _ => 1)).sum

/-! ## findCRLF -/

/-- The `for( ;; )` loop of `findCRLF`, with `dst = inDataPtr + inDataLen`.  The value is the
returned flag and the offset stored in `*nextDataPtr` (`none` when nothing is stored). -/
def findCRLFLoop (inDataPtr : List Nat) (dst : Nat) : Nat → Nat → Bool × Option Nat
  | 0, _ => (false, none)
  | fuel + 1, src =>
    let src := scanWhile inDataPtr dst (fun c => c != cCR) src
    if src ≥ dst then (false, none)
    else
      let len := dst - src
      if len ≥ 2 ∧ inDataPtr.getD (src + 1) 0 = cLF then (true, some (src + 2))
      else if len ≤ 1 then (false, none)
      else findCRLFLoop inDataPtr dst fuel (src + 1)

/-- The function `findCRLF( inDataPtr, inDataLen, &nextDataPtr )`: the returned flag and the
offset of `*nextDataPtr` from `inDataPtr` (`none` when nothing is stored). -/
def findCRLF (inDataPtr : List Nat) (inDataLen : Nat) : Bool × Option Nat :=
  findCRLFLoop inDataPtr inDataLen (inDataLen + 1) 0

/-! ## SocketReadHTTPHeader -/

/-- The string `"Content-Type"`. -/
def strContentType : List Nat := [67, 111, 110, 116, 101, 110, 116, 45, 84, 121, 112, 101]

/-- The `n` bytes of the header buffer from offset `off` on, as `memcpy` reads them; `fault` is
set when the range leaves the buffer, and the bytes outside read as 0. -/
def readBuf (h : HTTPHeader) (w : World) (off n : Nat) : List Nat × World :=
  (bytesAt h.buf off n ++ List.replicate (n - (h.buf.length - off)) 0,
    if off + n ≤ h.buf.length then w else { w with fault := true })

/-- The bytes `bs` written into the header buffer from offset `off` on; when they do not fit,
nothing is written and `fault` is set. -/
def writeBuf (h : HTTPHeader) (w : World) (off : Nat) (bs : List Nat) : HTTPHeader × World :=
  if off + bs.length ≤ h.buf.length then ({ h with buf := writeAt h.buf off bs }, w)
  else (h, { w with fault := true })

/-- The call `read( inSock, dst, count )` with the offset `dst` of the header buffer as
destination: the returned value, the record and the world.  The call is logged. -/
def readIntoHeader (h : HTTPHeader) (w : World) (dst count : Nat) : Int × HTTPHeader × World :=
  let (n, bs, w) := w.recv count
  let w := { w with readLog :=
    w.readLog ++ [{ dest := ReadDest.headerBuf dst, count := count, ret := n }] }
  if 0 < n then
    let (h, w) := writeBuf h w dst bs
    (n, h, w)
  else (n, h, w)

/-- The `for( ;; )` loop of `SocketReadHTTPHeader`, with `dst` the offset of the local pointer.
The value is the offset `end` when the loop is left by `break` and `none` when it is left by
`goto exit` with `err = kConnectionErr`, then the record, the world and the final `dst`. -/
def readHeaderLoop (P : Platform) :
    Nat → HTTPHeader → World → Nat → Option Nat × HTTPHeader × World × Nat
  | 0, h, w, dst => (none, h, w, dst)
  | fuel + 1, h, w, dst =>
    let r := findHeader h
    if r.1 then (some r.2, h, w, dst)
    else
      let (n, h, w) := readIntoHeader h w dst (sizeSub P P.bufSize dst)
      if 0 < n then
        readHeaderLoop P fuel { h with len := h.len + n.toNat } w (dst + n.toNat)
      else (none, h, w, dst)

/-- The statements of `SocketReadHTTPHeader` that release `extraDataPtr` and `otaDataPtr`. -/
def headerFreeBody (h : HTTPHeader) (w : World) : HTTPHeader × World :=
  let (h, w) :=
    if h.extraDataPtr ≠ HeapPtr.null then
      ({ h with extraDataPtr := HeapPtr.null }, w.free h.extraDataPtr)
    else (h, w)
  if h.otaDataPtr ≠ HeapPtr.null then
    ({ h with otaDataPtr := HeapPtr.null }, w.free h.otaDataPtr)
  else (h, w)

/-- The test `err == kNoErr && strnicmpx( value, valueSize, kMIMEType_MXCHIP_OTA ) == 0` on the
result of looking up `"Content-Type"`. -/
def isOTAType (P : Platform) (h : HTTPHeader) : Bool :=
  match HTTPGetHeaderField P h.buf h.len (some strContentType) with
  | Except.error _ => false
  | Except.ok f =>
    decide (strnicmpx (bytesAt h.buf f.valuePtr f.valueLen) P.kMIMEType_MXCHIP_OTA = 0)

/-- The branch of `SocketReadHTTPHeader` for the OTA content type, up to `goto exit`. -/
def headerOTA (P : Platform) (h : HTTPHeader) (w : World) (e : Nat) :
    OSStatus × HTTPHeader × World :=
  if P.MICO_FLASH_FOR_UPDATE then
    let (err, w) := w.flashCall
    if err ≠ kNoErr then (err, h, w)
    else
      let (bs, w) := readBuf h w e h.extraDataLen
      let (err, w) := w.flashWrite bs
      (err, h, w)
  else (kUnsupportedErr, h, w)

/-- The end of `SocketReadHTTPHeader`, from "For chunked extra data without content length"
on; `e` is the offset `end`. -/
def headerStoreBody (h : HTTPHeader) (w : World) (e : Nat) : OSStatus × HTTPHeader × World :=
  if h.chunkedData = true then
    let h := { h with chunkedDataBufferLen := if h.extraDataLen > 256 then h.extraDataLen else 256 }
    let (p, w) := w.calloc h.chunkedDataBufferLen
    let h := { h with chunkedDataBufferPtr := p }
    if p = HeapPtr.null then (kNoMemoryErr, h, w)
    else
      let (bs, w) := readBuf h w e h.extraDataLen
      (kNoErr, { h with extraDataPtr := h.chunkedDataBufferPtr }, w.store p bs)
  else if h.contentLength ≠ 0 then
    let copyDataLen := if h.contentLength ≥ h.extraDataLen then h.contentLength else h.extraDataLen
    let (p, w) := w.calloc copyDataLen
    let h := { h with extraDataPtr := p }
    if p = HeapPtr.null then (kNoMemoryErr, h, w)
    else
      let (bs, w) := readBuf h w e copyDataLen
      (kNoErr, h, w.store p bs)
  else if h.extraDataLen ≠ 0 then
    let h := { h with dataEndedbyClose := true }
    let (p, w) := w.calloc 1500
    let h := { h with extraDataPtr := p }
    if p = HeapPtr.null then (kNoMemoryErr, h, w)
    else
      let (bs, w) := readBuf h w e h.extraDataLen
      (kNoErr, h, w.store p bs)
  else (kNoErr, h, w)

/-- The function `SocketReadHTTPHeader( inSock, inHeader )`: the returned status, the record
and the world afterwards. -/
def SocketReadHTTPHeader (P : Platform) (inHeader : HTTPHeader) (w : World) :
    OSStatus × HTTPHeader × World :=
  match readHeaderLoop P (w.readFuel + 1) inHeader w inHeader.len with
  | (none, h, w, _) => (kConnectionErr, h, w)
  | (some e, h, w, dst) =>
    let (err, h) := HTTPHeaderParse P { h with len := e }
    if err ≠ kNoErr then (err, h, w)
    else
      let (h, w) := headerFreeBody { h with extraDataLen := sizeSub P dst e } w
      if isOTAType P h then headerOTA P h w e
      else headerStoreBody h w e

/-! ## SocketReadHTTPBody -/

/-- Where control is after a part of `SocketReadHTTPBody`: at the next statement, or at the
label `exit` with the given value of `err`. -/
inductive Flow
  | next
  | exit (err : OSStatus)
  deriving DecidableEq, Repr

/-- The start of the chunked branch: the length of the chunk served by the last call, the
`memmove` of the rest to the front of the chunk buffer, and the new `extraDataLen`.  The sum
is stored in a `size_t`. -/
def chunkShift (P : Platform) (h : HTTPHeader) (w : World) : HTTPHeader × World :=
  let w := if h.extraDataPtr.sameBlock h.chunkedDataBufferPtr then w else { w with fault := true }
  let lastChunkLen :=
    (HeapPtr.diff P h.extraDataPtr h.chunkedDataBufferPtr + h.contentLength) % 2 ^ P.sizeBits
  let lastChunkLen :=
    if h.contentLength ≠ 0 then (lastChunkLen + 2) % 2 ^ P.sizeBits else lastChunkLen
  let w := w.memmove h.chunkedDataBufferPtr (h.chunkedDataBufferPtr.add lastChunkLen)
    (sizeSub P h.chunkedDataBufferLen lastChunkLen)
  ({ h with extraDataLen := sizeSub P h.extraDataLen lastChunkLen }, w)

/-- The loop `while ( findChunkedDataLength( ... ) == false )`.  The scan may read every byte of
the range it is given. -/
def chunkSizeLoop (P : Platform) : Nat → HTTPHeader → World → Flow × HTTPHeader × World
  | 0, h, w => (Flow.exit kNotReadableErr, h, w)
  | fuel + 1, h, w =>
    let w := w.touch h.chunkedDataBufferPtr h.extraDataLen
    let r := findChunkedDataLength (w.bytes h.chunkedDataBufferPtr) h.extraDataLen ScanFormat.llu
    let h := { h with
      extraDataPtr := h.chunkedDataBufferPtr.add r.2.1,
      contentLength := match r.2.2 with
        | some v => v
        | none => h.contentLength }
    if r.1 then (Flow.next, h, w)
    else if ¬ (h.extraDataLen < h.chunkedDataBufferLen) then (Flow.exit kMalformedErr, h, w)
    else
      let (sel, w) := w.select
      if ¬ (sel ≥ 1) then (Flow.exit kNotReadableErr, h, w)
      else
        let (n, w) := w.readHeap h.extraDataPtr (h.chunkedDataBufferLen - h.extraDataLen)
        if 0 < n then chunkSizeLoop P fuel { h with extraDataLen := h.extraDataLen + n.toNat } w
        else (Flow.exit kConnectionErr, h, w)

/-- The loop `while( findCRLF( ... ) == false )` of the last chunk, followed by
`err = kNoErr; goto exit`.  The size line that was found lies inside the first `extraDataLen`
bytes, so `chunckheaderLen` is at most `extraDataLen` in the destination of the read. -/
def chunkTrailerLoop (P : Platform) (chunckheaderLen : Nat) :
    Nat → HTTPHeader → World → Flow × HTTPHeader × World
  | 0, h, w => (Flow.exit kNotReadableErr, h, w)
  | fuel + 1, h, w =>
    let n := sizeSub P h.extraDataLen chunckheaderLen
    let w := w.touch h.extraDataPtr n
    if (findCRLF (w.bytes h.extraDataPtr) n).1 then (Flow.exit kNoErr, h, w)
    else
      let (sel, w) := w.select
      if ¬ (sel ≥ 1) then (Flow.exit kNotReadableErr, h, w)
      else
        let (n, w) := w.readHeap (h.extraDataPtr.add (h.extraDataLen - chunckheaderLen))
          (sizeSub P 256 h.extraDataLen)
        if 0 < n then
          chunkTrailerLoop P chunckheaderLen fuel { h with extraDataLen := h.extraDataLen + n.toNat } w
        else (Flow.exit kConnectionErr, h, w)

/-- The statement "Extend chunked data buffer". -/
def chunkGrow (chunckheaderLen : Nat) (h : HTTPHeader) (w : World) :
    Flow × HTTPHeader × World :=
  if h.chunkedDataBufferLen < h.contentLength + chunckheaderLen + 2 then
    let h := { h with chunkedDataBufferLen := h.contentLength + chunckheaderLen + 256 }
    let (p, w) := w.realloc h.chunkedDataBufferPtr h.chunkedDataBufferLen
    let h := { h with chunkedDataBufferPtr := p }
    if h.extraDataPtr = HeapPtr.null then (Flow.exit kNoMemoryErr, h, w)
    else (Flow.next, h, w)
  else (Flow.next, h, w)

/-- The loop "Read chunked data".  The count
`contentLength - (extraDataLen - chunckheaderLen) + 2` is computed modulo a power of two and
lies between 1 and `contentLength + 2` under the loop condition, so it is
`contentLength + 2 - (extraDataLen - chunckheaderLen)`. -/
def chunkDataLoop (chunckheaderLen : Nat) : Nat → HTTPHeader → World → Flow × HTTPHeader × World
  | 0, h, w => (Flow.exit kNotReadableErr, h, w)
  | fuel + 1, h, w =>
    if ¬ (h.extraDataLen < h.contentLength + chunckheaderLen + 2) then (Flow.next, h, w)
    else
      let (sel, w) := w.select
      if ¬ (sel ≥ 1) then (Flow.exit kNotReadableErr, h, w)
      else
        let (n, w) := w.readHeap (h.extraDataPtr.add (h.extraDataLen - chunckheaderLen))
          (h.contentLength + 2 - (h.extraDataLen - chunckheaderLen))
        if 0 < n then
          chunkDataLoop chunckheaderLen fuel { h with extraDataLen := h.extraDataLen + n.toNat } w
        else (Flow.exit kConnectionErr, h, w)

/-- The test of the two bytes after the chunk data. -/
def chunkTail (h : HTTPHeader) (w : World) : Flow × HTTPHeader × World :=
  let w := w.touch (h.extraDataPtr.add h.contentLength) 1
  if (w.bytes h.extraDataPtr).getD h.contentLength 0 ≠ cCR then (Flow.exit kMalformedErr, h, w)
  else
    let w := w.touch (h.extraDataPtr.add (h.contentLength + 1)) 1
    if (w.bytes h.extraDataPtr).getD (h.contentLength + 1) 0 ≠ cLF then
      (Flow.exit kMalformedErr, h, w)
    else (Flow.next, h, w)

/-- The branch `if( inHeader->chunkedData == true )` of `SocketReadHTTPBody`.  Every turn of its
loops calls `select`, which fails when `selects` is used up, so one more turn than `selects`
has values is enough for each loop. -/
def bodyChunked (P : Platform) (h : HTTPHeader) (w : World) : Flow × HTTPHeader × World :=
  let (h, w) := chunkShift P h w
  match chunkSizeLoop P (w.selects.length + 1) h w with
  | (Flow.exit e, h, w) => (Flow.exit e, h, w)
  | (Flow.next, h, w) =>
    let chunckheaderLen := HeapPtr.diff P h.extraDataPtr h.chunkedDataBufferPtr
    if h.contentLength = 0 then chunkTrailerLoop P chunckheaderLen (w.selects.length + 1) h w
    else
      match chunkGrow chunckheaderLen h w with
      | (Flow.exit e, h, w) => (Flow.exit e, h, w)
      | (Flow.next, h, w) =>
        match chunkDataLoop chunckheaderLen (w.selects.length + 1) h w with
        | (Flow.exit e, h, w) => (Flow.exit e, h, w)
        | (Flow.next, h, w) => chunkTail h w

/-- The branch `if( inHeader->dataEndedbyClose == true )`, which always ends in `goto exit`: the
value of `err` there, the record and the world. -/
def bodyClose (h : HTTPHeader) (w : World) : OSStatus × HTTPHeader × World :=
  if h.contentLength = 0 then (kNoErr, { h with contentLength := h.extraDataLen }, w)
  else
    let (sel, w) := w.select
    if ¬ (sel ≥ 1) then (kNotReadableErr, h, w)
    else
      let (n, w) := w.readHeap h.extraDataPtr 1500
      if 0 < n then (kNoErr, { h with contentLength := n.toNat }, w)
      else (kConnectionErr, h, w)

/-- The OTA branch of one turn of the last loop of `SocketReadHTTPBody`, as compiled when
`MICO_FLASH_FOR_UPDATE` is defined.  The value is whether the loop goes on, the value of `err`,
the record and the world. -/
def bodyFixedFlash (P : Platform) (h : HTTPHeader) (w : World) :
    Bool × OSStatus × HTTPHeader × World :=
  let (p, w) := w.calloc P.OTA_Data_Length_per_read
  let h := { h with otaDataPtr := p }
  if p = HeapPtr.null then (false, kNoMemoryErr, h, w)
  else
    let count :=
      if h.contentLength - h.extraDataLen < P.OTA_Data_Length_per_read then
        h.contentLength - h.extraDataLen
      else P.OTA_Data_Length_per_read
    let (n, w) := w.readHeap h.otaDataPtr count
    if 0 < n then
      let h := { h with extraDataLen := h.extraDataLen + n.toNat }
      let w := w.touch h.otaDataPtr n.toNat
      let (e, w) := w.flashWrite ((w.bytes h.otaDataPtr).take n.toNat)
      if e ≠ kNoErr then (false, e, h, w)
      else (true, kNoErr, { h with otaDataPtr := HeapPtr.null }, w.free h.otaDataPtr)
    else (false, kConnectionErr, h, w)

/-- One turn of the loop `while ( inHeader->extraDataLen < inHeader->contentLength )`, from the
call of `select` on.  The arguments `err` and `wf` are the values of `err` and of
`writeToFlash`; the value is whether the loop goes on (otherwise control is at the label
`exit`), then `err`, `writeToFlash`, the record and the world. -/
def bodyFixedTurn (P : Platform) (err : OSStatus) (wf : Bool) (h : HTTPHeader) (w : World) :
    Bool × OSStatus × Bool × HTTPHeader × World :=
  let (sel, w) := w.select
  if ¬ (sel ≥ 1) then (false, err, wf, h, w)
  else
    match HTTPGetHeaderField P h.buf h.len (some strContentType) with
    | Except.error e => (false, e, wf, h, w)
    | Except.ok f =>
      if strnicmpx (bytesAt h.buf f.valuePtr f.valueLen) P.kMIMEType_MXCHIP_OTA = 0 then
        if P.MICO_FLASH_FOR_UPDATE = true then
          match bodyFixedFlash P h w with
          | (go, e, h, w) => (go, e, true, h, w)
        else (true, kUnsupportedErr, wf, h, w)
      else
        let (n, w) := w.readHeap (h.extraDataPtr.add h.extraDataLen)
          (h.contentLength - h.extraDataLen)
        if 0 < n then (true, kNoErr, wf, { h with extraDataLen := h.extraDataLen + n.toNat }, w)
        else (false, kConnectionErr, wf, h, w)

/-- The loop `while ( inHeader->extraDataLen < inHeader->contentLength )` with the statement
`err = kNoErr` after it.  The arguments after the fuel are the values of `err` and of
`writeToFlash`; the value is `err` and `writeToFlash` at the label `exit`. -/
def bodyFixedLoop (P : Platform) :
    Nat → OSStatus → Bool → HTTPHeader → World → OSStatus × Bool × HTTPHeader × World
  | 0, err, wf, h, w => (err, wf, h, w)
  | fuel + 1, err, wf, h, w =>
    if ¬ (h.extraDataLen < h.contentLength) then (kNoErr, wf, h, w)
    else
      match bodyFixedTurn P err wf h w with
      | (true, err, wf, h, w) => bodyFixedLoop P fuel err wf h w
      | (false, r) => r

/-- The statements after the label `exit` of `SocketReadHTTPBody`.  `MicoFlashFinalize`, called
when `writeToFlash` is set, changes nothing that the model holds. -/
def bodyExit (err : OSStatus) (_writeToFlash : Bool) (h : HTTPHeader) (w : World) :
    OSStatus × HTTPHeader × World :=
  let h := if err ≠ kNoErr then { h with len := 0 } else h
  if h.otaDataPtr ≠ HeapPtr.null then
    (err, { h with otaDataPtr := HeapPtr.null }, w.free h.otaDataPtr)
  else (err, h, w)

/-- The function `SocketReadHTTPBody( inSock, inHeader )` for a non-null `inHeader`: the
returned status, the record and the world afterwards. -/
def SocketReadHTTPBody (P : Platform) (inHeader : HTTPHeader) (w : World) :
    OSStatus × HTTPHeader × World :=
  match (if inHeader.chunkedData = true then bodyChunked P inHeader w
         else (Flow.next, inHeader, w)) with
  | (Flow.exit e, h, w) => bodyExit e false h w
  | (Flow.next, h, w) =>
    if h.dataEndedbyClose = true then
      match bodyClose h w with
      | (e, h, w) => bodyExit e false h w
    else
      match bodyFixedLoop P (w.selects.length + 1) kNotReadableErr false h w with
      | (e, wf, h, w) => bodyExit e wf h w

/-! ## HTTPHeaderClear -/

/-- The call `memcpy( inHeader->buf, src, n )`. -/
def copyToBuf (h : HTTPHeader) (w : World) (src : HeapPtr) (n : Nat) : HTTPHeader × World :=
  let w := w.touch src n
  writeBuf h w 0 ((w.bytes src).take n)

/-- The statements of the chunked branch of `HTTPHeaderClear` that look for the bytes of the
next message. -/
def clearChunkedLeftover (P : Platform) (h : HTTPHeader) (w : World) : HTTPHeader × World :=
  let chunckheaderLen := HeapPtr.diff P h.extraDataPtr h.chunkedDataBufferPtr
  let n := sizeSub P h.extraDataLen chunckheaderLen
  let w := w.touch h.extraDataPtr n
  match findCRLF (w.bytes h.extraDataPtr) n with
  | (true, some next) =>
    let nextPackagePtr := h.extraDataPtr.add next
    if nextPackagePtr.le (h.chunkedDataBufferPtr.add h.extraDataLen) then
      let h := { h with
        len := sizeSub P h.extraDataLen (HeapPtr.diff P nextPackagePtr h.chunkedDataBufferPtr) }
      if h.len > 512 then ({ h with len := 0 }, w)
      else copyToBuf h w nextPackagePtr h.len
    else ({ h with len := 0 }, w)
  | _ => (h, w)

/-- The statements of the second branch of `HTTPHeaderClear` that keep the bytes of the next
message. -/
def clearFixedLeftover (h : HTTPHeader) (w : World) : HTTPHeader × World :=
  if h.extraDataLen > h.contentLength then
    let h := { h with len := h.extraDataLen - h.contentLength }
    copyToBuf h w (h.extraDataPtr.add h.contentLength) h.len
  else ({ h with len := 0 }, w)

/-- The function `HTTPHeaderClear( inHeader )`: the record and the world afterwards.  Its
second branch releases `extraDataPtr` and `otaDataPtr` with the statements that
`SocketReadHTTPHeader` uses. -/
def HTTPHeaderClear (P : Platform) (inHeader : HTTPHeader) (w : World) : HTTPHeader × World :=
  if inHeader.chunkedData = true ∧ inHeader.chunkedDataBufferPtr ≠ HeapPtr.null then
    let (h, w) := clearChunkedLeftover P inHeader w
    ({ h with extraDataLen := 0, chunkedDataBufferPtr := HeapPtr.null,
              extraDataPtr := HeapPtr.null, chunkedData := false },
      w.free h.chunkedDataBufferPtr)
  else
    let (h, w) := clearFixedLeftover inHeader w
    let (h, w) := headerFreeBody { h with extraDataLen := 0 } w
    ({ h with dataEndedbyClose := false }, w)

/-- A world for concrete runs: the byte source holds `rs`, the allocator answers with `al`,
twenty calls of `select` succeed, the flash calls succeed, and nothing is allocated yet. -/
def sampleWorld (rs : List ReadEvent) (al : List AllocEvent) : World :=
  { reads := rs, selects := List.replicate 20 1, allocs := al, flashRets := [], heap := [],
    fault := false, readLog := [], flashLog := [] }

/-- The 9-byte header `"GET /\r\n\r\n"`, whose start line has no second space. -/
def sampleNoProtocol : List Nat := [71, 69, 84, 32, 47, 13, 10, 13, 10]

/-- Two records have the same body state: the fields that describe the message body. -/
def SameBodyState (a b : HTTPHeader) : Prop :=
  a.contentLength = b.contentLength ∧ a.chunkedData = b.chunkedData ∧
  a.extraDataLen = b.extraDataLen ∧ a.extraDataPtr = b.extraDataPtr ∧
  a.otaDataPtr = b.otaDataPtr ∧ a.chunkedDataBufferPtr = b.chunkedDataBufferPtr ∧
  a.chunkedDataBufferLen = b.chunkedDataBufferLen ∧ a.dataEndedbyClose = b.dataEndedbyClose

/-- The header `"HTTP/1.1 200 OK\r\nTransfer-Encoding: chunked\r\n\r\n"` of a chunked
response, 47 bytes. -/
def sampleChunkedHeader : List Nat :=
  [72, 84, 84, 80, 47, 49, 46, 49, 32, 50, 48, 48, 32, 79, 75, 13, 10,
   84, 114, 97, 110, 115, 102, 101, 114, 45, 69, 110, 99, 111, 100, 105, 110, 103, 58, 32,
   99, 104, 117, 110, 107, 101, 100, 13, 10, 13, 10]

/-- A fixed-length record after its body was read: `contentLength` is 5 and the body buffer
holds 8 bytes, `"abcde"` and the first bytes `"GET"` of the next message. -/
def samplePipelined : HTTPHeader :=
  { HTTPHeaderCreate samplePlatform with
    len := 38, contentLength := 5, extraDataLen := 8, extraDataPtr := HeapPtr.blk 0 0 }

/-- The world of `samplePipelined`: one block, the body buffer. -/
def samplePipelinedWorld : World :=
  { sampleWorld [] [] with heap := [some [97, 98, 99, 100, 101, 71, 69, 84]] }

/-- A chunked record after the terminal chunk was read: the chunk buffer holds `"0\r\n\r\n"`
and then `L` bytes `'G'` of the next message. -/
def sampleChunkedDone (L : Nat) : HTTPHeader :=
  { HTTPHeaderCreate samplePlatform with
    len := 47, chunkedData := true, contentLength := 0, extraDataLen := 5 + L,
    extraDataPtr := HeapPtr.blk 0 3, chunkedDataBufferPtr := HeapPtr.blk 0 0,
    chunkedDataBufferLen := 5 + L }

/-- The world of `sampleChunkedDone L`: one block, the chunk buffer. -/
def sampleChunkedDoneWorld (L : Nat) : World :=
  { sampleWorld [] [] with heap := [some ([48, 13, 10, 13, 10] ++ List.replicate L 71)] }

/-- The calls `new` of `read` stop at the first failure: either every call returned a positive
value, or every call but the last did, the last returned 0 or less, and `stop` holds. -/
def ReadsUntilFailure (new : List ReadCall) (stop : Prop) : Prop :=
  (∀ c ∈ new, 0 < c.ret) ∨
  (stop ∧ ∃ pre c, new = pre ++ [c] ∧ (∀ d ∈ pre, 0 < d.ret) ∧ c.ret ≤ 0)

/-- The message `"HTTP/1.0 200 OK\r\n\r\nhello"`: a 19-byte header without a content length,
followed by 5 bytes of a body that ends when the connection is closed. -/
def sampleCloseMessage : List Nat :=
  [72, 84, 84, 80, 47, 49, 46, 48, 32, 50, 48, 48, 32, 79, 75, 13, 10, 13, 10,
   104, 101, 108, 108, 111]

/-- `SocketReadHTTPHeader` on a new record, with a byte source that delivers
`sampleCloseMessage` in one piece and is closed after it. -/
def sampleCloseRun1 : OSStatus × HTTPHeader × World :=
  SocketReadHTTPHeader samplePlatform (HTTPHeaderCreate samplePlatform)
    (sampleWorld [ReadEvent.data sampleCloseMessage] [])

/-- The first call of `SocketReadHTTPBody` after `sampleCloseRun1`. -/
def sampleCloseRun2 : OSStatus × HTTPHeader × World :=
  SocketReadHTTPBody samplePlatform sampleCloseRun1.2.1 sampleCloseRun1.2.2

/-- The second call of `SocketReadHTTPBody` after `sampleCloseRun1`. -/
def sampleCloseRun3 : OSStatus × HTTPHeader × World :=
  SocketReadHTTPBody samplePlatform sampleCloseRun2.2.1 sampleCloseRun2.2.2

/-- Reference definition of the calls of `read` that reassemble a fixed-length body of `N`
bytes in block `id`, when `e` bytes are there already and the byte source delivers the
segments `segs`: each call asks for `N - e` bytes at offset `e` and gets the next segment, or
its first `N - e` bytes. -/
def fixedReads (id N : Nat) : Nat → List (List Nat) → List ReadCall
  | _, [] => []
  | e, s :: rest =>
    if N ≤ e then []
    else
      { dest := ReadDest.heap (HeapPtr.blk id e), count := N - e,
        ret := ((min s.length (N - e) : Nat) : Int) } ::
        fixedReads id N (e + min s.length (N - e)) rest

/-- The message `"POST / HTTP/1.1\r\nContent-Length: 5\r\n\r\nabc"`: a 38-byte header and the
first 3 of the 5 body bytes. -/
def sampleFixedMessage : List Nat :=
  [80, 79, 83, 84, 32, 47, 32, 72, 84, 84, 80, 47, 49, 46, 49, 13, 10,
   67, 111, 110, 116, 101, 110, 116, 45, 76, 101, 110, 103, 116, 104, 58, 32, 53, 13, 10,
   13, 10, 97, 98, 99]

/-- `SocketReadHTTPHeader` on a new record, with a byte source that delivers
`sampleFixedMessage` and then the last two body bytes `"de"`. -/
def sampleFixedRun1 : OSStatus × HTTPHeader × World :=
  SocketReadHTTPHeader samplePlatform (HTTPHeaderCreate samplePlatform)
    (sampleWorld [ReadEvent.data sampleFixedMessage, ReadEvent.data [100, 101]] [])

/-- The call of `SocketReadHTTPBody` after `sampleFixedRun1`. -/
def sampleFixedRun2 : OSStatus × HTTPHeader × World :=
  SocketReadHTTPBody samplePlatform sampleFixedRun1.2.1 sampleFixedRun1.2.2

/-- The message
`"POST / HTTP/1.1\r\nContent-Type: text/plain\r\nContent-Length: 5\r\n\r\nabc"`: a 64-byte
header and the first 3 of the 5 body bytes. -/
def sampleTypedMessage : List Nat :=
  [80, 79, 83, 84, 32, 47, 32, 72, 84, 84, 80, 47, 49, 46, 49, 13, 10,
   67, 111, 110, 116, 101, 110, 116, 45, 84, 121, 112, 101, 58, 32,
   116, 101, 120, 116, 47, 112, 108, 97, 105, 110, 13, 10,
   67, 111, 110, 116, 101, 110, 116, 45, 76, 101, 110, 103, 116, 104, 58, 32, 53, 13, 10,
   13, 10, 97, 98, 99]

/-- `SocketReadHTTPHeader` on a new record, with a byte source that delivers
`sampleTypedMessage` and then the segments `"d"` and `"efgh"`. -/
def sampleTypedRun1 : OSStatus × HTTPHeader × World :=
  SocketReadHTTPHeader samplePlatform (HTTPHeaderCreate samplePlatform)
    (sampleWorld [ReadEvent.data sampleTypedMessage, ReadEvent.data [100],
      ReadEvent.data [101, 102, 103, 104]] [])

/-- A chunk of 251 bytes `'A'`: the size line `"FB\r\n"`, the data, and the two bytes `t1`,
`t2` after the data (CR and LF in a well-formed chunk). -/
def sampleBigChunk (t1 t2 : Nat) : List Nat :=
  [70, 66, 13, 10] ++ List.replicate 251 65 ++ [t1, t2]

/-- `SocketReadHTTPHeader` on a new record, with a byte source that delivers the header of a
chunked response, then `sampleBigChunk t1 t2` and the terminal chunk `"0\r\n\r\n"`.  The
allocator serves the `calloc` of the chunk buffer and answers the next request with `al`. -/
def sampleGrowRun1 (al : AllocEvent) (t1 t2 : Nat) : OSStatus × HTTPHeader × World :=
  SocketReadHTTPHeader samplePlatform (HTTPHeaderCreate samplePlatform)
    (sampleWorld
      [ReadEvent.data sampleChunkedHeader,
       ReadEvent.data (sampleBigChunk t1 t2 ++ [48, 13, 10, 13, 10])]
      [AllocEvent.inPlace, al])

/-- The first call of `SocketReadHTTPBody` after `sampleGrowRun1`. -/
def sampleGrowRun2 (al : AllocEvent) (t1 t2 : Nat) : OSStatus × HTTPHeader × World :=
  SocketReadHTTPBody samplePlatform (sampleGrowRun1 al t1 t2).2.1 (sampleGrowRun1 al t1 t2).2.2

/-- The call of `HTTPHeaderClear` after `sampleGrowRun2`. -/
def sampleGrowRun3 (al : AllocEvent) (t1 t2 : Nat) : HTTPHeader × World :=
  HTTPHeaderClear samplePlatform (sampleGrowRun2 al t1 t2).2.1 (sampleGrowRun2 al t1 t2).2.2

/-- The body `"4\r\nWiki\r\n5\r\npedia\r\n0\r\n\r\n"` in chunked encoding. -/
def sampleWikipedia : List Nat :=
  [52, 13, 10, 87, 105, 107, 105, 13, 10, 53, 13, 10, 112, 101, 100, 105, 97, 13, 10,
   48, 13, 10, 13, 10]

/-- `SocketReadHTTPHeader` on a new record, with a byte source that delivers the header of a
chunked response together with the first 5 bytes of `sampleWikipedia`, and the rest in two
more pieces. -/
def sampleWikiRun0 : OSStatus × HTTPHeader × World :=
  SocketReadHTTPHeader samplePlatform (HTTPHeaderCreate samplePlatform)
    (sampleWorld
      [ReadEvent.data (sampleChunkedHeader ++ sampleWikipedia.take 5),
       ReadEvent.data ((sampleWikipedia.drop 5).take 16),
       ReadEvent.data (sampleWikipedia.drop 21)] [])

/-- The first call of `SocketReadHTTPBody` after `sampleWikiRun0`. -/
def sampleWikiRun1 : OSStatus × HTTPHeader × World :=
  SocketReadHTTPBody samplePlatform sampleWikiRun0.2.1 sampleWikiRun0.2.2

/-- The second call of `SocketReadHTTPBody` after `sampleWikiRun0`. -/
def sampleWikiRun2 : OSStatus × HTTPHeader × World :=
  SocketReadHTTPBody samplePlatform sampleWikiRun1.2.1 sampleWikiRun1.2.2

/-- The third call of `SocketReadHTTPBody` after `sampleWikiRun0`. -/
def sampleWikiRun3 : OSStatus × HTTPHeader × World :=
  SocketReadHTTPBody samplePlatform sampleWikiRun2.2.1 sampleWikiRun2.2.2

/-- The bytes that a record exposes as the current chunk: `contentLength` bytes at
`extraDataPtr`. -/
def exposedChunk (r : OSStatus × HTTPHeader × World) : List Nat :=
  (r.2.2.bytes r.2.1.extraDataPtr).take r.2.1.contentLength

/-- The header
`"HTTP/1.1 200 OK\r\nTransfer-Encoding: chunked\r\nContent-Length: 5\r\n\r\n"` of a chunked
response that also carries a content length, 66 bytes. -/
def sampleChunkedWithLength : List Nat :=
  [72, 84, 84, 80, 47, 49, 46, 49, 32, 50, 48, 48, 32, 79, 75, 13, 10,
   84, 114, 97, 110, 115, 102, 101, 114, 45, 69, 110, 99, 111, 100, 105, 110, 103, 58, 32,
   99, 104, 117, 110, 107, 101, 100, 13, 10,
   67, 111, 110, 116, 101, 110, 116, 45, 76, 101, 110, 103, 116, 104, 58, 32, 53, 13, 10,
   13, 10]

/-- `SocketReadHTTPHeader` on a new record, with a byte source that delivers
`sampleChunkedWithLength` together with the whole body `"4\r\nWiki\r\n0\r\n\r\n"`. -/
def sampleBothRun1 : OSStatus × HTTPHeader × World :=
  SocketReadHTTPHeader samplePlatform (HTTPHeaderCreate samplePlatform)
    (sampleWorld
      [ReadEvent.data (sampleChunkedWithLength ++
        [52, 13, 10, 87, 105, 107, 105, 13, 10, 48, 13, 10, 13, 10])] [])

/-- The first call of `SocketReadHTTPBody` after `sampleBothRun1`. -/
def sampleBothRun2 : OSStatus × HTTPHeader × World :=
  SocketReadHTTPBody samplePlatform sampleBothRun1.2.1 sampleBothRun1.2.2

/-- The 18-byte header `"GET\r\nHost: a b\r\n\r\n"`, whose first space comes after the first
line. -/
def sampleSplitMethod : List Nat :=
  [71, 69, 84, 13, 10, 72, 111, 115, 116, 58, 32, 97, 32, 98, 13, 10, 13, 10]

/-- `SocketReadHTTPHeader` on a new record, with a byte source that delivers the header of a
chunked response and nothing after it. -/
def sampleHeadRun1 : OSStatus × HTTPHeader × World :=
  SocketReadHTTPHeader samplePlatform (HTTPHeaderCreate samplePlatform)
    (sampleWorld [ReadEvent.data sampleChunkedHeader] [])

/-- The call of `HTTPHeaderClear` after `sampleHeadRun1`, without a call of
`SocketReadHTTPBody` in between. -/
def sampleHeadRun2 : HTTPHeader × World :=
  HTTPHeaderClear samplePlatform sampleHeadRun1.2.1 sampleHeadRun1.2.2

/-- The call of `SocketReadHTTPHeader` for the next message after `sampleHeadRun2`; the byte
source has nothing more. -/
def sampleHeadRun3 : OSStatus × HTTPHeader × World :=
  SocketReadHTTPHeader samplePlatform sampleHeadRun2.1 sampleHeadRun2.2

/-- The message `"POST / HTTP/1.1\r\nContent-Length: 5\r\n\r\nabcde"`: a 38-byte header and
its whole body. -/
def sampleFirstMessage : List Nat := sampleFixedMessage ++ [100, 101]

/-- The header `"PUT / HTTP/1.1\r\nContent-Length: 5\r\n\r\n"`, 37 bytes, without any byte of
its body. -/
def sampleSecondHeader : List Nat :=
  [80, 85, 84, 32, 47, 32, 72, 84, 84, 80, 47, 49, 46, 49, 13, 10,
   67, 111, 110, 116, 101, 110, 116, 45, 76, 101, 110, 103, 116, 104, 58, 32, 53, 13, 10,
   13, 10]

/-- `SocketReadHTTPHeader` on a new record, with a byte source that delivers
`sampleFirstMessage` and later `sampleSecondHeader`. -/
def sampleStaleRun1 : OSStatus × HTTPHeader × World :=
  SocketReadHTTPHeader samplePlatform (HTTPHeaderCreate samplePlatform)
    (sampleWorld [ReadEvent.data sampleFirstMessage, ReadEvent.data sampleSecondHeader] [])

/-- The call of `HTTPHeaderClear` after `sampleStaleRun1`. -/
def sampleStaleRun2 : HTTPHeader × World :=
  HTTPHeaderClear samplePlatform sampleStaleRun1.2.1 sampleStaleRun1.2.2

/-- The call of `SocketReadHTTPHeader` for the second message after `sampleStaleRun2`. -/
def sampleStaleRun3 : OSStatus × HTTPHeader × World :=
  SocketReadHTTPHeader samplePlatform sampleStaleRun2.1 sampleStaleRun2.2

/-- The message `"POST / HTTP/1.1\r\nContent-Length: 600\r\n\r\nabc"`: a 40-byte header and
the first 3 of 600 body bytes. -/
def sampleLongMessage : List Nat :=
  [80, 79, 83, 84, 32, 47, 32, 72, 84, 84, 80, 47, 49, 46, 49, 13, 10,
   67, 111, 110, 116, 101, 110, 116, 45, 76, 101, 110, 103, 116, 104, 58, 32, 54, 48, 48,
   13, 10, 13, 10, 97, 98, 99]

/-- `SocketReadHTTPHeader` on a new record, with a byte source that delivers
`sampleLongMessage`. -/
def sampleLongRun1 : OSStatus × HTTPHeader × World :=
  SocketReadHTTPHeader samplePlatform (HTTPHeaderCreate samplePlatform)
    (sampleWorld [ReadEvent.data sampleLongMessage] [])

/-- `SocketReadHTTPHeader` on a new record, with a byte source that delivers the header of a
chunked response together with the terminal chunk's size line `"0\r\n"` and 300 bytes `'T'` of
a trailer line, and later the two bytes CR LF. -/
def sampleTrailerRun1 : OSStatus × HTTPHeader × World :=
  SocketReadHTTPHeader samplePlatform (HTTPHeaderCreate samplePlatform)
    (sampleWorld
      [ReadEvent.data (sampleChunkedHeader ++ [48, 13, 10] ++ List.replicate 300 84),
       ReadEvent.data [13, 10]] [])

/-- The first call of `SocketReadHTTPBody` after `sampleTrailerRun1`. -/
def sampleTrailerRun2 : OSStatus × HTTPHeader × World :=
  SocketReadHTTPBody samplePlatform sampleTrailerRun1.2.1 sampleTrailerRun1.2.2

/-- A chunk of 256 bytes `'A'`: the size line `"100\r\n"`, the data and CR LF, 263 bytes. -/
def sampleChunk256 : List Nat := [49, 48, 48, 13, 10] ++ List.replicate 256 65 ++ [13, 10]

/-- The start of a chunk of one byte whose size line carries a chunk extension: the 515-byte
size line `"1;xxx...x\r\n"`, the data byte `'A'` and CR, 517 bytes. -/
def sampleLongSizeLine : List Nat := [49, 59] ++ List.replicate 511 120 ++ [13, 10, 65, 13]

/-- `SocketReadHTTPHeader` on a new record, with a byte source that delivers the header of a
chunked response, then `sampleChunk256`, then `sampleLongSizeLine`, and is closed after that.
The allocator serves the `calloc` of the chunk buffer and the first `realloc` in place, and
fails the second `realloc`. -/
def sampleOverflowRun0 : OSStatus × HTTPHeader × World :=
  SocketReadHTTPHeader samplePlatform (HTTPHeaderCreate samplePlatform)
    (sampleWorld
      [ReadEvent.data sampleChunkedHeader, ReadEvent.data sampleChunk256,
       ReadEvent.data sampleLongSizeLine]
      [AllocEvent.inPlace, AllocEvent.inPlace, AllocEvent.fail])

/-- The first call of `SocketReadHTTPBody` after `sampleOverflowRun0`. -/
def sampleOverflowRun1 : OSStatus × HTTPHeader × World :=
  SocketReadHTTPBody samplePlatform sampleOverflowRun0.2.1 sampleOverflowRun0.2.2

/-- The second call of `SocketReadHTTPBody` after `sampleOverflowRun0`. -/
def sampleOverflowRun2 : OSStatus × HTTPHeader × World :=
  SocketReadHTTPBody samplePlatform sampleOverflowRun1.2.1 sampleOverflowRun1.2.2

/-- The call of `HTTPHeaderClear` after `sampleOverflowRun2`. -/
def sampleOverflowRun3 : HTTPHeader × World :=
  HTTPHeaderClear samplePlatform sampleOverflowRun2.2.1 sampleOverflowRun2.2.2

/-- Reference definition of the calls of `read` made by the loop of `SocketReadHTTPHeader` when
the header buffer holds `len` bytes: each call asks for `capacity - len` bytes at offset `len`,
with `len` at most the capacity, returns at most what it asked for, and `len` grows by what the
call returned. -/
def headerReads (P : Platform) : Nat → List ReadCall → Prop
  | _, [] => True
  | len, c :: rest =>
    c.dest = ReadDest.headerBuf len ∧ c.count = P.bufSize - len ∧ len ≤ P.bufSize ∧
      c.ret ≤ c.count ∧ headerReads P (len + c.ret.toNat) rest

/-- `SocketReadHTTPHeader` on a new record, with a byte source that delivers
`sampleFirstMessage`, the message of `sampleFixedRun1` in one piece. -/
def sampleWholeRun1 : OSStatus × HTTPHeader × World :=
  SocketReadHTTPHeader samplePlatform (HTTPHeaderCreate samplePlatform)
    (sampleWorld [ReadEvent.data sampleFirstMessage] [])

/-- The call of `SocketReadHTTPBody` after `sampleWholeRun1`. -/
def sampleWholeRun2 : OSStatus × HTTPHeader × World :=
  SocketReadHTTPBody samplePlatform sampleWholeRun1.2.1 sampleWholeRun1.2.2

/-- Reference definition: from the world `w` to the world `w2` the heap has lost no block
index, and every block of `w2` with an index of `w` was a block of `w` of the same length
(blocks may have been written to or released, and new blocks have new indices). -/
def HeapKept (w w2 : World) : Prop :=
  w.heap.length ≤ w2.heap.length ∧
  ∀ id b2, id < w.heap.length → w2.block id = some b2 →
    ∃ b, w.block id = some b ∧ b.length = b2.length

/-- Reference definition: the body buffer of a record that is not chunked is large enough.
When `extraDataPtr` is the first byte of block `id`, the block is not a later allocation, and
while it is live it holds at least `extraDataLen` bytes, it holds at least `contentLength`
bytes when the body is of fixed length, and `extraDataLen` is at most the capacity of the
header buffer or, for a body of fixed length, at most `contentLength`. -/
def BodyFits (h : HTTPHeader) (w : World) : Prop :=
  ∀ id, h.extraDataPtr = HeapPtr.blk id 0 →
    id < w.heap.length ∧
    ∀ body, w.block id = some body →
      h.extraDataLen ≤ body.length ∧
      (h.dataEndedbyClose = false → h.contentLength ≤ body.length) ∧
      (h.extraDataLen ≤ h.buf.length ∨
        (h.dataEndedbyClose = false ∧ h.extraDataLen ≤ h.contentLength))

/-- Reference definition: `n` calls of `SocketReadHTTPBody` one after the other, whatever they
return; the value is the record and the world after the last call. -/
def bodyCalls (P : Platform) : Nat → HTTPHeader → World → HTTPHeader × World
  | 0, h, w => (h, w)
  | n + 1, h, w =>
    bodyCalls P n (SocketReadHTTPBody P h w).2.1 (SocketReadHTTPBody P h w).2.2

/-- A record that is not chunked, with `contentLength` 5 and `extraDataLen` 600: the 595
bytes after the body are more than the 512 bytes of the header buffer. -/
def sampleOversized : HTTPHeader :=
  { HTTPHeaderCreate samplePlatform with
    len := 38, contentLength := 5, extraDataLen := 600, extraDataPtr := HeapPtr.blk 0 0 }

/-- The world of `sampleOversized`: one block, the body buffer of 600 bytes, `"abcde"` and 595
bytes `'G'`. -/
def sampleOversizedWorld : World :=
  { sampleWorld [] [] with heap := [some ([97, 98, 99, 100, 101] ++ List.replicate 595 71)] }

/-- A record that is not chunked, with `contentLength` 5 and `extraDataLen` 8, for a body
buffer that holds 6 bytes only. -/
def sampleShortBody : HTTPHeader :=
  { HTTPHeaderCreate samplePlatform with
    len := 38, contentLength := 5, extraDataLen := 8, extraDataPtr := HeapPtr.blk 0 0 }

/-- The world of `sampleShortBody`: one block, the body buffer `"abcdeG"`. -/
def sampleShortBodyWorld : World :=
  { sampleWorld [] [] with heap := [some [97, 98, 99, 100, 101, 71]] }

/-- The message `"POST / HTTP/1.1\r\nContent-Length: 5\r\n\r\nabcde"` followed by the first
bytes `"GET"` of the next message. -/
def samplePipelinedMessage : List Nat := sampleFirstMessage ++ [71, 69, 84]

/-- `SocketReadHTTPHeader` on a new record, with a byte source that delivers
`samplePipelinedMessage` in one piece. -/
def samplePipelinedRun1 : OSStatus × HTTPHeader × World :=
  SocketReadHTTPHeader samplePlatform (HTTPHeaderCreate samplePlatform)
    (sampleWorld [ReadEvent.data samplePipelinedMessage] [])

/-- The call of `SocketReadHTTPBody` after `samplePipelinedRun1`. -/
def samplePipelinedRun2 : OSStatus × HTTPHeader × World :=
  SocketReadHTTPBody samplePlatform samplePipelinedRun1.2.1 samplePipelinedRun1.2.2

/-- The call of `HTTPHeaderClear` after `samplePipelinedRun2`. -/
def samplePipelinedRun3 : HTTPHeader × World :=
  HTTPHeaderClear samplePlatform samplePipelinedRun2.2.1 samplePipelinedRun2.2.2

/-! ## Facts about pointer scanning -/

theorem scanWhileLoop_spec (mem : List Nat) (lim : Nat) (cond : Nat → Bool) :
    ∀ (fuel src : Nat), lim - src ≤ fuel →
      src ≤ scanWhileLoop mem lim cond fuel src ∧
      (src ≤ lim → scanWhileLoop mem lim cond fuel src ≤ lim) ∧
      (∀ k, src ≤ k → k < scanWhileLoop mem lim cond fuel src →
        k < lim ∧ cond (mem.getD k 0) = true) ∧
      (scanWhileLoop mem lim cond fuel src < lim →
        cond (mem.getD (scanWhileLoop mem lim cond fuel src) 0) = false) := by
  intro fuel
  induction fuel with
  | zero =>
    intro src hf
    simp only [scanWhileLoop]
    refine ⟨le_refl _, fun h => h, fun k h1 h2 => by omega, fun h => by omega⟩
  | succ n ih =>
    intro src hf
    simp only [scanWhileLoop]
    by_cases hc : src < lim ∧ cond (mem.getD src 0) = true
    · rw [if_pos hc]
      obtain ⟨a, b, c, d⟩ := ih (src + 1) (by omega)
      refine ⟨by omega, fun _ => b (by omega), ?_, d⟩
      intro k h1 h2
      by_cases hk : k = src
      · subst hk; exact hc
      · exact c k (by omega) h2
    · rw [if_neg hc]
      refine ⟨le_refl _, fun h => h, fun k h1 h2 => by omega, fun h => ?_⟩
      by_contra hne
      exact hc ⟨h, by simpa using hne⟩

theorem scanWhile_ge (mem : List Nat) (lim : Nat) (cond : Nat → Bool) (src : Nat) :
    src ≤ scanWhile mem lim cond src :=
  (scanWhileLoop_spec mem lim cond (lim - src) src (le_refl _)).1

theorem scanWhile_le (mem : List Nat) (lim : Nat) (cond : Nat → Bool) (src : Nat)
    (h : src ≤ lim) : scanWhile mem lim cond src ≤ lim :=
  (scanWhileLoop_spec mem lim cond (lim - src) src (le_refl _)).2.1 h

theorem scanWhile_cond (mem : List Nat) (lim : Nat) (cond : Nat → Bool) (src k : Nat)
    (h1 : src ≤ k) (h2 : k < scanWhile mem lim cond src) :
    k < lim ∧ cond (mem.getD k 0) = true :=
  (scanWhileLoop_spec mem lim cond (lim - src) src (le_refl _)).2.2.1 k h1 h2

theorem scanWhile_stop (mem : List Nat) (lim : Nat) (cond : Nat → Bool) (src : Nat)
    (h : scanWhile mem lim cond src < lim) :
    cond (mem.getD (scanWhile mem lim cond src) 0) = false :=
  (scanWhileLoop_spec mem lim cond (lim - src) src (le_refl _)).2.2.2 h

/-- The scan ends at `r` when every byte of `[src, r)` passes the test and the byte at `r`
fails it or lies at the limit. -/
theorem scanWhile_eq (mem : List Nat) (lim : Nat) (cond : Nat → Bool) (src r : Nat)
    (h1 : src ≤ r) (h2 : ∀ k, src ≤ k → k < r → k < lim ∧ cond (mem.getD k 0) = true)
    (h3 : r < lim → cond (mem.getD r 0) = false) :
    scanWhile mem lim cond src = r := by
  have a := scanWhile_ge mem lim cond src
  have c := scanWhile_cond mem lim cond src
  have d := scanWhile_stop mem lim cond src
  rcases Nat.lt_trichotomy (scanWhile mem lim cond src) r with hlt | heq | hgt
  · have hr := h2 _ a hlt
    have := d hr.1
    rw [hr.2] at this
    exact absurd this (by simp)
  · exact heq
  · have hr := c r h1 hgt
    have := h3 hr.1
    rw [hr.2] at this
    exact absurd this (by simp)

/-- A scan that starts at or past the limit does not move. -/
theorem scanWhile_of_ge (mem : List Nat) (lim : Nat) (cond : Nat → Bool) (src : Nat)
    (h : lim ≤ src) : scanWhile mem lim cond src = src :=
  scanWhile_eq mem lim cond src src (le_refl _) (fun k a b => by omega) (fun a => by omega)

/-! ## Reading bytes of a concatenation -/

theorem getD_append_left (pre l : List Nat) (k : Nat) (h : k < pre.length) :
    (pre ++ l).getD k 0 = pre.getD k 0 :=
  List.getD_append pre l 0 k h

theorem getD_append_add (pre l : List Nat) (k : Nat) :
    (pre ++ l).getD (pre.length + k) 0 = l.getD k 0 := by
  rw [List.getD_append_right pre l 0 (pre.length + k) (by omega)]
  congr 1
  omega

/-! ## findHeader -/

theorem findHeaderLoop_spec (buf : List Nat) (dst : Nat) :
    ∀ (fuel src : Nat), dst < fuel + src →
      (∀ j, j < src → ¬ IsTerminatorAt buf dst j) →
      (∃ i, IsTerminatorAt buf dst i ∧ (∀ j, j < i → ¬ IsTerminatorAt buf dst j) ∧
        findHeaderLoop buf dst fuel src =
          (true, if buf.getD (i + 1) 0 = cCR then i + 3 else i + 2)) ∨
      ((∀ j, ¬ IsTerminatorAt buf dst j) ∧ findHeaderLoop buf dst fuel src = (false, dst)) := by
  intro fuel
  induction fuel with
  | zero =>
    intro src hf hpre
    right
    refine ⟨fun j hj => hpre j (by have := hj.1; omega) hj, rfl⟩
  | succ n ih =>
    intro src hf hpre
    have hge := scanWhile_ge buf dst (fun c => c != cLF) src
    have hcond := scanWhile_cond buf dst (fun c => c != cLF) src
    have hstop := scanWhile_stop buf dst (fun c => c != cLF) src
    simp only [findHeaderLoop]
    generalize scanWhile buf dst (fun c => c != cLF) src = s at hge hcond hstop
    have hpre2 : ∀ j, j < s → ¬ IsTerminatorAt buf dst j := by
      intro j hj ht
      by_cases hjs : j < src
      · exact hpre j hjs ht
      · have := (hcond j (by omega) hj).2
        rw [ht.2.1] at this
        exact absurd this (by decide)
    by_cases h1 : s ≥ dst
    · rw [if_pos h1]
      right
      refine ⟨fun j hj => hpre2 j (by have := hj.1; omega) hj, rfl⟩
    · rw [if_neg h1]
      have hlf : buf.getD s 0 = cLF := by
        have := hstop (by omega)
        simpa only [bne_eq_false_iff_eq] using this
      by_cases h2 : dst - s ≥ 3 ∧ buf.getD (s + 1) 0 = cCR ∧ buf.getD (s + 2) 0 = cLF
      · rw [if_pos h2]
        left
        refine ⟨s, ⟨by omega, hlf, Or.inr ⟨by omega, h2.2.1, h2.2.2⟩⟩, hpre2, ?_⟩
        rw [if_pos h2.2.1]
      · rw [if_neg h2]
        by_cases h3 : dst - s ≥ 2 ∧ buf.getD (s + 1) 0 = cLF
        · rw [if_pos h3]
          left
          refine ⟨s, ⟨by omega, hlf, Or.inl ⟨by omega, h3.2⟩⟩, hpre2, ?_⟩
          rw [if_neg (by rw [h3.2]; decide)]
        · rw [if_neg h3]
          have hns : ¬ IsTerminatorAt buf dst s := by
            rintro ⟨_, _, ⟨a, b⟩ | ⟨a, b, c⟩⟩
            · exact h3 ⟨by omega, b⟩
            · exact h2 ⟨by omega, b, c⟩
          by_cases h4 : dst - s ≤ 1
          · rw [if_pos h4]
            right
            refine ⟨fun j hj => ?_, rfl⟩
            by_cases hjs : j < s
            · exact hpre2 j hjs hj
            · have := hj.1
              have : j = s := by omega
              subst this
              exact hns hj
          · rw [if_neg h4]
            apply ih (s + 1) (by omega)
            intro j hj
            by_cases hjs : j < s
            · exact hpre2 j hjs
            · have : j = s := by omega
              subst this
              exact hns

/-- When the buffer is not in the interleaved case, `findHeader` is decided by the blank-line
terminators of the buffer. -/
theorem findHeader_cases (h : HTTPHeader) (hni : h.len < 4 ∨ h.buf.getD 0 0 ≠ cDollar) :
    (∃ i, IsTerminatorAt h.buf h.len i ∧ (∀ j, j < i → ¬ IsTerminatorAt h.buf h.len j) ∧
        findHeader h = (true, if h.buf.getD (i + 1) 0 = cCR then i + 3 else i + 2)) ∨
    ((∀ j, ¬ IsTerminatorAt h.buf h.len j) ∧ findHeader h = (false, h.len)) := by
  have hc : ¬ (h.len ≥ 4 ∧ h.buf.getD 0 0 = cDollar) := by
    rintro ⟨a, b⟩
    rcases hni with c | c
    · omega
    · exact c b
  have := findHeaderLoop_spec h.buf h.len (h.len + 1) 0 (by omega) (fun j hj => by omega)
  simpa only [findHeader, if_neg hc] using this

/-- The first terminator decides the result of `findHeader`. -/
theorem findHeader_of_first (h : HTTPHeader) (hni : h.len < 4 ∨ h.buf.getD 0 0 ≠ cDollar)
    (i : Nat) (hi : IsTerminatorAt h.buf h.len i)
    (hmin : ∀ j, j < i → ¬ IsTerminatorAt h.buf h.len j) :
    findHeader h = (true, if h.buf.getD (i + 1) 0 = cCR then i + 3 else i + 2) := by
  rcases findHeader_cases h hni with ⟨k, hk, hkmin, hres⟩ | ⟨hnone, _⟩
  · have : k = i := by
      rcases Nat.lt_trichotomy k i with a | a | a
      · exact absurd hk (hmin k a)
      · exact a
      · exact absurd hi (hkmin i a)
    subst this
    exact hres
  · exact absurd hi (hnone i)

/-- A terminator of the valid bytes is still one, at the same place, in a buffer that has
the same valid bytes and more. -/
theorem IsTerminatorAt_extend (a b : List Nat) (n m i : Nat) (hnm : n ≤ m)
    (hagree : ∀ k, k < n → b.getD k 0 = a.getD k 0) (hi : IsTerminatorAt a n i) :
    IsTerminatorAt b m i := by
  obtain ⟨h0, h1, h2⟩ := hi
  refine ⟨by omega, ?_, ?_⟩
  · rw [hagree i h0]; exact h1
  · rcases h2 with ⟨c, d⟩ | ⟨c, d, e⟩
    · left
      exact ⟨by omega, by rw [hagree _ c]; exact d⟩
    · right
      exact ⟨by omega, by rw [hagree _ (by omega)]; exact d, by rw [hagree _ c]; exact e⟩

/-- More valid bytes create no terminator that lies wholly before an index already inside
the valid bytes. -/
theorem IsTerminatorAt_restrict (a b : List Nat) (n m i j : Nat)
    (hagree : ∀ k, k < n → b.getD k 0 = a.getD k 0) (hi : i + 1 < n) (hj : j < i)
    (h : IsTerminatorAt b m j) : IsTerminatorAt a n j := by
  obtain ⟨_, h1, h2⟩ := h
  refine ⟨by omega, ?_, ?_⟩
  · rw [← hagree j (by omega)]; exact h1
  · rcases h2 with ⟨_, d⟩ | ⟨_, d, e⟩
    · left
      exact ⟨by omega, by rw [← hagree _ (by omega)]; exact d⟩
    · right
      exact ⟨by omega, by rw [← hagree _ (by omega)]; exact d,
        by rw [← hagree _ (by omega)]; exact e⟩

/-- C1: outside the interleaved case (`len < 4` or first byte not `'$'`), `findHeader` reports
found exactly when the buffer has a blank-line terminator (an LF followed inside the buffer by
LF, or by CR LF); the end offset it returns belongs to the first terminator, at index `i`,
and is `i + 3` for LF CR LF and `i + 2` for LF LF.  Hence a header whose first terminator is
CRLFCRLF, LFLF or CRLFLF gives the offset just past that terminator, and a buffer without
terminator (for example one without any LF, such as one that ends in CR CR) is reported not
found, with the end offset left at the valid length. -/
theorem findHeader_first_blank_line (h : HTTPHeader)
    (hni : h.len < 4 ∨ h.buf.getD 0 0 ≠ cDollar) :
    ((findHeader h).1 = true ↔ ∃ i, IsTerminatorAt h.buf h.len i) ∧
    (∀ i, IsTerminatorAt h.buf h.len i → (∀ j, j < i → ¬ IsTerminatorAt h.buf h.len j) →
      (findHeader h).1 = true ∧
      (h.buf.getD (i + 1) 0 = cCR → (findHeader h).2 = i + 3) ∧
      (h.buf.getD (i + 1) 0 = cLF → (findHeader h).2 = i + 2)) ∧
    (∀ pre rest, h.buf = pre ++ ([cCR, cLF, cCR, cLF] ++ rest) → pre.length + 4 ≤ h.len →
      (∀ j, j < pre.length + 1 → ¬ IsTerminatorAt h.buf h.len j) →
      findHeader h = (true, pre.length + 4)) ∧
    (∀ pre rest, h.buf = pre ++ ([cLF, cLF] ++ rest) → pre.length + 2 ≤ h.len →
      (∀ j, j < pre.length → ¬ IsTerminatorAt h.buf h.len j) →
      findHeader h = (true, pre.length + 2)) ∧
    (∀ pre rest, h.buf = pre ++ ([cCR, cLF, cLF] ++ rest) → pre.length + 3 ≤ h.len →
      (∀ j, j < pre.length + 1 → ¬ IsTerminatorAt h.buf h.len j) →
      findHeader h = (true, pre.length + 3)) ∧
    ((∀ i, i < h.len → h.buf.getD i 0 ≠ cLF) → findHeader h = (false, h.len)) ∧
    ((∀ i, ¬ IsTerminatorAt h.buf h.len i) → findHeader h = (false, h.len)) := by
  have hnone : (∀ i, ¬ IsTerminatorAt h.buf h.len i) → findHeader h = (false, h.len) := by
    intro hn
    rcases findHeader_cases h hni with ⟨k, hk, _, _⟩ | ⟨_, hres⟩
    · exact absurd hk (hn k)
    · exact hres
  refine ⟨?_, ?_, ?_, ?_, ?_, ?_, hnone⟩
  · constructor
    · intro hf
      rcases findHeader_cases h hni with ⟨k, hk, _, _⟩ | ⟨_, hres⟩
      · exact ⟨k, hk⟩
      · rw [hres] at hf; exact absurd hf (by simp)
    · rintro ⟨i, hi⟩
      rcases findHeader_cases h hni with ⟨k, _, _, hres⟩ | ⟨hn, _⟩
      · rw [hres]
      · exact absurd hi (hn i)
  · intro i hi hmin
    have hres := findHeader_of_first h hni i hi hmin
    refine ⟨by rw [hres], fun hcr => by rw [hres, if_pos hcr], fun hlf => ?_⟩
    rw [hres, if_neg (by rw [hlf]; decide)]
  · intro pre rest hb hl hmin
    have g : ∀ k, h.buf.getD (pre.length + k) 0 = ([cCR, cLF, cCR, cLF] ++ rest).getD k 0 :=
      fun k => by rw [hb]; exact getD_append_add pre _ k
    have hres := findHeader_of_first h hni (pre.length + 1)
      ⟨by omega, by rw [g 1]; rfl, Or.inr ⟨by omega, by rw [g 2]; rfl, by rw [g 3]; rfl⟩⟩ hmin
    rw [hres, if_pos (by rw [g 2]; rfl)]
  · intro pre rest hb hl hmin
    have g : ∀ k, h.buf.getD (pre.length + k) 0 = ([cLF, cLF] ++ rest).getD k 0 :=
      fun k => by rw [hb]; exact getD_append_add pre _ k
    have hres := findHeader_of_first h hni (pre.length + 0)
      ⟨by omega, by rw [g 0]; rfl, Or.inl ⟨by omega, by rw [g 1]; rfl⟩⟩ hmin
    rw [hres, if_neg (by rw [g 1]; show cLF ≠ cCR; decide)]
  · intro pre rest hb hl hmin
    have g : ∀ k, h.buf.getD (pre.length + k) 0 = ([cCR, cLF, cLF] ++ rest).getD k 0 :=
      fun k => by rw [hb]; exact getD_append_add pre _ k
    have hres := findHeader_of_first h hni (pre.length + 1)
      ⟨by omega, by rw [g 1]; rfl, Or.inl ⟨by omega, by rw [g 2]; rfl⟩⟩ hmin
    rw [hres, if_neg (by rw [g 2]; show cLF ≠ cCR; decide)]
  · intro hn
    exact hnone (fun i hi => hn i hi.1 hi.2.1)

/-- Witness for C1: the 18-byte header `"GET / HTTP/1.1\r\n\r\n"` is not in the interleaved
case, its first terminator is the LF at offset 15, followed by CR LF, and `findHeader` returns
offset 18, just past the CRLFCRLF. -/
theorem findHeader_first_blank_line_witness :
    ((headerOf samplePlatform sampleRequest).len < 4 ∨
      (headerOf samplePlatform sampleRequest).buf.getD 0 0 ≠ cDollar) ∧
    findHeader (headerOf samplePlatform sampleRequest) = (true, 18) :=
  ⟨by decide,
   (findHeader_first_blank_line (headerOf samplePlatform sampleRequest) (by decide)).2.2.1
      [71, 69, 84, 32, 47, 32, 72, 84, 84, 80, 47, 49, 46, 49] [] rfl (by decide) (by decide)⟩

/-- C2 as stated fails: on the 3-byte buffer `"$\n\n"` `findHeader` reports the header end at
offset 3, and after the byte `'x'` is appended the buffer is a 4-byte interleaved marker and
`findHeader` reports offset 4. -/
theorem findHeader_append_changes_offset :
    findHeader (headerOf samplePlatform [36, 10, 10]) = (true, 3) ∧
    findHeader (headerOf samplePlatform ([36, 10, 10] ++ [120])) = (true, 4) := by
  constructor <;> decide

/-- C2, amended: if `findHeader` reports a header end at offset `e` on a buffer whose valid
bytes number at least 4 or do not start with `'$'`, then it reports found with the same offset
`e` once more bytes are appended: on every record whose valid bytes start with the valid
bytes of the first one (as for `b` followed by `x`). -/
theorem findHeader_append_stable (h g : HTTPHeader) (e : Nat)
    (hle : h.len ≤ g.len) (hagree : ∀ k, k < h.len → g.buf.getD k 0 = h.buf.getD k 0)
    (hd : 4 ≤ h.len ∨ h.buf.getD 0 0 ≠ cDollar)
    (hfound : findHeader h = (true, e)) :
    findHeader g = (true, e) := by
  by_cases hi : h.len ≥ 4 ∧ h.buf.getD 0 0 = cDollar
  · have he : findHeader h = (true, 4) := by simp only [findHeader, if_pos hi]
    have hgi : g.len ≥ 4 ∧ g.buf.getD 0 0 = cDollar :=
      ⟨by omega, by rw [hagree 0 (by omega)]; exact hi.2⟩
    rw [he] at hfound
    rw [← hfound]
    simp only [findHeader, if_pos hgi]
  · have hnd : h.buf.getD 0 0 ≠ cDollar := by
      rcases hd with a | a
      · exact fun c => hi ⟨a, c⟩
      · exact a
    rcases findHeader_cases h (Or.inr hnd) with ⟨i, hterm, hmin, hres⟩ | ⟨_, hres⟩
    · have hi1 : i + 1 < h.len := by
        obtain ⟨_, _, ⟨a, _⟩ | ⟨a, _⟩⟩ := hterm <;> omega
      have hgd : g.buf.getD 0 0 ≠ cDollar := by
        rw [hagree 0 (by omega)]
        exact hnd
      have hgterm := IsTerminatorAt_extend h.buf g.buf h.len g.len i hle hagree hterm
      have hgmin : ∀ j, j < i → ¬ IsTerminatorAt g.buf g.len j := fun j hj hc =>
        hmin j hj (IsTerminatorAt_restrict h.buf g.buf h.len g.len i j hagree hi1 hj hc)
      have hgres := findHeader_of_first g (Or.inr hgd) i hgterm hgmin
      rw [hgres, hagree _ hi1, ← hres, hfound]
    · rw [hres] at hfound
      exact absurd (congrArg Prod.fst hfound) (by simp)

/-- Witness for C2, amended: `"a\n\n"` has its header end at offset 3, and so has
`"a\n\nx"`. -/
theorem findHeader_append_stable_witness :
    findHeader (headerOf samplePlatform ([97, 10, 10] ++ [120])) = (true, 3) :=
  findHeader_append_stable (headerOf samplePlatform [97, 10, 10])
    (headerOf samplePlatform ([97, 10, 10] ++ [120])) 3 (by decide) (by decide)
    (Or.inr (by decide)) (by decide)

/-! ## Reading the header through its valid prefix -/

theorem getD_of_take (mem : List Nat) (lim k : Nat) (h : k < lim) :
    mem.getD k 0 = (mem.take lim).getD k 0 := by
  rw [List.getD_eq_getElem?_getD, List.getD_eq_getElem?_getD, List.getElem?_take_of_lt h]

theorem getD_mem_of_lt (l : List Nat) (k : Nat) (h : k < l.length) : l.getD k 0 ∈ l := by
  rw [List.getD_eq_getElem l 0 h]
  exact List.getElem_mem h

/-- The bytes of a segment of the valid prefix, read through the buffer. -/
theorem getD_seg (mem : List Nat) (lim : Nat) (pre seg post : List Nat)
    (hmem : mem.take lim = pre ++ (seg ++ post)) (hlim : lim ≤ mem.length) (k : Nat)
    (hk : k < seg.length) :
    pre.length + k < lim ∧ mem.getD (pre.length + k) 0 = seg.getD k 0 := by
  have hl : lim = pre.length + (seg.length + post.length) := by
    have := congrArg List.length hmem
    simp only [List.length_take, List.length_append] at this
    omega
  refine ⟨by omega, ?_⟩
  rw [getD_of_take mem lim _ (by omega), hmem, getD_append_add, getD_append_left _ _ _ hk]

/-- The bytes of a segment of the valid prefix, as a span of the buffer. -/
theorem bytesAt_seg (mem : List Nat) (lim : Nat) (pre seg post : List Nat)
    (hmem : mem.take lim = pre ++ (seg ++ post)) :
    bytesAt mem pre.length seg.length = seg := by
  have h1 : mem = pre ++ (seg ++ (post ++ mem.drop lim)) := by
    conv_lhs => rw [← List.take_append_drop lim mem, hmem]
    simp only [List.append_assoc]
  unfold bytesAt
  rw [h1, List.drop_left, List.take_left]

/-- A scan that starts at a segment of bytes that all pass the test, followed by a byte
that fails it or by the end of the header, stops at the end of the segment. -/
theorem scanWhile_seg (mem : List Nat) (lim : Nat) (cond : Nat → Bool)
    (pre seg post : List Nat) (hmem : mem.take lim = pre ++ (seg ++ post))
    (hlim : lim ≤ mem.length) (hseg : ∀ c, c ∈ seg → cond c = true)
    (hpost : 0 < post.length → cond (post.getD 0 0) = false) :
    scanWhile mem lim cond pre.length = pre.length + seg.length := by
  have hl : lim = pre.length + (seg.length + post.length) := by
    have := congrArg List.length hmem
    simp only [List.length_take, List.length_append] at this
    omega
  apply scanWhile_eq
  · omega
  · intro k h1 h2
    obtain ⟨a, b⟩ := getD_seg mem lim pre seg post hmem hlim (k - pre.length) (by omega)
    have hk : pre.length + (k - pre.length) = k := by omega
    rw [hk] at a b
    refine ⟨a, ?_⟩
    rw [b]
    exact hseg _ (getD_mem_of_lt seg _ (by omega))
  · intro hr
    have hp : 0 < post.length := by omega
    have : mem.getD (pre.length + seg.length) 0 = post.getD 0 0 := by
      rw [getD_of_take mem lim _ hr, hmem, getD_append_add]
      have := getD_append_add seg post 0
      simpa only [Nat.add_zero] using this
    rw [this]
    exact hpost hp

/-- The result of a `for` loop that keeps the last byte in `c`: the final pointer is that
of the plain scan, and when it is inside the header `c` is the byte at it. -/
theorem scanWhileC_spec (mem : List Nat) (lim : Nat) (cond : Nat → Bool) :
    ∀ (fuel ptr c : Nat), lim - ptr ≤ fuel →
      (scanWhileC mem lim cond fuel ptr c).1 = scanWhile mem lim cond ptr ∧
      ((scanWhileC mem lim cond fuel ptr c).1 < lim →
        (scanWhileC mem lim cond fuel ptr c).2 = mem.getD (scanWhileC mem lim cond fuel ptr c).1 0)
    := by
  intro fuel
  induction fuel with
  | zero =>
    intro ptr c hf
    simp only [scanWhileC]
    exact ⟨(scanWhile_of_ge mem lim cond ptr (by omega)).symm, fun h => by omega⟩
  | succ n ih =>
    intro ptr c hf
    simp only [scanWhileC]
    by_cases h1 : ptr < lim
    · rw [if_pos h1]
      by_cases h2 : cond (mem.getD ptr 0) = true
      · rw [if_pos h2]
        obtain ⟨a, b⟩ := ih (ptr + 1) (mem.getD ptr 0) (by omega)
        refine ⟨?_, b⟩
        rw [a]
        symm
        apply scanWhile_eq
        · have := scanWhile_ge mem lim cond (ptr + 1); omega
        · intro k hk1 hk2
          by_cases hk : k = ptr
          · subst hk; exact ⟨h1, h2⟩
          · exact scanWhile_cond mem lim cond (ptr + 1) k (by omega) hk2
        · exact scanWhile_stop mem lim cond (ptr + 1)
      · rw [if_neg h2]
        refine ⟨?_, fun _ => rfl⟩
        symm
        apply scanWhile_eq _ _ _ _ _ (le_refl _) (fun k a b => by omega)
        intro _
        simpa using h2
    · rw [if_neg h1]
      exact ⟨(scanWhile_of_ge mem lim cond ptr (by omega)).symm, fun h => absurd h h1⟩

/-! ## HTTPHeaderParse: the field lookups leave the start line alone -/

theorem headerParsePersistent_same (P : Platform) (h : HTTPHeader) :
    SameStartLine (headerParsePersistent P h) h := by
  unfold headerParsePersistent SameStartLine
  split <;> simp

theorem headerParseChunked_same (P : Platform) (h : HTTPHeader) :
    SameStartLine (headerParseChunked P h) h ∧
    (headerParseChunked P h).persistent = h.persistent := by
  unfold headerParseChunked SameStartLine
  split <;> simp

theorem headerParseContentLength_same (P : Platform) (h : HTTPHeader) :
    SameStartLine (headerParseContentLength P h) h ∧
    (headerParseContentLength P h).persistent = h.persistent := by
  unfold headerParseContentLength SameStartLine
  split <;> simp

theorem SameStartLine.trans {a b c : HTTPHeader} (h1 : SameStartLine a b)
    (h2 : SameStartLine b c) : SameStartLine a c := by
  unfold SameStartLine at *
  obtain ⟨a1, a2, a3, a4, a5, a6, a7, a8, a9, a10, a11, a12, a13⟩ := h1
  obtain ⟨b1, b2, b3, b4, b5, b6, b7, b8, b9, b10, b11, b12, b13⟩ := h2
  exact ⟨a1.trans b1, a2.trans b2, a3.trans b3, a4.trans b4, a5.trans b5, a6.trans b6,
    a7.trans b7, a8.trans b8, a9.trans b9, a10.trans b10, a11.trans b11, a12.trans b12,
    a13.trans b13⟩

/-- When a byte follows the start line, the end of `HTTPHeaderParse` returns `kNoErr`, keeps
the start-line fields, and leaves in `persistent` what the `"Connection"` lookup decided. -/
theorem headerParseFields_ok (P : Platform) (h : HTTPHeader) (ptr : Nat) (hp : ptr < h.len) :
    (headerParseFields P h ptr).1 = kNoErr ∧
    SameStartLine (headerParseFields P h ptr).2 h ∧
    (headerParseFields P h ptr).2.persistent = (headerParsePersistent P h).persistent := by
  unfold headerParseFields
  rw [if_neg (not_not.2 hp)]
  refine ⟨rfl, ?_, ?_⟩
  · exact ((headerParseContentLength_same P _).1.trans (headerParseChunked_same P _).1).trans
      (headerParsePersistent_same P h)
  · exact ((headerParseContentLength_same P _).2).trans (headerParseChunked_same P _).2

theorem headerParseFields_malformed (P : Platform) (h : HTTPHeader) (ptr : Nat)
    (hp : ¬ ptr < h.len) : headerParseFields P h ptr = (kMalformedErr, h) := by
  unfold headerParseFields
  rw [if_pos hp]

/-! ## HTTPHeaderParse: the request start line -/

theorem headerParseRequest_eq (P : Platform) (h : HTTPHeader) (M U Pr rest : List Nat)
    (t b : Nat)
    (hhdr : h.buf.take h.len = M ++ (cSP :: (U ++ (cSP :: (Pr ++ (t :: b :: rest))))))
    (hvalid : h.len ≤ h.buf.length)
    (hU : ∀ c, c ∈ U → c ≠ cSP)
    (hurl : (P.URLParseComponents h.buf (M.length + 1) (M.length + 1 + U.length)).1 = kNoErr)
    (hPr : ∀ c, c ∈ Pr → c ≠ cCR ∧ c ≠ cLF)
    (ht : t = cCR ∨ t = cLF) :
    headerParseRequest P h M.length =
      headerParseFields P
        { h with
          methodPtr := CharPtr.inBuf 0, methodLen := M.length,
          urlPtr := CharPtr.inBuf (M.length + 1), urlLen := U.length,
          url := (P.URLParseComponents h.buf (M.length + 1) (M.length + 1 + U.length)).2,
          protocolPtr := CharPtr.inBuf (M.length + 1 + U.length + 1),
          protocolLen := Pr.length }
        (M.length + 1 + U.length + 1 + Pr.length + 1) := by
  have hl : h.len = M.length + (1 + (U.length + (1 + (Pr.length + (2 + rest.length))))) := by
    have := congrArg List.length hhdr
    simp only [List.length_take, List.length_append, List.length_cons] at this
    omega
  have s1 : scanWhile h.buf h.len (fun c => c != cSP) (M.length + 1) = M.length + 1 + U.length := by
    have := scanWhile_seg h.buf h.len (fun c => c != cSP) (M ++ [cSP]) U
      (cSP :: (Pr ++ (t :: b :: rest))) (by rw [hhdr]; simp) hvalid
      (fun c hc => by simpa using hU c hc) (fun _ => by simp)
    have e : (M ++ [cSP]).length = M.length + 1 := by simp
    rw [e] at this
    exact this
  have s2 : scanWhile h.buf h.len notEOL (M.length + 1 + U.length + 1) =
      M.length + 1 + U.length + 1 + Pr.length := by
    have := scanWhile_seg h.buf h.len notEOL (M ++ (cSP :: (U ++ [cSP]))) Pr
      (t :: b :: rest) (by rw [hhdr]; simp) hvalid
      (fun c hc => by simpa [notEOL] using hPr c hc)
      (fun _ => by rcases ht with rfl | rfl <;> simp [notEOL])
    have e : (M ++ (cSP :: (U ++ [cSP]))).length = M.length + 1 + U.length + 1 := by
      simp only [List.length_append, List.length_cons, List.length_nil]; omega
    rw [e] at this
    exact this
  have e1 : M.length + 1 + U.length - (M.length + 1) = U.length := by omega
  have e2 : M.length + 1 + U.length + 1 + Pr.length - (M.length + 1 + U.length + 1) = Pr.length := by
    omega
  simp only [headerParseRequest, s1, s2, e1, e2]
  rw [if_neg (by omega), if_neg (not_not.2 hurl), if_neg (by omega)]

theorem headerParseReset_buf (h : HTTPHeader) : (headerParseReset h).buf = h.buf := rfl

theorem headerParseReset_len (h : HTTPHeader) : (headerParseReset h).len = h.len := rfl

/-- The first loop of the start-line parser stops at the first space or slash. -/
theorem firstDelimiter_seg (mem : List Nat) (lim : Nat) (seg post : List Nat) (d : Nat)
    (hmem : mem.take lim = seg ++ (d :: post)) (hlim : lim ≤ mem.length)
    (hseg : ∀ c, c ∈ seg → c ≠ cSP ∧ c ≠ cSlash) (hd : d = cSP ∨ d = cSlash) :
    scanWhileC mem lim (fun c => c != cSP && c != cSlash) lim 0 0 = (seg.length, d) := by
  obtain ⟨a, b⟩ := scanWhileC_spec mem lim (fun c => c != cSP && c != cSlash) lim 0 0 (by omega)
  have hl : lim = seg.length + (1 + post.length) := by
    have := congrArg List.length hmem
    simp only [List.length_take, List.length_append, List.length_cons] at this
    omega
  have s0 : scanWhile mem lim (fun c => c != cSP && c != cSlash) 0 = seg.length := by
    have := scanWhile_seg mem lim (fun c => c != cSP && c != cSlash) [] seg (d :: post)
      (by rw [hmem]; rfl) hlim (fun c hc => by simpa using hseg c hc)
      (fun _ => by rcases hd with rfl | rfl <;> simp)
    simpa using this
  rw [s0] at a
  have hb := b (by rw [a]; omega)
  rw [a] at hb
  have hg : mem.getD seg.length 0 = d := by
    have := (getD_seg mem lim seg [d] post (by rw [hmem]; rfl) hlim 0 (by simp)).2
    simpa using this
  rw [hg] at hb
  exact Prod.ext a hb

/-- The request branch succeeds on a well-formed request line and fills the method, URL
and protocol spans. -/
theorem headerParseRequest_ok (P : Platform) (h : HTTPHeader) (M U Pr rest : List Nat)
    (t b : Nat)
    (hhdr : h.buf.take h.len = M ++ (cSP :: (U ++ (cSP :: (Pr ++ (t :: b :: rest))))))
    (hvalid : h.len ≤ h.buf.length)
    (hU : ∀ c, c ∈ U → c ≠ cSP)
    (hurl : (P.URLParseComponents h.buf (M.length + 1) (M.length + 1 + U.length)).1 = kNoErr)
    (hPr : ∀ c, c ∈ Pr → c ≠ cCR ∧ c ≠ cLF)
    (ht : t = cCR ∨ t = cLF) :
    (headerParseRequest P h M.length).1 = kNoErr ∧
    SameStartLine (headerParseRequest P h M.length).2
      { h with
        methodPtr := CharPtr.inBuf 0, methodLen := M.length,
        urlPtr := CharPtr.inBuf (M.length + 1), urlLen := U.length,
        url := (P.URLParseComponents h.buf (M.length + 1) (M.length + 1 + U.length)).2,
        protocolPtr := CharPtr.inBuf (M.length + 1 + U.length + 1),
        protocolLen := Pr.length } := by
  have hl : h.len = M.length + (1 + (U.length + (1 + (Pr.length + (2 + rest.length))))) := by
    have := congrArg List.length hhdr
    simp only [List.length_take, List.length_append, List.length_cons] at this
    omega
  rw [headerParseRequest_eq P h M U Pr rest t b hhdr hvalid hU hurl hPr ht]
  have := headerParseFields_ok P
    { h with
      methodPtr := CharPtr.inBuf 0, methodLen := M.length,
      urlPtr := CharPtr.inBuf (M.length + 1), urlLen := U.length,
      url := (P.URLParseComponents h.buf (M.length + 1) (M.length + 1 + U.length)).2,
      protocolPtr := CharPtr.inBuf (M.length + 1 + U.length + 1),
      protocolLen := Pr.length }
    (M.length + 1 + U.length + 1 + Pr.length + 1) (by show _ < h.len; omega)
  exact ⟨this.1, this.2.1⟩

/-- C3: a header (shorter than the header buffer's capacity) that begins with
`M ' ' U ' ' P`, then CR or LF, then at least one more byte, where `M` has no space or slash,
`U` has no space and is accepted by the URL component parser, and `P` has no CR or LF, is
parsed with success, and the method, URL and protocol spans are `(0, |M|)`, `(|M| + 1, |U|)` and
`(|M| + |U| + 2, |P|)`: they are exactly the substrings `M`, `U` and `P` of the buffer. -/
theorem HTTPHeaderParse_request (P : Platform) (h : HTTPHeader) (M U Pr rest : List Nat)
    (t b : Nat)
    (hcap : h.len < P.bufSize) (hvalid : h.len ≤ h.buf.length)
    (hhdr : h.buf.take h.len = M ++ (cSP :: (U ++ (cSP :: (Pr ++ (t :: b :: rest))))))
    (hM : ∀ c, c ∈ M → c ≠ cSP ∧ c ≠ cSlash)
    (hU : ∀ c, c ∈ U → c ≠ cSP)
    (hurl : (P.URLParseComponents h.buf (M.length + 1) (M.length + 1 + U.length)).1 = kNoErr)
    (hPr : ∀ c, c ∈ Pr → c ≠ cCR ∧ c ≠ cLF)
    (ht : t = cCR ∨ t = cLF) :
    (HTTPHeaderParse P h).1 = kNoErr ∧
    (HTTPHeaderParse P h).2.methodPtr = CharPtr.inBuf 0 ∧
    (HTTPHeaderParse P h).2.methodLen = M.length ∧
    (HTTPHeaderParse P h).2.urlPtr = CharPtr.inBuf (M.length + 1) ∧
    (HTTPHeaderParse P h).2.urlLen = U.length ∧
    (HTTPHeaderParse P h).2.protocolPtr = CharPtr.inBuf (M.length + U.length + 2) ∧
    (HTTPHeaderParse P h).2.protocolLen = Pr.length ∧
    spanBytes (HTTPHeaderParse P h).2.buf (HTTPHeaderParse P h).2.methodPtr
      (HTTPHeaderParse P h).2.methodLen = M ∧
    spanBytes (HTTPHeaderParse P h).2.buf (HTTPHeaderParse P h).2.urlPtr
      (HTTPHeaderParse P h).2.urlLen = U ∧
    spanBytes (HTTPHeaderParse P h).2.buf (HTTPHeaderParse P h).2.protocolPtr
      (HTTPHeaderParse P h).2.protocolLen = Pr := by
  have hl : h.len = M.length + (1 + (U.length + (1 + (Pr.length + (2 + rest.length))))) := by
    have := congrArg List.length hhdr
    simp only [List.length_take, List.length_append, List.length_cons] at this
    omega
  have hnd : ¬ ((headerParseReset h).len = 4 ∧ (headerParseReset h).buf.getD 0 0 = cDollar) := by
    rintro ⟨a, c⟩
    rw [headerParseReset_len] at a
    rw [headerParseReset_buf] at c
    have hM0 : M = [] := List.length_eq_zero.1 (by omega)
    subst hM0
    have := (getD_seg h.buf h.len [] [cSP] _ hhdr hvalid 0 (by simp)).2
    rw [show ([] : List Nat).length + 0 = 0 from rfl, c] at this
    exact absurd this (by decide)
  have hfirst := firstDelimiter_seg h.buf h.len M _ cSP hhdr hvalid hM (Or.inl rfl)
  have hreq := headerParseRequest_ok P (headerParseReset h) M U Pr rest t b hhdr hvalid hU hurl
    hPr ht
  have hparse : HTTPHeaderParse P h = headerParseRequest P (headerParseReset h) M.length := by
    unfold HTTPHeaderParse
    rw [if_neg (not_not.2 hcap)]
    simp only []
    rw [if_neg hnd, headerParseReset_len, headerParseReset_buf, hfirst]
    simp only []
    rw [if_neg (by omega), if_pos trivial]
  rw [← hparse] at hreq
  obtain ⟨r1, q1, q2, q3, q4, q5, q6, q7, q8, q9, _⟩ := hreq
  rw [q1, q3, q4, q5, q6, q8, q9]
  have e : M.length + 1 + U.length + 1 = M.length + U.length + 2 := by omega
  refine ⟨r1, rfl, rfl, rfl, rfl, by rw [e], rfl, ?_, ?_, ?_⟩
  · show bytesAt h.buf 0 M.length = M
    exact bytesAt_seg h.buf h.len [] M _ hhdr
  · have := bytesAt_seg h.buf h.len (M ++ [cSP]) U (cSP :: (Pr ++ (t :: b :: rest)))
      (by rw [hhdr]; simp)
    rw [show (M ++ [cSP]).length = M.length + 1 by simp] at this
    show bytesAt h.buf (M.length + 1) U.length = U
    exact this
  · have := bytesAt_seg h.buf h.len (M ++ (cSP :: (U ++ [cSP]))) Pr (t :: b :: rest)
      (by rw [hhdr]; simp)
    rw [show (M ++ (cSP :: (U ++ [cSP]))).length = M.length + 1 + U.length + 1 by
      simp only [List.length_append, List.length_cons, List.length_nil]; omega] at this
    show bytesAt h.buf (M.length + 1 + U.length + 1) Pr.length = Pr
    exact this

/-- Witness for C3: `"GET / HTTP/1.1\r\n\r\n"` parses with method `(0, 3)`, URL `(4, 1)` and
protocol `(6, 8)`. -/
theorem HTTPHeaderParse_request_witness :
    (HTTPHeaderParse samplePlatform (headerOf samplePlatform sampleRequest)).1 = kNoErr ∧
    (HTTPHeaderParse samplePlatform (headerOf samplePlatform sampleRequest)).2.methodPtr
      = CharPtr.inBuf 0 ∧
    (HTTPHeaderParse samplePlatform (headerOf samplePlatform sampleRequest)).2.methodLen = 3 ∧
    (HTTPHeaderParse samplePlatform (headerOf samplePlatform sampleRequest)).2.urlPtr
      = CharPtr.inBuf 4 ∧
    (HTTPHeaderParse samplePlatform (headerOf samplePlatform sampleRequest)).2.urlLen = 1 ∧
    (HTTPHeaderParse samplePlatform (headerOf samplePlatform sampleRequest)).2.protocolPtr
      = CharPtr.inBuf 6 ∧
    (HTTPHeaderParse samplePlatform (headerOf samplePlatform sampleRequest)).2.protocolLen = 8 :=
  have w := HTTPHeaderParse_request samplePlatform (headerOf samplePlatform sampleRequest)
    [71, 69, 84] [47] [72, 84, 84, 80, 47, 49, 46, 49] [13, 10] 13 10
    (by decide) (by decide) (by decide) (by decide) (by decide) rfl (by decide) (by decide)
  ⟨w.1, w.2.1, w.2.2.1, w.2.2.2.1, w.2.2.2.2.1, w.2.2.2.2.2.1, w.2.2.2.2.2.2.1⟩

/-! ## HTTPHeaderParse: the response start line -/

theorem wrapInt32_of_lt (v : Int) (h0 : 0 ≤ v) (h1 : v < 2 ^ 31) : wrapInt32 v = v := by
  unfold wrapInt32
  norm_num at h1 ⊢
  omega

theorem le_foldl_decimal (S : List Nat) (x : Nat) :
    x ≤ S.foldl (fun acc c => acc * 10 + (c - cZero)) x := by
  induction S generalizing x with
  | nil => exact le_refl _
  | cons a S ih =>
    simp only [List.foldl_cons]
    have := ih (x * 10 + (a - cZero))
    omega

/-- The status-code loop on a run of digits `S` followed by a byte `d` that is not a digit:
it stops at `d`, leaves `d` in `c`, and has accumulated the digits of `S` in `x`, as long
as the number fits a C `int`. -/
theorem statusCodeLoop_seg (mem : List Nat) (lim : Nat) (S post : List Nat) (d : Nat) :
    ∀ (pre : List Nat) (fuel c x : Nat),
      mem.take lim = pre ++ (S ++ (d :: post)) → lim ≤ mem.length →
      (∀ a, a ∈ S → cZero ≤ a ∧ a ≤ cNine) → ¬ (d ≥ cZero ∧ d ≤ cNine) →
      S.foldl (fun acc a => acc * 10 + (a - cZero)) x < 2 ^ 31 →
      S.length < fuel →
      statusCodeLoop mem lim fuel pre.length c (x : Int) =
        (pre.length + S.length, d,
          ((S.foldl (fun acc a => acc * 10 + (a - cZero)) x : Nat) : Int)) := by
  induction S with
  | nil =>
    intro pre fuel c x hmem hlim _ hd _ hf
    obtain ⟨n, rfl⟩ : ∃ n, fuel = n + 1 := ⟨fuel - 1, by simp at hf; omega⟩
    obtain ⟨a, b⟩ := getD_seg mem lim pre [d] post (by simpa using hmem) hlim 0 (by simp)
    simp only [Nat.add_zero] at a b
    simp only [statusCodeLoop]
    rw [if_pos a, b]
    simp only [List.getD_cons_zero]
    rw [if_neg hd]
    rfl
  | cons s S ih =>
    intro pre fuel c x hmem hlim hS hd hv hf
    obtain ⟨n, rfl⟩ : ∃ n, fuel = n + 1 := ⟨fuel - 1, by simp at hf; omega⟩
    obtain ⟨a, b⟩ := getD_seg mem lim pre (s :: S) (d :: post) hmem hlim 0 (by simp)
    simp only [Nat.add_zero] at a b
    have hs := hS s (List.mem_cons_self _ _)
    simp only [statusCodeLoop]
    rw [if_pos a, b]
    simp only [List.getD_cons_zero]
    rw [if_pos ⟨hs.1, hs.2⟩]
    simp only [List.foldl_cons] at hv ⊢
    have hle := le_foldl_decimal S (x * 10 + (s - cZero))
    have hcast : ((x : Int) * 10 + ((s : Int) - (cZero : Int))) =
        ((x * 10 + (s - cZero) : Nat) : Int) := by
      have := hs.1
      omega
    rw [hcast, wrapInt32_of_lt _ (by omega) (by
      have : x * 10 + (s - cZero) < 2 ^ 31 := lt_of_le_of_lt hle hv
      exact_mod_cast this)]
    have := ih (pre ++ [s]) n s (x * 10 + (s - cZero)) (by rw [hmem]; simp) hlim
      (fun a ha => hS a (List.mem_cons_of_mem _ ha)) hd hv (by simp at hf; omega)
    rw [show (pre ++ [s]).length = pre.length + 1 by simp] at this
    rw [this]
    simp only [List.length_cons]
    rw [show pre.length + 1 + S.length = pre.length + (S.length + 1) by omega]

theorem headerParseResponse_eq (P : Platform) (h : HTTPHeader) (A B S R rest : List Nat)
    (t b : Nat)
    (hhdr : h.buf.take h.len =
      A ++ (cSlash :: (B ++ (cSP :: (S ++ (cSP :: (R ++ (t :: b :: rest))))))))
    (hvalid : h.len ≤ h.buf.length)
    (hB : ∀ c, c ∈ B → c ≠ cSP)
    (hS : ∀ c, c ∈ S → cZero ≤ c ∧ c ≤ cNine) (hSv : decimalValue S < 2 ^ 31)
    (hR : ∀ c, c ∈ R → c ≠ cCR ∧ c ≠ cLF)
    (ht : t = cCR ∨ t = cLF) :
    headerParseResponse P h A.length =
      headerParseFields P
        { h with
          protocolPtr := CharPtr.inBuf 0, protocolLen := A.length + 1 + B.length,
          statusCode := (decimalValue S : Int),
          reasonPhrasePtr := CharPtr.inBuf (A.length + 1 + B.length + 1 + S.length + 1),
          reasonPhraseLen := R.length }
        (A.length + 1 + B.length + 1 + S.length + 1 + R.length + 1) := by
  have hl : h.len = A.length + (1 + (B.length + (1 + (S.length + (1 + (R.length +
      (2 + rest.length))))))) := by
    have := congrArg List.length hhdr
    simp only [List.length_take, List.length_append, List.length_cons] at this
    omega
  have s1 : scanWhile h.buf h.len (fun c => c != cSP) (A.length + 1) = A.length + 1 + B.length := by
    have := scanWhile_seg h.buf h.len (fun c => c != cSP) (A ++ [cSlash]) B
      (cSP :: (S ++ (cSP :: (R ++ (t :: b :: rest))))) (by rw [hhdr]; simp) hvalid
      (fun c hc => by simpa using hB c hc) (fun _ => by simp)
    have e : (A ++ [cSlash]).length = A.length + 1 := by simp
    rw [e] at this
    exact this
  have s2 : statusCodeLoop h.buf h.len (h.len + 1) (A.length + 1 + B.length + 1) 0 0 =
      (A.length + 1 + B.length + 1 + S.length, cSP, (decimalValue S : Int)) := by
    have := statusCodeLoop_seg h.buf h.len S (R ++ (t :: b :: rest)) cSP
      (A ++ (cSlash :: (B ++ [cSP]))) (h.len + 1) 0 0 (by rw [hhdr]; simp) hvalid hS
      (by decide) hSv (by omega)
    have e : (A ++ (cSlash :: (B ++ [cSP]))).length = A.length + 1 + B.length + 1 := by
      simp only [List.length_append, List.length_cons, List.length_nil]; omega
    rw [e] at this
    exact this
  have s3 : scanWhile h.buf h.len notEOL (A.length + 1 + B.length + 1 + S.length + 1) =
      A.length + 1 + B.length + 1 + S.length + 1 + R.length := by
    have := scanWhile_seg h.buf h.len notEOL (A ++ (cSlash :: (B ++ (cSP :: (S ++ [cSP]))))) R
      (t :: b :: rest) (by rw [hhdr]; simp) hvalid
      (fun c hc => by simpa [notEOL] using hR c hc)
      (fun _ => by rcases ht with rfl | rfl <;> simp [notEOL])
    have e : (A ++ (cSlash :: (B ++ (cSP :: (S ++ [cSP]))))).length =
        A.length + 1 + B.length + 1 + S.length + 1 := by
      simp only [List.length_append, List.length_cons, List.length_nil]; omega
    rw [e] at this
    exact this
  have e3 : A.length + 1 + B.length + 1 + S.length + 1 + R.length -
      (A.length + 1 + B.length + 1 + S.length + 1) = R.length := by omega
  simp only [headerParseResponse, headerParseReason, s1, s2, if_true, s3, e3]
  rw [if_neg (by omega), if_neg (by omega)]

/-- The response branch succeeds on a well-formed status line and fills the protocol
span, the status code and the reason-phrase span. -/
theorem headerParseResponse_ok (P : Platform) (h : HTTPHeader) (A B S R rest : List Nat)
    (t b : Nat)
    (hhdr : h.buf.take h.len =
      A ++ (cSlash :: (B ++ (cSP :: (S ++ (cSP :: (R ++ (t :: b :: rest))))))))
    (hvalid : h.len ≤ h.buf.length)
    (hB : ∀ c, c ∈ B → c ≠ cSP)
    (hS : ∀ c, c ∈ S → cZero ≤ c ∧ c ≤ cNine) (hSv : decimalValue S < 2 ^ 31)
    (hR : ∀ c, c ∈ R → c ≠ cCR ∧ c ≠ cLF)
    (ht : t = cCR ∨ t = cLF) :
    (headerParseResponse P h A.length).1 = kNoErr ∧
    SameStartLine (headerParseResponse P h A.length).2
      { h with
        protocolPtr := CharPtr.inBuf 0, protocolLen := A.length + 1 + B.length,
        statusCode := (decimalValue S : Int),
        reasonPhrasePtr := CharPtr.inBuf (A.length + 1 + B.length + 1 + S.length + 1),
        reasonPhraseLen := R.length } := by
  have hl : h.len = A.length + (1 + (B.length + (1 + (S.length + (1 + (R.length +
      (2 + rest.length))))))) := by
    have := congrArg List.length hhdr
    simp only [List.length_take, List.length_append, List.length_cons] at this
    omega
  rw [headerParseResponse_eq P h A B S R rest t b hhdr hvalid hB hS hSv hR ht]
  have := headerParseFields_ok P
    { h with
      protocolPtr := CharPtr.inBuf 0, protocolLen := A.length + 1 + B.length,
      statusCode := (decimalValue S : Int),
      reasonPhrasePtr := CharPtr.inBuf (A.length + 1 + B.length + 1 + S.length + 1),
      reasonPhraseLen := R.length }
    (A.length + 1 + B.length + 1 + S.length + 1 + R.length + 1) (by show _ < h.len; omega)
  exact ⟨this.1, this.2.1⟩

/-- C4: a header (shorter than the header buffer's capacity) that begins with
`P ' ' S ' ' R`, then CR or LF, then at least one more byte, where `P` contains a slash and no
space, `S` is a run of ASCII digits whose value fits a signed 32-bit `int`, and `R` has no CR
or LF, is parsed with success; the protocol span is exactly `P` (from offset 0), `statusCode`
is the decimal value of `S`, the reason-phrase span is exactly `R`, and the method and URL
lengths stay 0. -/
theorem HTTPHeaderParse_response (P : Platform) (h : HTTPHeader) (Pr S R rest : List Nat)
    (t b : Nat)
    (hcap : h.len < P.bufSize) (hvalid : h.len ≤ h.buf.length)
    (hhdr : h.buf.take h.len = Pr ++ (cSP :: (S ++ (cSP :: (R ++ (t :: b :: rest))))))
    (hslash : cSlash ∈ Pr) (hPr : ∀ c, c ∈ Pr → c ≠ cSP)
    (hS : ∀ c, c ∈ S → cZero ≤ c ∧ c ≤ cNine) (hSv : decimalValue S < 2 ^ 31)
    (hR : ∀ c, c ∈ R → c ≠ cCR ∧ c ≠ cLF)
    (ht : t = cCR ∨ t = cLF) :
    (HTTPHeaderParse P h).1 = kNoErr ∧
    (HTTPHeaderParse P h).2.protocolPtr = CharPtr.inBuf 0 ∧
    (HTTPHeaderParse P h).2.protocolLen = Pr.length ∧
    (HTTPHeaderParse P h).2.statusCode = (decimalValue S : Int) ∧
    (HTTPHeaderParse P h).2.reasonPhrasePtr = CharPtr.inBuf (Pr.length + S.length + 2) ∧
    (HTTPHeaderParse P h).2.reasonPhraseLen = R.length ∧
    spanBytes (HTTPHeaderParse P h).2.buf (HTTPHeaderParse P h).2.protocolPtr
      (HTTPHeaderParse P h).2.protocolLen = Pr ∧
    spanBytes (HTTPHeaderParse P h).2.buf (HTTPHeaderParse P h).2.reasonPhrasePtr
      (HTTPHeaderParse P h).2.reasonPhraseLen = R ∧
    (HTTPHeaderParse P h).2.methodLen = 0 ∧
    (HTTPHeaderParse P h).2.urlLen = 0 := by
  obtain ⟨A, B, hAB, hA⟩ := List.eq_append_cons_of_mem hslash
  have hAs : ∀ c, c ∈ A → c ≠ cSP ∧ c ≠ cSlash := by
    intro c hc
    refine ⟨hPr c (by rw [hAB]; exact List.mem_append_left _ hc), ?_⟩
    rintro rfl
    exact hA hc
  have hB : ∀ c, c ∈ B → c ≠ cSP := by
    intro c hc
    exact hPr c (by rw [hAB]; exact List.mem_append_right _ (List.mem_cons_of_mem _ hc))
  have hPl : Pr.length = A.length + 1 + B.length := by
    rw [hAB]; simp only [List.length_append, List.length_cons]; omega
  have hhdr2 : h.buf.take h.len =
      A ++ (cSlash :: (B ++ (cSP :: (S ++ (cSP :: (R ++ (t :: b :: rest))))))) := by
    rw [hhdr, hAB]; simp
  have hl : h.len = Pr.length + (1 + (S.length + (1 + (R.length + (2 + rest.length))))) := by
    have := congrArg List.length hhdr
    simp only [List.length_take, List.length_append, List.length_cons] at this
    omega
  have hnd : ¬ ((headerParseReset h).len = 4 ∧ (headerParseReset h).buf.getD 0 0 = cDollar) := by
    rintro ⟨a, _⟩
    rw [headerParseReset_len] at a
    omega
  have hfirst := firstDelimiter_seg h.buf h.len A _ cSlash hhdr2 hvalid hAs (Or.inr rfl)
  have hres := headerParseResponse_ok P (headerParseReset h) A B S R rest t b hhdr2 hvalid hB hS
    hSv hR ht
  have hparse : HTTPHeaderParse P h = headerParseResponse P (headerParseReset h) A.length := by
    unfold HTTPHeaderParse
    rw [if_neg (not_not.2 hcap)]
    simp only []
    rw [if_neg hnd, headerParseReset_len, headerParseReset_buf, hfirst]
    simp only []
    rw [if_neg (by omega), if_neg (by decide)]
  rw [← hparse] at hres
  obtain ⟨r1, q1, q2, q3, q4, q5, q6, q7, q8, q9, q10, q11, q12, _⟩ := hres
  rw [q1, q4, q6, q8, q9, q10, q11, q12]
  refine ⟨r1, rfl, by rw [hPl], rfl, ?_, rfl, ?_, ?_, rfl, rfl⟩
  · rw [hPl, show A.length + 1 + B.length + S.length + 2 =
      A.length + 1 + B.length + 1 + S.length + 1 by omega]
  · show bytesAt h.buf 0 (A.length + 1 + B.length) = Pr
    rw [← hPl]
    exact bytesAt_seg h.buf h.len [] Pr _ hhdr
  · show bytesAt h.buf (A.length + 1 + B.length + 1 + S.length + 1) R.length = R
    have := bytesAt_seg h.buf h.len (Pr ++ (cSP :: (S ++ [cSP]))) R (t :: b :: rest)
      (by rw [hhdr]; simp)
    rw [show (Pr ++ (cSP :: (S ++ [cSP]))).length = A.length + 1 + B.length + 1 + S.length + 1 by
      simp only [List.length_append, List.length_cons, List.length_nil]; omega] at this
    exact this

/-- Witness for C4: `"HTTP/1.1 200 OK\r\n\r\n"` parses with protocol `(0, 8)`, status code 200
and reason phrase `(13, 2)`. -/
theorem HTTPHeaderParse_response_witness :
    (HTTPHeaderParse samplePlatform (headerOf samplePlatform sampleResponse)).1 = kNoErr ∧
    (HTTPHeaderParse samplePlatform (headerOf samplePlatform sampleResponse)).2.protocolPtr
      = CharPtr.inBuf 0 ∧
    (HTTPHeaderParse samplePlatform (headerOf samplePlatform sampleResponse)).2.protocolLen = 8 ∧
    (HTTPHeaderParse samplePlatform (headerOf samplePlatform sampleResponse)).2.statusCode = 200 ∧
    (HTTPHeaderParse samplePlatform (headerOf samplePlatform sampleResponse)).2.reasonPhrasePtr
      = CharPtr.inBuf 13 ∧
    (HTTPHeaderParse samplePlatform (headerOf samplePlatform sampleResponse)).2.reasonPhraseLen
      = 2 :=
  have w := HTTPHeaderParse_response samplePlatform (headerOf samplePlatform sampleResponse)
    [72, 84, 84, 80, 47, 49, 46, 49] [50, 48, 48] [79, 75] [13, 10] 13 10
    (by decide) (by decide) (by decide) (by decide) (by decide) (by decide) (by decide)
    (by decide) (by decide)
  ⟨w.1, w.2.1, w.2.2.1, w.2.2.2.1, w.2.2.2.2.1, w.2.2.2.2.2.1⟩

/-! ## HTTPHeaderParse: the interleaved binary marker -/

/-- C9 as stated fails: on `"$\x01\x00\x10"` parsing succeeds with `channelID = 1` and
`contentLength = 16`, but the method span is populated: `methodLen` is 1, not 0. -/
theorem marker_populates_method :
    (HTTPHeaderParse samplePlatform (headerOf samplePlatform sampleMarker)).1 = kNoErr ∧
    (HTTPHeaderParse samplePlatform (headerOf samplePlatform sampleMarker)).2.channelID = 1 ∧
    (HTTPHeaderParse samplePlatform (headerOf samplePlatform sampleMarker)).2.contentLength = 16 ∧
    (HTTPHeaderParse samplePlatform (headerOf samplePlatform sampleMarker)).2.methodPtr
      = CharPtr.inBuf 0 ∧
    (HTTPHeaderParse samplePlatform (headerOf samplePlatform sampleMarker)).2.methodLen = 1 ∧
    ¬ ((HTTPHeaderParse samplePlatform (headerOf samplePlatform sampleMarker)).2.methodLen = 0 ∧
       (HTTPHeaderParse samplePlatform (headerOf samplePlatform sampleMarker)).2.urlLen = 0 ∧
       (HTTPHeaderParse samplePlatform (headerOf samplePlatform sampleMarker)).2.protocolLen = 0 ∧
       (HTTPHeaderParse samplePlatform (headerOf samplePlatform sampleMarker)).2.reasonPhraseLen
         = 0) := by
  decide

/-- C9, amended: for a header of exactly 4 bytes whose first byte is `'$'` (in a header buffer
of capacity above 4), `HTTPHeaderParse` succeeds with `channelID` the second byte and
`contentLength` equal to 256 times the third byte plus the fourth; the method span is the
single byte `'$'` (offset 0, length 1), the URL, protocol and reason-phrase lengths are 0 and
`statusCode` keeps its default -1. -/
theorem HTTPHeaderParse_marker (P : Platform) (h : HTTPHeader)
    (hcap : 4 < P.bufSize) (hlen : h.len = 4) (hd : h.buf.getD 0 0 = cDollar)
    (hbyte : ∀ c, c ∈ h.buf → c < 256) :
    (HTTPHeaderParse P h).1 = kNoErr ∧
    (HTTPHeaderParse P h).2.channelID = h.buf.getD 1 0 ∧
    (HTTPHeaderParse P h).2.contentLength = 256 * h.buf.getD 2 0 + h.buf.getD 3 0 ∧
    (HTTPHeaderParse P h).2.methodPtr = CharPtr.inBuf 0 ∧
    (HTTPHeaderParse P h).2.methodLen = 1 ∧
    (HTTPHeaderParse P h).2.urlLen = 0 ∧
    (HTTPHeaderParse P h).2.protocolLen = 0 ∧
    (HTTPHeaderParse P h).2.reasonPhraseLen = 0 ∧
    (HTTPHeaderParse P h).2.statusCode = -1 := by
  have hb : h.buf.getD 3 0 < 2 ^ 8 := by
    by_cases hlt : 3 < h.buf.length
    · exact hbyte _ (getD_mem_of_lt h.buf 3 hlt)
    · rw [List.getD_eq_default _ _ (by omega)]; decide
  have hor : (h.buf.getD 2 0 <<< 8) ||| h.buf.getD 3 0 = 256 * h.buf.getD 2 0 + h.buf.getD 3 0 := by
    rw [Nat.shiftLeft_eq, Nat.mul_comm, Nat.mul_add_lt_is_or hb]
  have hi : (headerParseReset h).len = 4 ∧ (headerParseReset h).buf.getD 0 0 = cDollar :=
    ⟨hlen, hd⟩
  unfold HTTPHeaderParse
  rw [if_neg (not_not.2 (by omega))]
  simp only []
  rw [if_pos hi]
  exact ⟨rfl, rfl, hor, rfl, rfl, rfl, rfl, rfl, rfl⟩

/-- Witness for C9, amended: `"$\x01\x00\x10"` gives channel 1 and content length 16. -/
theorem HTTPHeaderParse_marker_witness :
    (HTTPHeaderParse samplePlatform (headerOf samplePlatform sampleMarker)).2.channelID = 1 ∧
    (HTTPHeaderParse samplePlatform (headerOf samplePlatform sampleMarker)).2.contentLength
      = 16 :=
  have w := HTTPHeaderParse_marker samplePlatform (headerOf samplePlatform sampleMarker)
    (by decide) rfl rfl (by decide)
  ⟨w.2.1, w.2.2.1⟩

/-! ## HTTPHeaderParse: malformed start lines -/

/-- The pointer left by the status-code loop is that of a scan over digits, and `c` can
only be a space when the loop stopped on a space inside the header. -/
theorem statusCodeLoop_ptr (mem : List Nat) (lim : Nat) :
    ∀ (fuel ptr c : Nat) (x : Int), lim - ptr ≤ fuel → c ≠ cSP →
      (statusCodeLoop mem lim fuel ptr c x).1 = scanWhile mem lim isDigit ptr ∧
      ((statusCodeLoop mem lim fuel ptr c x).2.1 = cSP →
        (statusCodeLoop mem lim fuel ptr c x).1 < lim ∧
        mem.getD (statusCodeLoop mem lim fuel ptr c x).1 0 = cSP) := by
  intro fuel
  induction fuel with
  | zero =>
    intro ptr c x hf hc
    simp only [statusCodeLoop]
    exact ⟨(scanWhile_of_ge mem lim isDigit ptr (by omega)).symm, fun h => absurd h hc⟩
  | succ n ih =>
    intro ptr c x hf hc
    simp only [statusCodeLoop]
    by_cases h1 : ptr < lim
    · rw [if_pos h1]
      by_cases h2 : mem.getD ptr 0 ≥ cZero ∧ mem.getD ptr 0 ≤ cNine
      · rw [if_pos h2]
        have hne : mem.getD ptr 0 ≠ cSP := by
          intro e
          rw [e] at h2
          exact absurd h2.1 (by decide)
        obtain ⟨a, b⟩ := ih (ptr + 1) (mem.getD ptr 0)
          (wrapInt32 (x * 10 + ((mem.getD ptr 0 : Int) - (cZero : Int)))) (by omega) hne
        refine ⟨?_, b⟩
        rw [a]
        symm
        apply scanWhile_eq
        · have := scanWhile_ge mem lim isDigit (ptr + 1); omega
        · intro k hk1 hk2
          by_cases hk : k = ptr
          · subst hk
            exact ⟨h1, by simpa [isDigit] using h2⟩
          · exact scanWhile_cond mem lim isDigit (ptr + 1) k (by omega) hk2
        · exact scanWhile_stop mem lim isDigit (ptr + 1)
      · rw [if_neg h2]
        refine ⟨?_, fun e => ⟨h1, e⟩⟩
        symm
        apply scanWhile_eq _ _ _ _ _ (le_refl _) (fun k a b => by omega)
        intro _
        simpa [isDigit] using h2
    · rw [if_neg h1]
      exact ⟨(scanWhile_of_ge mem lim isDigit ptr (by omega)).symm, fun h => absurd h hc⟩

/-- A scan over bytes that all pass the test runs to the end of the header. -/
theorem scanWhile_to_end (mem : List Nat) (lim : Nat) (cond : Nat → Bool) (src : Nat)
    (hs : src ≤ lim) (h : ∀ k, src ≤ k → k < lim → cond (mem.getD k 0) = true) :
    scanWhile mem lim cond src = lim :=
  scanWhile_eq mem lim cond src lim hs (fun k a b => ⟨b, h k a b⟩) (fun a => by omega)

/-- The bytes of the tail of the header, read through the buffer. -/
theorem getD_tail (mem : List Nat) (lim : Nat) (pre tail : List Nat)
    (hmem : mem.take lim = pre ++ tail) (hlim : lim ≤ mem.length) (k : Nat)
    (h1 : pre.length ≤ k) (h2 : k < lim) :
    mem.getD k 0 ∈ tail := by
  have hl : lim = pre.length + tail.length := by
    have := congrArg List.length hmem
    simp only [List.length_take, List.length_append] at this
    omega
  have := getD_seg mem lim pre tail [] (by rw [hmem]; simp) hlim (k - pre.length) (by omega)
  rw [show pre.length + (k - pre.length) = k by omega] at this
  rw [this.2]
  exact getD_mem_of_lt tail _ (by omega)

theorem headerParseRequest_noSecondSpace (P : Platform) (h : HTTPHeader) (ptr : Nat)
    (hs : h.len ≤ scanWhile h.buf h.len (fun c => c != cSP) (ptr + 1)) :
    (headerParseRequest P h ptr).1 = kMalformedErr := by
  simp only [headerParseRequest]
  rw [if_pos (by omega)]

theorem headerParseRequest_urlError (P : Platform) (h : HTTPHeader) (ptr : Nat)
    (hs : scanWhile h.buf h.len (fun c => c != cSP) (ptr + 1) < h.len)
    (hurl : (P.URLParseComponents h.buf (ptr + 1)
      (scanWhile h.buf h.len (fun c => c != cSP) (ptr + 1))).1 ≠ kNoErr) :
    (headerParseRequest P h ptr).1 =
      (P.URLParseComponents h.buf (ptr + 1)
        (scanWhile h.buf h.len (fun c => c != cSP) (ptr + 1))).1 := by
  have hge := scanWhile_ge h.buf h.len (fun c => c != cSP) (ptr + 1)
  have e : ptr + 1 + (scanWhile h.buf h.len (fun c => c != cSP) (ptr + 1) - (ptr + 1)) =
      scanWhile h.buf h.len (fun c => c != cSP) (ptr + 1) := by omega
  simp only [headerParseRequest, e]
  rw [if_neg (by omega), if_pos hurl]

theorem headerParseRequest_noLineEnd (P : Platform) (h : HTTPHeader) (ptr : Nat)
    (hs : scanWhile h.buf h.len (fun c => c != cSP) (ptr + 1) < h.len)
    (hurl : (P.URLParseComponents h.buf (ptr + 1)
      (scanWhile h.buf h.len (fun c => c != cSP) (ptr + 1))).1 = kNoErr)
    (hp : h.len ≤ scanWhile h.buf h.len notEOL
      (scanWhile h.buf h.len (fun c => c != cSP) (ptr + 1) + 1) + 1) :
    (headerParseRequest P h ptr).1 = kMalformedErr := by
  have hge := scanWhile_ge h.buf h.len (fun c => c != cSP) (ptr + 1)
  have e : ptr + 1 + (scanWhile h.buf h.len (fun c => c != cSP) (ptr + 1) - (ptr + 1)) =
      scanWhile h.buf h.len (fun c => c != cSP) (ptr + 1) := by omega
  simp only [headerParseRequest, e]
  rw [if_neg (by omega), if_neg (not_not.2 hurl)]
  split
  · rfl
  · rw [headerParseFields_malformed P _ _ (by show ¬ _ < h.len; omega)]

theorem headerParseResponse_noSpace (P : Platform) (h : HTTPHeader) (ptr : Nat)
    (hs : h.len ≤ scanWhile h.buf h.len (fun c => c != cSP) (ptr + 1)) :
    (headerParseResponse P h ptr).1 = kMalformedErr := by
  simp only [headerParseResponse]
  rw [if_pos (by omega)]

theorem headerParseReason_malformed (P : Platform) (h : HTTPHeader) (ptr : Nat)
    (hp : h.len ≤ scanWhile h.buf h.len notEOL ptr + 1) :
    (headerParseReason P h ptr).1 = kMalformedErr := by
  simp only [headerParseReason]
  split
  · rfl
  · rw [headerParseFields_malformed P _ _ (by show ¬ _ < h.len; omega)]

theorem headerParseResponse_noLineEnd (P : Platform) (h : HTTPHeader) (ptr : Nat)
    (hp : h.len ≤ scanWhile h.buf h.len notEOL
      (if (statusCodeLoop h.buf h.len (h.len + 1)
            (scanWhile h.buf h.len (fun c => c != cSP) (ptr + 1) + 1) 0 0).2.1 = cSP then
          (statusCodeLoop h.buf h.len (h.len + 1)
            (scanWhile h.buf h.len (fun c => c != cSP) (ptr + 1) + 1) 0 0).1 + 1
        else
          (statusCodeLoop h.buf h.len (h.len + 1)
            (scanWhile h.buf h.len (fun c => c != cSP) (ptr + 1) + 1) 0 0).1) + 1) :
    (headerParseResponse P h ptr).1 = kMalformedErr := by
  simp only [headerParseResponse]
  split
  · rfl
  · exact headerParseReason_malformed P _ _ hp

/-- The start of `HTTPHeaderParse` outside the parameter error and the interleaved marker:
the first loop and the choice of the form. -/
theorem HTTPHeaderParse_startLine (P : Platform) (h : HTTPHeader) (hcap : h.len < P.bufSize)
    (hnd : ¬ (h.len = 4 ∧ h.buf.getD 0 0 = cDollar)) :
    HTTPHeaderParse P h =
      if ¬ ((scanWhileC h.buf h.len (fun c => c != cSP && c != cSlash) h.len 0 0).1 < h.len) then
        (kMalformedErr, headerParseReset h)
      else if (scanWhileC h.buf h.len (fun c => c != cSP && c != cSlash) h.len 0 0).2 = cSP then
        headerParseRequest P (headerParseReset h)
          (scanWhileC h.buf h.len (fun c => c != cSP && c != cSlash) h.len 0 0).1
      else
        headerParseResponse P (headerParseReset h)
          (scanWhileC h.buf h.len (fun c => c != cSP && c != cSlash) h.len 0 0).1 := by
  unfold HTTPHeaderParse
  rw [if_neg (not_not.2 hcap)]
  simp only []
  rw [if_neg (by rw [headerParseReset_len, headerParseReset_buf]; exact hnd),
    headerParseReset_len, headerParseReset_buf]

theorem NoSpaceSlash_cond (s : List Nat) (h : NoSpaceSlash s) (c : Nat) (hc : c ∈ s) :
    (fun c => c != cSP && c != cSlash) c = true := by
  simpa using h c hc

theorem NoSpace_cond (s : List Nat) (h : NoSpace s) (c : Nat) (hc : c ∈ s) :
    (fun c => c != cSP) c = true := by
  simpa using h c hc

theorem NoEOL_cond (s : List Nat) (h : NoEOL s) (c : Nat) (hc : c ∈ s) :
    notEOL c = true := by
  simpa [notEOL] using h c hc

/-- A scan does not pass a byte that fails the test. -/
theorem scanWhile_le_of_stop (mem : List Nat) (lim : Nat) (cond : Nat → Bool) (src k : Nat)
    (h1 : src ≤ k) (h2 : cond (mem.getD k 0) = false) :
    scanWhile mem lim cond src ≤ k := by
  by_contra hc
  have := (scanWhile_cond mem lim cond src k h1 (by omega)).2
  rw [h2] at this
  exact absurd this (by simp)

theorem length_headerBytes (h : HTTPHeader) (hvalid : h.len ≤ h.buf.length) :
    (headerBytes h).length = h.len := by
  unfold headerBytes
  rw [List.length_take]
  omega

/-- In request form the parser runs the URL scan from just after the method. -/
theorem parse_requestForm (P : Platform) (h : HTTPHeader) (M X : List Nat)
    (hcap : h.len < P.bufSize) (hvalid : h.len ≤ h.buf.length)
    (hnd : ¬ (h.len = 4 ∧ h.buf.getD 0 0 = cDollar))
    (hhdr : headerBytes h = M ++ (cSP :: X)) (hM : NoSpaceSlash M) :
    HTTPHeaderParse P h = headerParseRequest P (headerParseReset h) M.length := by
  have hl := length_headerBytes h hvalid
  rw [hhdr] at hl
  simp only [List.length_append, List.length_cons] at hl
  rw [HTTPHeaderParse_startLine P h hcap hnd,
    firstDelimiter_seg h.buf h.len M X cSP hhdr hvalid hM (Or.inl rfl)]
  simp only []
  rw [if_neg (by omega), if_pos trivial]

/-- In response form the parser runs the protocol scan from just after the slash. -/
theorem parse_responseForm (P : Platform) (h : HTTPHeader) (A X : List Nat)
    (hcap : h.len < P.bufSize) (hvalid : h.len ≤ h.buf.length)
    (hnd : ¬ (h.len = 4 ∧ h.buf.getD 0 0 = cDollar))
    (hhdr : headerBytes h = A ++ (cSlash :: X)) (hA : NoSpaceSlash A) :
    HTTPHeaderParse P h = headerParseResponse P (headerParseReset h) A.length := by
  have hl := length_headerBytes h hvalid
  rw [hhdr] at hl
  simp only [List.length_append, List.length_cons] at hl
  rw [HTTPHeaderParse_startLine P h hcap hnd,
    firstDelimiter_seg h.buf h.len A X cSlash hhdr hvalid hA (Or.inr rfl)]
  simp only []
  rw [if_neg (by omega), if_neg (by decide)]

/-- The URL scan of the request branch, when a second space follows the URL. -/
theorem requestURL_scan (h : HTTPHeader) (M U X : List Nat) (hvalid : h.len ≤ h.buf.length)
    (hhdr : headerBytes h = M ++ (cSP :: (U ++ (cSP :: X)))) (hU : NoSpace U) :
    scanWhile h.buf h.len (fun c => c != cSP) (M.length + 1) = M.length + 1 + U.length := by
  have := scanWhile_seg h.buf h.len (fun c => c != cSP) (M ++ [cSP]) U (cSP :: X)
    (by show headerBytes h = _; rw [hhdr]; simp) hvalid (NoSpace_cond U hU) (fun _ => by simp)
  rw [show (M ++ [cSP]).length = M.length + 1 by simp] at this
  exact this

/-- The protocol scan of the response branch, when a space follows the protocol. -/
theorem responseProtocol_scan (h : HTTPHeader) (A B X : List Nat)
    (hvalid : h.len ≤ h.buf.length)
    (hhdr : headerBytes h = A ++ (cSlash :: (B ++ (cSP :: X)))) (hB : NoSpace B) :
    scanWhile h.buf h.len (fun c => c != cSP) (A.length + 1) = A.length + 1 + B.length := by
  have := scanWhile_seg h.buf h.len (fun c => c != cSP) (A ++ [cSlash]) B (cSP :: X)
    (by show headerBytes h = _; rw [hhdr]; simp) hvalid (NoSpace_cond B hB) (fun _ => by simp)
  rw [show (A ++ [cSlash]).length = A.length + 1 by simp] at this
  exact this

/-- The reason-phrase scan after the status-code loop runs into the end of a tail `R` that
has no CR or LF, or stops at the CR or LF that ends the header. -/
theorem responseReason_scan (h : HTTPHeader) (pre R last : List Nat)
    (hvalid : h.len ≤ h.buf.length)
    (hhdr : headerBytes h = pre ++ (R ++ last)) (hR : NoEOL R)
    (hlast : last = [] ∨ last = [cCR] ∨ last = [cLF]) :
    h.len ≤ scanWhile h.buf h.len notEOL
      (if (statusCodeLoop h.buf h.len (h.len + 1) pre.length 0 0).2.1 = cSP then
          (statusCodeLoop h.buf h.len (h.len + 1) pre.length 0 0).1 + 1
        else (statusCodeLoop h.buf h.len (h.len + 1) pre.length 0 0).1) + 1 := by
  have hl := length_headerBytes h hvalid
  rw [hhdr] at hl
  simp only [List.length_append] at hl
  obtain ⟨pa, pb⟩ := statusCodeLoop_ptr h.buf h.len (h.len + 1) pre.length 0 0 (by omega)
    (by decide)
  have hge := scanWhile_ge h.buf h.len isDigit pre.length
  have hle := scanWhile_le h.buf h.len isDigit pre.length (by omega)
  have hR' : ∀ k, pre.length ≤ k → k < pre.length + R.length →
      notEOL (h.buf.getD k 0) = true := by
    intro k h1 h2
    have := getD_seg h.buf h.len pre R last hhdr hvalid (k - pre.length) (by omega)
    rw [show pre.length + (k - pre.length) = k by omega] at this
    rw [this.2]
    exact NoEOL_cond R hR _ (getD_mem_of_lt R _ (by omega))
  rcases hlast with rfl | hlast
  · -- the tail runs to the end of the header
    simp only [List.length_nil, Nat.add_zero] at hl
    generalize statusCodeLoop h.buf h.len (h.len + 1) pre.length 0 0 = r at pa pb
    rw [← pa] at hge hle
    have key : ∀ q, pre.length ≤ q → q ≤ h.len → scanWhile h.buf h.len notEOL q = h.len :=
      fun q h1 h2 => scanWhile_to_end h.buf h.len notEOL q h2
        (fun k a b => hR' k (by omega) (by omega))
    split
    · next hc =>
      have := (pb hc).1
      rw [key _ (by omega) (by omega)]
      omega
    · rw [key _ hge hle]
      omega
  · -- the header ends with the CR or LF of the start line
    have hlen1 : last.length = 1 := by rcases hlast with rfl | rfl <;> rfl
    rw [hlen1] at hl
    have ht : h.buf.getD (pre.length + R.length) 0 = last.getD 0 0 := by
      have := getD_seg h.buf h.len (pre ++ R) last []
        (by show headerBytes h = _; rw [hhdr]; simp) hvalid 0 (by omega)
      rw [show (pre ++ R).length + 0 = pre.length + R.length by simp] at this
      exact this.2
    have htd : isDigit (h.buf.getD (pre.length + R.length) 0) = false := by
      rw [ht]; rcases hlast with rfl | rfl <;> decide
    have hte : notEOL (h.buf.getD (pre.length + R.length) 0) = false := by
      rw [ht]; rcases hlast with rfl | rfl <;> decide
    have htsp : h.buf.getD (pre.length + R.length) 0 ≠ cSP := by
      rw [ht]; rcases hlast with rfl | rfl <;> decide
    have hstop := scanWhile_le_of_stop h.buf h.len isDigit pre.length (pre.length + R.length)
      (by omega) htd
    generalize statusCodeLoop h.buf h.len (h.len + 1) pre.length 0 0 = r at pa pb
    rw [← pa] at hge hle hstop
    have key : ∀ q, pre.length ≤ q → q ≤ pre.length + R.length →
        scanWhile h.buf h.len notEOL q = pre.length + R.length :=
      fun q h1 h2 => scanWhile_eq h.buf h.len notEOL q _ h2
        (fun k a b => ⟨by omega, hR' k (by omega) b⟩) (fun _ => hte)
    split
    · next hc =>
      obtain ⟨c1, c2⟩ := pb hc
      have hne : r.1 ≠ pre.length + R.length := by
        intro e
        rw [e] at c2
        exact htsp c2
      rw [key _ (by omega) (by omega)]
      omega
    · rw [key _ hge hstop]
      omega

theorem notEOL_true_iff (c : Nat) : notEOL c = true ↔ c ≠ cCR ∧ c ≠ cLF := by
  simp [notEOL]

theorem notEOL_false_iff (c : Nat) : notEOL c = false ↔ c = cCR ∨ c = cLF := by
  unfold notEOL
  by_cases h1 : c = cCR <;> by_cases h2 : c = cLF <;> simp [h1, h2]

/-- Where `skipLineEnding` stops after the terminator of a line `[src, e)`: at the start of
the next line, and no line starts strictly between `src` and there. -/
theorem skipLineEnding_spec (mem : List Nat) (lim src e : Nat) (he : e < lim)
    (heol : mem.getD e 0 = cCR ∨ mem.getD e 0 = cLF)
    (hline : ∀ k, src ≤ k → k < e → mem.getD k 0 ≠ cCR ∧ mem.getD k 0 ≠ cLF) :
    e < skipLineEnding mem lim e ∧ skipLineEnding mem lim e ≤ lim ∧
    LineStart mem lim (skipLineEnding mem lim e) ∧
    (∀ j, src < j → j < skipLineEnding mem lim e → ¬ LineStart mem lim j) := by
  have hmid : ∀ j, src < j → j ≤ e → ¬ LineStart mem lim j := by
    intro j h1 h2 hls
    rcases hls with h0 | ⟨_, _, h3 | ⟨h3, _⟩⟩
    · omega
    · exact (hline (j - 1) (by omega) (by omega)).2 h3
    · exact (hline (j - 1) (by omega) (by omega)).1 h3
  unfold skipLineEnding
  rcases heol with hcr | hlf
  · simp only [he, hcr, true_and, if_true]
    by_cases h2 : e + 1 < lim ∧ mem.getD (e + 1) 0 = cLF
    · rw [if_pos h2]
      refine ⟨by omega, by omega, Or.inr ⟨by omega, by omega, Or.inl ?_⟩, ?_⟩
      · rw [show e + 1 + 1 - 1 = e + 1 by omega]; exact h2.2
      · intro j h3 h4
        by_cases hj : j ≤ e
        · exact hmid j h3 hj
        · have hje : j = e + 1 := by omega
          subst hje
          rintro (h0 | ⟨_, _, h5 | ⟨_, h5⟩⟩)
          · omega
          · rw [show e + 1 - 1 = e by omega, hcr] at h5
            exact absurd h5 (by decide)
          · exact h5 h2
    · rw [if_neg h2]
      refine ⟨by omega, by omega, Or.inr ⟨by omega, by omega, Or.inr ⟨?_, h2⟩⟩, ?_⟩
      · rw [show e + 1 - 1 = e by omega]; exact hcr
      · intro j h3 h4
        exact hmid j h3 (by omega)
  · have hncr : ¬ (e < lim ∧ mem.getD e 0 = cCR) := by
      rintro ⟨_, h⟩
      rw [hlf] at h
      exact absurd h (by decide)
    rw [if_neg hncr]
    simp only [he, hlf, true_and, if_true]
    refine ⟨by omega, by omega, Or.inr ⟨by omega, by omega, Or.inl ?_⟩, ?_⟩
    · rw [show e + 1 - 1 = e by omega]; exact hlf
    · intro j h3 h4
      exact hmid j h3 (by omega)

/-- The test that `HTTPGetHeaderField` applies to a terminated line `[src, e)` accepts it
exactly when it is a field line for the name. -/
theorem fieldLine_test (mem : List Nat) (lim : Nat) (name : List Nat) (src e : Nat)
    (hse : src ≤ e) (he : e < lim) (heol : mem.getD e 0 = cCR ∨ mem.getD e 0 = cLF)
    (hline : ∀ k, src ≤ k → k < e → mem.getD k 0 ≠ cCR ∧ mem.getD k 0 ≠ cLF) :
    ¬ (e - src ≤ name.length ∨ mem.getD (src + name.length) 0 ≠ cColon ∨
        strnicmp (mem.drop src) name name.length ≠ 0) ↔
    IsFieldLineEnd mem lim name src e := by
  have hcmp : strnicmp (mem.drop src) name name.length = 0 ↔
      (bytesAt mem src name.length).map tolower = name.map tolower := by
    unfold strnicmp bytesAt
    rw [List.take_length]
    by_cases hq : List.map tolower (List.take name.length (List.drop src mem)) =
        List.map tolower name
    · rw [if_pos hq]; exact ⟨fun _ => hq, fun _ => rfl⟩
    · rw [if_neg hq]; exact ⟨fun h => absurd h (by decide), fun h => absurd h hq⟩
  unfold IsFieldLineEnd
  constructor
  · intro h
    simp only [not_or, not_le, not_not] at h
    exact ⟨he, by omega, heol, fun k a b => hline k b a, h.2.1, hcmp.1 h.2.2⟩
  · rintro ⟨_, h1, _, _, h2, h3⟩
    simp only [not_or, not_le, not_not]
    exact ⟨by omega, h2, hcmp.2 h3⟩

/-- The end of a field line is the first CR or LF at or after its start. -/
theorem IsFieldLineEnd_unique (mem : List Nat) (lim : Nat) (name : List Nat) (s e e2 : Nat)
    (hse : s ≤ e) (heol : mem.getD e 0 = cCR ∨ mem.getD e 0 = cLF)
    (hline : ∀ k, s ≤ k → k < e → mem.getD k 0 ≠ cCR ∧ mem.getD k 0 ≠ cLF)
    (h2 : IsFieldLineEnd mem lim name s e2) : e2 = e := by
  obtain ⟨_, a, b, c, _, _⟩ := h2
  rcases Nat.lt_trichotomy e2 e with h | h | h
  · have := hline e2 (by omega) h
    rcases b with b | b
    · exact absurd b this.1
    · exact absurd b this.2
  · exact h
  · have := c e h hse
    rcases heol with b | b
    · exact absurd b this.1
    · exact absurd b this.2

/-- The search loop of `HTTPGetHeaderField` with a non-null name: started at a line start
below which no field line for the name begins, it reports the first field line for the
name, or `kNotFoundErr` when there is none. -/
theorem getHeaderFieldLoop_spec (mem : List Nat) (lim : Nat) (name : List Nat) :
    ∀ (fuel src : Nat), lim < fuel + src → LineStart mem lim src →
      (∀ j, j < src → ¬ IsFieldLine mem lim name j) →
      (∃ s e, IsFieldLineEnd mem lim name s e ∧ LineStart mem lim s ∧
        (∀ j, j < s → ¬ IsFieldLine mem lim name j) ∧
        getHeaderFieldLoop mem lim (some name) fuel src =
          Except.ok (fieldFound mem lim s e (skipLineEnding mem lim e) name.length)) ∨
      ((∀ j, ¬ IsFieldLine mem lim name j) ∧
        getHeaderFieldLoop mem lim (some name) fuel src = Except.error kNotFoundErr) := by
  intro fuel
  induction fuel with
  | zero =>
    intro src hf _ hpre
    right
    refine ⟨fun j hj => hpre j ?_ hj, rfl⟩
    obtain ⟨_, e, he, _, h2, _⟩ := hj
    omega
  | succ n ih =>
    intro src hf hls hpre
    have hge := scanWhile_ge mem lim notEOL src
    have hcond := scanWhile_cond mem lim notEOL src
    have hstop := scanWhile_stop mem lim notEOL src
    simp only [getHeaderFieldLoop]
    generalize scanWhile mem lim notEOL src = e at hge hcond hstop
    have hline : ∀ k, src ≤ k → k < e → mem.getD k 0 ≠ cCR ∧ mem.getD k 0 ≠ cLF :=
      fun k a b => (notEOL_true_iff _).1 (hcond k a b).2
    by_cases h1 : e ≥ lim
    · rw [if_pos h1]
      right
      refine ⟨fun j hj => ?_, rfl⟩
      by_cases hjs : j < src
      · exact hpre j hjs hj
      · obtain ⟨_, e2, he2, _, h2, h3, _⟩ := hj
        have := hline e2 (by omega) (by omega)
        rcases h3 with h3 | h3
        · exact this.1 h3
        · exact this.2 h3
    · rw [if_neg h1]
      have he : e < lim := by omega
      have heol := (notEOL_false_iff _).1 (hstop he)
      obtain ⟨s1, s2, s3, s4⟩ := skipLineEnding_spec mem lim src e he heol hline
      have htest := fieldLine_test mem lim name src e hge he heol hline
      by_cases hm : e - src ≤ name.length ∨ mem.getD (src + name.length) 0 ≠ cColon ∨
          strnicmp (mem.drop src) name name.length ≠ 0
      · rw [if_pos hm]
        have hns : ¬ IsFieldLine mem lim name src := by
          rintro ⟨_, e2, _, h2⟩
          have := IsFieldLineEnd_unique mem lim name src e e2 hge heol hline h2
          subst this
          exact (htest.2 h2) hm
        apply ih (skipLineEnding mem lim e) (by omega) s3
        intro j hj
        by_cases hjs : j < src
        · exact hpre j hjs
        · by_cases hje : j = src
          · subst hje; exact hns
          · exact fun hc => s4 j (by omega) hj hc.1
      · rw [if_neg hm]
        left
        exact ⟨src, e, htest.1 hm, hls, hpre, rfl⟩

/-- The lookup only looks at the name up to ASCII case. -/
theorem strnicmp_lower (s1 name : List Nat) :
    strnicmp s1 (name.map tolower) (name.map tolower).length = strnicmp s1 name name.length := by
  have hidem : ∀ c, tolower (tolower c) = tolower c := by
    intro c
    unfold tolower
    by_cases h : 65 ≤ c ∧ c ≤ 90
    · rw [if_pos h, if_neg (by omega)]
    · rw [if_neg h, if_neg h]
  unfold strnicmp
  rw [List.take_length, List.take_length, List.length_map, List.map_map]
  have : (tolower ∘ tolower) = tolower := funext hidem
  rw [this]

theorem getHeaderFieldLoop_lower (mem : List Nat) (lim : Nat) (name : List Nat) :
    ∀ (fuel src : Nat),
      getHeaderFieldLoop mem lim (some (name.map tolower)) fuel src =
      getHeaderFieldLoop mem lim (some name) fuel src := by
  intro fuel
  induction fuel with
  | zero => intro src; rfl
  | succ n ih =>
    intro src
    simp only [getHeaderFieldLoop]
    rw [strnicmp_lower]
    simp only [List.length_map]
    rw [ih]

theorem HTTPGetHeaderField_eq_loop (P : Platform) (mem : List Nat) (len : Nat)
    (inName : Option (List Nat)) (hsz : len ≠ P.kSizeCString) :
    HTTPGetHeaderField P mem len inName = getHeaderFieldLoop mem len inName (len + 1) 0 := by
  unfold HTTPGetHeaderField
  rw [if_neg hsz]

/-- Names that agree ignoring ASCII case give the same lookup. -/
theorem HTTPGetHeaderField_caseInsensitive (P : Platform) (mem : List Nat) (len : Nat)
    (name name2 : List Nat) (h : name2.map tolower = name.map tolower) :
    HTTPGetHeaderField P mem len (some name2) = HTTPGetHeaderField P mem len (some name) := by
  unfold HTTPGetHeaderField
  simp only []
  rw [← getHeaderFieldLoop_lower mem _ name2, ← getHeaderFieldLoop_lower mem _ name, h]

/-- The lookup on a range in which `s` is the first field line for the name. -/
theorem HTTPGetHeaderField_first (P : Platform) (mem : List Nat) (len : Nat) (name : List Nat)
    (hsz : len ≠ P.kSizeCString) (s : Nat) (hs : IsFieldLine mem len name s)
    (hmin : ∀ j, j < s → ¬ IsFieldLine mem len name j) :
    ∃ e, IsFieldLineEnd mem len name s e ∧
      HTTPGetHeaderField P mem len (some name) =
        Except.ok (fieldFound mem len s e (skipLineEnding mem len e) name.length) := by
  rw [HTTPGetHeaderField_eq_loop P mem len _ hsz]
  rcases getHeaderFieldLoop_spec mem len name (len + 1) 0 (by omega) (Or.inl rfl)
    (fun j hj => by omega) with ⟨s2, e, h1, h2, h3, h4⟩ | ⟨hn, _⟩
  · have : s2 = s := by
      rcases Nat.lt_trichotomy s2 s with a | a | a
      · exact absurd ⟨h2, e, h1.1, h1⟩ (hmin s2 a)
      · exact a
      · exact absurd hs (h3 s a)
    subst this
    exact ⟨e, h1, h4⟩
  · exact absurd hs (hn s)

theorem isBlank_false_of_eol (c : Nat) (h : c = cCR ∨ c = cLF) : isBlank c = false := by
  rcases h with rfl | rfl <;> decide

/-- C6: for every header byte range (whose length is not the C-string marker) and every
non-null name `N`, `HTTPGetHeaderField` returns `kNoErr` exactly when some CR/LF-terminated
line of the range starts with a name equal to `N` ignoring ASCII case, immediately followed
by `':'`; it then reports the first such line: the name span is the first `|N|` bytes of that
line and the value span starts at the first byte after the colon that is not space or tab;
otherwise it returns `kNotFoundErr`.  Names that agree ignoring ASCII case give the same
lookup, and looking up `"Content-Length"` in any letter case in
`"Content-Length: 42\r\n\r\n"` gives the value span `"42"`, from which 42 is scanned. -/
theorem HTTPGetHeaderField_lookup (P : Platform) (mem : List Nat) (len : Nat)
    (name : List Nat) (hsz : len ≠ P.kSizeCString) :
    ((∃ f, HTTPGetHeaderField P mem len (some name) = Except.ok f) ↔
      ∃ s, IsFieldLine mem len name s) ∧
    (∀ s, IsFieldLine mem len name s → (∀ j, j < s → ¬ IsFieldLine mem len name j) →
      ∃ f, HTTPGetHeaderField P mem len (some name) = Except.ok f ∧
        f.namePtr = s ∧ f.nameLen = name.length ∧
        (bytesAt mem f.namePtr f.nameLen).map tolower = name.map tolower ∧
        s + name.length + 1 ≤ f.valuePtr ∧
        (∀ k, s + name.length + 1 ≤ k → k < f.valuePtr → isBlank (mem.getD k 0) = true) ∧
        isBlank (mem.getD f.valuePtr 0) = false) ∧
    ((¬ ∃ s, IsFieldLine mem len name s) →
      HTTPGetHeaderField P mem len (some name) = Except.error kNotFoundErr) ∧
    (∀ name2, name2.map tolower = name.map tolower →
      HTTPGetHeaderField P mem len (some name2) = HTTPGetHeaderField P mem len (some name)) ∧
    (∀ name2, name2.map tolower = strContentLength.map tolower →
      HTTPGetHeaderField P sampleContentLength 22 (some name2) =
        Except.ok { namePtr := 0, nameLen := 14, valuePtr := 16, valueLen := 2, next := 20 } ∧
      bytesAt sampleContentLength 16 2 = [52, 50] ∧
      HTTPScanFHeaderValue P sampleContentLength 22 (some name2) ScanFormat.llu =
        Except.ok (some 42)) := by
  have hloop := getHeaderFieldLoop_spec mem len name (len + 1) 0 (by omega) (Or.inl rfl)
    (fun j hj => by omega)
  rw [← HTTPGetHeaderField_eq_loop P mem len _ hsz] at hloop
  refine ⟨?_, ?_, ?_, ?_, ?_⟩
  · constructor
    · rintro ⟨f, hf⟩
      rcases hloop with ⟨s, e, h1, h2, _, _⟩ | ⟨_, h4⟩
      · exact ⟨s, h2, e, h1.1, h1⟩
      · rw [h4] at hf; cases hf
    · rintro ⟨s, hs⟩
      rcases hloop with ⟨_, _, _, _, _, h4⟩ | ⟨hn, _⟩
      · exact ⟨_, h4⟩
      · exact absurd hs (hn s)
  · intro s hs hmin
    obtain ⟨e, he, hres⟩ := HTTPGetHeaderField_first P mem len name hsz s hs hmin
    refine ⟨_, hres, rfl, rfl, he.2.2.2.2.2, ?_, ?_, ?_⟩
    · exact scanWhile_ge mem e isBlank (s + name.length + 1)
    · intro k h1 h2
      exact (scanWhile_cond mem e isBlank (s + name.length + 1) k h1 h2).2
    · show isBlank (mem.getD (scanWhile mem e isBlank (s + name.length + 1)) 0) = false
      have hle := scanWhile_le mem e isBlank (s + name.length + 1) (by have := he.2.1; omega)
      by_cases hlt : scanWhile mem e isBlank (s + name.length + 1) < e
      · exact scanWhile_stop mem e isBlank (s + name.length + 1) hlt
      · have : scanWhile mem e isBlank (s + name.length + 1) = e := by omega
        rw [this]
        exact isBlank_false_of_eol _ he.2.2.1
  · intro hn
    rcases hloop with ⟨s, e, h1, h2, _, _⟩ | ⟨_, h4⟩
    · exact absurd ⟨s, h2, e, h1.1, h1⟩ hn
    · exact h4
  · intro name2 h
    exact HTTPGetHeaderField_caseInsensitive P mem len name name2 h
  · intro name2 h
    have hlook : HTTPGetHeaderField P sampleContentLength 22 (some name2) =
        Except.ok { namePtr := 0, nameLen := 14, valuePtr := 16, valueLen := 2, next := 20 } := by
      rw [HTTPGetHeaderField_caseInsensitive P sampleContentLength 22
        (strContentLength.map tolower) name2 (by rw [h, List.map_map]; rfl)]
      unfold HTTPGetHeaderField
      have : (if 22 = P.kSizeCString then strlen sampleContentLength else 22) = 22 := by
        split
        · decide
        · rfl
      simp only [this]
      rfl
    refine ⟨hlook, rfl, ?_⟩
    unfold HTTPScanFHeaderValue
    rw [hlook]
    rfl

/-- Witness for C6: the lookup of `"CONTENT-LENGTH"` in `"Content-Length: 42\r\n\r\n"` scans
42. -/
theorem HTTPGetHeaderField_lookup_witness :
    (22 ≠ samplePlatform.kSizeCString) ∧
    HTTPScanFHeaderValue samplePlatform sampleContentLength 22
      (some [67, 79, 78, 84, 69, 78, 84, 45, 76, 69, 78, 71, 84, 72]) ScanFormat.llu =
      Except.ok (some 42) :=
  ⟨by decide,
   ((HTTPGetHeaderField_lookup samplePlatform sampleContentLength 22 strContentLength
      (by decide)).2.2.2.2 [67, 79, 78, 84, 69, 78, 84, 45, 76, 69, 78, 71, 84, 72]
      (by decide)).2.2⟩

/-! ## HTTPGetHeaderField: continuation lines -/

theorem IsLineTerminator_head (t next : List Nat) (h : IsLineTerminator t next) :
    0 < t.length ∧ (t.getD 0 0 = cCR ∨ t.getD 0 0 = cLF) := by
  rcases h with rfl | rfl | ⟨rfl, _⟩
  · exact ⟨by decide, Or.inl rfl⟩
  · exact ⟨by decide, Or.inr rfl⟩
  · exact ⟨by decide, Or.inl rfl⟩

/-- Scanning a line `b` with terminator `t`: the text ends where `t` starts and
`skipLineEnding` stops just past `t`. -/
theorem line_scan (mem : List Nat) (lim : Nat) (pre b t post : List Nat)
    (hmem : mem.take lim = pre ++ (b ++ (t ++ post))) (hlim : lim ≤ mem.length)
    (hb : NoEOL b) (ht : IsLineTerminator t post) :
    scanWhile mem lim notEOL pre.length = pre.length + b.length ∧
    skipLineEnding mem lim (pre.length + b.length) = pre.length + b.length + t.length := by
  have hl : lim = pre.length + (b.length + (t.length + post.length)) := by
    have := congrArg List.length hmem
    simp only [List.length_take, List.length_append] at this
    omega
  obtain ⟨ht0, hthead⟩ := IsLineTerminator_head t post ht
  have hpost : (t ++ post).getD 0 0 = t.getD 0 0 := getD_append_left t post 0 ht0
  refine ⟨scanWhile_seg mem lim notEOL pre b (t ++ post) hmem hlim (NoEOL_cond b hb)
    (fun _ => by rw [hpost]; exact (notEOL_false_iff _).2 hthead), ?_⟩
  have hmem2 : mem.take lim = (pre ++ b) ++ (t ++ post) := by rw [hmem]; simp
  have g : ∀ k, k < t.length →
      pre.length + b.length + k < lim ∧ mem.getD (pre.length + b.length + k) 0 = t.getD k 0 := by
    intro k hk
    have := getD_seg mem lim (pre ++ b) t post hmem2 hlim k hk
    rw [List.length_append] at this
    exact this
  have g2 : pre.length + b.length + t.length < lim →
      mem.getD (pre.length + b.length + t.length) 0 = post.getD 0 0 := by
    intro hlt
    have := getD_seg mem lim (pre ++ (b ++ t)) post [] (by rw [hmem]; simp) hlim 0 (by omega)
    simp only [List.length_append, Nat.add_zero] at this
    rw [← this.2]
    congr 1
    omega
  unfold skipLineEnding
  rcases ht with rfl | rfl | ⟨rfl, hnext⟩
  · have g0 := g 0 (by decide)
    have g1 := g 1 (by decide)
    simp only [Nat.add_zero, List.getD_cons_zero, List.getD_cons_succ] at g0 g1
    have e1 : (if pre.length + b.length < lim ∧ mem.getD (pre.length + b.length) 0 = cCR then
        pre.length + b.length + 1 else pre.length + b.length) = pre.length + b.length + 1 :=
      if_pos ⟨g0.1, g0.2⟩
    simp only [e1]
    rw [if_pos ⟨g1.1, g1.2⟩]
    rfl
  · have g0 := g 0 (by decide)
    simp only [Nat.add_zero, List.getD_cons_zero] at g0
    have e1 : (if pre.length + b.length < lim ∧ mem.getD (pre.length + b.length) 0 = cCR then
        pre.length + b.length + 1 else pre.length + b.length) = pre.length + b.length :=
      if_neg (by rw [g0.2]; rintro ⟨_, h⟩; exact absurd h (by decide))
    simp only [e1]
    rw [if_pos ⟨g0.1, g0.2⟩]
    rfl
  · have g0 := g 0 (by decide)
    simp only [Nat.add_zero, List.getD_cons_zero] at g0
    have e1 : (if pre.length + b.length < lim ∧ mem.getD (pre.length + b.length) 0 = cCR then
        pre.length + b.length + 1 else pre.length + b.length) = pre.length + b.length + 1 :=
      if_pos ⟨g0.1, g0.2⟩
    simp only [e1]
    rw [if_neg]
    · rfl
    · rintro ⟨h1, h2⟩
      have h3 := g2 h1
      rw [show pre.length + b.length + [cCR].length = pre.length + b.length + 1 from rfl,
        h2] at h3
      apply hnext
      cases post with
      | nil =>
        simp only [List.length_cons, List.length_nil] at hl h1
        omega
      | cons d post =>
        simp only [List.getD_cons_zero] at h3
        rw [← h3]
        rfl

/-- The continuation loop on a sequence of continuation lines reads all of them. -/
theorem continuationLoop_conts (mem : List Nat) (lim : Nat) (rest : List Nat)
    (hlim : lim ≤ mem.length) :
    ∀ (cs : List ContLine) (pre : List Nat) (fuel valueEnd : Nat),
      mem.take lim = pre ++ contBytes cs rest → ValidContinuations cs rest →
      cs.length < fuel →
      continuationLoop mem lim fuel valueEnd pre.length = contSpan pre.length valueEnd cs := by
  intro cs
  induction cs with
  | nil =>
    intro pre fuel valueEnd hmem hv hf
    obtain ⟨n, rfl⟩ : ∃ n, fuel = n + 1 := ⟨fuel - 1, by simp at hf; omega⟩
    simp only [contBytes] at hmem
    simp only [continuationLoop, contSpan]
    rw [if_neg]
    rintro ⟨h1, h2⟩
    have hl : lim = pre.length + rest.length := by
      have := congrArg List.length hmem
      simp only [List.length_take, List.length_append] at this
      omega
    have := getD_seg mem lim pre rest [] (by rw [hmem]; simp) hlim 0 (by omega)
    simp only [Nat.add_zero] at this
    rw [this.2] at h2
    cases rest with
    | nil => simp at hl; omega
    | cons d rest =>
      have := hv d rfl
      simp only [List.getD_cons_zero] at h2
      rw [this] at h2
      exact absurd h2 (by decide)
  | cons l ls ih =>
    intro pre fuel valueEnd hmem hv hf
    obtain ⟨n, rfl⟩ : ∃ n, fuel = n + 1 := ⟨fuel - 1, by simp at hf; omega⟩
    obtain ⟨c, b, t⟩ := l
    simp only [contBytes] at hmem
    obtain ⟨hc, hb, ht, hvs⟩ := hv
    simp only at hc hb ht
    have g0 := getD_seg mem lim pre [c] (b ++ (t ++ contBytes ls rest)) (by rw [hmem]; simp) hlim 0
      (by simp)
    simp only [Nat.add_zero, List.getD_cons_zero] at g0
    have hscan := line_scan mem lim (pre ++ [c]) b t (contBytes ls rest) (by rw [hmem]; simp)
      hlim hb ht
    rw [show (pre ++ [c]).length = pre.length + 1 by simp] at hscan
    simp only [continuationLoop, contSpan]
    rw [if_pos ⟨g0.1, by rw [g0.2]; exact hc⟩, hscan.1, hscan.2]
    have := ih (pre ++ (c :: (b ++ t))) n (pre.length + 1 + b.length) (by rw [hmem]; simp) hvs
      (by simp at hf; omega)
    rw [show (pre ++ (c :: (b ++ t))).length = pre.length + 1 + b.length + t.length by
      simp only [List.length_append, List.length_cons]; omega] at this
    exact this

theorem contBytes_length (cs : List ContLine) (rest : List Nat) :
    (contBytes cs rest).length = (contBytes cs []).length + rest.length := by
  induction cs with
  | nil => simp [contBytes]
  | cons l ls ih =>
    simp only [contBytes, List.length_cons, List.length_append, ih]
    omega

/-- The second offset of `contSpan` is just past all the continuation lines. -/
theorem contSpan_snd (cs : List ContLine) :
    ∀ (p valueEnd : Nat), (contSpan p valueEnd cs).2 = p + (contBytes cs []).length := by
  induction cs with
  | nil => intro p valueEnd; rfl
  | cons l ls ih =>
    intro p valueEnd
    simp only [contSpan, contBytes, List.length_cons, List.length_append]
    rw [ih]
    omega

/-- The first offset of `contSpan` is where the terminator of the last continuation line
starts. -/
theorem contSpan_fst (cs : List ContLine) (hne : cs ≠ []) :
    ∀ (p valueEnd : Nat),
      (contSpan p valueEnd cs).1 + (cs.getLast hne).2.2.length = (contSpan p valueEnd cs).2 ∧
      p < (contSpan p valueEnd cs).1 := by
  induction cs with
  | nil => exact absurd rfl hne
  | cons l ls ih =>
    intro p valueEnd
    cases ls with
    | nil =>
      simp only [contSpan, List.getLast_singleton]
      exact ⟨trivial, by omega⟩
    | cons l2 ls2 =>
      have := ih (List.cons_ne_nil l2 ls2) (p + 1 + l.2.1.length + l.2.2.length)
        (p + 1 + l.2.1.length)
      rw [List.getLast_cons (List.cons_ne_nil l2 ls2)]
      simp only [contSpan] at this ⊢
      exact ⟨this.1, by omega⟩

theorem length_le_contBytes (cs : List ContLine) (rest : List Nat) :
    cs.length ≤ (contBytes cs rest).length := by
  induction cs with
  | nil => simp
  | cons l ls ih =>
    simp only [contBytes, List.length_cons, List.length_append]
    omega

/-- C7: when the first field line for the name is followed by one or more lines that begin
with space or tab, the value span returned by `HTTPGetHeaderField` starts at the first byte
after the colon that is not space or tab (on the field's own line, or at its terminator
when the rest of that line is blank), ends where the line terminator of the last
continuation line starts, and `next` is just past that terminator.  For
`"X-Foo: a\r\n bcd\r\n\r\n"` the value span starts at offset 7, has 7 bytes (it ends at
offset 14), and `next` is 16. -/
theorem HTTPGetHeaderField_continuation (P : Platform) (mem : List Nat) (len : Nat)
    (name : List Nat) (hsz : len ≠ P.kSizeCString) (hvalid : len ≤ mem.length)
    (pre line t0 rest : List Nat) (cs : List ContLine) (hne : cs ≠ [])
    (hhdr : mem.take len = pre ++ (line ++ (t0 ++ contBytes cs rest)))
    (hline : NoEOL line) (ht0 : IsLineTerminator t0 (contBytes cs rest))
    (hcs : ValidContinuations cs rest)
    (hfield : IsFieldLine mem len name pre.length)
    (hmin : ∀ j, j < pre.length → ¬ IsFieldLine mem len name j) :
    (∃ f, HTTPGetHeaderField P mem len (some name) = Except.ok f ∧
      f.namePtr = pre.length ∧ f.nameLen = name.length ∧
      pre.length + name.length + 1 ≤ f.valuePtr ∧ f.valuePtr ≤ pre.length + line.length ∧
      (∀ k, pre.length + name.length + 1 ≤ k → k < f.valuePtr →
        isBlank (mem.getD k 0) = true) ∧
      isBlank (mem.getD f.valuePtr 0) = false ∧
      f.valuePtr + f.valueLen + (cs.getLast hne).2.2.length = f.next ∧
      f.next = pre.length + line.length + t0.length + (contBytes cs []).length) ∧
    HTTPGetHeaderField P sampleFolded 18 (some strXFoo) =
      Except.ok { namePtr := 0, nameLen := 5, valuePtr := 7, valueLen := 7, next := 16 } := by
  constructor
  · have hl : len = pre.length + (line.length + (t0.length + (contBytes cs rest).length)) := by
      have := congrArg List.length hhdr
      simp only [List.length_take, List.length_append] at this
      omega
    have hcl := length_le_contBytes cs rest
    obtain ⟨ht0len, _⟩ := IsLineTerminator_head t0 _ ht0
    obtain ⟨sc1, sc2⟩ := line_scan mem len pre line t0 (contBytes cs rest) hhdr hvalid hline ht0
    have hcond := scanWhile_cond mem len notEOL pre.length
    have hstop := scanWhile_stop mem len notEOL pre.length
    rw [sc1] at hcond hstop
    have heol := (notEOL_false_iff _).1 (hstop (by omega))
    have hline2 : ∀ k, pre.length ≤ k → k < pre.length + line.length →
        mem.getD k 0 ≠ cCR ∧ mem.getD k 0 ≠ cLF :=
      fun k a b => (notEOL_true_iff _).1 (hcond k a b).2
    obtain ⟨e, he, hres⟩ := HTTPGetHeaderField_first P mem len name hsz pre.length hfield hmin
    have hee := IsFieldLineEnd_unique mem len name pre.length (pre.length + line.length) e
      (by omega) heol hline2 he
    subst hee
    have hcont := continuationLoop_conts mem len rest hvalid cs (pre ++ (line ++ t0)) (len + 1)
      (pre.length + line.length) (by rw [hhdr]; simp) hcs (by omega)
    rw [show (pre ++ (line ++ t0)).length = pre.length + line.length + t0.length by
      simp only [List.length_append]; omega] at hcont
    obtain ⟨f1, f2⟩ := contSpan_fst cs hne (pre.length + line.length + t0.length)
      (pre.length + line.length)
    have f3 := contSpan_snd cs (pre.length + line.length + t0.length) (pre.length + line.length)
    have hv1 := scanWhile_ge mem (pre.length + line.length) isBlank (pre.length + name.length + 1)
    have hv2 := scanWhile_le mem (pre.length + line.length) isBlank (pre.length + name.length + 1)
      (by have := he.2.1; omega)
    have hv3 := scanWhile_cond mem (pre.length + line.length) isBlank
      (pre.length + name.length + 1)
    have hv4 := scanWhile_stop mem (pre.length + line.length) isBlank
      (pre.length + name.length + 1)
    refine ⟨_, hres, rfl, rfl, hv1, hv2, fun k a b => (hv3 k a b).2, ?_, ?_, ?_⟩
    · show isBlank (mem.getD (scanWhile mem (pre.length + line.length) isBlank
        (pre.length + name.length + 1)) 0) = false
      by_cases hlt : scanWhile mem (pre.length + line.length) isBlank
          (pre.length + name.length + 1) < pre.length + line.length
      · exact hv4 hlt
      · have : scanWhile mem (pre.length + line.length) isBlank
            (pre.length + name.length + 1) = pre.length + line.length := by omega
        rw [this]
        exact isBlank_false_of_eol _ heol
    · show scanWhile mem (pre.length + line.length) isBlank (pre.length + name.length + 1) +
        ((continuationLoop mem len (len + 1) (pre.length + line.length)
            (skipLineEnding mem len (pre.length + line.length))).1 -
          scanWhile mem (pre.length + line.length) isBlank (pre.length + name.length + 1)) +
        (cs.getLast hne).2.2.length =
        (continuationLoop mem len (len + 1) (pre.length + line.length)
            (skipLineEnding mem len (pre.length + line.length))).2
      rw [sc2, hcont]
      omega
    · show (continuationLoop mem len (len + 1) (pre.length + line.length)
            (skipLineEnding mem len (pre.length + line.length))).2 = _
      rw [sc2, hcont, f3]
  · unfold HTTPGetHeaderField
    have : (if 18 = P.kSizeCString then strlen sampleFolded else 18) = 18 := by
      split
      · decide
      · rfl
    simp only [this]
    rfl

/-- Witness for C7: in `"X-Foo: a\r\n bcd\r\n\r\n"` the field line `"X-Foo: a"` is followed by the
continuation line `" bcd"`; the value span runs from offset 7 to offset 14 and `next` is 16. -/
theorem HTTPGetHeaderField_continuation_witness :
    ∃ f, HTTPGetHeaderField samplePlatform sampleFolded 18 (some strXFoo) = Except.ok f ∧
      f.namePtr = 0 ∧ f.nameLen = 5 ∧ 6 ≤ f.valuePtr ∧ f.valuePtr ≤ 8 ∧
      f.valuePtr + f.valueLen + 2 = f.next ∧ f.next = 16 :=
  have w := (HTTPGetHeaderField_continuation samplePlatform sampleFolded 18 strXFoo
    (by decide) (by decide) [] [88, 45, 70, 111, 111, 58, 32, 97] [13, 10] [13, 10]
    [(32, [98, 99, 100], [13, 10])] (by decide) rfl (by unfold NoEOL; decide) (by decide)
    ⟨by decide, by unfold NoEOL; decide, by decide, by intro d hd; cases hd; decide⟩
    (by decide) (fun j hj => absurd hj (Nat.not_lt_zero j))).1
  match w with
  | ⟨f, h1, h2, h3, h4, h5, _, _, h8, h9⟩ => ⟨f, h1, h2, h3, h4, h5, h8, h9⟩

/-! ## HTTPHeaderParse: persistence -/

/-- An accepted start line leads to the field lookups, on a record with the same buffer. -/
theorem headerParseRequest_accepted (P : Platform) (h : HTTPHeader) (ptr : Nat)
    (hok : (headerParseRequest P h ptr).1 = kNoErr) :
    ∃ h2 p, h2.buf = h.buf ∧ h2.len = h.len ∧
      headerParseRequest P h ptr = headerParseFields P h2 p := by
  simp only [headerParseRequest] at hok ⊢
  split at hok
  · cases hok
  · split at hok
    · next hne => exact absurd hok hne
    · split at hok
      · cases hok
      · next h1 h2 h3 =>
        rw [if_neg h1, if_neg h2, if_neg h3]
        refine ⟨_, _, ?_, ?_, rfl⟩ <;> rfl

theorem headerParseReason_accepted (P : Platform) (h : HTTPHeader) (ptr : Nat)
    (hok : (headerParseReason P h ptr).1 = kNoErr) :
    ∃ h2 p, h2.buf = h.buf ∧ h2.len = h.len ∧
      headerParseReason P h ptr = headerParseFields P h2 p := by
  simp only [headerParseReason] at hok ⊢
  split at hok
  · cases hok
  · next h1 =>
    rw [if_neg h1]
    refine ⟨_, _, ?_, ?_, rfl⟩ <;> rfl

theorem headerParseResponse_accepted (P : Platform) (h : HTTPHeader) (ptr : Nat)
    (hok : (headerParseResponse P h ptr).1 = kNoErr) :
    ∃ h2 p, h2.buf = h.buf ∧ h2.len = h.len ∧
      headerParseResponse P h ptr = headerParseFields P h2 p := by
  simp only [headerParseResponse] at hok ⊢
  split at hok
  · cases hok
  · next h1 =>
    rw [if_neg h1]
    obtain ⟨h2, p, a, b, c⟩ := headerParseReason_accepted P _ _ hok
    exact ⟨h2, p, a, b, c⟩

theorem HTTPHeaderParse_accepted (P : Platform) (h : HTTPHeader)
    (hok : (HTTPHeaderParse P h).1 = kNoErr)
    (hnd : ¬ (h.len = 4 ∧ h.buf.getD 0 0 = cDollar)) :
    ∃ h2 p, h2.buf = h.buf ∧ h2.len = h.len ∧ p < h2.len ∧
      HTTPHeaderParse P h = headerParseFields P h2 p := by
  have hcap : h.len < P.bufSize := by
    by_contra hc
    unfold HTTPHeaderParse at hok
    rw [if_pos hc] at hok
    cases hok
  have hstart := HTTPHeaderParse_startLine P h hcap hnd
  rw [hstart] at hok
  have key : ∃ h2 p, h2.buf = h.buf ∧ h2.len = h.len ∧
      HTTPHeaderParse P h = headerParseFields P h2 p := by
    rw [hstart]
    split at hok
    · cases hok
    · next h1 =>
      rw [if_neg h1]
      split at hok
      · next h2 =>
        rw [if_pos h2]
        exact headerParseRequest_accepted P (headerParseReset h) _ hok
      · next h2 =>
        rw [if_neg h2]
        exact headerParseResponse_accepted P (headerParseReset h) _ hok
  obtain ⟨h2, p, a, b, c⟩ := key
  refine ⟨h2, p, a, b, ?_, c⟩
  by_contra hp
  rw [← hstart, c, headerParseFields_malformed P h2 p hp] at hok
  cases hok

theorem strnicmpx_ne_zero_iff (a b : List Nat) :
    decide (strnicmpx a b ≠ 0) = true ↔ ¬ EqIgnoreCase a b := by
  unfold strnicmpx EqIgnoreCase
  by_cases h : a.map tolower = b.map tolower
  · rw [if_pos h]; simp [h]
  · rw [if_neg h]; simp [h]

/-- C8, amended: for every header that `HTTPHeaderParse` accepts in request or response form,
if the lookup of `"Connection"` finds no field then `persistent` is true exactly when the
protocol token is not equal to `"HTTP/1.0"` ignoring ASCII case; if it finds the field then
`persistent` is true exactly when the field's value is not equal to `"close"` ignoring ASCII
case. -/
theorem HTTPHeaderParse_persistent (P : Platform) (h : HTTPHeader)
    (hok : (HTTPHeaderParse P h).1 = kNoErr)
    (hnd : ¬ (h.len = 4 ∧ h.buf.getD 0 0 = cDollar)) :
    (∀ e, HTTPGetHeaderField P h.buf h.len (some strConnection) = Except.error e →
      ((HTTPHeaderParse P h).2.persistent = true ↔
        ¬ EqIgnoreCase
          (spanBytes (HTTPHeaderParse P h).2.buf (HTTPHeaderParse P h).2.protocolPtr
            (HTTPHeaderParse P h).2.protocolLen) strHTTP10)) ∧
    (∀ f, HTTPGetHeaderField P h.buf h.len (some strConnection) = Except.ok f →
      ((HTTPHeaderParse P h).2.persistent = true ↔
        ¬ EqIgnoreCase (bytesAt h.buf f.valuePtr f.valueLen) strClose)) := by
  obtain ⟨h2, p, hb, hl, hp, hparse⟩ := HTTPHeaderParse_accepted P h hok hnd
  obtain ⟨_, hsame, hpers⟩ := headerParseFields_ok P h2 p hp
  rw [← hparse] at hsame hpers
  obtain ⟨q1, _, _, _, _, _, _, q8, q9, _⟩ := hsame
  rw [hpers, q1, q8, q9]
  constructor
  · intro e he
    unfold headerParsePersistent
    rw [hb, hl, he]
    exact strnicmpx_ne_zero_iff _ _
  · intro f hf
    unfold headerParsePersistent
    rw [hb, hl, hf]
    exact strnicmpx_ne_zero_iff _ _

/-- C8 as stated fails: `"GET / http/1.0\r\n\r\n"` is accepted in request form and has no
`Connection` field; its protocol token `"http/1.0"` is not exactly `"HTTP/1.0"`, yet
`persistent` is false. -/
theorem HTTPHeaderParse_lowercase_http10_not_persistent :
    (HTTPHeaderParse samplePlatform (headerOf samplePlatform sampleLowerProtocol)).1 = kNoErr ∧
    HTTPGetHeaderField samplePlatform sampleLowerProtocol 18 (some strConnection)
      = Except.error kNotFoundErr ∧
    spanBytes (HTTPHeaderParse samplePlatform (headerOf samplePlatform sampleLowerProtocol)).2.buf
      (HTTPHeaderParse samplePlatform (headerOf samplePlatform sampleLowerProtocol)).2.protocolPtr
      (HTTPHeaderParse samplePlatform (headerOf samplePlatform sampleLowerProtocol)).2.protocolLen
      = [104, 116, 116, 112, 47, 49, 46, 48] ∧
    [104, 116, 116, 112, 47, 49, 46, 48] ≠ strHTTP10 ∧
    (HTTPHeaderParse samplePlatform (headerOf samplePlatform sampleLowerProtocol)).2.persistent
      = false := by
  refine ⟨by decide, rfl, by decide, by decide, by decide⟩

/-- Witness for C8, amended: `"GET / HTTP/1.1\r\n\r\n"` has no `Connection` field and its
protocol is not `"HTTP/1.0"`, so it is persistent. -/
theorem HTTPHeaderParse_persistent_witness :
    (HTTPHeaderParse samplePlatform (headerOf samplePlatform sampleRequest)).2.persistent = true :=
  ((HTTPHeaderParse_persistent samplePlatform (headerOf samplePlatform sampleRequest)
    (by decide) (by decide)).1 kNotFoundErr rfl).2 (by decide)

/-! ## findChunkedDataLength -/

theorem findChunkedDataLengthLoop_spec (mem : List Nat) (dst : Nat) :
    ∀ (fuel src : Nat), dst < fuel + src →
      (∀ j, j < src → ¬ HasCRLFAt mem dst j) →
      (∃ i, HasCRLFAt mem dst i ∧ (∀ j, j < i → ¬ HasCRLFAt mem dst j) ∧
        findChunkedDataLengthLoop mem dst fuel src =
          (true, i + 2,
            if mem.getD 0 0 = cZero then VSNScanF [cZero] ScanFormat.llu
            else VSNScanF (mem.take i) ScanFormat.x)) ∨
      ((∀ j, ¬ HasCRLFAt mem dst j) ∧
        findChunkedDataLengthLoop mem dst fuel src = (false, dst, none)) := by
  intro fuel
  induction fuel with
  | zero =>
    intro src hf hpre
    right
    refine ⟨fun j hj => hpre j (by have := hj.1; omega) hj, rfl⟩
  | succ n ih =>
    intro src hf hpre
    have hge := scanWhile_ge mem dst (fun c => c != cCR) src
    have hcond := scanWhile_cond mem dst (fun c => c != cCR) src
    have hstop := scanWhile_stop mem dst (fun c => c != cCR) src
    simp only [findChunkedDataLengthLoop]
    generalize scanWhile mem dst (fun c => c != cCR) src = s at hge hcond hstop
    have hpre2 : ∀ j, j < s → ¬ HasCRLFAt mem dst j := by
      intro j hj ht
      by_cases hjs : j < src
      · exact hpre j hjs ht
      · have := (hcond j (by omega) hj).2
        rw [ht.2.1] at this
        exact absurd this (by decide)
    by_cases h1 : s ≥ dst
    · rw [if_pos h1]
      right
      refine ⟨fun j hj => hpre2 j (by have := hj.1; omega) hj, rfl⟩
    · rw [if_neg h1]
      have hcr : mem.getD s 0 = cCR := by
        have := hstop (by omega)
        simpa only [bne_eq_false_iff_eq] using this
      by_cases h2 : dst - s ≥ 2 ∧ mem.getD (s + 1) 0 = cLF
      · rw [if_pos h2]
        left
        refine ⟨s, ⟨by omega, hcr, h2.2⟩, hpre2, ?_⟩
        by_cases h0 : mem.getD 0 0 = cZero
        · rw [if_pos h0, if_pos h0]
        · rw [if_neg h0, if_neg h0]
      · rw [if_neg h2]
        have hns : ¬ HasCRLFAt mem dst s := by
          rintro ⟨a, _, c⟩
          exact h2 ⟨by omega, c⟩
        by_cases h4 : dst - s ≤ 1
        · rw [if_pos h4]
          right
          refine ⟨fun j hj => ?_, rfl⟩
          by_cases hjs : j < s
          · exact hpre2 j hjs hj
          · have := hj.1
            omega
        · rw [if_neg h4]
          apply ih (s + 1) (by omega)
          intro j hj
          by_cases hjs : j < s
          · exact hpre2 j hjs
          · have : j = s := by omega
            subst this
            exact hns

theorem scanDigits_hex (s : List Nat) (h : ∀ c, c ∈ s → IsHexDigit c) :
    scanDigits ScanFormat.x s = s.map hexDigitValue := by
  induction s with
  | nil => rfl
  | cons a s ih =>
    have ha := h a (List.mem_cons_self _ _)
    have hd : ScanFormat.digit ScanFormat.x a = some (hexDigitValue a) := by
      unfold ScanFormat.digit hexDigitValue IsHexDigit at *
      by_cases h1 : 48 ≤ a ∧ a ≤ 57
      · rw [if_pos h1, if_pos h1]
      · rw [if_neg h1, if_neg h1]
        by_cases h2 : 97 ≤ a ∧ a ≤ 102
        · rw [if_pos ⟨rfl, h2⟩, if_pos h2]
        · rw [if_neg (fun hc => h2 hc.2), if_neg h2]
          rcases ha with ha | ha | ha
          · exact absurd ha h1
          · exact absurd ha h2
          · rw [if_pos ⟨rfl, ha⟩]
    simp only [scanDigits, hd, List.map_cons]
    rw [ih (fun c hc => h c (List.mem_cons_of_mem _ hc))]

/-- On a non-empty string of hexadecimal digits whose value fits 64 bits, the `"%x"`
conversion stores the hexadecimal value of the string. -/
theorem VSNScanF_hex (s : List Nat) (hne : s ≠ []) (h : ∀ c, c ∈ s → IsHexDigit c)
    (hv : hexValue s < 2 ^ 64) :
    VSNScanF s ScanFormat.x = some (hexValue s) := by
  unfold VSNScanF
  rw [scanDigits_hex s h]
  cases s with
  | nil => exact absurd rfl hne
  | cons a s =>
    simp only [List.map_cons]
    have : List.foldl (fun acc d => acc * ScanFormat.base ScanFormat.x + d) 0
        (hexDigitValue a :: List.map hexDigitValue s) = hexValue (a :: s) := by
      unfold hexValue
      rw [← List.map_cons, List.foldl_map]
      rfl
    rw [this, Nat.mod_eq_of_lt hv]

set_option maxRecDepth 100000

theorem headerParseFields_len (P : Platform) (h : HTTPHeader) (ptr : Nat) :
    (headerParseFields P h ptr).2.len = h.len := by
  by_cases hp : ptr < h.len
  · exact (headerParseFields_ok P h ptr hp).2.1.2.1
  · rw [headerParseFields_malformed P h ptr hp]

theorem headerParseRequest_len (P : Platform) (h : HTTPHeader) (ptr : Nat) :
    (headerParseRequest P h ptr).2.len = h.len := by
  unfold headerParseRequest
  simp only []
  split_ifs <;> first | rfl | (rw [headerParseFields_len])

theorem headerParseReason_len (P : Platform) (h : HTTPHeader) (ptr : Nat) :
    (headerParseReason P h ptr).2.len = h.len := by
  unfold headerParseReason
  simp only []
  split_ifs <;> first | rfl | (rw [headerParseFields_len])

theorem headerParseResponse_len (P : Platform) (h : HTTPHeader) (ptr : Nat) :
    (headerParseResponse P h ptr).2.len = h.len := by
  unfold headerParseResponse
  simp only []
  split_ifs <;> first | rfl | (rw [headerParseReason_len])

theorem HTTPHeaderParse_len (P : Platform) (h : HTTPHeader) :
    (HTTPHeaderParse P h).2.len = h.len := by
  unfold HTTPHeaderParse
  simp only []
  split_ifs <;>
    first | rfl | (rw [headerParseRequest_len]; rfl) | (rw [headerParseResponse_len]; rfl)

/-- The read loop of `SocketReadHTTPHeader` ends with `break` only where `findHeader` has found
the end of a header. -/
theorem readHeaderLoop_some (P : Platform) :
    ∀ (fuel : Nat) (h : HTTPHeader) (w : World) (dst e : Nat) (h1 : HTTPHeader) (w1 : World)
      (d1 : Nat), readHeaderLoop P fuel h w dst = (some e, h1, w1, d1) →
      findHeader h1 = (true, e) := by
  intro fuel
  induction fuel with
  | zero =>
    intro h w dst e h1 w1 d1 hr
    simp [readHeaderLoop] at hr
  | succ n ih =>
    intro h w dst e h1 w1 d1 hr
    unfold readHeaderLoop at hr
    simp only [] at hr
    by_cases hf : (findHeader h).1 = true
    · rw [if_pos hf] at hr
      simp only [Prod.mk.injEq, Option.some.injEq] at hr
      obtain ⟨a, b, _, _⟩ := hr
      subst b
      rw [← a, ← hf]
    · rw [if_neg hf] at hr
      split_ifs at hr
      · exact ih _ _ _ _ _ _ _ hr
      · simp at hr

/-- C19 does not hold as stated: `HTTPHeaderParse` rejects the header `"GET /\r\n\r\n"` with
`kMalformedErr` and returns the record with `len = 9`, and `SocketReadHTTPHeader`, reading
these bytes from the byte source, fails in its parse step with `len = 9` as well. -/
theorem HTTPHeaderParse_error_len_not_zero :
    (HTTPHeaderParse samplePlatform (headerOf samplePlatform sampleNoProtocol)).1 = kMalformedErr ∧
    (HTTPHeaderParse samplePlatform (headerOf samplePlatform sampleNoProtocol)).2.len = 9 ∧
    (SocketReadHTTPHeader samplePlatform (HTTPHeaderCreate samplePlatform)
      (sampleWorld [ReadEvent.data sampleNoProtocol] [])).1 = kMalformedErr ∧
    (SocketReadHTTPHeader samplePlatform (HTTPHeaderCreate samplePlatform)
      (sampleWorld [ReadEvent.data sampleNoProtocol] [])).2.1.len = 9 := by
  decide

/-- C19, as the code has it: `HTTPHeaderParse` returns the record with `len` as it was on
entry, whatever status it returns; and when the read loop of `SocketReadHTTPHeader` has found
the end of a header at offset `e` and the parse step fails, `SocketReadHTTPHeader` returns the
parser's status and leaves `len = e`. -/
theorem HTTPHeaderParse_keeps_len (P : Platform) (h : HTTPHeader) (w : World) :
    (HTTPHeaderParse P h).2.len = h.len ∧
    ∀ (e : Nat) (h1 : HTTPHeader) (w1 : World) (dst : Nat),
      readHeaderLoop P (w.readFuel + 1) h w h.len = (some e, h1, w1, dst) →
      (HTTPHeaderParse P { h1 with len := e }).1 ≠ kNoErr →
      findHeader h1 = (true, e) ∧
      (SocketReadHTTPHeader P h w).1 = (HTTPHeaderParse P { h1 with len := e }).1 ∧
      (SocketReadHTTPHeader P h w).2.1.len = e ∧
      (SocketReadHTTPHeader P h w).2.2 = w1 := by
  refine ⟨HTTPHeaderParse_len P h, ?_⟩
  intro e h1 w1 dst hloop herr
  have hfind := readHeaderLoop_some P _ _ _ _ _ _ _ _ hloop
  have hs : SocketReadHTTPHeader P h w =
      ((HTTPHeaderParse P { h1 with len := e }).1,
        (HTTPHeaderParse P { h1 with len := e }).2, w1) := by
    unfold SocketReadHTTPHeader
    rw [hloop]
    simp only []
    rw [if_pos herr]
  rw [hs]
  exact ⟨hfind, rfl, HTTPHeaderParse_len P _, rfl⟩

theorem HTTPHeaderParse_keeps_len_witness :
    (HTTPHeaderParse samplePlatform
      { (headerOf samplePlatform (sampleNoProtocol ++ List.replicate 503 0)) with len := 9 }).1
        ≠ kNoErr ∧
    (SocketReadHTTPHeader samplePlatform (HTTPHeaderCreate samplePlatform)
      (sampleWorld [ReadEvent.data sampleNoProtocol] [])).2.1.len = 9 :=
  ⟨by decide,
   ((HTTPHeaderParse_keeps_len samplePlatform (HTTPHeaderCreate samplePlatform)
      (sampleWorld [ReadEvent.data sampleNoProtocol] [])).2 9
      { (headerOf samplePlatform (sampleNoProtocol ++ List.replicate 503 0)) with len := 9 }
      { sampleWorld [] [] with
        readLog := [{ dest := ReadDest.headerBuf 0, count := 512, ret := 9 }] }
      9 (by decide) (by decide)).2.2.1⟩

/-! ## HTTPHeaderClear -/

theorem writeBuf_sameBody (h : HTTPHeader) (w : World) (off : Nat) (bs : List Nat) :
    SameBodyState (writeBuf h w off bs).1 h ∧ (writeBuf h w off bs).1.len = h.len := by
  unfold writeBuf SameBodyState
  split <;> simp

theorem copyToBuf_sameBody (h : HTTPHeader) (w : World) (src : HeapPtr) (n : Nat) :
    SameBodyState (copyToBuf h w src n).1 h ∧ (copyToBuf h w src n).1.len = h.len := by
  unfold copyToBuf
  exact writeBuf_sameBody _ _ _ _

theorem clearChunkedLeftover_sameBody (P : Platform) (h : HTTPHeader) (w : World) :
    SameBodyState (clearChunkedLeftover P h w).1 h := by
  unfold clearChunkedLeftover
  simp only []
  split
  · split_ifs
    · simp [SameBodyState]
    · exact (copyToBuf_sameBody _ _ _ _).1
    · simp [SameBodyState]
  · simp [SameBodyState]

theorem clearFixedLeftover_sameBody (h : HTTPHeader) (w : World) :
    SameBodyState (clearFixedLeftover h w).1 h := by
  unfold clearFixedLeftover
  split_ifs
  · exact (copyToBuf_sameBody _ _ _ _).1
  · simp [SameBodyState]

theorem headerFreeBody_fst (h : HTTPHeader) (w : World) :
    (headerFreeBody h w).1 = { h with extraDataPtr := HeapPtr.null, otaDataPtr := HeapPtr.null } := by
  unfold headerFreeBody
  cases h
  simp only []
  split_ifs <;> simp_all

/-- C18 does not hold as stated: when `SocketReadHTTPHeader` has parsed the header of a chunked
response and its `calloc` fails, the record is marked chunked without a chunk buffer, and
`HTTPHeaderClear` then takes its second branch, which leaves `chunkedData` set. -/
theorem HTTPHeaderClear_leaves_chunkedData :
    (SocketReadHTTPHeader samplePlatform (HTTPHeaderCreate samplePlatform)
      (sampleWorld [ReadEvent.data sampleChunkedHeader] [AllocEvent.fail])).1 = kNoMemoryErr ∧
    (HTTPHeaderClear samplePlatform
      (SocketReadHTTPHeader samplePlatform (HTTPHeaderCreate samplePlatform)
        (sampleWorld [ReadEvent.data sampleChunkedHeader] [AllocEvent.fail])).2.1
      (SocketReadHTTPHeader samplePlatform (HTTPHeaderCreate samplePlatform)
        (sampleWorld [ReadEvent.data sampleChunkedHeader] [AllocEvent.fail])).2.2).1.chunkedData
      = true := by
  decide

/-- C18, as the code has it: after `HTTPHeaderClear`, `extraDataLen` is 0 and `extraDataPtr` is
null; for a chunked record with a chunk buffer, `chunkedData` is false and
`chunkedDataBufferPtr` is null, while `dataEndedbyClose` and `otaDataPtr` are as before; for
every other record, `dataEndedbyClose` is false and `otaDataPtr` is null, while `chunkedData`
and `chunkedDataBufferPtr` are as before. -/
theorem HTTPHeaderClear_body_state (P : Platform) (h : HTTPHeader) (w : World) :
    (HTTPHeaderClear P h w).1.extraDataLen = 0 ∧
    (HTTPHeaderClear P h w).1.extraDataPtr = HeapPtr.null ∧
    (if h.chunkedData = true ∧ h.chunkedDataBufferPtr ≠ HeapPtr.null then
      (HTTPHeaderClear P h w).1.chunkedData = false ∧
      (HTTPHeaderClear P h w).1.chunkedDataBufferPtr = HeapPtr.null ∧
      (HTTPHeaderClear P h w).1.dataEndedbyClose = h.dataEndedbyClose ∧
      (HTTPHeaderClear P h w).1.otaDataPtr = h.otaDataPtr
    else
      (HTTPHeaderClear P h w).1.dataEndedbyClose = false ∧
      (HTTPHeaderClear P h w).1.otaDataPtr = HeapPtr.null ∧
      (HTTPHeaderClear P h w).1.chunkedData = h.chunkedData ∧
      (HTTPHeaderClear P h w).1.chunkedDataBufferPtr = h.chunkedDataBufferPtr) := by
  by_cases hc : h.chunkedData = true ∧ h.chunkedDataBufferPtr ≠ HeapPtr.null
  · have hs := clearChunkedLeftover_sameBody P h w
    unfold SameBodyState at hs
    rw [if_pos hc]
    unfold HTTPHeaderClear
    rw [if_pos hc]
    exact ⟨rfl, rfl, rfl, rfl, hs.2.2.2.2.2.2.2, hs.2.2.2.2.1⟩
  · have hs := clearFixedLeftover_sameBody h w
    unfold SameBodyState at hs
    rw [if_neg hc]
    unfold HTTPHeaderClear
    rw [if_neg hc]
    simp only [headerFreeBody_fst]
    refine ⟨?_, ?_, ?_, ?_, ?_, ?_⟩
    all_goals first | trivial | rfl | exact hs.2.1 | exact hs.2.2.2.2.2.1

theorem touch_heap (w : World) (p : HeapPtr) (n : Nat) : (w.touch p n).heap = w.heap := by
  unfold World.touch
  split <;> rfl

theorem touch_bytes (w : World) (p q : HeapPtr) (n : Nat) :
    (w.touch p n).bytes q = w.bytes q := by
  unfold World.bytes World.block
  rw [touch_heap]

theorem bytes_blk (w : World) (id off : Nat) (b : List Nat) (hb : w.block id = some b) :
    w.bytes (HeapPtr.blk id off) = b.drop off := by
  unfold World.bytes
  simp only [hb]

theorem take_writeAt_zero (mem bs : List Nat) : (writeAt mem 0 bs).take bs.length = bs := by
  unfold writeAt
  simp

theorem length_bytesAt (mem : List Nat) (off n : Nat) (h : off + n ≤ mem.length) :
    (bytesAt mem off n).length = n := by
  unfold bytesAt
  simp only [List.length_take, List.length_drop]
  omega

theorem copyToBuf_buf (h : HTTPHeader) (w : World) (id off n : Nat) (b : List Nat)
    (hb : w.block id = some b) (hsrc : off + n ≤ b.length) (hdst : n ≤ h.buf.length) :
    (copyToBuf h w (HeapPtr.blk id off) n).1.buf = writeAt h.buf 0 (bytesAt b off n) ∧
    (copyToBuf h w (HeapPtr.blk id off) n).2 = w := by
  have hl := length_bytesAt b off n hsrc
  have hv : w.valid (HeapPtr.blk id off) n = true := by
    unfold World.valid
    simp only [hb, Bool.or_eq_true, beq_iff_eq, decide_eq_true_eq]
    right
    exact hsrc
  have ht : w.touch (HeapPtr.blk id off) n = w := by
    unfold World.touch
    rw [if_pos hv]
  unfold copyToBuf
  simp only [ht, bytes_blk w id off b hb]
  unfold writeBuf
  have e : (List.drop off b).take n = bytesAt b off n := rfl
  rw [e, if_pos (by omega)]
  exact ⟨rfl, rfl⟩

/-- C16, as the code has it: for a record that is not chunked and whose `extraDataPtr` is the
first byte of an allocated body buffer, `HTTPHeaderClear` sets `len` to 0 when `extraDataLen <= contentLength`,
and otherwise to `extraDataLen - contentLength`; in the second case, when the body buffer
holds `extraDataLen` bytes and the leftover fits the header buffer, the first `len` bytes of
the header buffer afterwards are the bytes `[contentLength, extraDataLen)` that the body
buffer held before the call. -/
theorem HTTPHeaderClear_fixed_leftover (P : Platform) (h : HTTPHeader) (w : World)
    (id : Nat) (body : List Nat) (hmode : h.chunkedData = false)
    (hptr : h.extraDataPtr = HeapPtr.blk id 0) (hblk : w.block id = some body) :
    (h.extraDataLen ≤ h.contentLength → (HTTPHeaderClear P h w).1.len = 0) ∧
    (h.contentLength < h.extraDataLen →
      (HTTPHeaderClear P h w).1.len = h.extraDataLen - h.contentLength ∧
      (h.extraDataLen ≤ body.length → h.extraDataLen - h.contentLength ≤ h.buf.length →
        (HTTPHeaderClear P h w).1.buf.take (h.extraDataLen - h.contentLength) =
          bytesAt body h.contentLength (h.extraDataLen - h.contentLength))) := by
  have hc : ¬ (h.chunkedData = true ∧ h.chunkedDataBufferPtr ≠ HeapPtr.null) := by
    rw [hmode]
    simp
  have hclear : (HTTPHeaderClear P h w).1.len = (clearFixedLeftover h w).1.len ∧
      (HTTPHeaderClear P h w).1.buf = (clearFixedLeftover h w).1.buf := by
    unfold HTTPHeaderClear
    rw [if_neg hc]
    simp only [headerFreeBody_fst]
    exact ⟨trivial, trivial⟩
  rw [hclear.1, hclear.2]
  refine ⟨fun hle => ?_, fun hlt => ⟨?_, fun hbody hfit => ?_⟩⟩
  · unfold clearFixedLeftover
    rw [if_neg (by omega)]
  · unfold clearFixedLeftover
    rw [if_pos hlt]
    exact (copyToBuf_sameBody _ _ _ _).2
  · unfold clearFixedLeftover
    rw [if_pos hlt]
    simp only []
    generalize hg : ({ h with len := h.extraDataLen - h.contentLength } : HTTPHeader) = h'
    have e1 : h'.extraDataPtr = HeapPtr.blk id 0 := by rw [← hg]; exact hptr
    have e2 : h'.contentLength = h.contentLength := by rw [← hg]
    have e4 : h'.buf = h.buf := by rw [← hg]
    simp only [e1, e2, hptr, HeapPtr.add, Nat.zero_add]
    rw [(copyToBuf_buf h' w id h.contentLength (h.extraDataLen - h.contentLength) body hblk
      (by omega) (by rw [e4]; exact hfit)).1, e4]
    have hl := length_bytesAt body h.contentLength (h.extraDataLen - h.contentLength) (by omega)
    have := take_writeAt_zero h.buf (bytesAt body h.contentLength (h.extraDataLen - h.contentLength))
    rw [hl] at this
    exact this

theorem HTTPHeaderClear_fixed_leftover_witness :
    samplePipelined.chunkedData = false ∧
    samplePipelined.extraDataPtr = HeapPtr.blk 0 0 ∧
    samplePipelinedWorld.block 0 = some [97, 98, 99, 100, 101, 71, 69, 84] ∧
    (HTTPHeaderClear samplePlatform samplePipelined samplePipelinedWorld).1.len = 3 ∧
    (HTTPHeaderClear samplePlatform samplePipelined samplePipelinedWorld).1.buf.take 3 =
      [71, 69, 84] :=
  ⟨rfl, rfl, rfl,
   ((HTTPHeaderClear_fixed_leftover samplePlatform samplePipelined samplePipelinedWorld 0
      [97, 98, 99, 100, 101, 71, 69, 84] rfl rfl rfl).2 (by decide)).1,
   ((HTTPHeaderClear_fixed_leftover samplePlatform samplePipelined samplePipelinedWorld 0
      [97, 98, 99, 100, 101, 71, 69, 84] rfl rfl rfl).2 (by decide)).2 (by decide) (by decide)⟩

theorem sizeSub_of_le (P : Platform) (a b : Nat) (h : b ≤ a) : sizeSub P a b = a - b := by
  unfold sizeSub
  rw [if_pos h]

theorem findCRLF_at_start (mem : List Nat) (n : Nat) (h0 : mem.getD 0 0 = cCR)
    (h1 : mem.getD 1 0 = cLF) (hn : 2 ≤ n) : findCRLF mem n = (true, some 2) := by
  have hs : scanWhile mem n (fun c => c != cCR) 0 = 0 :=
    scanWhile_eq mem n _ 0 0 (le_refl _) (fun k a b => by omega)
      (fun _ => by show (mem.getD 0 0 != cCR) = false; rw [h0]; decide)
  unfold findCRLF
  simp only [findCRLFLoop, hs]
  rw [if_neg (by omega), if_pos ⟨by omega, h1⟩]

theorem touch_of_valid (w : World) (id off n : Nat) (b : List Nat) (hb : w.block id = some b)
    (hn : off + n ≤ b.length) : w.touch (HeapPtr.blk id off) n = w := by
  have hv : w.valid (HeapPtr.blk id off) n = true := by
    unfold World.valid
    simp only [hb, Bool.or_eq_true, beq_iff_eq, decide_eq_true_eq]
    right
    exact hn
  unfold World.touch
  rw [if_pos hv]

/-- C17 does not hold as stated: with 513 leftover bytes after the CRLF that follows the
terminal chunk's size line, and a 512-byte header buffer, `HTTPHeaderClear` keeps nothing: `len`
is 0 and the header buffer is as before, its first byte still 0 and not the first leftover
byte. -/
theorem HTTPHeaderClear_drops_long_leftover :
    (sampleChunkedDone 513).buf.length = 512 ∧
    (HTTPHeaderClear samplePlatform (sampleChunkedDone 513) (sampleChunkedDoneWorld 513)).1.len
      = 0 ∧
    (HTTPHeaderClear samplePlatform (sampleChunkedDone 513) (sampleChunkedDoneWorld 513)).1.buf
      = (sampleChunkedDone 513).buf ∧
    (sampleChunkedDone 513).buf.getD 0 0 = 0 := by
  decide

theorem clearChunkedLeftover_eq (P : Platform) (h : HTTPHeader) (w : World)
    (id : Nat) (pre leftover slack : List Nat)
    (hcb : h.chunkedDataBufferPtr = HeapPtr.blk id 0)
    (hptr : h.extraDataPtr = HeapPtr.blk id pre.length)
    (hblk : w.block id = some (pre ++ (cCR :: cLF :: (leftover ++ slack))))
    (hlen : h.extraDataLen = pre.length + 2 + leftover.length) :
    clearChunkedLeftover P h w =
      if 512 < leftover.length then ({ h with len := 0 }, w)
      else copyToBuf { h with len := leftover.length } w (HeapPtr.blk id (pre.length + 2))
        leftover.length := by
  have hdiff : HeapPtr.diff P h.extraDataPtr h.chunkedDataBufferPtr = pre.length := by
    rw [hptr, hcb]
    simp [HeapPtr.diff, sizeSub]
  have hn : sizeSub P h.extraDataLen pre.length = 2 + leftover.length := by
    rw [sizeSub_of_le _ _ _ (by omega)]
    omega
  have ht : w.touch h.extraDataPtr (2 + leftover.length) = w := by
    rw [hptr]
    refine touch_of_valid w id _ _ _ hblk ?_
    simp only [List.length_append, List.length_cons]
    omega
  have hbytes : w.bytes h.extraDataPtr = cCR :: cLF :: (leftover ++ slack) := by
    rw [hptr, bytes_blk w id _ _ hblk, List.drop_left]
  have hfind : findCRLF (w.bytes h.extraDataPtr) (2 + leftover.length) = (true, some 2) := by
    rw [hbytes]
    exact findCRLF_at_start _ _ rfl rfl (by omega)
  have hle : (HeapPtr.blk id (pre.length + 2)).le
      (h.chunkedDataBufferPtr.add h.extraDataLen) = true := by
    rw [hcb]
    simp only [HeapPtr.add, HeapPtr.le, beq_self_eq_true, Bool.true_and, decide_eq_true_eq]
    omega
  have hd2 : sizeSub P h.extraDataLen (HeapPtr.diff P (HeapPtr.blk id (pre.length + 2))
      h.chunkedDataBufferPtr) = leftover.length := by
    rw [hcb]
    simp only [HeapPtr.diff, if_true]
    rw [sizeSub_of_le P _ 0 (by omega), sizeSub_of_le _ _ _ (by omega)]
    omega
  have hp2 : h.extraDataPtr.add 2 = HeapPtr.blk id (pre.length + 2) := by
    rw [hptr]
    rfl
  unfold clearChunkedLeftover
  simp only [hdiff, hn, ht, hfind, hle, hd2, hp2, if_true, gt_iff_lt]

/-- C17, as the code has it: for a chunked record whose chunk buffer holds, at the data cursor
(after the size line `pre` of the terminal chunk), a CRLF and then `leftover`, with
`extraDataLen` counting up to the end of `leftover`: when `leftover` has at most 512 bytes (and
fits the header buffer) `HTTPHeaderClear` copies it to the front of the header buffer and sets
`len` to its length; when it has more than 512 bytes, nothing is kept, `len` is 0 and the
header buffer is as before. -/
theorem HTTPHeaderClear_chunked_leftover (P : Platform) (h : HTTPHeader) (w : World)
    (id : Nat) (pre leftover slack : List Nat)
    (hmode : h.chunkedData = true)
    (hcb : h.chunkedDataBufferPtr = HeapPtr.blk id 0)
    (hptr : h.extraDataPtr = HeapPtr.blk id pre.length)
    (hblk : w.block id = some (pre ++ (cCR :: cLF :: (leftover ++ slack))))
    (hlen : h.extraDataLen = pre.length + 2 + leftover.length) :
    (leftover.length ≤ 512 → leftover.length ≤ h.buf.length →
      (HTTPHeaderClear P h w).1.len = leftover.length ∧
      (HTTPHeaderClear P h w).1.buf.take leftover.length = leftover) ∧
    (512 < leftover.length →
      (HTTPHeaderClear P h w).1.len = 0 ∧ (HTTPHeaderClear P h w).1.buf = h.buf) := by
  have hc : h.chunkedData = true ∧ h.chunkedDataBufferPtr ≠ HeapPtr.null :=
    ⟨hmode, by rw [hcb]; simp⟩
  have hclear : (HTTPHeaderClear P h w).1.len = (clearChunkedLeftover P h w).1.len ∧
      (HTTPHeaderClear P h w).1.buf = (clearChunkedLeftover P h w).1.buf := by
    unfold HTTPHeaderClear
    rw [if_pos hc]
    exact ⟨rfl, rfl⟩
  rw [hclear.1, hclear.2, clearChunkedLeftover_eq P h w id pre leftover slack hcb hptr hblk hlen]
  refine ⟨fun hsmall hfit => ?_, fun hbig => ?_⟩
  · rw [if_neg (by omega)]
    refine ⟨(copyToBuf_sameBody _ _ _ _).2, ?_⟩
    rw [(copyToBuf_buf { h with len := leftover.length } w id (pre.length + 2) leftover.length
      _ hblk (by simp only [List.length_append, List.length_cons]; omega) hfit).1]
    have hb : bytesAt (pre ++ (cCR :: cLF :: (leftover ++ slack))) (pre.length + 2)
        leftover.length = leftover := by
      have := bytesAt_seg (pre ++ (cCR :: cLF :: (leftover ++ slack)))
        (pre ++ (cCR :: cLF :: (leftover ++ slack))).length (pre ++ [cCR, cLF]) leftover slack
        (by simp)
      simpa using this
    rw [hb]
    exact take_writeAt_zero h.buf leftover
  · rw [if_pos hbig]
    exact ⟨rfl, rfl⟩

theorem HTTPHeaderClear_chunked_leftover_witness :
    (sampleChunkedDone 3).chunkedData = true ∧
    (sampleChunkedDoneWorld 3).block 0 = some ([48, 13, 10] ++ (cCR :: cLF :: ([71, 71, 71] ++ []))) ∧
    (HTTPHeaderClear samplePlatform (sampleChunkedDone 3) (sampleChunkedDoneWorld 3)).1.len = 3 ∧
    (HTTPHeaderClear samplePlatform (sampleChunkedDone 3)
      (sampleChunkedDoneWorld 3)).1.buf.take 3 = [71, 71, 71] :=
  ⟨rfl, rfl,
   ((HTTPHeaderClear_chunked_leftover samplePlatform (sampleChunkedDone 3)
      (sampleChunkedDoneWorld 3) 0 [48, 13, 10] [71, 71, 71] [] rfl rfl rfl rfl rfl).1
      (by decide) (by decide)).1,
   ((HTTPHeaderClear_chunked_leftover samplePlatform (sampleChunkedDone 3)
      (sampleChunkedDoneWorld 3) 0 [48, 13, 10] [71, 71, 71] [] rfl rfl rfl rfl rfl).1
      (by decide) (by decide)).2⟩

/-! ## The log of `read` calls -/

theorem select_log (w : World) : w.select.2.readLog = w.readLog := by
  unfold World.select
  split <;> rfl

theorem touch_log (w : World) (p : HeapPtr) (n : Nat) : (w.touch p n).readLog = w.readLog := by
  unfold World.touch
  split <;> rfl

theorem store_log (w : World) (p : HeapPtr) (bs : List Nat) :
    (w.store p bs).readLog = w.readLog := by
  unfold World.store
  split_ifs
  · rfl
  · split
    · rfl
    · split
      · rfl
      · split_ifs <;> rfl

theorem memmove_log (w : World) (p q : HeapPtr) (n : Nat) :
    (w.memmove p q n).readLog = w.readLog := by
  unfold World.memmove
  rw [store_log, touch_log]

theorem nextAlloc_log (w : World) : w.nextAlloc.2.readLog = w.readLog := by
  unfold World.nextAlloc
  split <;> rfl

theorem calloc_log (w : World) (n : Nat) : (w.calloc n).2.readLog = w.readLog := by
  have := nextAlloc_log w
  unfold World.calloc
  rcases hn : w.nextAlloc with ⟨a, w1⟩
  rw [hn] at this
  cases a <;> exact this

theorem free_log (w : World) (p : HeapPtr) : (w.free p).readLog = w.readLog := by
  unfold World.free
  split
  · rfl
  · split_ifs <;> rfl

theorem realloc_log (w : World) (p : HeapPtr) (n : Nat) :
    (w.realloc p n).2.readLog = w.readLog := by
  unfold World.realloc
  split
  · exact calloc_log w n
  · split
    · rfl
    · have := nextAlloc_log w
      rcases hn : w.nextAlloc with ⟨a, w1⟩
      rw [hn] at this
      cases a <;> exact this

theorem flashCall_log (w : World) : w.flashCall.2.readLog = w.readLog := by
  unfold World.flashCall
  split <;> rfl

theorem flashWrite_log (w : World) (bs : List Nat) :
    (w.flashWrite bs).2.readLog = w.readLog := by
  have := flashCall_log w
  unfold World.flashWrite
  rcases hn : w.flashCall with ⟨r, w1⟩
  rw [hn] at this
  simp only []
  split_ifs <;> exact this

theorem recv_log (w : World) (count : Nat) : (w.recv count).2.2.readLog = w.readLog := by
  unfold World.recv
  split
  · rfl
  · rfl
  · split_ifs <;> rfl

theorem readHeap_log (w : World) (p : HeapPtr) (count : Nat) :
    (w.readHeap p count).2.readLog =
      w.readLog ++ [{ dest := ReadDest.heap p, count := count, ret := (w.readHeap p count).1 }] := by
  have := recv_log w count
  unfold World.readHeap
  rcases hn : w.recv count with ⟨n, bs, w1⟩
  rw [hn] at this
  simp only [store_log]
  rw [this]

theorem ReadsUntilFailure.nil (stop : Prop) : ReadsUntilFailure [] stop :=
  Or.inl (fun c hc => by simp at hc)

theorem ReadsUntilFailure.mono {new : List ReadCall} {s t : Prop} (h : ReadsUntilFailure new s)
    (hst : s → t) : ReadsUntilFailure new t := by
  rcases h with a | ⟨b, c⟩
  · exact Or.inl a
  · exact Or.inr ⟨hst b, c⟩

theorem ReadsUntilFailure.cons {new : List ReadCall} {s : Prop} (c : ReadCall) (hc : 0 < c.ret)
    (h : ReadsUntilFailure new s) : ReadsUntilFailure (c :: new) s := by
  rcases h with a | ⟨b, pre, d, e1, e2, e3⟩
  · left
    intro x hx
    rcases List.mem_cons.1 hx with rfl | hx
    · exact hc
    · exact a x hx
  · right
    refine ⟨b, c :: pre, d, by rw [e1]; rfl, ?_, e3⟩
    intro x hx
    rcases List.mem_cons.1 hx with rfl | hx
    · exact hc
    · exact e2 x hx

theorem ReadsUntilFailure.single_fail {s : Prop} (c : ReadCall) (hc : c.ret ≤ 0) (hs : s) :
    ReadsUntilFailure [c] s :=
  Or.inr ⟨hs, [], c, rfl, fun d hd => by simp at hd, hc⟩

theorem ReadsUntilFailure.append {a b : List ReadCall} {s : Prop} (ha : ∀ c ∈ a, 0 < c.ret)
    (hb : ReadsUntilFailure b s) : ReadsUntilFailure (a ++ b) s := by
  induction a with
  | nil => exact hb
  | cons x xs ih =>
    exact ReadsUntilFailure.cons x (ha x (List.mem_cons_self _ _))
      (ih (fun c hc => ha c (List.mem_cons_of_mem _ hc)))

theorem ReadsUntilFailure.cons_pos {new : List ReadCall} {s : Prop} (d : ReadDest)
    (count : Nat) (n : Int) (hn : 0 < n) (h : ReadsUntilFailure new s) :
    ReadsUntilFailure ([{ dest := d, count := count, ret := n }] ++ new) s :=
  ReadsUntilFailure.cons _ hn h

theorem ReadsUntilFailure.one_fail {s : Prop} (d : ReadDest) (count : Nat) (n : Int)
    (hn : ¬ 0 < n) (hs : s) : ReadsUntilFailure [{ dest := d, count := count, ret := n }] s :=
  ReadsUntilFailure.single_fail _ (not_lt.1 hn) hs

theorem log_same (w v : World) (h : v.readLog = w.readLog) : v.readLog = w.readLog ++ [] :=
  h.trans (List.append_nil _).symm

theorem log_read (w v : World) (p : HeapPtr) (count : Nat) (h : v.readLog = w.readLog) :
    (v.readHeap p count).2.readLog =
      w.readLog ++ [{ dest := ReadDest.heap p, count := count, ret := (v.readHeap p count).1 }] := by
  rw [readHeap_log, h]

theorem log_read_then (w v : World) (p : HeapPtr) (count : Nat) (log new : List ReadCall)
    (h : v.readLog = w.readLog) (e : log = (v.readHeap p count).2.readLog ++ new) :
    log = w.readLog ++
      ([{ dest := ReadDest.heap p, count := count, ret := (v.readHeap p count).1 }] ++ new) := by
  rw [e, readHeap_log, h, List.append_assoc]

theorem chunkSizeLoop_log (P : Platform) :
    ∀ (fuel : Nat) (h : HTTPHeader) (w : World),
      ∃ new, (chunkSizeLoop P fuel h w).2.2.readLog = w.readLog ++ new ∧
        ReadsUntilFailure new ((chunkSizeLoop P fuel h w).1 = Flow.exit kConnectionErr) := by
  intro fuel
  induction fuel with
  | zero =>
    intro h w
    exact ⟨[], by simp [chunkSizeLoop], ReadsUntilFailure.nil _⟩
  | succ k ih =>
    intro h w
    unfold chunkSizeLoop
    simp only []
    split_ifs with h1 h2 h3 h4
    all_goals first
      | exact ⟨[], log_same w _ (touch_log _ _ _), ReadsUntilFailure.nil _⟩
      | exact ⟨[], log_same w _ ((select_log _).trans (touch_log _ _ _)), ReadsUntilFailure.nil _⟩
      | exact ⟨_, log_read w _ _ _ ((select_log _).trans (touch_log _ _ _)),
          ReadsUntilFailure.one_fail _ _ _ h4 rfl⟩
      | exact (ih _ _).elim fun new e =>
          ⟨_, log_read_then w _ _ _ _ new ((select_log _).trans (touch_log _ _ _)) e.1,
            ReadsUntilFailure.cons_pos _ _ _ h4 e.2⟩

theorem chunkTrailerLoop_log (P : Platform) (hl : Nat) :
    ∀ (fuel : Nat) (h : HTTPHeader) (w : World),
      ∃ new, (chunkTrailerLoop P hl fuel h w).2.2.readLog = w.readLog ++ new ∧
        ReadsUntilFailure new ((chunkTrailerLoop P hl fuel h w).1 = Flow.exit kConnectionErr) := by
  intro fuel
  induction fuel with
  | zero =>
    intro h w
    exact ⟨[], by simp [chunkTrailerLoop], ReadsUntilFailure.nil _⟩
  | succ k ih =>
    intro h w
    unfold chunkTrailerLoop
    simp only []
    split_ifs with h1 h3 h4
    all_goals first
      | exact ⟨[], log_same w _ (touch_log _ _ _), ReadsUntilFailure.nil _⟩
      | exact ⟨[], log_same w _ ((select_log _).trans (touch_log _ _ _)), ReadsUntilFailure.nil _⟩
      | exact ⟨_, log_read w _ _ _ ((select_log _).trans (touch_log _ _ _)),
          ReadsUntilFailure.one_fail _ _ _ h4 rfl⟩
      | exact (ih _ _).elim fun new e =>
          ⟨_, log_read_then w _ _ _ _ new ((select_log _).trans (touch_log _ _ _)) e.1,
            ReadsUntilFailure.cons_pos _ _ _ h4 e.2⟩

theorem chunkDataLoop_log (hl : Nat) :
    ∀ (fuel : Nat) (h : HTTPHeader) (w : World),
      ∃ new, (chunkDataLoop hl fuel h w).2.2.readLog = w.readLog ++ new ∧
        ReadsUntilFailure new ((chunkDataLoop hl fuel h w).1 = Flow.exit kConnectionErr) := by
  intro fuel
  induction fuel with
  | zero =>
    intro h w
    exact ⟨[], by simp [chunkDataLoop], ReadsUntilFailure.nil _⟩
  | succ k ih =>
    intro h w
    unfold chunkDataLoop
    simp only []
    split_ifs with h1 h3 h4
    all_goals first
      | exact ⟨[], log_same w _ rfl, ReadsUntilFailure.nil _⟩
      | exact ⟨[], log_same w _ (select_log _), ReadsUntilFailure.nil _⟩
      | exact ⟨_, log_read w _ _ _ (select_log _), ReadsUntilFailure.one_fail _ _ _ h4 rfl⟩
      | exact (ih _ _).elim fun new e =>
          ⟨_, log_read_then w _ _ _ _ new (select_log _) e.1,
            ReadsUntilFailure.cons_pos _ _ _ h4 e.2⟩

theorem chunkShift_log (P : Platform) (h : HTTPHeader) (w : World) :
    (chunkShift P h w).2.readLog = w.readLog := by
  unfold chunkShift
  simp only [memmove_log]
  split_ifs <;> rfl

theorem chunkGrow_log (hl : Nat) (h : HTTPHeader) (w : World) :
    (chunkGrow hl h w).2.2.readLog = w.readLog := by
  unfold chunkGrow
  simp only []
  split_ifs <;> first | rfl | exact realloc_log _ _ _

theorem chunkTail_log (h : HTTPHeader) (w : World) : (chunkTail h w).2.2.readLog = w.readLog := by
  unfold chunkTail
  simp only []
  split_ifs <;> simp only [touch_log]

theorem allPos_of_next {new : List ReadCall}
    (h : ReadsUntilFailure new (Flow.next = Flow.exit kConnectionErr)) :
    ∀ c ∈ new, 0 < c.ret := by
  rcases h with a | ⟨b, _⟩
  · exact a
  · exact absurd b (by simp)

/-- Two parts of a function run one after the other: when the first part did not stop at a
failed `read`, the calls of both parts stop at the first failure. -/
theorem log_seq {s : Prop} (w0 w1 w2 : World) (a b : List ReadCall)
    (e1 : w1.readLog = w0.readLog ++ a) (ha : ∀ c ∈ a, 0 < c.ret)
    (e2 : w2.readLog = w1.readLog ++ b) (hb : ReadsUntilFailure b s) :
    ∃ new, w2.readLog = w0.readLog ++ new ∧ ReadsUntilFailure new s :=
  ⟨a ++ b, by rw [e2, e1, List.append_assoc], ReadsUntilFailure.append ha hb⟩

theorem bodyChunked_log (P : Platform) (h : HTTPHeader) (w : World) :
    ∃ new, (bodyChunked P h w).2.2.readLog = w.readLog ++ new ∧
      ReadsUntilFailure new ((bodyChunked P h w).1 = Flow.exit kConnectionErr) := by
  unfold bodyChunked
  have l0 := chunkShift_log P h w
  rcases hs : chunkShift P h w with ⟨h0, w0⟩
  rw [hs] at l0
  simp only [] at l0 ⊢
  obtain ⟨a, ea, ra⟩ := chunkSizeLoop_log P (w0.selects.length + 1) h0 w0
  rcases h1 : chunkSizeLoop P (w0.selects.length + 1) h0 w0 with ⟨f1, h1', w1⟩
  rw [h1] at ea ra
  simp only [] at ea ra ⊢
  rw [l0] at ea
  cases f1 with
  | exit e => exact ⟨a, ea, ra⟩
  | next =>
    have pa := allPos_of_next ra
    simp only []
    split_ifs with hz
    · obtain ⟨b, eb, rb⟩ := chunkTrailerLoop_log P
        (HeapPtr.diff P h1'.extraDataPtr h1'.chunkedDataBufferPtr) (w1.selects.length + 1) h1' w1
      exact log_seq w w1 _ a b ea pa eb rb
    · have lg := chunkGrow_log (HeapPtr.diff P h1'.extraDataPtr h1'.chunkedDataBufferPtr) h1' w1
      rcases hg : chunkGrow (HeapPtr.diff P h1'.extraDataPtr h1'.chunkedDataBufferPtr) h1' w1
        with ⟨f2, h2, w2⟩
      rw [hg] at lg
      simp only [] at lg ⊢
      cases f2 with
      | exit e => exact ⟨a, by rw [lg, ea], Or.inl pa⟩
      | next =>
        simp only []
        obtain ⟨b, eb, rb⟩ := chunkDataLoop_log
          (HeapPtr.diff P h1'.extraDataPtr h1'.chunkedDataBufferPtr) (w2.selects.length + 1) h2 w2
        rcases hd : chunkDataLoop (HeapPtr.diff P h1'.extraDataPtr h1'.chunkedDataBufferPtr)
          (w2.selects.length + 1) h2 w2 with ⟨f3, h3, w3⟩
        rw [hd] at eb rb
        simp only [] at eb rb ⊢
        rw [lg] at eb
        cases f3 with
        | exit e => exact log_seq w w1 w3 a b ea pa eb rb
        | next =>
          have pb := allPos_of_next rb
          refine ⟨a ++ b, ?_, Or.inl ?_⟩
          · rw [chunkTail_log, eb, ea, List.append_assoc]
          · intro c hc
            rcases List.mem_append.1 hc with x | x
            · exact pa c x
            · exact pb c x

theorem bodyClose_log (h : HTTPHeader) (w : World) :
    ∃ new, (bodyClose h w).2.2.readLog = w.readLog ++ new ∧
      ReadsUntilFailure new ((bodyClose h w).1 = kConnectionErr) := by
  unfold bodyClose
  simp only []
  split_ifs with h1 h3 h4
  all_goals first
    | exact ⟨[], log_same w _ rfl, ReadsUntilFailure.nil _⟩
    | exact ⟨[], log_same w _ (select_log _), ReadsUntilFailure.nil _⟩
    | exact ⟨_, log_read w _ _ _ (select_log _), ReadsUntilFailure.one_fail _ _ _ h4 rfl⟩
    | exact ⟨_, log_read w _ _ _ (select_log _), Or.inl (fun c hc => by
        rw [List.mem_singleton.1 hc]; exact h4)⟩

theorem log_read2 (w v v' : World) (p : HeapPtr) (count : Nat) (hv : v.readLog = w.readLog)
    (hv' : v'.readLog = (v.readHeap p count).2.readLog) :
    v'.readLog =
      w.readLog ++ [{ dest := ReadDest.heap p, count := count, ret := (v.readHeap p count).1 }] := by
  rw [hv', readHeap_log, hv]

theorem allPos_one (d : ReadDest) (count : Nat) (n : Int) (hn : 0 < n) :
    ∀ c ∈ [({ dest := d, count := count, ret := n } : ReadCall)], 0 < c.ret := by
  intro c hc
  rw [List.mem_singleton.1 hc]
  exact hn

/-- One turn of the OTA branch makes at most one call of `read`; the loop goes on only after a
call that returned a positive value, and a call that returned 0 or less gives
`kConnectionErr`. -/
theorem bodyFixedFlash_log (P : Platform) (h : HTTPHeader) (w : World) :
    ∃ new, (bodyFixedFlash P h w).2.2.2.readLog = w.readLog ++ new ∧
      ((∀ c ∈ new, 0 < c.ret) ∨
        ((bodyFixedFlash P h w).1 = false ∧ (bodyFixedFlash P h w).2.1 = kConnectionErr ∧
          ∃ c, new = [c] ∧ c.ret ≤ 0)) := by
  unfold bodyFixedFlash
  simp only []
  split_ifs with c1 c2 c3 c4 c5 c6
  all_goals first
    | exact ⟨[], log_same w _ (calloc_log _ _), Or.inl (fun c hc => by simp at hc)⟩
    | exact ⟨_, log_read2 w _ _ _ _ (calloc_log _ _)
        ((flashWrite_log _ _).trans (touch_log _ _ _)), Or.inl (allPos_one _ _ _ c3)⟩
    | exact ⟨_, log_read2 w _ _ _ _ (calloc_log _ _)
        ((free_log _ _).trans ((flashWrite_log _ _).trans (touch_log _ _ _))),
        Or.inl (allPos_one _ _ _ c3)⟩
    | exact ⟨_, log_read2 w _ _ _ _ (calloc_log _ _) rfl,
        Or.inr ⟨rfl, rfl, _, rfl, not_lt.1 c3⟩⟩
    | exact ⟨_, log_read2 w _ _ _ _ (calloc_log _ _)
        ((flashWrite_log _ _).trans (touch_log _ _ _)), Or.inl (allPos_one _ _ _ c5)⟩
    | exact ⟨_, log_read2 w _ _ _ _ (calloc_log _ _)
        ((free_log _ _).trans ((flashWrite_log _ _).trans (touch_log _ _ _))),
        Or.inl (allPos_one _ _ _ c5)⟩
    | exact ⟨_, log_read2 w _ _ _ _ (calloc_log _ _) rfl,
        Or.inr ⟨rfl, rfl, _, rfl, not_lt.1 c5⟩⟩

theorem bodyFixedTurn_log (P : Platform) (err : OSStatus) (wf : Bool) (h : HTTPHeader)
    (w : World) :
    ∃ new, (bodyFixedTurn P err wf h w).2.2.2.2.readLog = w.readLog ++ new ∧
      ((∀ c ∈ new, 0 < c.ret) ∨
        ((bodyFixedTurn P err wf h w).1 = false ∧
          (bodyFixedTurn P err wf h w).2.1 = kConnectionErr ∧ ∃ c, new = [c] ∧ c.ret ≤ 0)) := by
  have hfl := bodyFixedFlash_log P h w.select.2
  rw [select_log] at hfl
  unfold bodyFixedTurn
  rcases hget : HTTPGetHeaderField P h.buf h.len (some strContentType) with e | f
  all_goals
    simp only []
    split_ifs with c1 c2 c3 c4 c5
    all_goals first
      | exact ⟨[], log_same w _ (select_log _), Or.inl (fun c hc => by simp at hc)⟩
      | exact hfl
      | exact ⟨_, log_read2 w _ _ _ _ (select_log _) rfl, Or.inl (allPos_one _ _ _ c3)⟩
      | exact ⟨_, log_read2 w _ _ _ _ (select_log _) rfl,
          Or.inr ⟨rfl, rfl, _, rfl, not_lt.1 c3⟩⟩
      | exact ⟨_, log_read2 w _ _ _ _ (select_log _) rfl, Or.inl (allPos_one _ _ _ c4)⟩
      | exact ⟨_, log_read2 w _ _ _ _ (select_log _) rfl,
          Or.inr ⟨rfl, rfl, _, rfl, not_lt.1 c4⟩⟩

theorem bodyFixedLoop_log (P : Platform) :
    ∀ (fuel : Nat) (err : OSStatus) (wf : Bool) (h : HTTPHeader) (w : World),
      ∃ new, (bodyFixedLoop P fuel err wf h w).2.2.2.readLog = w.readLog ++ new ∧
        ReadsUntilFailure new ((bodyFixedLoop P fuel err wf h w).1 = kConnectionErr) := by
  intro fuel
  induction fuel with
  | zero =>
    intro err wf h w
    exact ⟨[], by simp [bodyFixedLoop], ReadsUntilFailure.nil _⟩
  | succ k ih =>
    intro err wf h w
    unfold bodyFixedLoop
    by_cases c1 : h.extraDataLen < h.contentLength
    · rw [if_neg (not_not.2 c1)]
      obtain ⟨a, ea, ra⟩ := bodyFixedTurn_log P err wf h w
      rcases ht : bodyFixedTurn P err wf h w with ⟨go, e, wf', h', w'⟩
      rw [ht] at ea ra
      simp only [] at ea ra ⊢
      cases go with
      | true =>
        have pa : ∀ c ∈ a, 0 < c.ret := by
          rcases ra with x | ⟨y, _⟩
          · exact x
          · exact absurd y (by simp)
        obtain ⟨b, eb, rb⟩ := ih e wf' h' w'
        exact log_seq w w' _ a b ea pa eb rb
      | false =>
        refine ⟨a, ea, ?_⟩
        rcases ra with x | ⟨_, y, c, z1, z2⟩
        · exact Or.inl x
        · exact Or.inr ⟨y, [], c, by rw [z1]; rfl, fun d hd => by simp at hd, z2⟩
    · rw [if_pos c1]
      exact ⟨[], log_same w _ rfl, ReadsUntilFailure.nil _⟩

theorem bodyExit_spec (err : OSStatus) (wf : Bool) (h : HTTPHeader) (w : World) :
    (bodyExit err wf h w).1 = err ∧ (bodyExit err wf h w).2.2.readLog = w.readLog ∧
    (bodyExit err wf h w).2.1.len = (if err ≠ kNoErr then 0 else h.len) := by
  unfold bodyExit
  simp only []
  split_ifs <;> simp_all [free_log]

theorem bodyExit_stop (err : OSStatus) (wf : Bool) (h : HTTPHeader) (w : World)
    (he : err = kConnectionErr) :
    (bodyExit err wf h w).1 = kConnectionErr ∧ (bodyExit err wf h w).2.1.len = 0 := by
  obtain ⟨a, _, c⟩ := bodyExit_spec err wf h w
  rw [a, c, he]
  exact ⟨rfl, by simp⟩

theorem SocketReadHTTPBody_log (P : Platform) (h : HTTPHeader) (w : World) :
    ∃ new, (SocketReadHTTPBody P h w).2.2.readLog = w.readLog ++ new ∧
      ReadsUntilFailure new ((SocketReadHTTPBody P h w).1 = kConnectionErr ∧
        (SocketReadHTTPBody P h w).2.1.len = 0) := by
  have hc : ∃ a, (if h.chunkedData = true then bodyChunked P h w
      else (Flow.next, h, w)).2.2.readLog = w.readLog ++ a ∧
      ReadsUntilFailure a ((if h.chunkedData = true then bodyChunked P h w
        else (Flow.next, h, w)).1 = Flow.exit kConnectionErr) := by
    split_ifs
    · exact bodyChunked_log P h w
    · exact ⟨[], log_same w _ rfl, ReadsUntilFailure.nil _⟩
  unfold SocketReadHTTPBody
  obtain ⟨a, ea, ra⟩ := hc
  rcases hf : (if h.chunkedData = true then bodyChunked P h w else (Flow.next, h, w))
    with ⟨f, h1, w1⟩
  rw [hf] at ea ra
  simp only [] at ea ra ⊢
  cases f with
  | exit e =>
    simp only []
    refine ⟨a, by rw [(bodyExit_spec e false h1 w1).2.1, ea], ra.mono ?_⟩
    intro he
    exact bodyExit_stop e false h1 w1 (by injection he)
  | next =>
    have pa := allPos_of_next ra
    simp only []
    split_ifs with hcl
    · obtain ⟨b, eb, rb⟩ := bodyClose_log h1 w1
      rcases hb : bodyClose h1 w1 with ⟨e, h2, w2⟩
      rw [hb] at eb rb
      simp only [] at eb rb ⊢
      have := log_seq w w1 w2 a b ea pa eb rb
      obtain ⟨new, e1, e2⟩ := this
      refine ⟨new, by rw [(bodyExit_spec e false h2 w2).2.1, e1], e2.mono ?_⟩
      intro he
      exact bodyExit_stop e false h2 w2 he
    · obtain ⟨b, eb, rb⟩ := bodyFixedLoop_log P (w1.selects.length + 1) kNotReadableErr false h1 w1
      rcases hb : bodyFixedLoop P (w1.selects.length + 1) kNotReadableErr false h1 w1
        with ⟨e, wf, h2, w2⟩
      rw [hb] at eb rb
      simp only [] at eb rb ⊢
      have := log_seq w w1 w2 a b ea pa eb rb
      obtain ⟨new, e1, e2⟩ := this
      refine ⟨new, by rw [(bodyExit_spec e wf h2 w2).2.1, e1], e2.mono ?_⟩
      intro he
      exact bodyExit_stop e wf h2 w2 he

theorem readIntoHeader_log (h : HTTPHeader) (w : World) (dst count : Nat) :
    (readIntoHeader h w dst count).2.2.readLog =
      w.readLog ++ [{ dest := ReadDest.headerBuf dst, count := count,
                      ret := (readIntoHeader h w dst count).1 }] := by
  have hrl := recv_log w count
  unfold readIntoHeader writeBuf
  simp only []
  split_ifs <;> simp only [hrl]

theorem readHeaderLoop_log (P : Platform) :
    ∀ (fuel : Nat) (h : HTTPHeader) (w : World) (dst : Nat),
      ∃ new, (readHeaderLoop P fuel h w dst).2.2.1.readLog = w.readLog ++ new ∧
        ((∀ c ∈ new, 0 < c.ret) ∨
          ((readHeaderLoop P fuel h w dst).1 = none ∧
            ∃ pre c, new = pre ++ [c] ∧ (∀ d ∈ pre, 0 < d.ret) ∧ c.ret ≤ 0)) := by
  intro fuel
  induction fuel with
  | zero =>
    intro h w dst
    exact ⟨[], by simp [readHeaderLoop], Or.inl (fun c hc => by simp at hc)⟩
  | succ k ih =>
    intro h w dst
    have hrl := readIntoHeader_log h w dst (sizeSub P P.bufSize dst)
    unfold readHeaderLoop
    simp only []
    by_cases hf : (findHeader h).1 = true
    · rw [if_pos hf]
      exact ⟨[], log_same w _ rfl, Or.inl (fun c hc => by simp at hc)⟩
    · rw [if_neg hf]
      by_cases hn : 0 < (readIntoHeader h w dst (sizeSub P P.bufSize dst)).1
      · rw [if_pos hn]
        obtain ⟨new, e1, e2⟩ := ih
          { (readIntoHeader h w dst (sizeSub P P.bufSize dst)).2.1 with
            len := (readIntoHeader h w dst (sizeSub P P.bufSize dst)).2.1.len +
              (readIntoHeader h w dst (sizeSub P P.bufSize dst)).1.toNat }
          (readIntoHeader h w dst (sizeSub P P.bufSize dst)).2.2
          (dst + (readIntoHeader h w dst (sizeSub P P.bufSize dst)).1.toNat)
        rw [hrl] at e1
        refine ⟨_, by rw [e1, List.append_assoc], ?_⟩
        rcases e2 with x | ⟨y, pre, c, z1, z2, z3⟩
        · left
          intro c hc
          rcases List.mem_append.1 hc with q | q
          · exact allPos_one _ _ _ hn c q
          · exact x c q
        · right
          refine ⟨y, _ :: pre, c, by rw [z1]; rfl, ?_, z3⟩
          intro d hd
          rcases List.mem_cons.1 hd with q | q
          · rw [q]; exact hn
          · exact z2 d q
      · rw [if_neg hn]
        exact ⟨[_], hrl, Or.inr ⟨rfl, [], _, rfl, fun d hd => by simp at hd, not_lt.1 hn⟩⟩

theorem headerFreeBody_log (h : HTTPHeader) (w : World) :
    (headerFreeBody h w).2.readLog = w.readLog := by
  unfold headerFreeBody
  simp only []
  split_ifs <;> simp only [free_log]

theorem readBuf_log (h : HTTPHeader) (w : World) (off n : Nat) :
    (readBuf h w off n).2.readLog = w.readLog := by
  unfold readBuf
  simp only []
  split_ifs <;> rfl

theorem headerOTA_log (P : Platform) (h : HTTPHeader) (w : World) (e : Nat) :
    (headerOTA P h w e).2.2.readLog = w.readLog := by
  unfold headerOTA
  simp only []
  split_ifs <;> simp only [flashWrite_log, readBuf_log, flashCall_log]

theorem headerStoreBody_log (h : HTTPHeader) (w : World) (e : Nat) :
    (headerStoreBody h w e).2.2.readLog = w.readLog := by
  unfold headerStoreBody
  simp only []
  split_ifs <;> simp only [store_log, readBuf_log, calloc_log]

theorem SocketReadHTTPHeader_log (P : Platform) (h : HTTPHeader) (w : World) :
    ∃ new, (SocketReadHTTPHeader P h w).2.2.readLog = w.readLog ++ new ∧
      ReadsUntilFailure new ((SocketReadHTTPHeader P h w).1 = kConnectionErr) := by
  obtain ⟨new, e1, e2⟩ := readHeaderLoop_log P (w.readFuel + 1) h w h.len
  unfold SocketReadHTTPHeader
  rcases hl : readHeaderLoop P (w.readFuel + 1) h w h.len with ⟨o, h1, w1, dst⟩
  rw [hl] at e1 e2
  simp only [] at e1 e2 ⊢
  cases o with
  | none =>
    simp only []
    refine ⟨new, e1, ?_⟩
    rcases e2 with x | ⟨_, y⟩
    · exact Or.inl x
    · exact Or.inr ⟨trivial, y⟩
  | some e =>
    have pa : ∀ c ∈ new, 0 < c.ret := by
      rcases e2 with x | ⟨y, _⟩
      · exact x
      · exact absurd y (by simp)
    refine ⟨new, ?_, Or.inl pa⟩
    simp only []
    split_ifs
    · exact e1
    · rw [headerOTA_log, headerFreeBody_log]
      exact e1
    · rw [headerStoreBody_log, headerFreeBody_log]
      exact e1

/-- C15: in `SocketReadHTTPHeader` and in `SocketReadHTTPBody`, the calls of `read` made by one
call of the function stop at the first one that returns 0 or a negative value: every call of
`read` before the last returned a positive value, and when the last one returned 0 or less the
function returns `kConnectionErr`; `SocketReadHTTPBody` then also leaves `len = 0`. -/
theorem connection_loss_is_fatal (P : Platform) (h : HTTPHeader) (w : World) :
    (∃ new, (SocketReadHTTPHeader P h w).2.2.readLog = w.readLog ++ new ∧
      ReadsUntilFailure new ((SocketReadHTTPHeader P h w).1 = kConnectionErr)) ∧
    (∃ new, (SocketReadHTTPBody P h w).2.2.readLog = w.readLog ++ new ∧
      ReadsUntilFailure new ((SocketReadHTTPBody P h w).1 = kConnectionErr ∧
        (SocketReadHTTPBody P h w).2.1.len = 0)) :=
  ⟨SocketReadHTTPHeader_log P h w, SocketReadHTTPBody_log P h w⟩

/-! ## The body that ends when the connection is closed -/

theorem bodyExit_fst (err : OSStatus) (wf : Bool) (h : HTTPHeader) (w : World) :
    (bodyExit err wf h w).2.1 =
      { (if err ≠ kNoErr then { h with len := 0 } else h) with otaDataPtr := HeapPtr.null } := by
  unfold bodyExit
  cases h
  simp only []
  split_ifs <;> simp_all

theorem recv_le (w : World) (count : Nat) : (w.recv count).1 ≤ count := by
  unfold World.recv
  split
  · simp
  · simp only []
    exact le_trans (min_le_right _ _) (by simp)
  · split_ifs with h1 h2
    · simp
    · simp only []
      exact_mod_cast h2
    · simp

theorem readHeap_fst (w : World) (p : HeapPtr) (count : Nat) :
    (w.readHeap p count).1 = (w.recv count).1 := by
  unfold World.readHeap
  rfl

/-- C14 does not hold as stated: after `SocketReadHTTPHeader` has marked the record
`dataEndedbyClose` and the first call of `SocketReadHTTPBody` has taken the 5 captured bytes
without a `read`, the second call makes one `read` for 1500 bytes, which returns 0 because the
connection is closed, and the call returns `kConnectionErr` and sets `len` to 0. -/
theorem closed_connection_is_reported :
    sampleCloseRun1.1 = kNoErr ∧ sampleCloseRun1.2.1.dataEndedbyClose = true ∧
    sampleCloseRun1.2.1.contentLength = 0 ∧ sampleCloseRun1.2.1.extraDataLen = 5 ∧
    sampleCloseRun2.1 = kNoErr ∧ sampleCloseRun2.2.1.contentLength = 5 ∧
    sampleCloseRun2.2.2.readLog = sampleCloseRun1.2.2.readLog ∧
    sampleCloseRun3.2.2.readLog = sampleCloseRun2.2.2.readLog ++
      [{ dest := ReadDest.heap (HeapPtr.blk 0 0), count := 1500, ret := 0 }] ∧
    sampleCloseRun3.1 = kConnectionErr ∧ sampleCloseRun3.2.1.len = 0 := by
  decide

theorem closeBranch_run (P : Platform) (h : HTTPHeader) (w : World)
    (hnc : h.chunkedData = false) (hcl : h.dataEndedbyClose = true) :
    SocketReadHTTPBody P h w =
      bodyExit (bodyClose h w).1 false (bodyClose h w).2.1 (bodyClose h w).2.2 := by
  unfold SocketReadHTTPBody
  rw [hnc]
  simp only [Bool.false_eq_true, if_false, hcl, if_true]

/-- C14, as the code has it: for a record marked `dataEndedbyClose` that is not chunked, a call
of `SocketReadHTTPBody` with `contentLength = 0` makes no `read`, sets `contentLength` to
`extraDataLen` and returns `kNoErr`; a call with `contentLength` not 0, once `select` has
succeeded, makes exactly one `read`, for 1500 bytes at `extraDataPtr`: when it returns a
positive value the call returns `kNoErr` with that value in `contentLength`, and when it
returns 0 or less the call returns `kConnectionErr` and sets `len` to 0. -/
theorem SocketReadHTTPBody_untilClose (P : Platform) (h : HTTPHeader) (w : World)
    (hnc : h.chunkedData = false) (hcl : h.dataEndedbyClose = true) :
    (h.contentLength = 0 →
      (SocketReadHTTPBody P h w).1 = kNoErr ∧
      (SocketReadHTTPBody P h w).2.1.contentLength = h.extraDataLen ∧
      (SocketReadHTTPBody P h w).2.1.len = h.len ∧
      (SocketReadHTTPBody P h w).2.2.readLog = w.readLog) ∧
    (h.contentLength ≠ 0 → ∀ (s : Int) (rest : List Int), w.selects = s :: rest → 1 ≤ s →
      (SocketReadHTTPBody P h w).2.2.readLog = w.readLog ++
        [{ dest := ReadDest.heap h.extraDataPtr, count := 1500,
           ret := ({ w with selects := rest }.recv 1500).1 }] ∧
      ({ w with selects := rest }.recv 1500).1 ≤ 1500 ∧
      (0 < ({ w with selects := rest }.recv 1500).1 →
        (SocketReadHTTPBody P h w).1 = kNoErr ∧
        (SocketReadHTTPBody P h w).2.1.contentLength =
          ({ w with selects := rest }.recv 1500).1.toNat ∧
        (SocketReadHTTPBody P h w).2.1.len = h.len) ∧
      (({ w with selects := rest }.recv 1500).1 ≤ 0 →
        (SocketReadHTTPBody P h w).1 = kConnectionErr ∧
        (SocketReadHTTPBody P h w).2.1.len = 0)) := by
  rw [closeBranch_run P h w hnc hcl]
  refine ⟨fun hz => ?_, fun hz s rest hsel hs => ?_⟩
  · have hb : bodyClose h w = (kNoErr, { h with contentLength := h.extraDataLen }, w) := by
      unfold bodyClose
      rw [if_pos hz]
    rw [hb]
    obtain ⟨a, b, _⟩ := bodyExit_spec kNoErr false { h with contentLength := h.extraDataLen } w
    refine ⟨a, ?_, ?_, b⟩
    · rw [bodyExit_fst]
      rfl
    · rw [bodyExit_fst]
      rfl
  · have hselect : w.select = (s, { w with selects := rest }) := by
      unfold World.select
      rw [hsel]
    generalize hw1 : ({ w with selects := rest } : World) = w1 at hselect ⊢
    have hlog1 : w1.readLog = w.readLog := by rw [← hw1]
    have hrl := readHeap_log w1 h.extraDataPtr 1500
    have hfst := readHeap_fst w1 h.extraDataPtr 1500
    rcases hrd : w1.readHeap h.extraDataPtr 1500 with ⟨n, w2⟩
    rw [hrd] at hrl hfst
    simp only [] at hrl hfst
    rw [← hfst]
    have hle : n ≤ 1500 := by
      rw [hfst]
      exact recv_le w1 1500
    by_cases hn : 0 < n
    · have hb : bodyClose h w = (kNoErr, { h with contentLength := n.toNat }, w2) := by
        unfold bodyClose
        rw [if_neg hz, hselect]
        simp only []
        rw [if_neg (not_not.2 hs), hrd]
        simp only []
        rw [if_pos hn]
      rw [hb]
      obtain ⟨a, b, _⟩ := bodyExit_spec kNoErr false { h with contentLength := n.toNat } w2
      refine ⟨by rw [b, hrl, hlog1], hle, fun _ => ⟨a, ?_, ?_⟩, fun hneg => absurd hn (not_lt.2 hneg)⟩
      · rw [bodyExit_fst]
        rfl
      · rw [bodyExit_fst]
        rfl
    · have hb : bodyClose h w = (kConnectionErr, h, w2) := by
        unfold bodyClose
        rw [if_neg hz, hselect]
        simp only []
        rw [if_neg (not_not.2 hs), hrd]
        simp only []
        rw [if_neg hn]
      rw [hb]
      obtain ⟨_, b, _⟩ := bodyExit_spec kConnectionErr false h w2
      exact ⟨by rw [b, hrl, hlog1], hle, fun hpos => absurd hpos hn,
        fun _ => bodyExit_stop kConnectionErr false h w2 rfl⟩

theorem SocketReadHTTPBody_untilClose_witness :
    sampleCloseRun2.2.1.chunkedData = false ∧ sampleCloseRun2.2.1.dataEndedbyClose = true ∧
    sampleCloseRun2.2.1.contentLength ≠ 0 ∧
    sampleCloseRun2.2.2.selects = 1 :: List.replicate 19 1 ∧
    (SocketReadHTTPBody samplePlatform sampleCloseRun2.2.1 sampleCloseRun2.2.2).1
      = kConnectionErr :=
  ⟨by decide, by decide, by decide, by decide,
   (((SocketReadHTTPBody_untilClose samplePlatform sampleCloseRun2.2.1 sampleCloseRun2.2.2
      (by decide) (by decide)).2 (by decide) 1 (List.replicate 19 1) (by decide)
      (by decide)).2.2.2 (by decide)).1⟩

/-! ## The body of fixed length -/

/-- C13 at a concrete input.  The message `"POST / HTTP/1.1\r\nContent-Length: 5\r\n\r\nabcde"`
has a fixed-length body of 5 bytes and no `Content-Type` field.  When its header arrives with
the first 3 body bytes, `SocketReadHTTPHeader` succeeds: its lookup of `"Content-Type"` finds
nothing, the message is not of the OTA type, and the 3 bytes go into a body buffer of 5 bytes.
`SocketReadHTTPBody` then returns `kNotFoundErr` and sets `len` to 0 without a single `read`,
although the byte source holds the two missing bytes.  When the same message arrives in one
piece, both calls succeed and the body buffer holds `"abcde"`. -/
theorem fixed_body_needs_content_type :
    sampleFixedRun1.1 = kNoErr ∧ sampleFixedRun1.2.1.chunkedData = false ∧
    sampleFixedRun1.2.1.dataEndedbyClose = false ∧ sampleFixedRun1.2.1.contentLength = 5 ∧
    sampleFixedRun1.2.1.extraDataLen = 3 ∧
    sampleFixedRun1.2.1.extraDataPtr = HeapPtr.blk 0 0 ∧
    sampleFixedRun1.2.2.block 0 = some [97, 98, 99, 0, 0] ∧
    isOTAType samplePlatform sampleFixedRun1.2.1 = false ∧
    sampleFixedRun1.2.2.reads = [ReadEvent.data [100, 101]] ∧
    sampleFixedRun2.1 = kNotFoundErr ∧ sampleFixedRun2.2.1.extraDataLen = 3 ∧
    sampleFixedRun2.2.1.len = 0 ∧
    sampleFixedRun2.2.2.readLog = sampleFixedRun1.2.2.readLog ∧
    sampleFixedRun2.2.2.reads = [ReadEvent.data [100, 101]] ∧
    sampleWholeRun1.1 = kNoErr ∧ sampleWholeRun1.2.1.contentLength = 5 ∧
    sampleWholeRun1.2.1.extraDataLen = 5 ∧
    sampleWholeRun2.1 = kNoErr ∧ sampleWholeRun2.2.1.extraDataLen = 5 ∧
    sampleWholeRun2.2.1.len = 38 ∧
    sampleWholeRun2.2.2.block 0 = some [97, 98, 99, 100, 101] := by
  decide

theorem recv_data (w : World) (s : List Nat) (R : List ReadEvent) (c : Nat)
    (hr : w.reads = ReadEvent.data s :: R) (hc : 0 < c) :
    w.recv c = (((min s.length c : Nat) : Int), s.take c,
      { w with reads := if s.length ≤ c then R else ReadEvent.data (s.drop c) :: R }) := by
  unfold World.recv
  rw [hr]
  simp only []
  rw [if_neg (by omega)]
  by_cases hle : s.length ≤ c
  · rw [if_pos hle, if_pos hle, Nat.min_eq_left hle, List.take_of_length_le hle]
  · rw [if_neg hle, if_neg hle, Nat.min_eq_right (by omega)]

theorem block_set (w : World) (id : Nat) (b : List Nat) (x : Option (List Nat))
    (hb : w.block id = some b) :
    World.block { w with heap := w.heap.set id x } id = x := by
  unfold World.block at hb ⊢
  have hlt : id < w.heap.length := by
    by_contra hc
    rw [List.getD_eq_default _ _ (by omega)] at hb
    exact absurd hb (by simp)
  simp only []
  rw [List.getD_eq_getElem _ _ (by rw [List.length_set]; exact hlt)]
  simp

theorem store_valid (w : World) (id e : Nat) (bs body : List Nat) (hne : bs ≠ [])
    (hb : w.block id = some body) (hfit : e + bs.length ≤ body.length) :
    w.store (HeapPtr.blk id e) bs =
      { w with heap := w.heap.set id (some (writeAt body e bs)) } := by
  unfold World.store
  rw [if_neg hne]
  simp only [hb]
  rw [if_pos hfit]

theorem readHeap_data (w : World) (id e c : Nat) (s body : List Nat) (R : List ReadEvent)
    (hr : w.reads = ReadEvent.data s :: R) (hs : s ≠ []) (hc : 0 < c)
    (hb : w.block id = some body) (hfit : e + min s.length c ≤ body.length) :
    w.readHeap (HeapPtr.blk id e) c = (((min s.length c : Nat) : Int),
      { w with
        reads := if s.length ≤ c then R else ReadEvent.data (s.drop c) :: R,
        heap := w.heap.set id (some (writeAt body e (s.take c))),
        readLog := w.readLog ++ [{ dest := ReadDest.heap (HeapPtr.blk id e), count := c,
                                   ret := ((min s.length c : Nat) : Int) }] }) := by
  have hne : s.take c ≠ [] := by
    cases s with
    | nil => exact absurd rfl hs
    | cons x xs =>
      cases c with
      | zero => omega
      | succ k => simp
  unfold World.readHeap
  rw [recv_data w s R c hr hc]
  simp only []
  rw [store_valid _ id e (s.take c) body hne (by exact hb)
    (by rw [List.length_take, Nat.min_comm]; exact hfit)]

theorem select_cons (w : World) (x : Int) (xs : List Int) (hsel : w.selects = x :: xs) :
    w.select = (x, { w with selects := xs }) := by
  unfold World.select
  rw [hsel]

theorem bodyFixedTurn_read (P : Platform) (err : OSStatus) (wf : Bool) (h : HTTPHeader)
    (w : World) (x : Int) (xs : List Int) (f : HeaderField)
    (hsel : w.selects = x :: xs) (hx : 1 ≤ x)
    (hct : HTTPGetHeaderField P h.buf h.len (some strContentType) = Except.ok f)
    (hnota : strnicmpx (bytesAt h.buf f.valuePtr f.valueLen) P.kMIMEType_MXCHIP_OTA ≠ 0) :
    bodyFixedTurn P err wf h w =
      if 0 < ({ w with selects := xs }.readHeap (h.extraDataPtr.add h.extraDataLen)
          (h.contentLength - h.extraDataLen)).1 then
        (true, kNoErr, wf,
          { h with extraDataLen := h.extraDataLen +
              ({ w with selects := xs }.readHeap (h.extraDataPtr.add h.extraDataLen)
                (h.contentLength - h.extraDataLen)).1.toNat },
          ({ w with selects := xs }.readHeap (h.extraDataPtr.add h.extraDataLen)
            (h.contentLength - h.extraDataLen)).2)
      else
        (false, kConnectionErr, wf, h,
          ({ w with selects := xs }.readHeap (h.extraDataPtr.add h.extraDataLen)
            (h.contentLength - h.extraDataLen)).2) := by
  unfold bodyFixedTurn
  rw [select_cons w x xs hsel]
  simp only [hct]
  rw [if_neg (not_not.2 hx), if_neg hnota]

theorem bodyFixedLoop_done (P : Platform) (fuel : Nat) (err : OSStatus) (wf : Bool)
    (h : HTTPHeader) (w : World) (hd : ¬ h.extraDataLen < h.contentLength) :
    bodyFixedLoop P (fuel + 1) err wf h w = (kNoErr, wf, h, w) := by
  unfold bodyFixedLoop
  rw [if_pos hd]

theorem fixedReads_done (id N e : Nat) (segs : List (List Nat)) (h : N ≤ e) :
    fixedReads id N e segs = [] := by
  cases segs with
  | nil => rfl
  | cons s rest =>
    unfold fixedReads
    rw [if_pos h]

theorem length_writeAt (mem bs : List Nat) (off : Nat) (h : off + bs.length ≤ mem.length) :
    (writeAt mem off bs).length = mem.length := by
  unfold writeAt
  simp only [List.length_append, List.length_take, List.length_drop]
  omega

theorem take_writeAt (mem bs : List Nat) (off : Nat) (h : off + bs.length ≤ mem.length) :
    (writeAt mem off bs).take (off + bs.length) = mem.take off ++ bs := by
  unfold writeAt
  have hl : (mem.take off ++ bs).length = off + bs.length := by
    simp only [List.length_append, List.length_take]
    omega
  rw [← hl, List.take_left]

theorem drop_writeAt (mem bs : List Nat) (off n : Nat) (h : off + bs.length ≤ n)
    (hm : off ≤ mem.length) : (writeAt mem off bs).drop n = mem.drop n := by
  unfold writeAt
  have hl : (mem.take off ++ bs).length = off + bs.length := by
    simp only [List.length_append, List.length_take]
    omega
  have hn : n = (mem.take off ++ bs).length + (n - (off + bs.length)) := by omega
  rw [hn, List.drop_append, List.drop_drop, hl]

theorem header_set_extraDataLen (h : HTTPHeader) (n : Nat) (hn : h.extraDataLen = n) :
    h = { h with extraDataLen := n } := by
  cases h
  simp only [] at hn
  subst hn
  rfl

/-- The last loop of `SocketReadHTTPBody` on a byte source that delivers enough bytes in
non-empty segments: it ends with `kNoErr`, the body complete, and the calls of `read` are those
of the reference definition. -/
theorem bodyFixedLoop_reassemble (P : Platform) (id N : Nat) (f : HeaderField) :
    ∀ (segs : List (List Nat)) (fuel : Nat) (err : OSStatus) (wf : Bool) (h : HTTPHeader)
      (w : World) (body : List Nat) (tail : List ReadEvent),
      h.contentLength = N → h.extraDataPtr = HeapPtr.blk id 0 → w.block id = some body →
      N ≤ body.length → h.extraDataLen ≤ N →
      HTTPGetHeaderField P h.buf h.len (some strContentType) = Except.ok f →
      strnicmpx (bytesAt h.buf f.valuePtr f.valueLen) P.kMIMEType_MXCHIP_OTA ≠ 0 →
      w.reads = segs.map ReadEvent.data ++ tail → (∀ s ∈ segs, s ≠ []) →
      (∀ x ∈ w.selects, 1 ≤ x) → segs.length ≤ w.selects.length → segs.length < fuel →
      N - h.extraDataLen ≤ segs.flatten.length →
      (bodyFixedLoop P fuel err wf h w).1 = kNoErr ∧
      (bodyFixedLoop P fuel err wf h w).2.2.1 = { h with extraDataLen := N } ∧
      (bodyFixedLoop P fuel err wf h w).2.2.2.block id =
        some (body.take h.extraDataLen ++ segs.flatten.take (N - h.extraDataLen) ++ body.drop N) ∧
      (bodyFixedLoop P fuel err wf h w).2.2.2.readLog =
        w.readLog ++ fixedReads id N h.extraDataLen segs := by
  intro segs
  induction segs with
  | nil =>
    intro fuel err wf h w body tail hN hptr hblk hcap hle hct hnota hreads hne hsel hsl hfuel hlen
    obtain ⟨k, rfl⟩ : ∃ k, fuel = k + 1 := ⟨fuel - 1, by omega⟩
    have he : h.extraDataLen = N := by
      simp only [List.flatten_nil, List.length_nil] at hlen
      omega
    rw [bodyFixedLoop_done P k err wf h w (by omega)]
    refine ⟨rfl, header_set_extraDataLen h N he, ?_, ?_⟩
    · rw [hblk, he]
      simp
    · simp [fixedReads]
  | cons s rest ih =>
    intro fuel err wf h w body tail hN hptr hblk hcap hle hct hnota hreads hne hsel hsl hfuel hlen
    obtain ⟨k, rfl⟩ : ∃ k, fuel = k + 1 := ⟨fuel - 1, by omega⟩
    subst hN
    by_cases he : h.extraDataLen = h.contentLength
    · rw [bodyFixedLoop_done P k err wf h w (by omega)]
      refine ⟨rfl, header_set_extraDataLen h _ he, ?_, ?_⟩
      · rw [hblk, he]
        simp
      · rw [fixedReads_done id h.contentLength _ _ (by omega)]
        simp
    · have hlt : h.extraDataLen < h.contentLength := by omega
      have hs : s ≠ [] := hne s (List.mem_cons_self _ _)
      have hspos : 0 < s.length := List.length_pos.2 hs
      obtain ⟨x, xs, hxs⟩ : ∃ x xs, w.selects = x :: xs := by
        cases hw : w.selects with
        | nil => rw [hw] at hsl; simp at hsl
        | cons x xs => exact ⟨x, xs, rfl⟩
      have hx : 1 ≤ x := hsel x (by rw [hxs]; exact List.mem_cons_self _ _)
      have hturn := bodyFixedTurn_read P err wf h w x xs f hxs hx hct hnota
      have hrd := readHeap_data { w with selects := xs } id h.extraDataLen (h.contentLength - h.extraDataLen)
        s body (rest.map ReadEvent.data ++ tail) (by simpa using hreads) hs (by omega)
        (by exact hblk) (by have := Nat.min_le_right s.length (h.contentLength - h.extraDataLen); omega)
      have hadd : h.extraDataPtr.add h.extraDataLen = HeapPtr.blk id h.extraDataLen := by
        rw [hptr]
        simp [HeapPtr.add]
      rw [hadd, hrd] at hturn
      simp only [Int.toNat_ofNat] at hturn
      rw [if_pos (by exact_mod_cast (by omega : 0 < min s.length (h.contentLength - h.extraDataLen)))] at hturn
      unfold bodyFixedLoop
      rw [if_neg (by omega), hturn]
      simp only []
      by_cases hfull : s.length ≤ h.contentLength - h.extraDataLen
      · have hmin : min s.length (h.contentLength - h.extraDataLen) = s.length := Nat.min_eq_left hfull
        have htake : s.take (h.contentLength - h.extraDataLen) = s := List.take_of_length_le hfull
        have hi := ih k kNoErr wf
          { h with extraDataLen := h.extraDataLen + min s.length (h.contentLength - h.extraDataLen) }
          { w with
            selects := xs,
            reads := if s.length ≤ h.contentLength - h.extraDataLen then rest.map ReadEvent.data ++ tail
              else ReadEvent.data (s.drop (h.contentLength - h.extraDataLen)) ::
                (rest.map ReadEvent.data ++ tail),
            heap := w.heap.set id (some (writeAt body h.extraDataLen
              (s.take (h.contentLength - h.extraDataLen)))),
            readLog := w.readLog ++
              [{ dest := ReadDest.heap (HeapPtr.blk id h.extraDataLen),
                 count := h.contentLength - h.extraDataLen,
                 ret := ((min s.length (h.contentLength - h.extraDataLen) : Nat) : Int) }] }
          (writeAt body h.extraDataLen (s.take (h.contentLength - h.extraDataLen))) tail
          rfl hptr (block_set w id body _ hblk)
          (by rw [length_writeAt _ _ _ (by rw [htake]; omega)]; exact hcap)
          (by simp only [hmin]; omega) hct hnota
          (by simp only [if_pos hfull])
          (fun t ht => hne t (List.mem_cons_of_mem _ ht))
          (fun y hy => hsel y (by rw [hxs]; exact List.mem_cons_of_mem _ hy))
          (by rw [hxs] at hsl; simpa using hsl)
          (by simpa using hfuel)
          (by
            simp only [List.flatten_cons, List.length_append] at hlen
            simp only [hmin]
            omega)
        obtain ⟨i1, i2, i3, i4⟩ := hi
        refine ⟨i1, i2, ?_, ?_⟩
        · rw [i3]
          simp only [hmin, htake, List.flatten_cons]
          rw [take_writeAt body s h.extraDataLen (by omega),
            drop_writeAt body s h.extraDataLen h.contentLength (by omega) (by omega),
            List.take_append_eq_append_take, List.take_of_length_le hfull]
          have e1 : h.contentLength - (h.extraDataLen + s.length) = h.contentLength - h.extraDataLen - s.length := by omega
          rw [e1]
          simp only [List.append_assoc]
        · rw [i4]
          simp only [fixedReads, if_neg (by omega : ¬ h.contentLength ≤ h.extraDataLen), List.append_assoc,
            List.singleton_append]
      · have hmin : min s.length (h.contentLength - h.extraDataLen) = h.contentLength - h.extraDataLen :=
          Nat.min_eq_right (by omega)
        obtain ⟨k', rfl⟩ : ∃ k', k = k' + 1 := ⟨k - 1, by simp at hfuel; omega⟩
        rw [bodyFixedLoop_done P k' kNoErr wf _ _ (by simp only [hmin]; omega)]
        refine ⟨rfl, ?_, ?_, ?_⟩
        · simp only [hmin]
          congr 1
          omega
        · refine (block_set { w with selects := xs } id body _ hblk).trans ?_
          simp only [List.flatten_cons]
          rw [List.take_append_of_le_length (by omega)]
          unfold writeAt
          rw [List.length_take, Nat.min_eq_left (by omega)]
          have e1 : h.extraDataLen + (h.contentLength - h.extraDataLen) = h.contentLength := by
            omega
          rw [e1]
        · simp only [fixedReads, if_neg (by omega : ¬ h.contentLength ≤ h.extraDataLen), hmin]
          rw [fixedReads_done id h.contentLength _ _ (by omega)]

theorem recv_closed (w : World) (c : Nat) (tail : List ReadEvent) (hr : w.reads = tail)
    (ht : tail = [] ∨ ∃ r t, tail = ReadEvent.fail r :: t) : (w.recv c).1 ≤ 0 := by
  unfold World.recv
  rw [hr]
  rcases ht with rfl | ⟨r, t, rfl⟩
  · simp
  · simp only []
    exact min_le_right _ _

/-- The last loop of `SocketReadHTTPBody` on a byte source that fails or is closed before the
body is complete: it ends with `kConnectionErr`. -/
theorem bodyFixedLoop_fails (P : Platform) (id N : Nat) (f : HeaderField) :
    ∀ (segs : List (List Nat)) (fuel : Nat) (err : OSStatus) (wf : Bool) (h : HTTPHeader)
      (w : World) (body : List Nat) (tail : List ReadEvent),
      h.contentLength = N → h.extraDataPtr = HeapPtr.blk id 0 → w.block id = some body →
      N ≤ body.length → h.extraDataLen ≤ N →
      HTTPGetHeaderField P h.buf h.len (some strContentType) = Except.ok f →
      strnicmpx (bytesAt h.buf f.valuePtr f.valueLen) P.kMIMEType_MXCHIP_OTA ≠ 0 →
      w.reads = segs.map ReadEvent.data ++ tail → (∀ s ∈ segs, s ≠ []) →
      (tail = [] ∨ ∃ r t, tail = ReadEvent.fail r :: t) →
      (∀ x ∈ w.selects, 1 ≤ x) → segs.length < w.selects.length → segs.length < fuel →
      segs.flatten.length < N - h.extraDataLen →
      (bodyFixedLoop P fuel err wf h w).1 = kConnectionErr := by
  intro segs
  induction segs with
  | nil =>
    intro fuel err wf h w body tail hN hptr hblk hcap hle hct hnota hreads hne htail hsel hsl
      hfuel hlen
    obtain ⟨k, rfl⟩ : ∃ k, fuel = k + 1 := ⟨fuel - 1, by omega⟩
    subst hN
    simp only [List.flatten_nil, List.length_nil] at hlen
    obtain ⟨x, xs, hxs⟩ : ∃ x xs, w.selects = x :: xs := by
      cases hw : w.selects with
      | nil => rw [hw] at hsl; simp at hsl
      | cons x xs => exact ⟨x, xs, rfl⟩
    have hx : 1 ≤ x := hsel x (by rw [hxs]; exact List.mem_cons_self _ _)
    have hturn := bodyFixedTurn_read P err wf h w x xs f hxs hx hct hnota
    have hz : ({ w with selects := xs }.readHeap (h.extraDataPtr.add h.extraDataLen)
        (h.contentLength - h.extraDataLen)).1 ≤ 0 := by
      rw [readHeap_fst]
      exact recv_closed _ _ tail (by simpa using hreads) htail
    rw [if_neg (not_lt.2 hz)] at hturn
    unfold bodyFixedLoop
    rw [if_neg (by omega), hturn]
  | cons s rest ih =>
    intro fuel err wf h w body tail hN hptr hblk hcap hle hct hnota hreads hne htail hsel hsl
      hfuel hlen
    obtain ⟨k, rfl⟩ : ∃ k, fuel = k + 1 := ⟨fuel - 1, by omega⟩
    subst hN
    simp only [List.flatten_cons, List.length_append] at hlen
    have hs : s ≠ [] := hne s (List.mem_cons_self _ _)
    have hspos : 0 < s.length := List.length_pos.2 hs
    obtain ⟨x, xs, hxs⟩ : ∃ x xs, w.selects = x :: xs := by
      cases hw : w.selects with
      | nil => rw [hw] at hsl; simp at hsl
      | cons x xs => exact ⟨x, xs, rfl⟩
    have hx : 1 ≤ x := hsel x (by rw [hxs]; exact List.mem_cons_self _ _)
    have hturn := bodyFixedTurn_read P err wf h w x xs f hxs hx hct hnota
    have hfull : s.length ≤ h.contentLength - h.extraDataLen := by omega
    have hmin : min s.length (h.contentLength - h.extraDataLen) = s.length := Nat.min_eq_left hfull
    have htake : s.take (h.contentLength - h.extraDataLen) = s := List.take_of_length_le hfull
    have hrd := readHeap_data { w with selects := xs } id h.extraDataLen
      (h.contentLength - h.extraDataLen) s body (rest.map ReadEvent.data ++ tail)
      (by simpa using hreads) hs (by omega) (by exact hblk) (by omega)
    have hadd : h.extraDataPtr.add h.extraDataLen = HeapPtr.blk id h.extraDataLen := by
      rw [hptr]
      simp [HeapPtr.add]
    rw [hadd, hrd] at hturn
    simp only [Int.toNat_ofNat] at hturn
    rw [if_pos (by exact_mod_cast (by omega :
      0 < min s.length (h.contentLength - h.extraDataLen)))] at hturn
    unfold bodyFixedLoop
    rw [if_neg (by omega), hturn]
    simp only []
    exact ih k kNoErr wf
      { h with extraDataLen := h.extraDataLen + min s.length (h.contentLength - h.extraDataLen) }
      { w with
        selects := xs,
        reads := if s.length ≤ h.contentLength - h.extraDataLen then
            rest.map ReadEvent.data ++ tail
          else ReadEvent.data (s.drop (h.contentLength - h.extraDataLen)) ::
            (rest.map ReadEvent.data ++ tail),
        heap := w.heap.set id (some (writeAt body h.extraDataLen
          (s.take (h.contentLength - h.extraDataLen)))),
        readLog := w.readLog ++
          [{ dest := ReadDest.heap (HeapPtr.blk id h.extraDataLen),
             count := h.contentLength - h.extraDataLen,
             ret := ((min s.length (h.contentLength - h.extraDataLen) : Nat) : Int) }] }
      (writeAt body h.extraDataLen (s.take (h.contentLength - h.extraDataLen))) tail
      rfl hptr (block_set w id body _ hblk)
      (by rw [length_writeAt _ _ _ (by rw [htake]; omega)]; exact hcap)
      (by simp only [hmin]; omega) hct hnota
      (by simp only [if_pos hfull])
      (fun t ht => hne t (List.mem_cons_of_mem _ ht)) htail
      (fun y hy => hsel y (by rw [hxs]; exact List.mem_cons_of_mem _ hy))
      (by rw [hxs] at hsl; simpa using hsl)
      (by simpa using hfuel)
      (by simp only [hmin]; omega)

theorem fixedBranch_run (P : Platform) (h : HTTPHeader) (w : World)
    (hnc : h.chunkedData = false) (hcl : h.dataEndedbyClose = false) :
    SocketReadHTTPBody P h w =
      bodyExit (bodyFixedLoop P (w.selects.length + 1) kNotReadableErr false h w).1
        (bodyFixedLoop P (w.selects.length + 1) kNotReadableErr false h w).2.1
        (bodyFixedLoop P (w.selects.length + 1) kNotReadableErr false h w).2.2.1
        (bodyFixedLoop P (w.selects.length + 1) kNotReadableErr false h w).2.2.2 := by
  unfold SocketReadHTTPBody
  rw [hnc]
  simp only [Bool.false_eq_true, if_false, hcl]

theorem bodyExit_ok (wf : Bool) (h : HTTPHeader) (w : World)
    (hota : h.otaDataPtr = HeapPtr.null) : bodyExit kNoErr wf h w = (kNoErr, h, w) := by
  unfold bodyExit
  simp only [ne_eq, not_true_eq_false, if_false]
  rw [if_neg (not_not.2 hota)]

/-- The reassembly of a fixed-length body when the lookup of `"Content-Type"` succeeds: for a
record with a fixed-length body (not chunked, not close-terminated) of `contentLength` bytes,
`extraDataLen` of them in the body buffer, whose header has a `Content-Type` field with a
value that is not the OTA type, and with `select` succeeding: `SocketReadHTTPBody` asks each
time for `contentLength - extraDataLen` bytes at offset `extraDataLen` of the body buffer;
when the byte source delivers the missing bytes in non-empty segments the call returns
`kNoErr`, `extraDataLen` is `contentLength`, and the body buffer holds the captured bytes
followed by the bytes read; when the byte source fails or is closed before that, the call
returns `kConnectionErr` and sets `len` to 0. -/
theorem SocketReadHTTPBody_fixedLength (P : Platform) (h : HTTPHeader) (w : World) (id : Nat)
    (body : List Nat) (f : HeaderField) (segs : List (List Nat)) (tail : List ReadEvent)
    (hnc : h.chunkedData = false) (hcl : h.dataEndedbyClose = false)
    (hota : h.otaDataPtr = HeapPtr.null)
    (hptr : h.extraDataPtr = HeapPtr.blk id 0) (hblk : w.block id = some body)
    (hcap : h.contentLength ≤ body.length) (hk : h.extraDataLen < h.contentLength)
    (hct : HTTPGetHeaderField P h.buf h.len (some strContentType) = Except.ok f)
    (hnota : strnicmpx (bytesAt h.buf f.valuePtr f.valueLen) P.kMIMEType_MXCHIP_OTA ≠ 0)
    (hreads : w.reads = segs.map ReadEvent.data ++ tail) (hne : ∀ s ∈ segs, s ≠ [])
    (hsel : ∀ x ∈ w.selects, 1 ≤ x) (hsl : segs.length < w.selects.length) :
    (h.contentLength - h.extraDataLen ≤ segs.flatten.length →
      (SocketReadHTTPBody P h w).1 = kNoErr ∧
      (SocketReadHTTPBody P h w).2.1 = { h with extraDataLen := h.contentLength } ∧
      (SocketReadHTTPBody P h w).2.2.block id =
        some (body.take h.extraDataLen ++
          segs.flatten.take (h.contentLength - h.extraDataLen) ++ body.drop h.contentLength) ∧
      (SocketReadHTTPBody P h w).2.2.readLog =
        w.readLog ++ fixedReads id h.contentLength h.extraDataLen segs) ∧
    (segs.flatten.length < h.contentLength - h.extraDataLen →
      (tail = [] ∨ ∃ r t, tail = ReadEvent.fail r :: t) →
      (SocketReadHTTPBody P h w).1 = kConnectionErr ∧ (SocketReadHTTPBody P h w).2.1.len = 0) := by
  rw [fixedBranch_run P h w hnc hcl]
  refine ⟨fun hlen => ?_, fun hlen htail => ?_⟩
  · obtain ⟨a, b, c, d⟩ := bodyFixedLoop_reassemble P id h.contentLength f segs
      (w.selects.length + 1) kNotReadableErr false h w body tail rfl hptr hblk hcap
      (by omega) hct hnota hreads hne hsel (by omega) (by omega) hlen
    rw [a, b, bodyExit_ok _ _ _ (by exact hota)]
    exact ⟨rfl, rfl, c, d⟩
  · have a := bodyFixedLoop_fails P id h.contentLength f segs
      (w.selects.length + 1) kNotReadableErr false h w body tail rfl hptr hblk hcap
      (by omega) hct hnota hreads hne htail hsel hsl (by omega) hlen
    exact bodyExit_stop _ _ _ _ a

theorem SocketReadHTTPBody_fixedLength_witness :
    sampleTypedRun1.2.1.chunkedData = false ∧ sampleTypedRun1.2.1.dataEndedbyClose = false ∧
    sampleTypedRun1.2.1.contentLength = 5 ∧ sampleTypedRun1.2.1.extraDataLen = 3 ∧
    sampleTypedRun1.2.2.block 0 = some [97, 98, 99, 0, 0] ∧
    sampleTypedRun1.2.2.reads =
      [[100], [101, 102, 103, 104]].map ReadEvent.data ++ [] ∧
    (SocketReadHTTPBody samplePlatform sampleTypedRun1.2.1 sampleTypedRun1.2.2).1 = kNoErr ∧
    (SocketReadHTTPBody samplePlatform sampleTypedRun1.2.1 sampleTypedRun1.2.2).2.2.block 0 =
      some [97, 98, 99, 100, 101] :=
  ⟨by decide, by decide, by decide, by decide, by decide, by decide,
   ((SocketReadHTTPBody_fixedLength samplePlatform sampleTypedRun1.2.1 sampleTypedRun1.2.2 0
      [97, 98, 99, 0, 0]
      { namePtr := 17, nameLen := 12, valuePtr := 31, valueLen := 10, next := 43 }
      [[100], [101, 102, 103, 104]] [] (by decide) (by decide) (by decide) (by decide)
      (by decide) (by decide) (by decide) (by rfl) (by decide) (by decide) (by decide)
      (by decide) (by decide)).1 (by decide)).1,
   ((SocketReadHTTPBody_fixedLength samplePlatform sampleTypedRun1.2.1 sampleTypedRun1.2.2 0
      [97, 98, 99, 0, 0]
      { namePtr := 17, nameLen := 12, valuePtr := 31, valueLen := 10, next := 43 }
      [[100], [101, 102, 103, 104]] [] (by decide) (by decide) (by decide) (by decide)
      (by decide) (by decide) (by decide) (by rfl) (by decide) (by decide) (by decide)
      (by decide) (by decide)).1 (by decide)).2.2.1⟩

/-! ## The chunked body on concrete inputs -/

/-- C11 at concrete inputs.  For `"4\r\nWiki\r\n5\r\npedia\r\n0\r\n\r\n"`, delivered in three
pieces, three calls of `SocketReadHTTPBody` succeed and expose `"Wiki"`, then `"pedia"`, then
size 0.  For a chunk of 251 bytes the chunk buffer of 256 bytes has to grow; when `realloc`
returns the buffer at a new address, the data cursor `extraDataPtr` still points into the
released block 0, so the bytes at the data cursor are not the chunk, and the last `read` of the
call wrote through it. -/
theorem chunked_round_trip_examples :
    (sampleWikiRun1.1 = kNoErr ∧ sampleWikiRun1.2.1.contentLength = 4 ∧
      exposedChunk sampleWikiRun1 = [87, 105, 107, 105]) ∧
    (sampleWikiRun2.1 = kNoErr ∧ sampleWikiRun2.2.1.contentLength = 5 ∧
      exposedChunk sampleWikiRun2 = [112, 101, 100, 105, 97]) ∧
    (sampleWikiRun3.1 = kNoErr ∧ sampleWikiRun3.2.1.contentLength = 0 ∧
      sampleWikiRun3.2.2.reads = []) ∧
    ((sampleGrowRun1 AllocEvent.moved 13 10).1 = kNoErr ∧
      (sampleGrowRun2 AllocEvent.moved 13 10).2.1.contentLength = 251 ∧
      (sampleGrowRun2 AllocEvent.moved 13 10).2.1.extraDataPtr = HeapPtr.blk 0 4 ∧
      (sampleGrowRun2 AllocEvent.moved 13 10).2.1.chunkedDataBufferPtr = HeapPtr.blk 1 0 ∧
      (sampleGrowRun2 AllocEvent.moved 13 10).2.2.block 0 = none ∧
      exposedChunk (sampleGrowRun2 AllocEvent.moved 13 10) ≠ List.replicate 251 65 ∧
      (sampleGrowRun2 AllocEvent.moved 13 10).2.2.fault = true) := by
  decide

/-- C12 at concrete inputs.  A chunk of 251 bytes followed by `"XY"` instead of CRLF: when
`realloc` grows the chunk buffer in place, `SocketReadHTTPBody` returns `kMalformedErr` with
`len = 0`, the record still holds the chunk buffer, and `HTTPHeaderClear` releases it and
leaves both pointers null.  When `realloc` fails, the test after it looks at `extraDataPtr`
and not at the new `chunkedDataBufferPtr`: the call goes on, writes past the old block, and
returns `kMalformedErr` with `chunkedDataBufferPtr` null while block 0 is still allocated;
`HTTPHeaderClear` then takes its second branch and never releases the block. -/
theorem malformed_tail_examples :
    ((sampleGrowRun2 AllocEvent.inPlace 88 89).1 = kMalformedErr ∧
      (sampleGrowRun2 AllocEvent.inPlace 88 89).2.1.len = 0 ∧
      (sampleGrowRun2 AllocEvent.inPlace 88 89).2.1.chunkedDataBufferPtr = HeapPtr.blk 0 0 ∧
      (sampleGrowRun2 AllocEvent.inPlace 88 89).2.2.fault = false ∧
      (sampleGrowRun3 AllocEvent.inPlace 88 89).1.chunkedDataBufferPtr = HeapPtr.null ∧
      (sampleGrowRun3 AllocEvent.inPlace 88 89).1.extraDataPtr = HeapPtr.null ∧
      (sampleGrowRun3 AllocEvent.inPlace 88 89).2.block 0 = none ∧
      (sampleGrowRun3 AllocEvent.inPlace 88 89).2.fault = false) ∧
    ((sampleGrowRun2 AllocEvent.fail 88 89).1 = kMalformedErr ∧
      (sampleGrowRun2 AllocEvent.fail 88 89).2.1.chunkedDataBufferPtr = HeapPtr.null ∧
      (sampleGrowRun2 AllocEvent.fail 88 89).2.1.extraDataPtr = HeapPtr.blk 0 4 ∧
      (sampleGrowRun2 AllocEvent.fail 88 89).2.1.chunkedDataBufferLen = 511 ∧
      ((sampleGrowRun2 AllocEvent.fail 88 89).2.2.block 0).map List.length = some 256 ∧
      (sampleGrowRun2 AllocEvent.fail 88 89).2.2.fault = true ∧
      (sampleGrowRun3 AllocEvent.fail 88 89).1.chunkedData = true ∧
      ((sampleGrowRun3 AllocEvent.fail 88 89).2.block 0).map List.length = some 256) := by
  decide

/-- C20 at a concrete input.  For a chunk with `s = 251` and `h = 4` the capacity 256 is below
`s + h + 2`, and `SocketReadHTTPBody` sets `chunkedDataBufferLen` to `s + h + 256 = 511` and
calls `realloc`.  When the buffer stays in place the call succeeds and exposes the 251 bytes
sent.  When `realloc` returns the buffer at a new address (block 1), `extraDataPtr` is not
set again: it still points into the released block 0, and the chunk-data `read` is made at
offset 256 of block 0, outside the chunk buffer. -/
theorem chunk_growth_examples :
    ((sampleGrowRun2 AllocEvent.inPlace 13 10).1 = kNoErr ∧
      (sampleGrowRun2 AllocEvent.inPlace 13 10).2.1.chunkedDataBufferLen = 511 ∧
      exposedChunk (sampleGrowRun2 AllocEvent.inPlace 13 10) = List.replicate 251 65 ∧
      (sampleGrowRun2 AllocEvent.inPlace 13 10).2.2.fault = false) ∧
    ((sampleGrowRun1 AllocEvent.moved 13 10).2.1.chunkedDataBufferLen = 256 ∧
      (sampleGrowRun2 AllocEvent.moved 13 10).2.1.chunkedDataBufferLen = 511 ∧
      (sampleGrowRun2 AllocEvent.moved 13 10).2.1.chunkedDataBufferPtr = HeapPtr.blk 1 0 ∧
      (sampleGrowRun2 AllocEvent.moved 13 10).2.1.extraDataPtr = HeapPtr.blk 0 4 ∧
      (sampleGrowRun2 AllocEvent.moved 13 10).2.2.block 0 = none ∧
      (sampleGrowRun2 AllocEvent.moved 13 10).2.2.readLog.getLast? =
        some { dest := ReadDest.heap (HeapPtr.blk 0 256), count := 1, ret := 1 } ∧
      (sampleGrowRun2 AllocEvent.moved 13 10).2.2.fault = true) := by
  decide

/-! ## The loops never run out of fuel

Every turn of a loop of `SocketReadHTTPBody` takes one value from `selects`, and every turn of
the loop of `SocketReadHTTPHeader` takes at least one byte from the byte source, so more fuel
than these hold does not change the result. -/

theorem touch_selects (w : World) (p : HeapPtr) (n : Nat) :
    (w.touch p n).selects = w.selects := by
  unfold World.touch
  split <;> rfl

theorem store_selects (w : World) (p : HeapPtr) (bs : List Nat) :
    (w.store p bs).selects = w.selects := by
  unfold World.store
  split_ifs
  · rfl
  · split
    · rfl
    · split
      · rfl
      · split_ifs <;> rfl

theorem recv_selects (w : World) (count : Nat) : (w.recv count).2.2.selects = w.selects := by
  unfold World.recv
  split
  · rfl
  · rfl
  · split_ifs <;> rfl

theorem readHeap_selects (w : World) (p : HeapPtr) (count : Nat) :
    (w.readHeap p count).2.selects = w.selects := by
  have := recv_selects w count
  unfold World.readHeap
  rcases hn : w.recv count with ⟨n, bs, w1⟩
  rw [hn] at this
  simp only [store_selects]
  exact this

theorem nextAlloc_selects (w : World) : w.nextAlloc.2.selects = w.selects := by
  unfold World.nextAlloc
  split <;> rfl

theorem calloc_selects (w : World) (n : Nat) : (w.calloc n).2.selects = w.selects := by
  have := nextAlloc_selects w
  unfold World.calloc
  rcases hn : w.nextAlloc with ⟨a, w1⟩
  rw [hn] at this
  cases a <;> exact this

theorem free_selects (w : World) (p : HeapPtr) : (w.free p).selects = w.selects := by
  unfold World.free
  split
  · rfl
  · split_ifs <;> rfl

theorem flashCall_selects (w : World) : w.flashCall.2.selects = w.selects := by
  unfold World.flashCall
  split <;> rfl

theorem flashWrite_selects (w : World) (bs : List Nat) :
    (w.flashWrite bs).2.selects = w.selects := by
  have := flashCall_selects w
  unfold World.flashWrite
  rcases hn : w.flashCall with ⟨r, w1⟩
  rw [hn] at this
  simp only []
  split_ifs <;> exact this

theorem select_lt (w : World) (h : w.select.1 ≥ 1) :
    w.select.2.selects.length < w.selects.length := by
  unfold World.select at h ⊢
  cases hs : w.selects with
  | nil =>
    rw [hs] at h
    simp at h
  | cons x xs => simp

theorem chunkSizeLoop_fuel (P : Platform) :
    ∀ (f1 f2 : Nat) (h : HTTPHeader) (w : World), w.selects.length < f1 →
      w.selects.length < f2 → chunkSizeLoop P f1 h w = chunkSizeLoop P f2 h w := by
  intro f1
  induction f1 with
  | zero =>
    intro f2 h w h1
    omega
  | succ k ih =>
    intro f2 h w h1 h2
    obtain ⟨k2, rfl⟩ : ∃ k2, f2 = k2 + 1 := ⟨f2 - 1, by omega⟩
    unfold chunkSizeLoop
    simp only []
    split_ifs with c1 c2 c3 c4
    all_goals first
      | rfl
      | (have hl := select_lt _ c3
         rw [touch_selects] at hl
         apply ih
         · rw [readHeap_selects]
           omega
         · rw [readHeap_selects]
           omega)

theorem chunkTrailerLoop_fuel (P : Platform) (hl : Nat) :
    ∀ (f1 f2 : Nat) (h : HTTPHeader) (w : World), w.selects.length < f1 →
      w.selects.length < f2 → chunkTrailerLoop P hl f1 h w = chunkTrailerLoop P hl f2 h w := by
  intro f1
  induction f1 with
  | zero =>
    intro f2 h w h1
    omega
  | succ k ih =>
    intro f2 h w h1 h2
    obtain ⟨k2, rfl⟩ : ∃ k2, f2 = k2 + 1 := ⟨f2 - 1, by omega⟩
    unfold chunkTrailerLoop
    simp only []
    split_ifs with c1 c3 c4
    all_goals first
      | rfl
      | (have hl := select_lt _ c3
         rw [touch_selects] at hl
         apply ih
         · rw [readHeap_selects]
           omega
         · rw [readHeap_selects]
           omega)

theorem chunkDataLoop_fuel (hl : Nat) :
    ∀ (f1 f2 : Nat) (h : HTTPHeader) (w : World), w.selects.length < f1 →
      w.selects.length < f2 → chunkDataLoop hl f1 h w = chunkDataLoop hl f2 h w := by
  intro f1
  induction f1 with
  | zero =>
    intro f2 h w h1
    omega
  | succ k ih =>
    intro f2 h w h1 h2
    obtain ⟨k2, rfl⟩ : ∃ k2, f2 = k2 + 1 := ⟨f2 - 1, by omega⟩
    unfold chunkDataLoop
    simp only []
    split_ifs with c1 c3 c4
    all_goals first
      | rfl
      | (have hl := select_lt _ c3
         apply ih
         · rw [readHeap_selects]
           omega
         · rw [readHeap_selects]
           omega)


theorem bodyFixedFlash_selects (P : Platform) (h : HTTPHeader) (w : World) :
    (bodyFixedFlash P h w).2.2.2.selects = w.selects := by
  unfold bodyFixedFlash
  simp only []
  split_ifs
  all_goals
    simp only [free_selects, flashWrite_selects, touch_selects, readHeap_selects,
      calloc_selects]

theorem bodyFixedTurn_selects (P : Platform) (err : OSStatus) (wf : Bool) (h : HTTPHeader)
    (w : World) (hgo : (bodyFixedTurn P err wf h w).1 = true) :
    (bodyFixedTurn P err wf h w).2.2.2.2.selects.length < w.selects.length := by
  have hfl := bodyFixedFlash_selects P h w.select.2
  unfold bodyFixedTurn at hgo ⊢
  rcases hget : HTTPGetHeaderField P h.buf h.len (some strContentType) with e | f
  all_goals
    rw [hget] at hgo
    simp only [] at hgo ⊢
    split_ifs at hgo ⊢
    all_goals
      simp only [hfl, readHeap_selects]
      exact select_lt w (by assumption)

theorem bodyFixedLoop_fuel (P : Platform) :
    ∀ (f1 f2 : Nat) (err : OSStatus) (wf : Bool) (h : HTTPHeader) (w : World),
      w.selects.length < f1 → w.selects.length < f2 →
      bodyFixedLoop P f1 err wf h w = bodyFixedLoop P f2 err wf h w := by
  intro f1
  induction f1 with
  | zero =>
    intro f2 err wf h w h1
    omega
  | succ k ih =>
    intro f2 err wf h w h1 h2
    obtain ⟨k2, rfl⟩ : ∃ k2, f2 = k2 + 1 := ⟨f2 - 1, by omega⟩
    have hs := bodyFixedTurn_selects P err wf h w
    unfold bodyFixedLoop
    split_ifs with c1
    · rcases ht : bodyFixedTurn P err wf h w with ⟨go, e1, wf1, h1, w1⟩
      rw [ht] at hs
      cases go with
      | false => rfl
      | true =>
        have hlt := hs rfl
        simp only [] at hlt ⊢
        exact ih k2 e1 wf1 h1 w1 (by omega) (by omega)
    · rfl

theorem recv_readFuel (w : World) (count : Nat) (hpos : 0 < (w.recv count).1) :
    (w.recv count).2.2.readFuel < w.readFuel := by
  unfold World.recv at hpos ⊢
  unfold World.readFuel
  cases hr : w.reads with
  | nil =>
    rw [hr] at hpos
    simp at hpos
  | cons e rest =>
    rw [hr] at hpos
    cases e with
    | fail r =>
      simp only [] at hpos
      omega
    | data bytes =>
      simp only [] at hpos ⊢
      split_ifs at hpos ⊢ with c1 c2
      · simp at hpos
      · simp only [List.map_cons, List.sum_cons]
        omega
      · simp only [List.map_cons, List.sum_cons, List.length_drop]
        omega

theorem readIntoHeader_readFuel (h : HTTPHeader) (w : World) (dst count : Nat)
    (hpos : 0 < (readIntoHeader h w dst count).1) :
    (readIntoHeader h w dst count).2.2.readFuel < w.readFuel := by
  have hr := recv_readFuel w count
  unfold readIntoHeader writeBuf at hpos ⊢
  simp only [] at hpos ⊢
  split_ifs at hpos ⊢ with c1 c2
  all_goals first
    | exact hr c1
    | exact absurd hpos c1

theorem readHeaderLoop_fuel (P : Platform) :
    ∀ (f1 f2 : Nat) (h : HTTPHeader) (w : World) (dst : Nat),
      w.readFuel < f1 → w.readFuel < f2 →
      readHeaderLoop P f1 h w dst = readHeaderLoop P f2 h w dst := by
  intro f1
  induction f1 with
  | zero =>
    intro f2 h w dst h1
    omega
  | succ k ih =>
    intro f2 h w dst h1 h2
    obtain ⟨k2, rfl⟩ : ∃ k2, f2 = k2 + 1 := ⟨f2 - 1, by omega⟩
    have hs := readIntoHeader_readFuel h w dst (sizeSub P P.bufSize dst)
    unfold readHeaderLoop
    simp only []
    split_ifs with c1 c2
    · rfl
    · have hlt := hs c2
      apply ih k2
      · exact Nat.lt_of_lt_of_le hlt (Nat.le_of_lt_succ h1)
      · exact Nat.lt_of_lt_of_le hlt (Nat.le_of_lt_succ h2)
    · rfl


/-! ## The growth of the chunk buffer -/

/-- The capacity after the statement "Extend chunked data buffer": it is
`contentLength + chunckheaderLen + 256` when it was below `contentLength + chunckheaderLen + 2`
and unchanged otherwise, so it is at least `contentLength + chunckheaderLen + 2`; and
`extraDataPtr` is what it was, whatever `realloc` returned. -/
theorem chunkGrow_capacity (hl : Nat) (h : HTTPHeader) (w : World) :
    (chunkGrow hl h w).2.1.chunkedDataBufferLen =
      (if h.chunkedDataBufferLen < h.contentLength + hl + 2 then h.contentLength + hl + 256
       else h.chunkedDataBufferLen) ∧
    h.contentLength + hl + 2 ≤ (chunkGrow hl h w).2.1.chunkedDataBufferLen ∧
    (chunkGrow hl h w).2.1.extraDataPtr = h.extraDataPtr := by
  unfold chunkGrow
  simp only []
  split_ifs with c1 c2
  · exact ⟨rfl, by simp only []; omega, rfl⟩
  · exact ⟨rfl, by simp only []; omega, rfl⟩
  · exact ⟨rfl, not_lt.1 c1, rfl⟩

/-- When the chunk buffer has to grow and `realloc` returns it at a new address, the statement
"Extend chunked data buffer" goes on with `extraDataPtr` pointing into the released block. -/
theorem chunkGrow_moved (hl : Nat) (h : HTTPHeader) (w : World) (id off : Nat) (b : List Nat)
    (rest : List AllocEvent)
    (hlt : h.chunkedDataBufferLen < h.contentLength + hl + 2)
    (hbuf : h.chunkedDataBufferPtr = HeapPtr.blk id 0) (hblk : w.block id = some b)
    (hptr : h.extraDataPtr = HeapPtr.blk id off) (hal : w.allocs = AllocEvent.moved :: rest) :
    (chunkGrow hl h w).1 = Flow.next ∧
    (chunkGrow hl h w).2.1.extraDataPtr = HeapPtr.blk id off ∧
    (chunkGrow hl h w).2.1.chunkedDataBufferPtr = HeapPtr.blk w.heap.length 0 ∧
    (chunkGrow hl h w).2.2.block id = none := by
  have hid : id < w.heap.length := by
    unfold World.block at hblk
    by_contra hc
    rw [List.getD_eq_default _ _ (not_lt.1 hc)] at hblk
    exact absurd hblk (by simp)
  unfold chunkGrow World.realloc World.nextAlloc
  simp only [hlt, hbuf, hblk, hptr, hal, if_true]
  rw [if_neg (by simp)]
  refine ⟨rfl, rfl, rfl, ?_⟩
  simp only [World.block, List.getD_eq_getElem?_getD]
  rw [List.getElem?_append_left (by simpa using hid)]
  simp [hid]


/-! ## The content length of a chunked message -/

theorem headerParseRequest_toFields (P : Platform) (h : HTTPHeader) (ptr : Nat)
    (hok : (headerParseRequest P h ptr).1 = kNoErr) :
    ∃ h2 p, h2.buf = h.buf ∧ h2.len = h.len ∧ h2.contentLength = h.contentLength ∧
      headerParseRequest P h ptr = headerParseFields P h2 p := by
  simp only [headerParseRequest] at hok ⊢
  split at hok
  · cases hok
  · split at hok
    · next hne => exact absurd hok hne
    · split at hok
      · cases hok
      · next h1 h2 h3 =>
        rw [if_neg h1, if_neg h2, if_neg h3]
        refine ⟨_, _, ?_, ?_, ?_, rfl⟩ <;> rfl

theorem headerParseReason_toFields (P : Platform) (h : HTTPHeader) (ptr : Nat)
    (hok : (headerParseReason P h ptr).1 = kNoErr) :
    ∃ h2 p, h2.buf = h.buf ∧ h2.len = h.len ∧ h2.contentLength = h.contentLength ∧
      headerParseReason P h ptr = headerParseFields P h2 p := by
  simp only [headerParseReason] at hok ⊢
  split at hok
  · cases hok
  · next h1 =>
    rw [if_neg h1]
    refine ⟨_, _, ?_, ?_, ?_, rfl⟩ <;> rfl

theorem headerParseResponse_toFields (P : Platform) (h : HTTPHeader) (ptr : Nat)
    (hok : (headerParseResponse P h ptr).1 = kNoErr) :
    ∃ h2 p, h2.buf = h.buf ∧ h2.len = h.len ∧ h2.contentLength = h.contentLength ∧
      headerParseResponse P h ptr = headerParseFields P h2 p := by
  simp only [headerParseResponse] at hok ⊢
  split at hok
  · cases hok
  · next h1 =>
    rw [if_neg h1]
    obtain ⟨h2, p, a, b, c, d⟩ := headerParseReason_toFields P _ _ hok
    exact ⟨h2, p, a, b, c, d⟩

/-- A header accepted in request or response form is handed to the field lookups with the
content length that the reset gave it, which is 0. -/
theorem HTTPHeaderParse_toFields (P : Platform) (h : HTTPHeader)
    (hok : (HTTPHeaderParse P h).1 = kNoErr)
    (hnd : ¬ (h.len = 4 ∧ h.buf.getD 0 0 = cDollar)) :
    ∃ h2 p, h2.buf = h.buf ∧ h2.len = h.len ∧ h2.contentLength = 0 ∧ p < h2.len ∧
      HTTPHeaderParse P h = headerParseFields P h2 p := by
  have hcap : h.len < P.bufSize := by
    by_contra hc
    unfold HTTPHeaderParse at hok
    rw [if_pos hc] at hok
    cases hok
  have hstart := HTTPHeaderParse_startLine P h hcap hnd
  rw [hstart] at hok
  have key : ∃ h2 p, h2.buf = h.buf ∧ h2.len = h.len ∧ h2.contentLength = 0 ∧
      HTTPHeaderParse P h = headerParseFields P h2 p := by
    rw [hstart]
    split at hok
    · cases hok
    · next h1 =>
      rw [if_neg h1]
      split at hok
      · next h2 =>
        rw [if_pos h2]
        exact headerParseRequest_toFields P (headerParseReset h) _ hok
      · next h2 =>
        rw [if_neg h2]
        exact headerParseResponse_toFields P (headerParseReset h) _ hok
  obtain ⟨h2, p, a, b, c, d⟩ := key
  refine ⟨h2, p, a, b, c, ?_, d⟩
  by_contra hp
  rw [← hstart, d, headerParseFields_malformed P h2 p hp] at hok
  cases hok

/-- What the three lookups at the end of `HTTPHeaderParse` leave in `chunkedData` and in
`contentLength`. -/
theorem headerParseFields_body (P : Platform) (h : HTTPHeader) (ptr : Nat) (hp : ptr < h.len) :
    (headerParseFields P h ptr).2.chunkedData = (headerParseChunked P h).chunkedData ∧
    (headerParseFields P h ptr).2.contentLength =
      (match HTTPScanFHeaderValue P h.buf h.len (some strContentLength) ScanFormat.llu with
       | Except.ok (some v) => v
       | _ => h.contentLength) := by
  have hb : (headerParseChunked P (headerParsePersistent P h)).buf = h.buf :=
    ((headerParseChunked_same P _).1.trans (headerParsePersistent_same P h)).1
  have hl : (headerParseChunked P (headerParsePersistent P h)).len = h.len :=
    ((headerParseChunked_same P _).1.trans (headerParsePersistent_same P h)).2.1
  have hc : (headerParseChunked P (headerParsePersistent P h)).contentLength =
      h.contentLength := by
    unfold headerParseChunked headerParsePersistent
    split <;> split <;> rfl
  have hd : (headerParseChunked P (headerParsePersistent P h)).chunkedData =
      (headerParseChunked P h).chunkedData := by
    have e1 : (headerParsePersistent P h).buf = h.buf := (headerParsePersistent_same P h).1
    have e2 : (headerParsePersistent P h).len = h.len := (headerParsePersistent_same P h).2.1
    unfold headerParseChunked
    rw [e1, e2]
    split <;> rfl
  unfold headerParseFields
  rw [if_neg (not_not.2 hp)]
  simp only []
  unfold headerParseContentLength
  rw [hb, hl]
  rcases HTTPScanFHeaderValue P h.buf h.len (some strContentLength) ScanFormat.llu with e | o
  · exact ⟨hd, hc⟩
  · cases o with
    | none => exact ⟨hd, hc⟩
    | some v => exact ⟨hd, rfl⟩


theorem set_of_getElem? {α : Type} : ∀ (l : List α) (i : Nat) (x : α), l[i]? = some x →
    l.set i x = l
  | [], _, _, h => by simp at h
  | a :: l, 0, x, h => by
    simp only [List.getElem?_cons_zero, Option.some.injEq] at h
    rw [List.set_cons_zero, h]
  | a :: l, i + 1, x, h => by
    simp only [List.getElem?_cons_succ] at h
    rw [List.set_cons_succ, set_of_getElem? l i x h]

theorem heap_set_block (w : World) (id : Nat) (b : List Nat) (hb : w.block id = some b) :
    w.heap.set id (some b) = w.heap := by
  unfold World.block at hb
  rw [List.getD_eq_getElem?_getD] at hb
  apply set_of_getElem?
  cases hg : w.heap[id]? with
  | none =>
    rw [hg] at hb
    simp at hb
  | some x =>
    rw [hg] at hb
    simp only [Option.getD_some] at hb
    rw [hb]

theorem writeAt_self (b : List Nat) : writeAt b 0 b = b := by
  unfold writeAt
  simp

/-- With `contentLength = 0` and the data cursor at the start of the chunk buffer, the start of
the chunked branch computes a consumed length of 0: the record and the memory are as before. -/
theorem chunkShift_nothing (P : Platform) (h : HTTPHeader) (w : World) (id : Nat) (b : List Nat)
    (hcl : h.contentLength = 0) (hcb : h.chunkedDataBufferPtr = HeapPtr.blk id 0)
    (hptr : h.extraDataPtr = HeapPtr.blk id 0) (hblk : w.block id = some b)
    (hlen : b.length = h.chunkedDataBufferLen) :
    chunkShift P h w = (h, w) := by
  have hz : sizeSub P 0 0 = 0 := sizeSub_of_le P 0 0 (le_refl _)
  have hmm : w.memmove (HeapPtr.blk id 0) (HeapPtr.blk id 0) h.chunkedDataBufferLen = w := by
    unfold World.memmove
    rw [touch_of_valid w id 0 _ b hblk (by omega), bytes_blk w id 0 b hblk, List.drop_zero,
      ← hlen, List.take_length]
    by_cases hne : b = []
    · unfold World.store
      rw [if_pos hne]
    · rw [store_valid w id 0 b b hne hblk (by omega), writeAt_self, heap_set_block w id b hblk]
  unfold chunkShift
  simp only [hcl, hcb, hptr, HeapPtr.sameBlock, HeapPtr.diff, HeapPtr.add, beq_self_eq_true,
    if_true, hz, Nat.add_zero, Nat.zero_mod, ne_eq, not_true_eq_false, if_false,
    sizeSub_of_le P _ 0 (Nat.zero_le _), Nat.sub_zero]
  rw [hmm]
  cases h
  simp only [] at hcl hcb hptr
  subst hcl hcb hptr
  rfl


theorem block_set_ne (w : World) (id id2 : Nat) (x : Option (List Nat)) (hne : id2 ≠ id) :
    World.block { w with heap := w.heap.set id2 x } id = w.block id := by
  unfold World.block
  simp only [List.getD_eq_getElem?_getD]
  rw [List.getElem?_set_ne hne]

/-- A write leaves every live block live and of the same length. -/
theorem store_block_length (w : World) (p : HeapPtr) (bs : List Nat) (id : Nat) (b : List Nat)
    (hb : w.block id = some b) :
    ∃ b2, (w.store p bs).block id = some b2 ∧ b2.length = b.length := by
  unfold World.store
  split_ifs with h1
  · exact ⟨b, hb, rfl⟩
  · cases p with
    | null => exact ⟨b, hb, rfl⟩
    | blk id2 off =>
      simp only []
      cases hb2 : w.block id2 with
      | none => exact ⟨b, hb, rfl⟩
      | some b3 =>
        simp only []
        split_ifs with h2
        · by_cases hid : id2 = id
          · subst hid
            rw [hb] at hb2
            cases hb2
            exact ⟨_, block_set w id2 b _ hb, length_writeAt b bs off h2⟩
          · exact ⟨b, (block_set_ne w id id2 _ hid).trans hb, rfl⟩
        · exact ⟨b, hb, rfl⟩

theorem nextAlloc_heap (w : World) : w.nextAlloc.2.heap = w.heap := by
  unfold World.nextAlloc
  split <;> rfl

/-- A successful `calloc` returns the first byte of a new block of `n` zero bytes. -/
theorem calloc_block (w : World) (n : Nat) (hp : (w.calloc n).1 ≠ HeapPtr.null) :
    (w.calloc n).1 = HeapPtr.blk w.heap.length 0 ∧
    (w.calloc n).2.block w.heap.length = some (List.replicate n 0) := by
  have hh := nextAlloc_heap w
  unfold World.calloc at hp ⊢
  rcases hn : w.nextAlloc with ⟨a, w1⟩
  rw [hn] at hp hh
  simp only [] at hp hh ⊢
  cases a with
  | fail => exact absurd rfl hp
  | inPlace =>
    simp only [hh, World.block, true_and]
    rw [List.getD_eq_getElem?_getD, List.getElem?_append_right (le_refl _)]
    simp
  | moved =>
    simp only [hh, World.block, true_and]
    rw [List.getD_eq_getElem?_getD, List.getElem?_append_right (le_refl _)]
    simp

theorem readBuf_block (h : HTTPHeader) (w : World) (off n id : Nat) :
    (readBuf h w off n).2.block id = w.block id := by
  unfold readBuf
  simp only []
  split_ifs <;> rfl

/-- The chunked branch at the end of `SocketReadHTTPHeader`, when it returns `kNoErr`: the
chunk buffer is a new block of `chunkedDataBufferLen` bytes, the larger of `extraDataLen` and
256, and `extraDataPtr` is its first byte. -/
theorem headerStoreBody_chunked (h : HTTPHeader) (w : World) (e : Nat)
    (hch : h.chunkedData = true) (hok : (headerStoreBody h w e).1 = kNoErr) :
    ∃ id b, (headerStoreBody h w e).2.1.chunkedDataBufferPtr = HeapPtr.blk id 0 ∧
      (headerStoreBody h w e).2.1.extraDataPtr = HeapPtr.blk id 0 ∧
      (headerStoreBody h w e).2.2.block id = some b ∧
      b.length = (headerStoreBody h w e).2.1.chunkedDataBufferLen ∧
      (headerStoreBody h w e).2.1.contentLength = h.contentLength ∧
      (headerStoreBody h w e).2.1.extraDataLen = h.extraDataLen ∧
      (headerStoreBody h w e).2.1.chunkedDataBufferLen =
        (if h.extraDataLen > 256 then h.extraDataLen else 256) := by
  unfold headerStoreBody at hok ⊢
  rw [if_pos hch] at hok ⊢
  simp only [] at hok ⊢
  generalize (if h.extraDataLen > 256 then h.extraDataLen else 256) = cap at hok ⊢
  have hc := calloc_block w cap
  split_ifs at hok ⊢ with h1
  obtain ⟨c1, c2⟩ := hc h1
  have hrb := readBuf_block
    { h with chunkedDataBufferLen := cap, chunkedDataBufferPtr := (w.calloc cap).1 }
    (w.calloc cap).2 e h.extraDataLen w.heap.length
  obtain ⟨b2, s1, s2⟩ := store_block_length _ (w.calloc cap).1
    (readBuf { h with chunkedDataBufferLen := cap, chunkedDataBufferPtr := (w.calloc cap).1 }
      (w.calloc cap).2 e h.extraDataLen).1
    w.heap.length _ (hrb.trans c2)
  refine ⟨w.heap.length, b2, c1, c1, s1, ?_, rfl, rfl, rfl⟩
  rw [s2, List.length_replicate]


theorem headerStoreBody_chunkedData (h : HTTPHeader) (w : World) (e : Nat) :
    (headerStoreBody h w e).2.1.chunkedData = h.chunkedData := by
  unfold headerStoreBody
  simp only []
  split_ifs <;> rfl

theorem headerStoreBody_buf (h : HTTPHeader) (w : World) (e : Nat) :
    (headerStoreBody h w e).2.1.buf = h.buf ∧ (headerStoreBody h w e).2.1.len = h.len := by
  unfold headerStoreBody
  simp only []
  split_ifs <;> exact ⟨rfl, rfl⟩

theorem headerOTA_record (P : Platform) (h : HTTPHeader) (w : World) (e : Nat) :
    (headerOTA P h w e).2.1 = h := by
  unfold headerOTA
  simp only []
  split_ifs <;> rfl

/-- The record that `SocketReadHTTPHeader` sets up for a chunked message that is not of the OTA
type: the chunk buffer is a live block of `chunkedDataBufferLen` bytes and the data cursor
`extraDataPtr` is its first byte. -/
theorem SocketReadHTTPHeader_chunked_setup (P : Platform) (h0 : HTTPHeader) (w : World)
    (hok : (SocketReadHTTPHeader P h0 w).1 = kNoErr)
    (hch : (SocketReadHTTPHeader P h0 w).2.1.chunkedData = true)
    (hnota : isOTAType P (SocketReadHTTPHeader P h0 w).2.1 = false) :
    ∃ id b, (SocketReadHTTPHeader P h0 w).2.1.chunkedDataBufferPtr = HeapPtr.blk id 0 ∧
      (SocketReadHTTPHeader P h0 w).2.1.extraDataPtr = HeapPtr.blk id 0 ∧
      (SocketReadHTTPHeader P h0 w).2.2.block id = some b ∧
      b.length = (SocketReadHTTPHeader P h0 w).2.1.chunkedDataBufferLen := by
  unfold SocketReadHTTPHeader at hok hch hnota ⊢
  rcases hl : readHeaderLoop P (w.readFuel + 1) h0 w h0.len with ⟨o, h1, w1, dst⟩
  rw [hl] at hok hch hnota
  cases o with
  | none => cases hok
  | some e =>
    simp only [] at hok hch hnota ⊢
    rcases hp : HTTPHeaderParse P { h1 with len := e } with ⟨err, h2⟩
    rw [hp] at hok hch hnota
    simp only [] at hok hch hnota ⊢
    by_cases herr : err = kNoErr
    · rw [if_neg (not_not.2 herr)] at hok hch hnota ⊢
      rcases hf : headerFreeBody { h2 with extraDataLen := sizeSub P dst e } w1 with ⟨h3, w3⟩
      rw [hf] at hok hch hnota
      simp only [] at hok hch hnota ⊢
      by_cases hota : isOTAType P h3 = true
      · rw [if_pos hota] at hnota
        rw [headerOTA_record] at hnota
        rw [hota] at hnota
        cases hnota
      · rw [if_neg hota] at hok hch ⊢
        rw [headerStoreBody_chunkedData] at hch
        obtain ⟨id, b, a1, a2, a3, a4, _⟩ := headerStoreBody_chunked h3 w3 e hch hok
        exact ⟨id, b, a1, a2, a3, a4⟩
    · rw [if_pos herr] at hok
      exact absurd hok herr

/-- C21 does not hold as stated: `HTTPHeaderParse` accepts the header
`"HTTP/1.1 200 OK\r\nTransfer-Encoding: chunked\r\nContent-Length: 5\r\n\r\n"`, marks it as
chunked and leaves `contentLength = 5`, not 0.  On the record that `SocketReadHTTPHeader` sets
up from it, with the 14 bytes `"4\r\nWiki\r\n0\r\n\r\n"` captured, the first call of
`SocketReadHTTPBody` computes a consumed length of 7 and shifts the first chunk out of the
chunk buffer; it ends with `kConnectionErr`. -/
theorem chunked_header_keeps_content_length :
    (HTTPHeaderParse samplePlatform (headerOf samplePlatform sampleChunkedWithLength)).1 = kNoErr ∧
    (HTTPHeaderParse samplePlatform
      (headerOf samplePlatform sampleChunkedWithLength)).2.chunkedData = true ∧
    (HTTPHeaderParse samplePlatform
      (headerOf samplePlatform sampleChunkedWithLength)).2.contentLength = 5 ∧
    sampleBothRun1.1 = kNoErr ∧ sampleBothRun1.2.1.chunkedData = true ∧
    sampleBothRun1.2.1.contentLength = 5 ∧ sampleBothRun1.2.1.extraDataLen = 14 ∧
    (sampleBothRun1.2.2.bytes sampleBothRun1.2.1.chunkedDataBufferPtr).take 14 =
      [52, 13, 10, 87, 105, 107, 105, 13, 10, 48, 13, 10, 13, 10] ∧
    (chunkShift samplePlatform sampleBothRun1.2.1 sampleBothRun1.2.2).1.extraDataLen = 7 ∧
    ((chunkShift samplePlatform sampleBothRun1.2.1 sampleBothRun1.2.2).2.bytes
      sampleBothRun1.2.1.chunkedDataBufferPtr).take 7 = [13, 10, 48, 13, 10, 13, 10] ∧
    sampleBothRun2.1 = kConnectionErr := by
  decide

/-- C21, as the code has it: for every header that `HTTPHeaderParse` accepts in request or
response form and whose `Transfer-Encoding` value equals `"chunked"` ignoring case,
`chunkedData` is set and `contentLength` is the number that the value of the `Content-Length`
field starts with, and 0 when the header has no such field or no number is stored.  And
whenever `contentLength` is 0 in the record that `SocketReadHTTPHeader` has set up for a
chunked message (not of the OTA type), the start of the first call of `SocketReadHTTPBody`
computes a consumed length of 0: it changes neither the record nor the memory. -/
theorem HTTPHeaderParse_chunked_contentLength (P : Platform) (h : HTTPHeader) (f : HeaderField)
    (hok : (HTTPHeaderParse P h).1 = kNoErr)
    (hnd : ¬ (h.len = 4 ∧ h.buf.getD 0 0 = cDollar))
    (hte : HTTPGetHeaderField P h.buf h.len (some strTransferEncoding) = Except.ok f)
    (hcv : strnicmpx (bytesAt h.buf f.valuePtr f.valueLen) kTransferrEncodingType_CHUNKED = 0) :
    (HTTPHeaderParse P h).2.chunkedData = true ∧
    (HTTPHeaderParse P h).2.contentLength =
      (match HTTPScanFHeaderValue P h.buf h.len (some strContentLength) ScanFormat.llu with
       | Except.ok (some v) => v
       | _ => 0) ∧
    (∀ (h0 : HTTPHeader) (w : World),
      (SocketReadHTTPHeader P h0 w).1 = kNoErr →
      (SocketReadHTTPHeader P h0 w).2.1.chunkedData = true →
      isOTAType P (SocketReadHTTPHeader P h0 w).2.1 = false →
      (SocketReadHTTPHeader P h0 w).2.1.contentLength = 0 →
      chunkShift P (SocketReadHTTPHeader P h0 w).2.1 (SocketReadHTTPHeader P h0 w).2.2 =
        ((SocketReadHTTPHeader P h0 w).2.1, (SocketReadHTTPHeader P h0 w).2.2)) := by
  obtain ⟨h2, p, hb, hl, hc0, hp, hparse⟩ := HTTPHeaderParse_toFields P h hok hnd
  obtain ⟨b1, b2⟩ := headerParseFields_body P h2 p hp
  rw [← hparse, hb, hl, hc0] at b2
  rw [← hparse] at b1
  refine ⟨?_, b2, ?_⟩
  · rw [b1]
    unfold headerParseChunked
    rw [hb, hl, hte]
    simp only [hcv, decide_True]
  · intro h0 w a1 a2 a3 a4
    obtain ⟨id, b, c1, c2, c3, c4⟩ := SocketReadHTTPHeader_chunked_setup P h0 w a1 a2 a3
    exact chunkShift_nothing P _ _ id b a4 c1 c2 c3 c4

theorem HTTPHeaderParse_chunked_contentLength_witness :
    (HTTPHeaderParse samplePlatform (headerOf samplePlatform sampleChunkedHeader)).2.chunkedData
      = true ∧
    (HTTPHeaderParse samplePlatform (headerOf samplePlatform sampleChunkedHeader)).2.contentLength
      = 0 ∧
    sampleWikiRun0.2.1.contentLength = 0 ∧
    chunkShift samplePlatform sampleWikiRun0.2.1 sampleWikiRun0.2.2 =
      (sampleWikiRun0.2.1, sampleWikiRun0.2.2) :=
  ⟨(HTTPHeaderParse_chunked_contentLength samplePlatform
      (headerOf samplePlatform sampleChunkedHeader)
      { namePtr := 17, nameLen := 17, valuePtr := 36, valueLen := 7, next := 45 }
      (by decide) (by decide) (by rfl) (by decide)).1,
   (HTTPHeaderParse_chunked_contentLength samplePlatform
      (headerOf samplePlatform sampleChunkedHeader)
      { namePtr := 17, nameLen := 17, valuePtr := 36, valueLen := 7, next := 45 }
      (by decide) (by decide) (by rfl) (by decide)).2.1,
   by decide,
   (HTTPHeaderParse_chunked_contentLength samplePlatform
      (headerOf samplePlatform sampleChunkedHeader)
      { namePtr := 17, nameLen := 17, valuePtr := 36, valueLen := 7, next := 45 }
      (by decide) (by decide) (by rfl) (by decide)).2.2
      (HTTPHeaderCreate samplePlatform)
      (sampleWorld
        [ReadEvent.data (sampleChunkedHeader ++ sampleWikipedia.take 5),
         ReadEvent.data ((sampleWikipedia.drop 5).take 16),
         ReadEvent.data (sampleWikipedia.drop 21)] [])
      (by decide) (by decide) (by decide) (by decide)⟩


/-! ## The byte that decides the form of the start line -/

theorem SameStartLine.refl (a : HTTPHeader) : SameStartLine a a := by
  unfold SameStartLine
  exact ⟨rfl, rfl, rfl, rfl, rfl, rfl, rfl, rfl, rfl, rfl, rfl, rfl, rfl⟩

theorem headerParseFields_same (P : Platform) (h : HTTPHeader) (ptr : Nat) :
    SameStartLine (headerParseFields P h ptr).2 h := by
  by_cases hp : ptr < h.len
  · exact (headerParseFields_ok P h ptr hp).2.1
  · rw [headerParseFields_malformed P h ptr hp]
    exact SameStartLine.refl h

/-- The request branch, when it succeeds, leaves the method span `[0, ptr)`. -/
theorem headerParseRequest_method (P : Platform) (h : HTTPHeader) (ptr : Nat)
    (hok : (headerParseRequest P h ptr).1 = kNoErr) :
    (headerParseRequest P h ptr).2.methodPtr = CharPtr.inBuf 0 ∧
    (headerParseRequest P h ptr).2.methodLen = ptr := by
  simp only [headerParseRequest] at hok ⊢
  split at hok
  · cases hok
  · split at hok
    · next hne => exact absurd hok hne
    · split at hok
      · cases hok
      · next h1 h2 h3 =>
        rw [if_neg h1, if_neg h2, if_neg h3]
        exact ⟨(headerParseFields_same P _ _).2.2.1, (headerParseFields_same P _ _).2.2.2.1⟩

theorem headerParseReason_protocol (P : Platform) (h : HTTPHeader) (ptr : Nat) :
    (headerParseReason P h ptr).2.protocolPtr = h.protocolPtr ∧
    (headerParseReason P h ptr).2.protocolLen = h.protocolLen ∧
    (headerParseReason P h ptr).2.methodPtr = h.methodPtr ∧
    (headerParseReason P h ptr).2.methodLen = h.methodLen := by
  simp only [headerParseReason]
  split
  · exact ⟨rfl, rfl, rfl, rfl⟩
  · have hs := headerParseFields_same P
      { h with reasonPhrasePtr := CharPtr.inBuf ptr,
               reasonPhraseLen := scanWhile h.buf h.len notEOL ptr - ptr }
      (scanWhile h.buf h.len notEOL ptr + 1)
    exact ⟨hs.2.2.2.2.2.2.2.1, hs.2.2.2.2.2.2.2.2.1, hs.2.2.1, hs.2.2.2.1⟩

/-- The response branch, when it succeeds, leaves a protocol span that starts at offset 0 and
reaches beyond the slash at `ptr`; the method span is left alone. -/
theorem headerParseResponse_protocol (P : Platform) (h : HTTPHeader) (ptr : Nat)
    (hok : (headerParseResponse P h ptr).1 = kNoErr) :
    (headerParseResponse P h ptr).2.protocolPtr = CharPtr.inBuf 0 ∧
    ptr < (headerParseResponse P h ptr).2.protocolLen ∧
    (headerParseResponse P h ptr).2.methodLen = h.methodLen := by
  have hge := scanWhile_ge h.buf h.len (fun c => c != cSP) (ptr + 1)
  simp only [headerParseResponse] at hok ⊢
  split at hok
  · cases hok
  · next h1 =>
    rw [if_neg h1]
    obtain ⟨a, b, _, d⟩ := headerParseReason_protocol P
      { h with protocolPtr := CharPtr.inBuf 0,
               protocolLen := scanWhile h.buf h.len (fun c => c != cSP) (ptr + 1),
               statusCode := (statusCodeLoop h.buf h.len (h.len + 1)
                 (scanWhile h.buf h.len (fun c => c != cSP) (ptr + 1) + 1) 0 0).2.2 }
      (if (statusCodeLoop h.buf h.len (h.len + 1)
            (scanWhile h.buf h.len (fun c => c != cSP) (ptr + 1) + 1) 0 0).2.1 = cSP then
          (statusCodeLoop h.buf h.len (h.len + 1)
            (scanWhile h.buf h.len (fun c => c != cSP) (ptr + 1) + 1) 0 0).1 + 1
        else
          (statusCodeLoop h.buf h.len (h.len + 1)
            (scanWhile h.buf h.len (fun c => c != cSP) (ptr + 1) + 1) 0 0).1)
    refine ⟨a, ?_, d⟩
    rw [b]
    show ptr < scanWhile h.buf h.len (fun c => c != cSP) (ptr + 1)
    omega


/-- C23 does not hold as stated: `HTTPHeaderParse` accepts `"GET\r\nHost: a b\r\n\r\n"` in
request form.  The space that decides the form is the one at offset 10, after the CR at offset
3 and the LF at offset 4, and the method span is the 10 bytes `"GET\r\nHost:"`. -/
theorem form_delimiter_after_first_line :
    (HTTPHeaderParse samplePlatform (headerOf samplePlatform sampleSplitMethod)).1 = kNoErr ∧
    (HTTPHeaderParse samplePlatform (headerOf samplePlatform sampleSplitMethod)).2.methodPtr =
      CharPtr.inBuf 0 ∧
    (HTTPHeaderParse samplePlatform (headerOf samplePlatform sampleSplitMethod)).2.methodLen =
      10 ∧
    sampleSplitMethod.getD 3 0 = cCR ∧ sampleSplitMethod.getD 4 0 = cLF ∧
    sampleSplitMethod.getD 10 0 = cSP ∧
    spanBytes (HTTPHeaderParse samplePlatform (headerOf samplePlatform sampleSplitMethod)).2.buf
      (HTTPHeaderParse samplePlatform (headerOf samplePlatform sampleSplitMethod)).2.methodPtr
      (HTTPHeaderParse samplePlatform (headerOf samplePlatform sampleSplitMethod)).2.methodLen =
      [71, 69, 84, 13, 10, 72, 111, 115, 116, 58] := by
  decide

/-- C23, as the code has it: whenever `HTTPHeaderParse` succeeds in request or response form,
the byte that it used to choose the form is the first space or slash of the header, at some
offset `p`: no byte before `p` is a space or a slash.  When it is a space, the method span is
`[0, p)`, so it contains no space and no slash; when it is a slash, the protocol span starts at
offset 0 and reaches beyond `p`, and the method span stays empty. -/
theorem HTTPHeaderParse_form_delimiter (P : Platform) (h : HTTPHeader)
    (hok : (HTTPHeaderParse P h).1 = kNoErr)
    (hnd : ¬ (h.len = 4 ∧ h.buf.getD 0 0 = cDollar)) :
    ∃ p, p < h.len ∧
      (∀ k, k < p → h.buf.getD k 0 ≠ cSP ∧ h.buf.getD k 0 ≠ cSlash) ∧
      ((h.buf.getD p 0 = cSP ∧ (HTTPHeaderParse P h).2.methodPtr = CharPtr.inBuf 0 ∧
          (HTTPHeaderParse P h).2.methodLen = p) ∨
       (h.buf.getD p 0 = cSlash ∧ (HTTPHeaderParse P h).2.protocolPtr = CharPtr.inBuf 0 ∧
          p < (HTTPHeaderParse P h).2.protocolLen ∧ (HTTPHeaderParse P h).2.methodLen = 0)) := by
  have hcap : h.len < P.bufSize := by
    by_contra hc
    unfold HTTPHeaderParse at hok
    rw [if_pos hc] at hok
    cases hok
  have hstart := HTTPHeaderParse_startLine P h hcap hnd
  obtain ⟨a, b⟩ := scanWhileC_spec h.buf h.len (fun c => c != cSP && c != cSlash) h.len 0 0
    (by omega)
  rw [hstart] at hok ⊢
  by_cases h1 : (scanWhileC h.buf h.len (fun c => c != cSP && c != cSlash) h.len 0 0).1 < h.len
  · rw [if_neg (not_not.2 h1)] at hok ⊢
    have hb := b h1
    have hbefore : ∀ k, k < (scanWhileC h.buf h.len (fun c => c != cSP && c != cSlash)
        h.len 0 0).1 → h.buf.getD k 0 ≠ cSP ∧ h.buf.getD k 0 ≠ cSlash := by
      intro k hk
      rw [a] at hk
      have := (scanWhile_cond h.buf h.len (fun c => c != cSP && c != cSlash) 0 k
        (Nat.zero_le _) hk).2
      simpa using this
    have hat : h.buf.getD (scanWhileC h.buf h.len (fun c => c != cSP && c != cSlash)
        h.len 0 0).1 0 = cSP ∨
        h.buf.getD (scanWhileC h.buf h.len (fun c => c != cSP && c != cSlash)
        h.len 0 0).1 0 = cSlash := by
      have h1' := h1
      rw [a] at h1' ⊢
      have hstop := scanWhile_stop h.buf h.len (fun c => c != cSP && c != cSlash) 0 h1'
      generalize h.buf.getD (scanWhile h.buf h.len (fun c => c != cSP && c != cSlash) 0) 0 = c
        at hstop ⊢
      by_cases hx : c = cSP
      · exact Or.inl hx
      · by_cases hy : c = cSlash
        · exact Or.inr hy
        · simp [hx, hy] at hstop
    refine ⟨_, h1, hbefore, ?_⟩
    by_cases h2 : (scanWhileC h.buf h.len (fun c => c != cSP && c != cSlash) h.len 0 0).2 = cSP
    · rw [if_pos h2] at hok ⊢
      left
      exact ⟨hb ▸ h2, headerParseRequest_method P _ _ hok⟩
    · rw [if_neg h2] at hok ⊢
      right
      obtain ⟨c1, c2, c3⟩ := headerParseResponse_protocol P _ _ hok
      refine ⟨?_, c1, c2, c3⟩
      rcases hat with x | x
      · exact absurd (hb.trans x) h2
      · exact x
  · rw [if_pos h1] at hok
    cases hok

theorem HTTPHeaderParse_form_delimiter_witness :
    ∃ p, p < (headerOf samplePlatform sampleRequest).len ∧
      (∀ k, k < p → (headerOf samplePlatform sampleRequest).buf.getD k 0 ≠ cSP ∧
        (headerOf samplePlatform sampleRequest).buf.getD k 0 ≠ cSlash) ∧
      (((headerOf samplePlatform sampleRequest).buf.getD p 0 = cSP ∧
          (HTTPHeaderParse samplePlatform (headerOf samplePlatform sampleRequest)).2.methodPtr =
            CharPtr.inBuf 0 ∧
          (HTTPHeaderParse samplePlatform (headerOf samplePlatform sampleRequest)).2.methodLen =
            p) ∨
       ((headerOf samplePlatform sampleRequest).buf.getD p 0 = cSlash ∧
          (HTTPHeaderParse samplePlatform (headerOf samplePlatform sampleRequest)).2.protocolPtr =
            CharPtr.inBuf 0 ∧
          p < (HTTPHeaderParse samplePlatform
            (headerOf samplePlatform sampleRequest)).2.protocolLen ∧
          (HTTPHeaderParse samplePlatform (headerOf samplePlatform sampleRequest)).2.methodLen =
            0)) :=
  HTTPHeaderParse_form_delimiter samplePlatform (headerOf samplePlatform sampleRequest)
    (by decide) (by decide)


/-! ## The reset and the body copy on concrete inputs -/

/-- C26 at a concrete input.  `SocketReadHTTPHeader` reads the 47-byte header of a chunked
response; no body byte has arrived.  `HTTPHeaderClear`, called next, takes its chunked branch,
finds no CRLF after the data cursor and leaves `len = 47`, the length of the header that was
just served, with the header still in the buffer.  The next call of `SocketReadHTTPHeader`
makes no `read` and returns `kNoErr` with the same header again. -/
theorem chunked_reset_keeps_header_length :
    sampleHeadRun1.1 = kNoErr ∧ sampleHeadRun1.2.1.len = 47 ∧
    sampleHeadRun1.2.1.chunkedData = true ∧
    sampleHeadRun1.2.1.chunkedDataBufferPtr = HeapPtr.blk 0 0 ∧
    sampleHeadRun1.2.1.extraDataLen = 0 ∧
    sampleHeadRun2.1.len = 47 ∧ sampleHeadRun2.1.buf = sampleHeadRun1.2.1.buf ∧
    sampleHeadRun2.1.chunkedData = false ∧ sampleHeadRun2.2.fault = false ∧
    sampleHeadRun2.2.reads = [] ∧
    sampleHeadRun3.1 = kNoErr ∧ sampleHeadRun3.2.1.len = 47 ∧
    sampleHeadRun3.2.1.buf.take 47 = sampleChunkedHeader ∧
    sampleHeadRun3.2.2.readLog = sampleHeadRun1.2.2.readLog := by
  decide

/-- C24 at concrete inputs.  After the message
`"POST / HTTP/1.1\r\nContent-Length: 5\r\n\r\nabcde"` and the reset, the 37-byte header
`"PUT / HTTP/1.1\r\nContent-Length: 5\r\n\r\n"` arrives without any body byte:
`extraDataLen` is 0, yet `SocketReadHTTPHeader` copies 5 bytes from the header end into the new
body buffer, the bytes `"\nabcd"` that the first message left in the header buffer.  For
`"POST / HTTP/1.1\r\nContent-Length: 600\r\n\r\nabc"` it copies 600 bytes from offset 40 of
the 512-byte header buffer, which is an access outside the buffer. -/
theorem fixed_body_copy_examples :
    (sampleStaleRun1.1 = kNoErr ∧ sampleStaleRun2.1.len = 0 ∧ sampleStaleRun2.2.fault = false ∧
      sampleStaleRun3.1 = kNoErr ∧ sampleStaleRun3.2.1.len = 37 ∧
      sampleStaleRun3.2.1.chunkedData = false ∧ sampleStaleRun3.2.1.contentLength = 5 ∧
      sampleStaleRun3.2.1.extraDataLen = 0 ∧
      sampleStaleRun3.2.2.bytes sampleStaleRun3.2.1.extraDataPtr = [10, 97, 98, 99, 100]) ∧
    (sampleLongRun1.1 = kNoErr ∧ sampleLongRun1.2.1.len = 40 ∧
      sampleLongRun1.2.1.buf.length = 512 ∧
      sampleLongRun1.2.1.contentLength = 600 ∧ sampleLongRun1.2.1.extraDataLen = 3 ∧
      (sampleLongRun1.2.2.bytes sampleLongRun1.2.1.extraDataPtr).length = 600 ∧
      sampleLongRun1.2.2.fault = true) := by
  decide

/-- C25 at a concrete input.  The header of a chunked response arrives together with the
terminal size line `"0\r\n"` and 300 bytes of a trailer line, so the chunk buffer has 303
bytes and `extraDataLen` is 303.  The trailer loop of `SocketReadHTTPBody` finds no CRLF and
calls `read` at offset 303 of the chunk buffer with the count `256 - 303`, which wraps to
4294967249: the two bytes that arrive are written past the end of the buffer, and
`extraDataLen` becomes 305, more than `chunkedDataBufferLen`. -/
theorem trailer_read_overruns_chunk_buffer :
    sampleTrailerRun1.1 = kNoErr ∧ sampleTrailerRun1.2.1.extraDataLen = 303 ∧
    sampleTrailerRun1.2.1.chunkedDataBufferLen = 303 ∧
    sampleTrailerRun1.2.1.chunkedDataBufferPtr = HeapPtr.blk 0 0 ∧
    (sampleTrailerRun1.2.2.block 0).map List.length = some 303 ∧
    sampleTrailerRun1.2.2.fault = false ∧
    sampleTrailerRun2.2.2.readLog.drop 1 =
      [{ dest := ReadDest.heap (HeapPtr.blk 0 303), count := 4294967249, ret := 2 },
       { dest := ReadDest.heap (HeapPtr.blk 0 305), count := 4294967247, ret := 0 }] ∧
    sampleTrailerRun2.2.1.extraDataLen = 305 ∧
    sampleTrailerRun2.2.1.chunkedDataBufferLen = 303 ∧
    sampleTrailerRun2.2.2.fault = true := by
  decide

/-- C22 at a concrete input.  A chunked response: the first chunk of 256 bytes makes the chunk
buffer grow to 517 bytes; the second chunk has a size line of 515 bytes, so the buffer has to
grow again, and this `realloc` fails: `chunkedDataBufferPtr` becomes null, the call goes on,
its next `read` finds the connection closed and it returns `kConnectionErr` with `len = 0`.
No access outside a block has happened.  `HTTPHeaderClear`, called next, finds
`chunkedDataBufferPtr` null and takes its second branch, which sets
`len = extraDataLen - contentLength = 517 - 1 = 516`, more than the 512 bytes of the header
buffer, and copies that many bytes into it. -/
theorem header_length_exceeds_buffer :
    sampleOverflowRun0.1 = kNoErr ∧ sampleOverflowRun0.2.1.len = 47 ∧
    sampleOverflowRun1.1 = kNoErr ∧ sampleOverflowRun1.2.1.len = 47 ∧
    sampleOverflowRun1.2.1.chunkedDataBufferLen = 517 ∧
    sampleOverflowRun2.1 = kConnectionErr ∧ sampleOverflowRun2.2.1.len = 0 ∧
    sampleOverflowRun2.2.1.chunkedData = true ∧
    sampleOverflowRun2.2.1.chunkedDataBufferPtr = HeapPtr.null ∧
    sampleOverflowRun2.2.1.extraDataLen = 517 ∧ sampleOverflowRun2.2.1.contentLength = 1 ∧
    sampleOverflowRun2.2.2.fault = false ∧
    sampleOverflowRun3.1.buf.length = 512 ∧ sampleOverflowRun3.1.len = 516 ∧
    sampleOverflowRun3.2.fault = true := by
  decide


/-! ## The defects behind the examples, for every record -/

theorem store_fault (w : World) (p : HeapPtr) (bs : List Nat) (hf : w.fault = true) :
    (w.store p bs).fault = true := by
  unfold World.store
  split_ifs
  · exact hf
  · cases p with
    | null => rfl
    | blk id off =>
      simp only []
      cases w.block id with
      | none => rfl
      | some b =>
        simp only []
        split_ifs
        · exact hf
        · rfl

/-- The fixed-length path at the end of `SocketReadHTTPHeader` copies `contentLength` bytes (or
`extraDataLen`, if that is more) from the header end `e`: whenever `e + contentLength` exceeds
the header buffer, the copy reads outside the buffer. -/
theorem headerStoreBody_fixed_fault (h : HTTPHeader) (w : World) (e : Nat)
    (hch : h.chunkedData = false) (hcl : h.contentLength ≠ 0)
    (hok : (headerStoreBody h w e).1 = kNoErr)
    (hover : h.buf.length < e + h.contentLength) :
    (headerStoreBody h w e).2.2.fault = true := by
  unfold headerStoreBody at hok ⊢
  rw [if_neg (by rw [hch]; simp), if_pos hcl] at hok ⊢
  simp only [] at hok ⊢
  generalize hn : (if h.contentLength ≥ h.extraDataLen then h.contentLength
    else h.extraDataLen) = n at hok ⊢
  have hge : h.contentLength ≤ n := by
    rw [← hn]
    split_ifs <;> omega
  split_ifs at hok ⊢ with h1
  apply store_fault
  unfold readBuf
  simp only []
  rw [if_neg (by omega)]

/-- The chunked branch of `HTTPHeaderClear` has no statement for the case that `findCRLF` finds
nothing after the data cursor: `len` and the header buffer are then as they were. -/
theorem HTTPHeaderClear_chunked_keeps_len (P : Platform) (h : HTTPHeader) (w : World)
    (hch : h.chunkedData = true) (hcb : h.chunkedDataBufferPtr ≠ HeapPtr.null)
    (hnf : (findCRLF (w.bytes h.extraDataPtr)
      (sizeSub P h.extraDataLen (HeapPtr.diff P h.extraDataPtr h.chunkedDataBufferPtr))).1 =
        false) :
    (HTTPHeaderClear P h w).1.len = h.len ∧ (HTTPHeaderClear P h w).1.buf = h.buf := by
  unfold HTTPHeaderClear
  rw [if_pos ⟨hch, hcb⟩]
  have hcl : (clearChunkedLeftover P h w).1 = h := by
    unfold clearChunkedLeftover
    simp only [touch_bytes]
    rcases hf : findCRLF (w.bytes h.extraDataPtr)
      (sizeSub P h.extraDataLen (HeapPtr.diff P h.extraDataPtr h.chunkedDataBufferPtr))
      with ⟨b, o⟩
    rw [hf] at hnf
    simp only [] at hnf
    subst hnf
    rfl
  rcases hc : clearChunkedLeftover P h w with ⟨h2, w2⟩
  rw [hc] at hcl
  simp only [] at hcl ⊢
  subst hcl
  exact ⟨rfl, rfl⟩


/-! ## The header length in the three operations -/

theorem findHeader_le (h : HTTPHeader) : (findHeader h).2 ≤ h.len := by
  by_cases hm : h.len ≥ 4 ∧ h.buf.getD 0 0 = cDollar
  · unfold findHeader
    simp only []
    rw [if_pos hm]
    exact hm.1
  · have hni : h.len < 4 ∨ h.buf.getD 0 0 ≠ cDollar := by
      by_cases h4 : h.len < 4
      · exact Or.inl h4
      · exact Or.inr (fun hd => hm ⟨by omega, hd⟩)
    rcases findHeader_cases h hni with ⟨i, hi, _, hres⟩ | ⟨_, hres⟩
    · rw [hres]
      obtain ⟨_, _, hc⟩ := hi
      simp only []
      split_ifs with h1
      · rcases hc with ⟨_, x⟩ | ⟨y, _, _⟩
        · rw [h1] at x
          exact absurd x (by decide)
        · omega
      · rcases hc with ⟨y, _⟩ | ⟨_, x, _⟩
        · omega
        · exact absurd x h1
    · rw [hres]

theorem readIntoHeader_len (h : HTTPHeader) (w : World) (dst count : Nat) :
    (readIntoHeader h w dst count).2.1.len = h.len ∧
    (readIntoHeader h w dst count).1 ≤ count := by
  have hle := recv_le w count
  unfold readIntoHeader writeBuf
  simp only []
  split_ifs <;> exact ⟨rfl, hle⟩

/-- The read loop of `SocketReadHTTPHeader`, started with `dst = buf + len` and `len` at most
the capacity: every call of `read` asks for `capacity - len` bytes at offset `len`, and after
every turn `len` is at most the capacity and `dst` is `buf + len`. -/
theorem readHeaderLoop_reads (P : Platform) :
    ∀ (fuel : Nat) (h : HTTPHeader) (w : World), h.len ≤ P.bufSize →
      ∃ new, (readHeaderLoop P fuel h w h.len).2.2.1.readLog = w.readLog ++ new ∧
        headerReads P h.len new ∧
        (readHeaderLoop P fuel h w h.len).2.1.len ≤ P.bufSize ∧
        (readHeaderLoop P fuel h w h.len).2.2.2 = (readHeaderLoop P fuel h w h.len).2.1.len := by
  intro fuel
  induction fuel with
  | zero =>
    intro h w hle
    exact ⟨[], by simp [readHeaderLoop], trivial, hle, rfl⟩
  | succ k ih =>
    intro h w hle
    have hlog := readIntoHeader_log h w h.len (sizeSub P P.bufSize h.len)
    obtain ⟨hl, hn⟩ := readIntoHeader_len h w h.len (sizeSub P P.bufSize h.len)
    rw [sizeSub_of_le P _ _ hle] at hlog hl hn
    unfold readHeaderLoop
    simp only []
    rw [sizeSub_of_le P _ _ hle]
    rcases hr : readIntoHeader h w h.len (P.bufSize - h.len) with ⟨n, h1, w1⟩
    rw [hr] at hlog hl hn
    simp only [] at hlog hl hn ⊢
    by_cases hf : (findHeader h).1 = true
    · rw [if_pos hf]
      exact ⟨[], by simp, trivial, hle, rfl⟩
    · rw [if_neg hf]
      by_cases hpos : 0 < n
      · rw [if_pos hpos]
        have hnat : n.toNat ≤ P.bufSize - h.len := by omega
        have hle2 : ({ h1 with len := h1.len + n.toNat } : HTTPHeader).len ≤ P.bufSize := by
          show h1.len + n.toNat ≤ P.bufSize
          omega
        obtain ⟨new, e1, e2, e3, e4⟩ := ih { h1 with len := h1.len + n.toNat } w1 hle2
        have hd : h.len + n.toNat = ({ h1 with len := h1.len + n.toNat } : HTTPHeader).len := by
          show h.len + n.toNat = h1.len + n.toNat
          omega
        rw [hd]
        refine ⟨{ dest := ReadDest.headerBuf h.len, count := P.bufSize - h.len, ret := n } :: new,
          ?_, ?_, e3, e4⟩
        · rw [e1, hlog, List.append_assoc]
          rfl
        · refine ⟨rfl, rfl, hle, hn, ?_⟩
          have : h.len + n.toNat = h1.len + n.toNat := by omega
          rw [this]
          exact e2
      · rw [if_neg hpos]
        refine ⟨[{ dest := ReadDest.headerBuf h.len, count := P.bufSize - h.len, ret := n }],
          hlog, ⟨rfl, rfl, hle, hn, trivial⟩, ?_, ?_⟩
        · show h1.len ≤ P.bufSize
          omega
        · show h.len = h1.len
          omega

/-- `SocketReadHTTPHeader` keeps `len` at most the capacity of the header buffer. -/
theorem SocketReadHTTPHeader_len_le (P : Platform) (h : HTTPHeader) (w : World)
    (hle : h.len ≤ P.bufSize) : (SocketReadHTTPHeader P h w).2.1.len ≤ P.bufSize := by
  obtain ⟨new, _, _, e3, _⟩ := readHeaderLoop_reads P (w.readFuel + 1) h w hle
  have hsome := readHeaderLoop_some P (w.readFuel + 1) h w h.len
  unfold SocketReadHTTPHeader
  rcases hl : readHeaderLoop P (w.readFuel + 1) h w h.len with ⟨o, h1, w1, dst⟩
  rw [hl] at e3
  simp only [] at e3 ⊢
  cases o with
  | none => exact e3
  | some e =>
    have hfe := hsome e h1 w1 dst hl
    have hee : e ≤ h1.len := by
      have := findHeader_le h1
      rw [hfe] at this
      exact this
    have hpl := HTTPHeaderParse_len P { h1 with len := e }
    have h2le : (HTTPHeaderParse P { h1 with len := e }).2.len ≤ P.bufSize := by
      rw [hpl]
      exact le_trans hee e3
    simp only []
    split_ifs
    · exact h2le
    · rw [headerOTA_record, headerFreeBody_fst]
      exact h2le
    · rw [(headerStoreBody_buf _ _ e).2, headerFreeBody_fst]
      exact h2le


theorem chunkShift_len (P : Platform) (h : HTTPHeader) (w : World) :
    (chunkShift P h w).1.len = h.len := by
  unfold chunkShift
  rfl

theorem chunkSizeLoop_len (P : Platform) :
    ∀ (fuel : Nat) (h : HTTPHeader) (w : World), (chunkSizeLoop P fuel h w).2.1.len = h.len := by
  intro fuel
  induction fuel with
  | zero =>
    intro h w
    rfl
  | succ k ih =>
    intro h w
    unfold chunkSizeLoop
    simp only []
    split_ifs <;> first | rfl | rw [ih]

theorem chunkTrailerLoop_len (P : Platform) (hl : Nat) :
    ∀ (fuel : Nat) (h : HTTPHeader) (w : World),
      (chunkTrailerLoop P hl fuel h w).2.1.len = h.len := by
  intro fuel
  induction fuel with
  | zero =>
    intro h w
    rfl
  | succ k ih =>
    intro h w
    unfold chunkTrailerLoop
    simp only []
    split_ifs <;> first | rfl | rw [ih]

theorem chunkGrow_len (hl : Nat) (h : HTTPHeader) (w : World) :
    (chunkGrow hl h w).2.1.len = h.len := by
  unfold chunkGrow
  simp only []
  split_ifs <;> rfl

theorem chunkDataLoop_len (hl : Nat) :
    ∀ (fuel : Nat) (h : HTTPHeader) (w : World), (chunkDataLoop hl fuel h w).2.1.len = h.len := by
  intro fuel
  induction fuel with
  | zero =>
    intro h w
    rfl
  | succ k ih =>
    intro h w
    unfold chunkDataLoop
    simp only []
    split_ifs <;> first | rfl | rw [ih]

theorem chunkTail_len (h : HTTPHeader) (w : World) : (chunkTail h w).2.1.len = h.len := by
  unfold chunkTail
  simp only []
  split_ifs <;> rfl

theorem bodyChunked_len (P : Platform) (h : HTTPHeader) (w : World) :
    (bodyChunked P h w).2.1.len = h.len := by
  unfold bodyChunked
  have l0 := chunkShift_len P h w
  rcases hs : chunkShift P h w with ⟨h0, w0⟩
  rw [hs] at l0
  simp only [] at l0 ⊢
  have l1 := chunkSizeLoop_len P (w0.selects.length + 1) h0 w0
  rcases h1 : chunkSizeLoop P (w0.selects.length + 1) h0 w0 with ⟨f1, h1', w1⟩
  rw [h1] at l1
  simp only [] at l1 ⊢
  cases f1 with
  | exit e => exact l1.trans l0
  | next =>
    simp only []
    split_ifs with hz
    · rw [chunkTrailerLoop_len]
      exact l1.trans l0
    · have l2 := chunkGrow_len (HeapPtr.diff P h1'.extraDataPtr h1'.chunkedDataBufferPtr) h1' w1
      rcases hg : chunkGrow (HeapPtr.diff P h1'.extraDataPtr h1'.chunkedDataBufferPtr) h1' w1
        with ⟨f2, h2, w2⟩
      rw [hg] at l2
      simp only [] at l2 ⊢
      cases f2 with
      | exit e => exact l2.trans (l1.trans l0)
      | next =>
        simp only []
        have l3 := chunkDataLoop_len (HeapPtr.diff P h1'.extraDataPtr h1'.chunkedDataBufferPtr)
          (w2.selects.length + 1) h2 w2
        rcases hd : chunkDataLoop (HeapPtr.diff P h1'.extraDataPtr h1'.chunkedDataBufferPtr)
          (w2.selects.length + 1) h2 w2 with ⟨f3, h3, w3⟩
        rw [hd] at l3
        simp only [] at l3 ⊢
        cases f3 with
        | exit e => exact l3.trans (l2.trans (l1.trans l0))
        | next =>
          simp only []
          rw [chunkTail_len]
          exact l3.trans (l2.trans (l1.trans l0))

theorem bodyClose_len (h : HTTPHeader) (w : World) : (bodyClose h w).2.1.len = h.len := by
  unfold bodyClose
  simp only []
  split_ifs <;> rfl

theorem bodyFixedFlash_len (P : Platform) (h : HTTPHeader) (w : World) :
    (bodyFixedFlash P h w).2.2.1.len = h.len := by
  unfold bodyFixedFlash
  simp only []
  split_ifs <;> rfl

theorem bodyFixedTurn_len (P : Platform) (err : OSStatus) (wf : Bool) (h : HTTPHeader)
    (w : World) : (bodyFixedTurn P err wf h w).2.2.2.1.len = h.len := by
  have hfl := bodyFixedFlash_len P h w.select.2
  unfold bodyFixedTurn
  rcases hget : HTTPGetHeaderField P h.buf h.len (some strContentType) with e | f
  all_goals
    simp only []
    split_ifs
    all_goals first
      | rfl
      | exact hfl

theorem bodyFixedLoop_len (P : Platform) :
    ∀ (fuel : Nat) (err : OSStatus) (wf : Bool) (h : HTTPHeader) (w : World),
      (bodyFixedLoop P fuel err wf h w).2.2.1.len = h.len := by
  intro fuel
  induction fuel with
  | zero =>
    intro err wf h w
    rfl
  | succ k ih =>
    intro err wf h w
    have ht := bodyFixedTurn_len P err wf h w
    unfold bodyFixedLoop
    split_ifs with c1
    · rcases hturn : bodyFixedTurn P err wf h w with ⟨go, e1, wf1, h1, w1⟩
      rw [hturn] at ht
      simp only [] at ht
      cases go with
      | false => exact ht
      | true =>
        simp only []
        rw [ih]
        exact ht
    · rfl

theorem bodyExit_len (err : OSStatus) (wf : Bool) (h : HTTPHeader) (w : World) :
    (bodyExit err wf h w).2.1.len = (if (bodyExit err wf h w).1 ≠ kNoErr then 0 else h.len) := by
  obtain ⟨a, _, c⟩ := bodyExit_spec err wf h w
  rw [c, a]

/-- `SocketReadHTTPBody` leaves `len` as it was when it returns `kNoErr`, and sets it to 0
otherwise. -/
theorem SocketReadHTTPBody_len (P : Platform) (h : HTTPHeader) (w : World) :
    (SocketReadHTTPBody P h w).2.1.len =
      (if (SocketReadHTTPBody P h w).1 ≠ kNoErr then 0 else h.len) := by
  have hc : (if h.chunkedData = true then bodyChunked P h w else (Flow.next, h, w)).2.1.len =
      h.len := by
    split_ifs
    · exact bodyChunked_len P h w
    · rfl
  unfold SocketReadHTTPBody
  rcases hf : (if h.chunkedData = true then bodyChunked P h w else (Flow.next, h, w))
    with ⟨f, h1, w1⟩
  rw [hf] at hc
  simp only [] at hc ⊢
  cases f with
  | exit e =>
    simp only []
    rw [bodyExit_len, hc]
  | next =>
    simp only []
    by_cases hcl : h1.dataEndedbyClose = true
    · simp only [if_pos hcl]
      rw [bodyExit_len, bodyClose_len, hc]
    · simp only [if_neg hcl]
      rw [bodyExit_len, bodyFixedLoop_len, hc]

theorem writeBuf_len (h : HTTPHeader) (w : World) (off : Nat) (bs : List Nat) :
    (writeBuf h w off bs).1.len = h.len := by
  unfold writeBuf
  split_ifs <;> rfl

theorem copyToBuf_len (h : HTTPHeader) (w : World) (src : HeapPtr) (n : Nat) :
    (copyToBuf h w src n).1.len = h.len := by
  unfold copyToBuf
  simp only []
  rw [writeBuf_len]

/-- The chunked branch of `HTTPHeaderClear` leaves `len` as it was or at most 512: its copy
into the header buffer is guarded by the test `len > 512`. -/
theorem HTTPHeaderClear_chunked_len (P : Platform) (h : HTTPHeader) (w : World)
    (hch : h.chunkedData = true) (hcb : h.chunkedDataBufferPtr ≠ HeapPtr.null) :
    (HTTPHeaderClear P h w).1.len = h.len ∨ (HTTPHeaderClear P h w).1.len ≤ 512 := by
  have hcl : (clearChunkedLeftover P h w).1.len = h.len ∨
      (clearChunkedLeftover P h w).1.len ≤ 512 := by
    unfold clearChunkedLeftover
    simp only []
    split
    · split_ifs with c1 c2
      · exact Or.inr (Nat.zero_le _)
      · right
        rw [copyToBuf_len]
        exact not_lt.1 c2
      · exact Or.inr (Nat.zero_le _)
    · exact Or.inl rfl
  unfold HTTPHeaderClear
  rw [if_pos ⟨hch, hcb⟩]
  exact hcl

/-- The second branch of `HTTPHeaderClear` sets `len` to `extraDataLen - contentLength` when
`extraDataLen` is the larger, whatever the capacity of the header buffer, and to 0
otherwise. -/
theorem HTTPHeaderClear_second_len (P : Platform) (h : HTTPHeader) (w : World)
    (hsec : ¬ (h.chunkedData = true ∧ h.chunkedDataBufferPtr ≠ HeapPtr.null)) :
    (HTTPHeaderClear P h w).1.len = h.extraDataLen - h.contentLength := by
  have hcl : (clearFixedLeftover h w).1.len = h.extraDataLen - h.contentLength := by
    unfold clearFixedLeftover
    split_ifs with c1
    · simp only []
      rw [copyToBuf_len]
    · show 0 = h.extraDataLen - h.contentLength
      omega
  unfold HTTPHeaderClear
  rw [if_neg hsec]
  simp only []
  rw [headerFreeBody_fst]
  exact hcl


theorem touch_select_fst (w : World) (p : HeapPtr) (n : Nat) :
    (w.touch p n).select.1 = w.select.1 := by
  have hs := touch_selects w p n
  unfold World.select
  rw [hs]
  cases w.selects <;> rfl

/-- The `read` of the trailer loop asks for `256 - extraDataLen` bytes in `size_t` arithmetic,
at offset `extraDataLen - chunckheaderLen` from the data cursor: when `extraDataLen` is more
than 256 the count is `2 ^ sizeBits + 256 - extraDataLen`, whatever the capacity of the chunk
buffer. -/
theorem chunkTrailerLoop_first_read (P : Platform) (hl k : Nat) (h : HTTPHeader) (w : World)
    (hnf : (findCRLF (w.bytes h.extraDataPtr) (sizeSub P h.extraDataLen hl)).1 = false)
    (hsel : 1 ≤ w.select.1) (hbig : 256 < h.extraDataLen) :
    ∃ ret rest, (chunkTrailerLoop P hl (k + 1) h w).2.2.readLog =
      w.readLog ++ ({ dest := ReadDest.heap (h.extraDataPtr.add (h.extraDataLen - hl)),
                      count := 256 + 2 ^ P.sizeBits - h.extraDataLen, ret := ret } :: rest) := by
  have hcount : sizeSub P 256 h.extraDataLen = 256 + 2 ^ P.sizeBits - h.extraDataLen := by
    unfold sizeSub
    rw [if_neg (by omega)]
  have hs2 : (w.touch h.extraDataPtr (sizeSub P h.extraDataLen hl)).select.1 ≥ 1 := by
    rw [touch_select_fst]
    exact hsel
  unfold chunkTrailerLoop
  simp only [touch_bytes]
  rw [if_neg (by rw [hnf]; simp), if_neg (not_not.2 hs2), hcount]
  have hlog := log_read w (w.touch h.extraDataPtr (sizeSub P h.extraDataLen hl)).select.2
    (h.extraDataPtr.add (h.extraDataLen - hl)) (256 + 2 ^ P.sizeBits - h.extraDataLen)
    ((select_log _).trans (touch_log _ _ _))
  split_ifs with hpos
  · obtain ⟨new, e, _⟩ := chunkTrailerLoop_log P hl k
      { h with extraDataLen := h.extraDataLen +
          ((w.touch h.extraDataPtr (sizeSub P h.extraDataLen hl)).select.2.readHeap
            (h.extraDataPtr.add (h.extraDataLen - hl))
            (256 + 2 ^ P.sizeBits - h.extraDataLen)).1.toNat }
      ((w.touch h.extraDataPtr (sizeSub P h.extraDataLen hl)).select.2.readHeap
        (h.extraDataPtr.add (h.extraDataLen - hl))
        (256 + 2 ^ P.sizeBits - h.extraDataLen)).2
    refine ⟨((w.touch h.extraDataPtr (sizeSub P h.extraDataLen hl)).select.2.readHeap
      (h.extraDataPtr.add (h.extraDataLen - hl))
      (256 + 2 ^ P.sizeBits - h.extraDataLen)).1, new, ?_⟩
    rw [e, hlog, List.append_assoc]
    rfl
  · exact ⟨((w.touch h.extraDataPtr (sizeSub P h.extraDataLen hl)).select.2.readHeap
      (h.extraDataPtr.add (h.extraDataLen - hl))
      (256 + 2 ^ P.sizeBits - h.extraDataLen)).1, [], hlog⟩


/-! ## The body buffer of a message that is not chunked -/

theorem HeapKept.same (w : World) : HeapKept w w :=
  ⟨le_refl _, fun _ b2 _ hb => ⟨b2, hb, rfl⟩⟩

theorem HeapKept.comp {a b c : World} (h1 : HeapKept a b) (h2 : HeapKept b c) :
    HeapKept a c := by
  refine ⟨le_trans h1.1 h2.1, fun id b3 hid hb => ?_⟩
  obtain ⟨b2, hb2, hl2⟩ := h2.2 id b3 (lt_of_lt_of_le hid h1.1) hb
  obtain ⟨b1, hb1, hl1⟩ := h1.2 id b2 hid hb2
  exact ⟨b1, hb1, hl1.trans hl2⟩

theorem heapKept_of_heap (w w2 : World) (hh : w2.heap = w.heap) : HeapKept w w2 := by
  refine ⟨by rw [hh], fun id b2 _ hb => ⟨b2, ?_, rfl⟩⟩
  unfold World.block at hb ⊢
  rw [← hh]
  exact hb

theorem block_lt (w : World) (id : Nat) (b : List Nat) (hb : w.block id = some b) :
    id < w.heap.length := by
  unfold World.block at hb
  by_contra hc
  rw [List.getD_eq_default _ _ (by omega)] at hb
  exact absurd hb (by simp)

/-- Replacing block `id` by nothing, or by a block of the same length, keeps the heap. -/
theorem heapKept_set (w w2 : World) (id : Nat) (x : Option (List Nat))
    (hx : ∀ b2, x = some b2 → ∃ b, w.block id = some b ∧ b.length = b2.length)
    (hh : w2.heap = w.heap.set id x) : HeapKept w w2 := by
  refine ⟨by rw [hh, List.length_set], fun id2 b2 hid hb => ?_⟩
  by_cases he : id2 = id
  · subst he
    apply hx
    unfold World.block at hb
    rw [hh, List.getD_eq_getElem _ _ (by rw [List.length_set]; exact hid)] at hb
    simpa using hb
  · refine ⟨b2, ?_, rfl⟩
    unfold World.block at hb ⊢
    rw [hh] at hb
    simp only [List.getD_eq_getElem?_getD] at hb ⊢
    rw [List.getElem?_set_ne (fun h => he h.symm)] at hb
    exact hb

theorem select_heap (w : World) : w.select.2.heap = w.heap := by
  unfold World.select
  split <;> rfl

theorem recv_heap (w : World) (count : Nat) : (w.recv count).2.2.heap = w.heap := by
  unfold World.recv
  split
  · rfl
  · rfl
  · split_ifs <;> rfl

theorem flashCall_heap (w : World) : w.flashCall.2.heap = w.heap := by
  unfold World.flashCall
  split <;> rfl

theorem flashWrite_heap (w : World) (bs : List Nat) : (w.flashWrite bs).2.heap = w.heap := by
  have := flashCall_heap w
  unfold World.flashWrite
  rcases hn : w.flashCall with ⟨r, w1⟩
  rw [hn] at this
  simp only [] at this ⊢
  split_ifs <;> exact this

theorem store_kept (w : World) (p : HeapPtr) (bs : List Nat) : HeapKept w (w.store p bs) := by
  unfold World.store
  split_ifs with h1
  · exact HeapKept.same w
  · cases p with
    | null => exact heapKept_of_heap _ _ rfl
    | blk id off =>
      simp only []
      cases hb : w.block id with
      | none => exact heapKept_of_heap _ _ rfl
      | some b =>
        simp only []
        split_ifs with h2
        · refine heapKept_set w _ id _ (fun b2 hx => ?_) rfl
          have hx2 : writeAt b off bs = b2 := Option.some.inj hx
          exact ⟨b, hb, by rw [← hx2, length_writeAt b bs off h2]⟩
        · exact heapKept_of_heap _ _ rfl

theorem calloc_kept (w : World) (n : Nat) : HeapKept w (w.calloc n).2 := by
  have hh := nextAlloc_heap w
  unfold World.calloc
  rcases hn : w.nextAlloc with ⟨a, w1⟩
  rw [hn] at hh
  simp only [] at hh ⊢
  have key : HeapKept w { w1 with heap := w1.heap ++ [some (List.replicate n 0)] } := by
    refine ⟨by simp [hh], fun id b2 hid hb => ⟨b2, ?_, rfl⟩⟩
    unfold World.block at hb ⊢
    simp only [List.getD_eq_getElem?_getD] at hb ⊢
    rw [hh, List.getElem?_append_left hid] at hb
    exact hb
  cases a
  · exact heapKept_of_heap _ _ hh
  · exact key
  · exact key

theorem free_kept (w : World) (p : HeapPtr) : HeapKept w (w.free p) := by
  unfold World.free
  split
  · exact HeapKept.same w
  · split_ifs
    · exact heapKept_set w _ _ none (fun b2 hx => absurd hx (by simp)) rfl
    · exact heapKept_of_heap _ _ rfl

theorem readHeap_kept (w : World) (p : HeapPtr) (count : Nat) :
    HeapKept w (w.readHeap p count).2 := by
  have hr := recv_heap w count
  unfold World.readHeap
  rcases hn : w.recv count with ⟨n, bs, w1⟩
  rw [hn] at hr
  simp only [] at hr ⊢
  exact (heapKept_of_heap w w1 hr).comp
    ((store_kept w1 p bs).comp (heapKept_of_heap _ _ rfl))

theorem touch_kept (w : World) (p : HeapPtr) (n : Nat) : HeapKept w (w.touch p n) :=
  heapKept_of_heap _ _ (touch_heap w p n)

theorem bodyClose_fits (h : HTTPHeader) (w : World) :
    (bodyClose h w).2.1.extraDataPtr = h.extraDataPtr ∧
    (bodyClose h w).2.1.buf = h.buf ∧
    (bodyClose h w).2.1.dataEndedbyClose = h.dataEndedbyClose ∧
    (bodyClose h w).2.1.extraDataLen = h.extraDataLen ∧
    HeapKept w (bodyClose h w).2.2 := by
  have k1 : HeapKept w w.select.2 := heapKept_of_heap _ _ (select_heap w)
  have k2 : HeapKept w (w.select.2.readHeap h.extraDataPtr 1500).2 :=
    k1.comp (readHeap_kept _ _ _)
  unfold bodyClose
  simp only []
  split_ifs
  all_goals first
    | exact ⟨rfl, rfl, rfl, rfl, HeapKept.same w⟩
    | exact ⟨rfl, rfl, rfl, rfl, k1⟩
    | exact ⟨rfl, rfl, rfl, rfl, k2⟩

theorem bodyFixedFlash_fits (P : Platform) (h : HTTPHeader) (w : World) :
    (bodyFixedFlash P h w).2.2.1.extraDataPtr = h.extraDataPtr ∧
    (bodyFixedFlash P h w).2.2.1.buf = h.buf ∧
    (bodyFixedFlash P h w).2.2.1.dataEndedbyClose = h.dataEndedbyClose ∧
    (bodyFixedFlash P h w).2.2.1.contentLength = h.contentLength ∧
    ((bodyFixedFlash P h w).2.2.1.extraDataLen = h.extraDataLen ∨
      (bodyFixedFlash P h w).2.2.1.extraDataLen ≤ h.contentLength) ∧
    HeapKept w (bodyFixedFlash P h w).2.2.2 := by
  have k1 := calloc_kept w P.OTA_Data_Length_per_read
  unfold bodyFixedFlash
  rcases hc : w.calloc P.OTA_Data_Length_per_read with ⟨p, w1⟩
  rw [hc] at k1
  simp only [] at k1 ⊢
  generalize hcount : (if h.contentLength - h.extraDataLen < P.OTA_Data_Length_per_read then
    h.contentLength - h.extraDataLen else P.OTA_Data_Length_per_read) = count
  have hcle : count ≤ h.contentLength - h.extraDataLen := by
    rw [← hcount]
    split_ifs <;> omega
  have k2 := k1.comp (readHeap_kept w1 p count)
  have hn : (w1.readHeap p count).1 ≤ count := by
    rw [readHeap_fst]
    exact recv_le w1 count
  rcases hr : w1.readHeap p count with ⟨n, w2⟩
  rw [hr] at k2 hn
  simp only [] at k2 hn ⊢
  have k3 : HeapKept w ((w2.touch p n.toNat).flashWrite
      (((w2.touch p n.toNat).bytes p).take n.toNat)).2 :=
    (k2.comp (touch_kept w2 p n.toNat)).comp (heapKept_of_heap _ _ (flashWrite_heap _ _))
  split_ifs with c1 c2 c3
  · exact ⟨rfl, rfl, rfl, rfl, Or.inl rfl, k1⟩
  · refine ⟨rfl, rfl, rfl, rfl, Or.inr ?_, k3⟩
    show h.extraDataLen + n.toNat ≤ h.contentLength
    omega
  · refine ⟨rfl, rfl, rfl, rfl, Or.inr ?_, k3.comp (free_kept _ _)⟩
    show h.extraDataLen + n.toNat ≤ h.contentLength
    omega
  · exact ⟨rfl, rfl, rfl, rfl, Or.inl rfl, k2⟩

theorem bodyFixedTurn_fits (P : Platform) (err : OSStatus) (wf : Bool) (h : HTTPHeader)
    (w : World) :
    (bodyFixedTurn P err wf h w).2.2.2.1.extraDataPtr = h.extraDataPtr ∧
    (bodyFixedTurn P err wf h w).2.2.2.1.buf = h.buf ∧
    (bodyFixedTurn P err wf h w).2.2.2.1.dataEndedbyClose = h.dataEndedbyClose ∧
    (bodyFixedTurn P err wf h w).2.2.2.1.contentLength = h.contentLength ∧
    ((bodyFixedTurn P err wf h w).2.2.2.1.extraDataLen = h.extraDataLen ∨
      (bodyFixedTurn P err wf h w).2.2.2.1.extraDataLen ≤ h.contentLength) ∧
    HeapKept w (bodyFixedTurn P err wf h w).2.2.2.2 := by
  have k1 : HeapKept w w.select.2 := heapKept_of_heap _ _ (select_heap w)
  obtain ⟨f1, f2, f3, f4, f5, f6⟩ := bodyFixedFlash_fits P h w.select.2
  have k2 := k1.comp (readHeap_kept w.select.2 (h.extraDataPtr.add h.extraDataLen)
    (h.contentLength - h.extraDataLen))
  have hn : (w.select.2.readHeap (h.extraDataPtr.add h.extraDataLen)
      (h.contentLength - h.extraDataLen)).1 ≤ ((h.contentLength - h.extraDataLen : Nat) : Int) := by
    rw [readHeap_fst]
    exact recv_le _ _
  unfold bodyFixedTurn
  rcases hget : HTTPGetHeaderField P h.buf h.len (some strContentType) with e | f
  all_goals
    simp only []
    split_ifs
    all_goals first
      | exact ⟨rfl, rfl, rfl, rfl, Or.inl rfl, HeapKept.same w⟩
      | exact ⟨rfl, rfl, rfl, rfl, Or.inl rfl, k1⟩
      | exact ⟨rfl, rfl, rfl, rfl, Or.inl rfl, k2⟩
      | exact ⟨f1, f2, f3, f4, f5, k1.comp f6⟩
      | exact ⟨rfl, rfl, rfl, rfl, Or.inr (by
          show h.extraDataLen + _ ≤ h.contentLength
          omega), k2⟩

theorem bodyFixedLoop_fits (P : Platform) :
    ∀ (fuel : Nat) (err : OSStatus) (wf : Bool) (h : HTTPHeader) (w : World),
      (bodyFixedLoop P fuel err wf h w).2.2.1.extraDataPtr = h.extraDataPtr ∧
      (bodyFixedLoop P fuel err wf h w).2.2.1.buf = h.buf ∧
      (bodyFixedLoop P fuel err wf h w).2.2.1.dataEndedbyClose = h.dataEndedbyClose ∧
      (bodyFixedLoop P fuel err wf h w).2.2.1.contentLength = h.contentLength ∧
      ((bodyFixedLoop P fuel err wf h w).2.2.1.extraDataLen = h.extraDataLen ∨
        (bodyFixedLoop P fuel err wf h w).2.2.1.extraDataLen ≤ h.contentLength) ∧
      HeapKept w (bodyFixedLoop P fuel err wf h w).2.2.2 := by
  intro fuel
  induction fuel with
  | zero =>
    intro err wf h w
    exact ⟨rfl, rfl, rfl, rfl, Or.inl rfl, HeapKept.same w⟩
  | succ k ih =>
    intro err wf h w
    have ht := bodyFixedTurn_fits P err wf h w
    unfold bodyFixedLoop
    split_ifs with c1
    · rcases hturn : bodyFixedTurn P err wf h w with ⟨go, e1, wf1, h1, w1⟩
      rw [hturn] at ht
      simp only [] at ht
      obtain ⟨t1, t2, t3, t4, t5, t6⟩ := ht
      cases go with
      | false => exact ⟨t1, t2, t3, t4, t5, t6⟩
      | true =>
        simp only []
        obtain ⟨i1, i2, i3, i4, i5, i6⟩ := ih e1 wf1 h1 w1
        refine ⟨i1.trans t1, i2.trans t2, i3.trans t3, i4.trans t4, ?_, t6.comp i6⟩
        rcases i5 with i5 | i5
        · rw [i5]
          exact t5
        · right
          rw [← t4]
          exact i5
    · exact ⟨rfl, rfl, rfl, rfl, Or.inl rfl, HeapKept.same w⟩

theorem bodyExit_fits (err : OSStatus) (wf : Bool) (h : HTTPHeader) (w : World) :
    (bodyExit err wf h w).2.1.extraDataPtr = h.extraDataPtr ∧
    (bodyExit err wf h w).2.1.buf = h.buf ∧
    (bodyExit err wf h w).2.1.dataEndedbyClose = h.dataEndedbyClose ∧
    (bodyExit err wf h w).2.1.contentLength = h.contentLength ∧
    (bodyExit err wf h w).2.1.extraDataLen = h.extraDataLen ∧
    HeapKept w (bodyExit err wf h w).2.2 := by
  unfold bodyExit
  simp only []
  split_ifs
  · exact ⟨rfl, rfl, rfl, rfl, rfl, free_kept _ _⟩
  · exact ⟨rfl, rfl, rfl, rfl, rfl, HeapKept.same w⟩
  · exact ⟨rfl, rfl, rfl, rfl, rfl, free_kept _ _⟩
  · exact ⟨rfl, rfl, rfl, rfl, rfl, HeapKept.same w⟩

/-- The step that keeps `BodyFits`: the heap is kept, the pointer, the header buffer and the
mode are the same, and either the body ends at the close and `extraDataLen` is the same, or the
body is of fixed length, `contentLength` is the same and `extraDataLen` is the same or at
most `contentLength`. -/
theorem BodyFits.next (h h2 : HTTPHeader) (w w2 : World) (hfit : BodyFits h w)
    (hk : HeapKept w w2) (hp : h2.extraDataPtr = h.extraDataPtr) (hb : h2.buf = h.buf)
    (hd : h2.dataEndedbyClose = h.dataEndedbyClose)
    (hcase : (h.dataEndedbyClose = true ∧ h2.extraDataLen = h.extraDataLen) ∨
      (h.dataEndedbyClose = false ∧ h2.contentLength = h.contentLength ∧
        (h2.extraDataLen = h.extraDataLen ∨ h2.extraDataLen ≤ h.contentLength))) :
    BodyFits h2 w2 := by
  intro id hid
  rw [hp] at hid
  obtain ⟨hlt, hbody⟩ := hfit id hid
  refine ⟨lt_of_lt_of_le hlt hk.1, fun body2 hb2 => ?_⟩
  obtain ⟨body, hb1, hl⟩ := hk.2 id body2 hlt hb2
  obtain ⟨a1, a2, a3⟩ := hbody body hb1
  rw [hd, hb, ← hl]
  rcases hcase with ⟨c1, c2⟩ | ⟨c1, c2, c3⟩
  · rw [c2]
    refine ⟨a1, fun hf => ?_, Or.inl ?_⟩
    · rw [c1] at hf
      exact absurd hf (by simp)
    · rcases a3 with a3 | ⟨a3, _⟩
      · exact a3
      · rw [c1] at a3
        exact absurd a3 (by simp)
  · rw [c2]
    have a2' := a2 c1
    rcases c3 with c3 | c3
    · rw [c3]
      exact ⟨a1, a2, a3⟩
    · exact ⟨le_trans c3 a2', a2, Or.inr ⟨c1, c3⟩⟩

/-- `SocketReadHTTPBody` keeps the body buffer of a record that is not chunked large enough. -/
theorem SocketReadHTTPBody_bodyFits (P : Platform) (h : HTTPHeader) (w : World)
    (hmode : h.chunkedData = false) (hfit : BodyFits h w) :
    BodyFits (SocketReadHTTPBody P h w).2.1 (SocketReadHTTPBody P h w).2.2 := by
  unfold SocketReadHTTPBody
  rw [hmode]
  simp only [Bool.false_eq_true, if_false]
  by_cases hcl : h.dataEndedbyClose = true
  · simp only [if_pos hcl]
    obtain ⟨c1, c2, c3, c4, c5⟩ := bodyClose_fits h w
    obtain ⟨e1, e2, e3, _, e5, e6⟩ := bodyExit_fits (bodyClose h w).1 false
      (bodyClose h w).2.1 (bodyClose h w).2.2
    exact BodyFits.next h _ w _ hfit (c5.comp e6) (e1.trans c1) (e2.trans c2) (e3.trans c3)
      (Or.inl ⟨hcl, e5.trans c4⟩)
  · simp only [if_neg hcl]
    have hcf : h.dataEndedbyClose = false := by
      cases hx : h.dataEndedbyClose
      · rfl
      · exact absurd hx hcl
    obtain ⟨c1, c2, c3, c4, c5, c6⟩ :=
      bodyFixedLoop_fits P (w.selects.length + 1) kNotReadableErr false h w
    obtain ⟨e1, e2, e3, e4, e5, e6⟩ := bodyExit_fits
      (bodyFixedLoop P (w.selects.length + 1) kNotReadableErr false h w).1
      (bodyFixedLoop P (w.selects.length + 1) kNotReadableErr false h w).2.1
      (bodyFixedLoop P (w.selects.length + 1) kNotReadableErr false h w).2.2.1
      (bodyFixedLoop P (w.selects.length + 1) kNotReadableErr false h w).2.2.2
    refine BodyFits.next h _ w _ hfit (c6.comp e6) (e1.trans c1) (e2.trans c2) (e3.trans c3)
      (Or.inr ⟨hcf, e4.trans c4, ?_⟩)
    rw [e5]
    exact c5

/-- What `BodyFits` gives for `HTTPHeaderClear`: the body buffer holds `extraDataLen` bytes
and the bytes after the body fit the header buffer. -/
theorem BodyFits.room (h : HTTPHeader) (w : World) (hfit : BodyFits h w) (id : Nat)
    (body : List Nat) (hptr : h.extraDataPtr = HeapPtr.blk id 0)
    (hblk : w.block id = some body) :
    h.extraDataLen ≤ body.length ∧ h.extraDataLen - h.contentLength ≤ h.buf.length := by
  obtain ⟨a1, _, a3⟩ := (hfit id hptr).2 body hblk
  refine ⟨a1, ?_⟩
  rcases a3 with a3 | ⟨_, a3⟩ <;> omega

theorem writeBuf_buf_length (h : HTTPHeader) (w : World) (off : Nat) (bs : List Nat) :
    (writeBuf h w off bs).1.buf.length = h.buf.length := by
  unfold writeBuf
  split_ifs with c
  · exact length_writeAt h.buf bs off c
  · rfl

theorem readIntoHeader_buf_length (h : HTTPHeader) (w : World) (dst count : Nat) :
    (readIntoHeader h w dst count).2.1.buf.length = h.buf.length := by
  unfold readIntoHeader
  simp only []
  split_ifs
  · exact writeBuf_buf_length _ _ _ _
  · rfl

theorem readHeaderLoop_buf_length (P : Platform) :
    ∀ (fuel : Nat) (h : HTTPHeader) (w : World) (dst : Nat),
      (readHeaderLoop P fuel h w dst).2.1.buf.length = h.buf.length := by
  intro fuel
  induction fuel with
  | zero =>
    intro h w dst
    rfl
  | succ k ih =>
    intro h w dst
    have hr := readIntoHeader_buf_length h w dst (sizeSub P P.bufSize dst)
    unfold readHeaderLoop
    simp only []
    rcases hread : readIntoHeader h w dst (sizeSub P P.bufSize dst) with ⟨n, h1, w1⟩
    rw [hread] at hr
    simp only [] at hr ⊢
    split_ifs
    · rfl
    · rw [ih]
      exact hr
    · exact hr

theorem headerParseFields_buf (P : Platform) (h : HTTPHeader) (ptr : Nat) :
    (headerParseFields P h ptr).2.buf = h.buf := by
  by_cases hp : ptr < h.len
  · exact (headerParseFields_ok P h ptr hp).2.1.1
  · rw [headerParseFields_malformed P h ptr hp]

theorem headerParseRequest_buf (P : Platform) (h : HTTPHeader) (ptr : Nat) :
    (headerParseRequest P h ptr).2.buf = h.buf := by
  unfold headerParseRequest
  simp only []
  split_ifs <;> first | rfl | (rw [headerParseFields_buf])

theorem headerParseReason_buf (P : Platform) (h : HTTPHeader) (ptr : Nat) :
    (headerParseReason P h ptr).2.buf = h.buf := by
  unfold headerParseReason
  simp only []
  split_ifs <;> first | rfl | (rw [headerParseFields_buf])

theorem headerParseResponse_buf (P : Platform) (h : HTTPHeader) (ptr : Nat) :
    (headerParseResponse P h ptr).2.buf = h.buf := by
  unfold headerParseResponse
  simp only []
  split_ifs <;> first | rfl | (rw [headerParseReason_buf])

theorem HTTPHeaderParse_buf (P : Platform) (h : HTTPHeader) :
    (HTTPHeaderParse P h).2.buf = h.buf := by
  unfold HTTPHeaderParse
  simp only []
  split_ifs <;>
    first | rfl | (rw [headerParseRequest_buf]; rfl) | (rw [headerParseResponse_buf]; rfl)

/-- A write leaves a block of `n` bytes a block of `n` bytes. -/
theorem store_sized_block (w : World) (p : HeapPtr) (bs : List Nat) (id n : Nat) (b : List Nat)
    (hb : w.block id = some b) (hn : b.length = n) :
    id < (w.store p bs).heap.length ∧
    ∀ body, (w.store p bs).block id = some body → body.length = n := by
  obtain ⟨b2, h1, h2⟩ := store_block_length w p bs id b hb
  refine ⟨block_lt _ id b2 h1, fun body hbody => ?_⟩
  rw [h1] at hbody
  rw [← Option.some.inj hbody, h2, hn]

/-- The body buffer that the end of `SocketReadHTTPHeader` allocates for a message that is not
chunked is large enough: it has `max( contentLength, extraDataLen )` bytes for a body of fixed
length and 1500 bytes for a body that ends at the close, where `extraDataLen` is at most the
capacity of the header buffer. -/
theorem headerStoreBody_bodyFits (h : HTTPHeader) (w : World) (e : Nat)
    (hnull : h.extraDataPtr = HeapPtr.null) (hch : h.chunkedData = false)
    (hedl : h.extraDataLen ≤ h.buf.length) (hcap : h.buf.length ≤ 1500)
    (hok : (headerStoreBody h w e).1 = kNoErr) :
    BodyFits (headerStoreBody h w e).2.1 (headerStoreBody h w e).2.2 := by
  unfold headerStoreBody at hok ⊢
  rw [if_neg (by rw [hch]; simp)] at hok ⊢
  by_cases hcl : h.contentLength ≠ 0
  · rw [if_pos hcl] at hok ⊢
    simp only [] at hok ⊢
    generalize hn : (if h.contentLength ≥ h.extraDataLen then h.contentLength
      else h.extraDataLen) = n at hok ⊢
    have hge : h.contentLength ≤ n ∧ h.extraDataLen ≤ n := by
      rw [← hn]
      split_ifs <;> omega
    have cb := calloc_block w n
    rcases hc : w.calloc n with ⟨p, w1⟩
    rw [hc] at cb hok
    simp only [] at cb hok ⊢
    split_ifs at hok ⊢ with hp
    obtain ⟨c1, c2⟩ := cb hp
    intro id hid
    have hid2 : p = HeapPtr.blk id 0 := hid
    rw [c1] at hid2
    have hidw : w.heap.length = id := by
      injection hid2
    rw [hidw] at c2
    have hb : (readBuf { h with extraDataPtr := p } w1 e n).2.block id =
        some (List.replicate n 0) := by
      rw [readBuf_block]
      exact c2
    obtain ⟨s1, s2⟩ := store_sized_block _ p (readBuf { h with extraDataPtr := p } w1 e n).1
      id n _ hb (List.length_replicate _ _)
    refine ⟨s1, fun body hbody => ?_⟩
    have hlen := s2 body hbody
    refine ⟨?_, fun _ => ?_, Or.inl hedl⟩
    · show h.extraDataLen ≤ body.length
      omega
    · show h.contentLength ≤ body.length
      omega
  · rw [if_neg hcl] at hok ⊢
    by_cases hx : h.extraDataLen ≠ 0
    · rw [if_pos hx] at hok ⊢
      simp only [] at hok ⊢
      have cb := calloc_block w 1500
      rcases hc : w.calloc 1500 with ⟨p, w1⟩
      rw [hc] at cb hok
      simp only [] at cb hok ⊢
      split_ifs at hok ⊢ with hp
      obtain ⟨c1, c2⟩ := cb hp
      intro id hid
      have hid2 : p = HeapPtr.blk id 0 := hid
      rw [c1] at hid2
      have hidw : w.heap.length = id := by
        injection hid2
      rw [hidw] at c2
      have hb : (readBuf { h with dataEndedbyClose := true, extraDataPtr := p } w1 e
          h.extraDataLen).2.block id = some (List.replicate 1500 0) := by
        rw [readBuf_block]
        exact c2
      obtain ⟨s1, s2⟩ := store_sized_block _ p
        (readBuf { h with dataEndedbyClose := true, extraDataPtr := p } w1 e h.extraDataLen).1
        id 1500 _ hb (List.length_replicate _ _)
      refine ⟨s1, fun body hbody => ?_⟩
      have hlen := s2 body hbody
      refine ⟨?_, fun hf => ?_, Or.inl hedl⟩
      · show h.extraDataLen ≤ body.length
        omega
      · exact absurd hf (by simp)
    · rw [if_neg hx]
      intro id hid
      have hid2 : h.extraDataPtr = HeapPtr.blk id 0 := hid
      rw [hnull] at hid2
      cases hid2

/-- After a call of `SocketReadHTTPHeader` that returns `kNoErr` for a message that is not
chunked, the body buffer is large enough, when the header buffer has its capacity, `len` was at
most the capacity, and the capacity is at most the 1500 bytes of the buffer for a body that
ends at the close. -/
theorem SocketReadHTTPHeader_bodyFits (P : Platform) (h : HTTPHeader) (w : World)
    (hle : h.len ≤ P.bufSize) (hbuf : h.buf.length = P.bufSize) (hcap : P.bufSize ≤ 1500)
    (hok : (SocketReadHTTPHeader P h w).1 = kNoErr)
    (hmode : (SocketReadHTTPHeader P h w).2.1.chunkedData = false) :
    BodyFits (SocketReadHTTPHeader P h w).2.1 (SocketReadHTTPHeader P h w).2.2 := by
  obtain ⟨new, _, _, e3, e4⟩ := readHeaderLoop_reads P (w.readFuel + 1) h w hle
  have hsome := readHeaderLoop_some P (w.readFuel + 1) h w h.len
  have hbl := readHeaderLoop_buf_length P (w.readFuel + 1) h w h.len
  unfold SocketReadHTTPHeader at hok hmode ⊢
  rcases hl : readHeaderLoop P (w.readFuel + 1) h w h.len with ⟨o, h1, w1, dst⟩
  rw [hl] at e3 e4 hbl hok hmode
  simp only [] at e3 e4 hbl hok hmode ⊢
  cases o with
  | none =>
    have hok2 : kConnectionErr = kNoErr := hok
    cases hok2
  | some e =>
    have hfe := hsome e h1 w1 dst hl
    have hee : e ≤ h1.len := by
      have := findHeader_le h1
      rw [hfe] at this
      exact this
    have hpb := HTTPHeaderParse_buf P { h1 with len := e }
    simp only [] at hok hmode ⊢
    by_cases herr : (HTTPHeaderParse P { h1 with len := e }).1 ≠ kNoErr
    · rw [if_pos herr] at hok
      exact absurd hok herr
    · rw [if_neg herr] at hok hmode ⊢
      have hfb := headerFreeBody_fst
        { (HTTPHeaderParse P { h1 with len := e }).2 with extraDataLen := sizeSub P dst e } w1
      by_cases hota : isOTAType P (headerFreeBody
          { (HTTPHeaderParse P { h1 with len := e }).2 with
            extraDataLen := sizeSub P dst e } w1).1 = true
      · rw [if_pos hota] at hok hmode ⊢
        rw [headerOTA_record]
        intro id hid
        rw [hfb] at hid
        cases hid
      · rw [if_neg hota] at hok hmode ⊢
        rw [headerStoreBody_chunkedData] at hmode
        refine headerStoreBody_bodyFits _ _ e ?_ hmode ?_ ?_ hok
        · rw [hfb]
        · rw [hfb]
          show sizeSub P dst e ≤ (HTTPHeaderParse P { h1 with len := e }).2.buf.length
          rw [hpb]
          show sizeSub P dst e ≤ h1.buf.length
          rw [hbl, hbuf, sizeSub_of_le P _ _ (by omega)]
          omega
        · rw [hfb]
          show (HTTPHeaderParse P { h1 with len := e }).2.buf.length ≤ 1500
          rw [hpb]
          show h1.buf.length ≤ 1500
          rw [hbl, hbuf]
          exact hcap

theorem bodyClose_chunkedData (h : HTTPHeader) (w : World) :
    (bodyClose h w).2.1.chunkedData = h.chunkedData := by
  unfold bodyClose
  simp only []
  split_ifs <;> rfl

theorem bodyFixedFlash_chunkedData (P : Platform) (h : HTTPHeader) (w : World) :
    (bodyFixedFlash P h w).2.2.1.chunkedData = h.chunkedData := by
  unfold bodyFixedFlash
  simp only []
  split_ifs <;> rfl

theorem bodyFixedTurn_chunkedData (P : Platform) (err : OSStatus) (wf : Bool) (h : HTTPHeader)
    (w : World) : (bodyFixedTurn P err wf h w).2.2.2.1.chunkedData = h.chunkedData := by
  have hfl := bodyFixedFlash_chunkedData P h w.select.2
  unfold bodyFixedTurn
  rcases hget : HTTPGetHeaderField P h.buf h.len (some strContentType) with e | f
  all_goals
    simp only []
    split_ifs
    all_goals first
      | rfl
      | exact hfl

theorem bodyFixedLoop_chunkedData (P : Platform) :
    ∀ (fuel : Nat) (err : OSStatus) (wf : Bool) (h : HTTPHeader) (w : World),
      (bodyFixedLoop P fuel err wf h w).2.2.1.chunkedData = h.chunkedData := by
  intro fuel
  induction fuel with
  | zero =>
    intro err wf h w
    rfl
  | succ k ih =>
    intro err wf h w
    have ht := bodyFixedTurn_chunkedData P err wf h w
    unfold bodyFixedLoop
    split_ifs with c1
    · rcases hturn : bodyFixedTurn P err wf h w with ⟨go, e1, wf1, h1, w1⟩
      rw [hturn] at ht
      simp only [] at ht
      cases go with
      | false => exact ht
      | true =>
        simp only []
        rw [ih]
        exact ht
    · rfl

theorem bodyExit_chunkedData (err : OSStatus) (wf : Bool) (h : HTTPHeader) (w : World) :
    (bodyExit err wf h w).2.1.chunkedData = h.chunkedData := by
  unfold bodyExit
  simp only []
  split_ifs <;> rfl

/-- `SocketReadHTTPBody` leaves a record that is not chunked not chunked. -/
theorem SocketReadHTTPBody_unchunked (P : Platform) (h : HTTPHeader) (w : World)
    (hmode : h.chunkedData = false) : (SocketReadHTTPBody P h w).2.1.chunkedData = false := by
  unfold SocketReadHTTPBody
  rw [hmode]
  simp only [Bool.false_eq_true, if_false]
  by_cases hcl : h.dataEndedbyClose = true
  · simp only [if_pos hcl]
    rw [bodyExit_chunkedData, bodyClose_chunkedData]
    exact hmode
  · simp only [if_neg hcl]
    rw [bodyExit_chunkedData, bodyFixedLoop_chunkedData]
    exact hmode

theorem bodyCalls_bodyFits (P : Platform) :
    ∀ (n : Nat) (h : HTTPHeader) (w : World), h.chunkedData = false → BodyFits h w →
      (bodyCalls P n h w).1.chunkedData = false ∧
      BodyFits (bodyCalls P n h w).1 (bodyCalls P n h w).2 := by
  intro n
  induction n with
  | zero =>
    intro h w hmode hfit
    exact ⟨hmode, hfit⟩
  | succ k ih =>
    intro h w hmode hfit
    unfold bodyCalls
    exact ih _ _ (SocketReadHTTPBody_unchunked P h w hmode)
      (SocketReadHTTPBody_bodyFits P h w hmode hfit)

/-- The records that the library produces for a message that is not chunked meet the two
conditions under which `HTTPHeaderClear` keeps the bytes after a body.  After a call of
`SocketReadHTTPHeader` that returns `kNoErr` and any number of calls of `SocketReadHTTPBody`,
whatever the byte source and the allocator do: when `extraDataPtr` is the first byte of a live
block, the block holds at least `extraDataLen` bytes and `extraDataLen - contentLength` is at
most the capacity of the header buffer.  The header buffer has its capacity, `len` was at most
the capacity before the first call, and the capacity is at most 1500. -/
theorem produced_leftover_fits (P : Platform) (h : HTTPHeader) (w : World) (n id : Nat)
    (body : List Nat) (hle : h.len ≤ P.bufSize) (hbuf : h.buf.length = P.bufSize)
    (hcap : P.bufSize ≤ 1500) (hok : (SocketReadHTTPHeader P h w).1 = kNoErr)
    (hmode : (SocketReadHTTPHeader P h w).2.1.chunkedData = false)
    (hptr : (bodyCalls P n (SocketReadHTTPHeader P h w).2.1
      (SocketReadHTTPHeader P h w).2.2).1.extraDataPtr = HeapPtr.blk id 0)
    (hblk : (bodyCalls P n (SocketReadHTTPHeader P h w).2.1
      (SocketReadHTTPHeader P h w).2.2).2.block id = some body) :
    (bodyCalls P n (SocketReadHTTPHeader P h w).2.1
      (SocketReadHTTPHeader P h w).2.2).1.chunkedData = false ∧
    (bodyCalls P n (SocketReadHTTPHeader P h w).2.1
      (SocketReadHTTPHeader P h w).2.2).1.extraDataLen ≤ body.length ∧
    (bodyCalls P n (SocketReadHTTPHeader P h w).2.1
      (SocketReadHTTPHeader P h w).2.2).1.extraDataLen -
      (bodyCalls P n (SocketReadHTTPHeader P h w).2.1
        (SocketReadHTTPHeader P h w).2.2).1.contentLength ≤
      (bodyCalls P n (SocketReadHTTPHeader P h w).2.1
        (SocketReadHTTPHeader P h w).2.2).1.buf.length := by
  obtain ⟨a, b⟩ := bodyCalls_bodyFits P n _ _ hmode
    (SocketReadHTTPHeader_bodyFits P h w hle hbuf hcap hok hmode)
  exact ⟨a, BodyFits.room _ _ b id body hptr hblk⟩

theorem produced_leftover_fits_witness :
    (bodyCalls samplePlatform 1 samplePipelinedRun1.2.1 samplePipelinedRun1.2.2).1.extraDataLen
      = 8 ∧
    (bodyCalls samplePlatform 1 samplePipelinedRun1.2.1 samplePipelinedRun1.2.2).1.contentLength
      = 5 ∧
    (8 : Nat) ≤ [97, 98, 99, 100, 101, 71, 69, 84].length :=
  ⟨by decide, by decide,
   le_of_eq_of_le (by decide)
     (produced_leftover_fits samplePlatform (HTTPHeaderCreate samplePlatform)
      (sampleWorld [ReadEvent.data samplePipelinedMessage] []) 1 0
      [97, 98, 99, 100, 101, 71, 69, 84] (by decide) (by decide) (by decide) (by decide)
      (by decide) (by decide) (by decide)).2.1⟩

/-! ## The bytes after a fixed-length body on concrete records -/

/-- The bytes after a body in a run of the three operations: the message
`"POST / HTTP/1.1\r\nContent-Length: 5\r\n\r\nabcde"` arrives together with the first bytes
`"GET"` of the next message.  `SocketReadHTTPHeader` puts the 8 bytes after the header into the
body buffer, `SocketReadHTTPBody` has nothing to read, and `HTTPHeaderClear` sets `len` to 3 and
puts `"GET"` at the start of the header buffer. -/
theorem pipelined_leftover_example :
    samplePipelinedRun1.1 = kNoErr ∧ samplePipelinedRun1.2.1.contentLength = 5 ∧
    samplePipelinedRun1.2.1.extraDataLen = 8 ∧
    samplePipelinedRun1.2.2.block 0 = some [97, 98, 99, 100, 101, 71, 69, 84] ∧
    samplePipelinedRun2.1 = kNoErr ∧ samplePipelinedRun2.2.1.extraDataLen = 8 ∧
    samplePipelinedRun2.2.2.readLog = samplePipelinedRun1.2.2.readLog ∧
    samplePipelinedRun3.1.len = 3 ∧ samplePipelinedRun3.1.buf.take 3 = [71, 69, 84] ∧
    samplePipelinedRun3.2.fault = false := by
  decide

/-- C16 does not hold for every record.  For the record `sampleOversized`, not chunked, whose
body buffer of 600 bytes is allocated, `contentLength` is 5 and `extraDataLen` is 600:
`HTTPHeaderClear` sets `len` to 595, more than the 512 bytes of the header buffer, its copy
of 595 bytes leaves the header buffer, and the first 595 bytes of the header buffer are not
the bytes 5 to 599 of the body buffer.  For the record `sampleShortBody`, `contentLength` is 5
and `extraDataLen` is 8, but the body buffer holds 6 bytes, so that only one of the bytes 5
to 7 exists: `HTTPHeaderClear` sets `len` to 3 and its copy reads outside the body buffer. -/
theorem fixed_leftover_outside_buffers :
    sampleOversized.chunkedData = false ∧ sampleOversized.extraDataPtr = HeapPtr.blk 0 0 ∧
    sampleOversizedWorld.block 0 = some ([97, 98, 99, 100, 101] ++ List.replicate 595 71) ∧
    sampleOversized.contentLength = 5 ∧ sampleOversized.extraDataLen = 600 ∧
    sampleOversized.buf.length = 512 ∧ sampleOversizedWorld.fault = false ∧
    (HTTPHeaderClear samplePlatform sampleOversized sampleOversizedWorld).1.len = 595 ∧
    (HTTPHeaderClear samplePlatform sampleOversized sampleOversizedWorld).1.buf.length = 512 ∧
    (HTTPHeaderClear samplePlatform sampleOversized sampleOversizedWorld).1.buf.take 595 ≠
      bytesAt ([97, 98, 99, 100, 101] ++ List.replicate 595 71) 5 595 ∧
    (HTTPHeaderClear samplePlatform sampleOversized sampleOversizedWorld).2.fault = true ∧
    sampleShortBody.chunkedData = false ∧ sampleShortBody.extraDataPtr = HeapPtr.blk 0 0 ∧
    sampleShortBodyWorld.block 0 = some [97, 98, 99, 100, 101, 71] ∧
    sampleShortBody.contentLength = 5 ∧ sampleShortBody.extraDataLen = 8 ∧
    sampleShortBodyWorld.fault = false ∧
    (HTTPHeaderClear samplePlatform sampleShortBody sampleShortBodyWorld).1.len = 3 ∧
    (bytesAt [97, 98, 99, 100, 101, 71] 5 3).length = 1 ∧
    (HTTPHeaderClear samplePlatform sampleShortBody sampleShortBodyWorld).1.buf.take 3 ≠
      bytesAt [97, 98, 99, 100, 101, 71] 5 3 ∧
    (HTTPHeaderClear samplePlatform sampleShortBody sampleShortBodyWorld).2.fault = true := by
  decide

end HTTPUtils
